import Mathlib

/-!
zswap (mm/zswap.c): compressed page cache in front of swap

A shallow embedding of `src/mm/zswap.c` and proofs about it.

Build variant.  The source carries two Kconfig switches,
`CONFIG_ZSWAP_SAME_PAGE_SHARING` and `CONFIG_ZSWAP_ENABLE_WRITEBACK`.  With the
first one set, `zswap_free_entry` reads `entry->length` and `entry->handle`,
which that variant of `struct zswap_entry` does not have, and `zswap_entry_put`
names a `tree` that is not in scope; with the second one set,
`zswap_writeback_entry` names `tree->rbroot` and `zswap_rb_search`, which do not
exist.  The file therefore only builds with both switches off, and that is the
variant embedded here: the `#ifndef`/`#else` branches of the source; in it
`zswap_writeback_entry` and `zswap_shrink` are `return -EINVAL`.  The search of
the content-sharing tree and the handling of its handles, which exist only
under the first switch, are embedded apart from it, as they are written, in the
section on content sharing.

Modelling conventions.
* Pointers are natural-number ids into tables (association lists); a table
  lookup that fails where the C code dereferences the pointer is a kernel oops
  and the operation returns `none`, as does a `BUG_ON` that fires.
* A page is the array of `PAGE_SIZE / sizeof(unsigned long)` machine words that
  `zswap_is_page_same_filled`, `page_zero_filled` and `zswap_fill_page` see.
  `PAGE_SIZE` and `totalram_pages` come from kernel headers outside the
  repository and are parameters; `sizeof(unsigned long)` is 8 (arm64).
* A compressed buffer is the list of its bytes, one cell per byte, and lengths
  (`dlen`, `entry->length`) count bytes.  An allocation that `copy_page` has
  filled, which is the case exactly when `entry->length == PAGE_SIZE`, is kept
  as the page it holds.
* `entry->refcount` is an `int`; `++` and `--` on it wrap between `INT_MAX` and
  `INT_MIN` (the kernel is built with `-fno-strict-overflow`).
* The compressor, the zpool allocator's answers and the slab allocator's
  answers are inputs: the compressor is a pair of functions in `Env`, and the
  answers a single call receives from the allocators are an `Oracle`.
* Every operation runs atomically; a reader that holds a reference across other
  operations is expressed with `zswap_entry_find_get` / `zswap_entry_put`.
* The btree library (lib/btree.c) is not among the sources.  A tree is the finite
  map from offset to entry that it implements: `btree_lookup`, `btree_remove`
  and `btree_insert` are lookup, removal and insertion of one key, and
  `btree_visitor` visits every element.
* `State.log` is ghost instrumentation: the calls made to collaborators.
* The parameter callbacks and `init_zswap` work on a `Module`: the hot-path
  state and the parameter variables.  The registries of allocators and
  compressors, `strstrip` and `param_set_charp` belong to the rest of the
  kernel and are inputs.  The global `zswap_pool`, which only `zswap_compact`
  reads, is left out.
-/

namespace Zswap

/-! ## Tables: pointer-indexed memory -/

/-- Association list keyed by ids (addresses, offsets, swap types). -/
abbrev Table (α : Type) := List (Nat × α)

/-- First binding of key `k`. -/
def tfind {α : Type} : Table α → Nat → Option α
  | [], _ => none
  | (k', v) :: rest, k => if k' = k then some v else tfind rest k

/-- Remove every binding of key `k`. -/
def terase {α : Type} : Table α → Nat → Table α
  | [], _ => []
  | (k', v) :: rest, k => if k' = k then terase rest k else (k', v) :: terase rest k

/-- Bind `k` to `v`: in place when `k` is bound, at the end otherwise. -/
def tput {α : Type} : Table α → Nat → α → Table α
  | [], k, v => [(k, v)]
  | (k', v') :: rest, k, v => if k' = k then (k, v) :: rest else (k', v') :: tput rest k v

/-- Largest key of a table (0 when empty). -/
def tmax {α : Type} : Table α → Nat
  | [] => 0
  | (k, _) :: rest => max k (tmax rest)

/-- An id bound nowhere in the table: what an allocator hands out. -/
def tfresh {α : Type} (t : Table α) : Nat := tmax t + 1

/-! ## Machine integers and errno values -/

/-- Increment of a `u64` statistic (`x++`). -/
def u64_inc (x : Nat) : Nat := (x + 1) % 2 ^ 64

/-- Value of an `int` after two's complement wrap-around. -/
def wrap_s32 (x : Int) : Int := (x + 2 ^ 31) % 2 ^ 32 - 2 ^ 31

/-- The kernel's `atomic_inc` on an `atomic_t`. -/
def atomic_inc (x : Int) : Int := wrap_s32 (x + 1)

/-- The kernel's `atomic_dec` on an `atomic_t`. -/
def atomic_dec (x : Int) : Int := wrap_s32 (x - 1)

def ENOENT : Int := 2
def ENOMEM : Int := 12
def EEXIST : Int := 17
def ENODEV : Int := 19
def EINVAL : Int := 22
def ENOSPC : Int := 28

/-! ## Pages and the pure page helpers -/

/-- Contents of one page, as machine words. -/
abbrev Page := List Nat

/-- The C function `page_zero_filled`: 1 when every word of the page is 0. -/
def page_zero_filled (PAGE_SIZE : Nat) (page : Page) : Int :=
  if (List.range (PAGE_SIZE / 8)).all (fun pos => page.getD pos 0 == 0) then 1 else 0

/-- The C function `zswap_is_page_same_filled`: the return value and the content
of `*value` afterwards (`value` is its content before the call). -/
def zswap_is_page_same_filled (PAGE_SIZE : Nat) (page : Page) (value : Nat) : Int × Nat :=
  if (List.range' 1 (PAGE_SIZE / 8 - 1)).all (fun pos => page.getD pos 0 == page.getD 0 0)
  then (1, page.getD 0 0)
  else (0, value)

/-- The C function `zswap_fill_page`: `memset_l` of the first
`PAGE_SIZE / sizeof(unsigned long)` words of the page at `ptr`. -/
def zswap_fill_page (PAGE_SIZE : Nat) (ptr : Page) (value : Nat) : Page :=
  List.replicate (PAGE_SIZE / 8) value ++ ptr.drop (PAGE_SIZE / 8)

/-! ## Data structures -/

/-- The parts of a `struct page` that zswap reads: two page flags and the
contents. -/
structure struct_page where
  PageTransHuge : Bool
  PageError : Bool
  data : Page
deriving DecidableEq, Repr

/-- A `struct zpool`: the allocator type and the live allocations, handle to
contents.  The contents of an allocation are its bytes, one list cell per byte;
an allocation that `copy_page` filled is kept as the page it holds. -/
structure struct_zpool where
  type : String
  blobs : Table (List Nat)
deriving DecidableEq, Repr

/-- The C `struct zswap_pool`: allocator, compressor name, reference count. -/
structure zswap_pool where
  zpool : struct_zpool
  tfm_name : String
  kref : Int
deriving DecidableEq, Repr

/-- The C `struct zswap_entry` of the build without same-page sharing.  `handle`
is the union of `handle` and `value`; `pool` is `none` while the field has not
been written; `refcount` is an `int`, `length` counts bytes. -/
structure zswap_entry where
  offset : Nat
  refcount : Int
  length : Nat
  pool : Option Nat
  handle : Nat
deriving DecidableEq, Repr

/-- The `head` of a `struct zswap_tree`: the btree from offset to entry. -/
abbrev zswap_tree := Table Nat

/-- Calls to collaborators, recorded in the ghost log. -/
inductive Call where
  | zswap_shrink
  | kmem_cache_alloc
  | kmem_cache_free (entry : Nat)
  | crypto_comp_compress
  | crypto_comp_decompress
  | zpool_malloc (size : Nat)
  | zpool_free (pool handle : Nat)
  | btree_insert
deriving DecidableEq, Repr

/-- The global variables of zswap.c, the slab of live entries, and the log. -/
structure State where
  zswap_pool_total_size : Nat
  zswap_pool_pages : Nat
  zswap_stored_pages : Int
  zswap_same_filled_pages : Int
  zswap_pool_limit_hit : Nat
  zswap_written_back_pages : Nat
  zswap_reject_reclaim_fail : Nat
  zswap_reject_compress_poor : Nat
  zswap_reject_alloc_fail : Nat
  zswap_reject_kmemcache_fail : Nat
  zswap_duplicate_entry : Nat
  zswap_zero_pages : Int
  zswap_enabled : Bool
  zswap_max_pool_percent : Nat
  zswap_same_filled_pages_enabled : Bool
  zswap_trees : Table zswap_tree
  zswap_pools : Table zswap_pool
  entries : Table zswap_entry
  log : List Call
deriving DecidableEq, Repr

/-- What zswap.c takes from the rest of the kernel.  `crypto_comp_compress tfm
src` gives the return value, `dlen` (in bytes) and the bytes of the output
buffer `dst`, one list cell per byte; `crypto_comp_decompress tfm src slen dst`
takes the bytes `src` and their number `slen` and gives the return value, `dlen`
and the destination page afterwards. -/
structure Env where
  PAGE_SIZE : Nat
  totalram_pages : Nat
  crypto_comp_compress : String → Page → Int × Nat × List Nat
  crypto_comp_decompress : String → List Nat → Nat → Page → Int × Nat × Page
  zpool_get_total_size : struct_zpool → Nat

/-- The answers one store call receives from the allocators: whether
`kmem_cache_alloc` returns an object, the return value of `zpool_malloc`, and
whether `btree_insert` finds memory for its node. -/
structure Oracle where
  kmem_cache_alloc_ok : Bool
  zpool_malloc_ret : Int
  btree_insert_ok : Bool
deriving DecidableEq, Repr

/-! ## Accounting -/

/-- The C function `zswap_is_full`, in `unsigned long` / `u64` arithmetic. -/
def zswap_is_full (env : Env) (s : State) : Bool :=
  decide ((env.totalram_pages * s.zswap_max_pool_percent % 2 ^ 64) / 100 <
    ((s.zswap_pool_total_size + env.PAGE_SIZE - 1) % 2 ^ 64) / env.PAGE_SIZE)

/-- The C function `zswap_update_total_size` (`>> PAGE_SHIFT` is division by
`PAGE_SIZE`). -/
def zswap_update_total_size (env : Env) (s : State) : State :=
  let total := s.zswap_pools.foldl
    (fun acc p => (acc + env.zpool_get_total_size p.2.zpool % 2 ^ 64) % 2 ^ 64) 0
  { s with zswap_pool_total_size := total, zswap_pool_pages := total / env.PAGE_SIZE }

/-! ## Pools -/

/-- The C function `zswap_pool_current_get`: the first pool of `zswap_pools`
with its `kref` raised, unless there is none or its `kref` is 0. -/
def zswap_pool_current_get (s : State) : Option Nat × State :=
  match s.zswap_pools with
  | [] => (none, s)
  | (pid, pool) :: _ =>
    if pool.kref = 0 then (none, s)
    else (some pid, { s with zswap_pools := tput s.zswap_pools pid { pool with kref := pool.kref + 1 } })

/-- The C function `zswap_pool_put`: `kref_put` with `__zswap_pool_empty`, which
takes the pool off `zswap_pools` and destroys it. -/
def zswap_pool_put (s : State) (pool : Nat) : Option State :=
  (tfind s.zswap_pools pool).bind fun p =>
    if p.kref - 1 = 0 then some { s with zswap_pools := terase s.zswap_pools pool }
    else some { s with zswap_pools := tput s.zswap_pools pool { p with kref := p.kref - 1 } }

/-! ## Entries -/

/-- The C function `zswap_entry_cache_free`. -/
def zswap_entry_cache_free (s : State) (entry : Nat) : State :=
  { s with entries := terase s.entries entry, log := s.log ++ [Call.kmem_cache_free entry] }

/-- The C function `zswap_search`: outer `none` when the tree pointer is NULL. -/
def zswap_search (s : State) (type offset : Nat) : Option (Option Nat) :=
  (tfind s.zswap_trees type).bind fun tree => some (tfind tree offset)

/-- The C function `zswap_erase`: `btree_remove` of the key `entry->offset`. -/
def zswap_erase (s : State) (type entry : Nat) : Option State :=
  (tfind s.zswap_trees type).bind fun tree =>
  (tfind s.entries entry).bind fun e =>
    some { s with zswap_trees := tput s.zswap_trees type (terase tree e.offset) }

/-- The C function `zswap_free_entry`. -/
def zswap_free_entry (env : Env) (s : State) (entry : Nat) : Option State :=
  (tfind s.entries entry).bind fun e =>
    let freed : Option State :=
      if e.length = 0 then
        some { s with zswap_same_filled_pages := atomic_dec s.zswap_same_filled_pages }
      else
        e.pool.bind fun pid =>
        (tfind s.zswap_pools pid).bind fun p =>
          zswap_pool_put
            { s with
              zswap_pools := tput s.zswap_pools pid
                { p with zpool := { p.zpool with blobs := terase p.zpool.blobs e.handle } },
              log := s.log ++ [Call.zpool_free pid e.handle] }
            pid
    freed.bind fun s1 =>
      let s2 := zswap_entry_cache_free s1 entry
      some (zswap_update_total_size env
        { s2 with zswap_stored_pages := atomic_dec s2.zswap_stored_pages })

/-- `x++` on an `int`: one more, and `INT_MIN` after `INT_MAX`. -/
def int_inc (x : Int) : Int := if x = 2 ^ 31 - 1 then -2 ^ 31 else x + 1

/-- `--x` on an `int`: one less, and `INT_MAX` after `INT_MIN`. -/
def int_dec (x : Int) : Int := if x = -2 ^ 31 then 2 ^ 31 - 1 else x - 1

/-- The C function `zswap_entry_get`. -/
def zswap_entry_get (s : State) (entry : Nat) : Option State :=
  (tfind s.entries entry).bind fun e =>
    some { s with entries := tput s.entries entry { e with refcount := int_inc e.refcount } }

/-- The C function `zswap_entry_put`; `type` names the tree whose `head` is
passed. -/
def zswap_entry_put (env : Env) (s : State) (type entry : Nat) : Option State :=
  (tfind s.entries entry).bind fun e =>
    let refcount := int_dec e.refcount
    let s1 := { s with entries := tput s.entries entry { e with refcount := refcount } }
    if refcount < 0 then none
    else if refcount = 0 then
      (zswap_erase s1 type entry).bind fun s2 => zswap_free_entry env s2 entry
    else some s1

/-- The do-while loop of `zswap_insert_or_replace`; `none` also when the fuel
runs out. -/
def zswap_insert_or_replace_loop (env : Env) : Nat → State → Nat → Nat → Option State
  | 0, _, _, _ => none
  | fuel + 1, s, type, entry =>
    (tfind s.zswap_trees type).bind fun tree =>
    (tfind s.entries entry).bind fun e =>
      match tfind tree e.offset with
      | none => some s
      | some old =>
        (zswap_entry_put env
          { s with
            zswap_trees := tput s.zswap_trees type (terase tree e.offset),
            zswap_duplicate_entry := u64_inc s.zswap_duplicate_entry }
          type old).bind fun s1 =>
        zswap_insert_or_replace_loop env fuel s1 type entry

/-- The C function `zswap_insert_or_replace`.  The loop removes one binding per
round, so one round more than the tree has bindings is enough fuel. -/
def zswap_insert_or_replace (env : Env) (btree_insert_ok : Bool) (s : State)
    (type entry : Nat) : Option (Int × State) :=
  (tfind s.zswap_trees type).bind fun tree0 =>
  (zswap_insert_or_replace_loop env (tree0.length + 1) s type entry).bind fun s1 =>
  (tfind s1.zswap_trees type).bind fun tree =>
  (tfind s1.entries entry).bind fun e =>
    let s2 := { s1 with log := s1.log ++ [Call.btree_insert] }
    if btree_insert_ok then
      some (0, { s2 with zswap_trees := tput s2.zswap_trees type (tput tree e.offset entry) })
    else some (-ENOMEM, s2)

/-- The C function `zswap_entry_find_get`. -/
def zswap_entry_find_get (s : State) (type offset : Nat) : Option (Option Nat × State) :=
  (zswap_search s type offset).bind fun r =>
    match r with
    | none => some (none, s)
    | some entry => (zswap_entry_get s entry).bind fun s1 => some (some entry, s1)

/-- Repeated `zswap_entry_put` on one entry: `n` holders release it in turn. -/
def zswap_entry_put_n (env : Env) : Nat → State → Nat → Nat → Option State
  | 0, s, _, _ => some s
  | n + 1, s, type, entry =>
    (zswap_entry_put env s type entry).bind fun s1 => zswap_entry_put_n env n s1 type entry

/-! ## Reclaim -/

set_option linter.unusedVariables false in
/-- The C function `zswap_writeback_entry` of the build without writeback:
`return -EINVAL`, whatever the pool and the handle that the allocator wants to
evict. -/
def zswap_writeback_entry (s : State) (pool handle : Nat) : Int × State :=
  (-EINVAL, s)

/-- The C function `zswap_shrink` of the build without writeback. -/
def zswap_shrink (s : State) : Int × State :=
  (-EINVAL, { s with log := s.log ++ [Call.zswap_shrink] })

/-! ## frontswap hooks -/

/-- The tail of `zswap_frontswap_store` from the label `insert_entry`. -/
def zswap_frontswap_store_insert_entry (env : Env) (o : Oracle) (s : State)
    (type entry : Nat) : Option (Int × State) :=
  (zswap_insert_or_replace env o.btree_insert_ok s type entry).bind fun r =>
    if r.1 < 0 then
      some (r.1, zswap_entry_cache_free
        { r.2 with zswap_reject_alloc_fail := u64_inc r.2.zswap_reject_alloc_fail } entry)
    else
      some (0, zswap_update_total_size env
        { r.2 with zswap_stored_pages := atomic_inc r.2.zswap_stored_pages })

/-- The `dlen` of `zswap_frontswap_store` after `if (ret || dlen > PAGE_SIZE)
dlen = PAGE_SIZE`, for the compressor result `c` (return value, `dlen`, output
buffer). -/
def store_dlen (env : Env) (c : Int × Nat × List Nat) : Nat :=
  if c.1 ≠ 0 ∨ c.2.1 > env.PAGE_SIZE then env.PAGE_SIZE else c.2.1

/-- What `zswap_frontswap_store` writes to the allocation: `copy_page` of the
page when `dlen == PAGE_SIZE`, and otherwise `memcpy(buf, dst, dlen)`, the first
`dlen` bytes of the compressor's output buffer (one list cell per byte). -/
def store_buf (env : Env) (c : Int × Nat × List Nat) (data : Page) : List Nat :=
  if store_dlen env c = env.PAGE_SIZE then data else c.2.2.take (store_dlen env c)

/-- The part of `zswap_frontswap_store` from the comment `compress` after the
zero-page test to the label `insert_entry`, with the exits through `put_dstmem`.
`entry` is the new entry, `pid` the pool it references. -/
def zswap_frontswap_store_compress (env : Env) (o : Oracle) (s : State)
    (type offset : Nat) (page : struct_page) (entry pid : Nat) : Option (Int × State) :=
  (tfind s.zswap_pools pid).bind fun pool =>
  (tfind s.entries entry).bind fun e =>
    let c := env.crypto_comp_compress pool.tfm_name page.data
    let dlen := store_dlen env c
    let len := dlen
    let s1 := { s with log := s.log ++ [Call.crypto_comp_compress, Call.zpool_malloc len] }
    let ret := o.zpool_malloc_ret
    if ret = -ENOSPC then
      (zswap_pool_put
        { s1 with zswap_reject_compress_poor := u64_inc s1.zswap_reject_compress_poor } pid).bind
        fun s2 => some (ret, zswap_entry_cache_free s2 entry)
    else if ret ≠ 0 then
      (zswap_pool_put
        { s1 with zswap_reject_alloc_fail := u64_inc s1.zswap_reject_alloc_fail } pid).bind
        fun s2 => some (ret, zswap_entry_cache_free s2 entry)
    else
      let handle := tfresh pool.zpool.blobs
      let buf := store_buf env c page.data
      let s2 := { s1 with
        zswap_pools := tput s1.zswap_pools pid
          { pool with zpool := { pool.zpool with blobs := tput pool.zpool.blobs handle buf } },
        entries := tput s1.entries entry
          { e with offset := offset, handle := handle, length := dlen } }
      zswap_frontswap_store_insert_entry env o s2 type entry

/-- The part of `zswap_frontswap_store` from the comment `allocate entry` on. -/
def zswap_frontswap_store_entry (env : Env) (o : Oracle) (s : State)
    (type offset : Nat) (page : struct_page) : Option (Int × State) :=
  let s0 := { s with log := s.log ++ [Call.kmem_cache_alloc] }
  if !o.kmem_cache_alloc_ok then
    some (-ENOMEM,
      { s0 with zswap_reject_kmemcache_fail := u64_inc s0.zswap_reject_kmemcache_fail })
  else
    let entry := tfresh s0.entries
    let e : zswap_entry := { offset := 0, refcount := 1, length := 0, pool := none, handle := 0 }
    let s1 := { s0 with entries := tput s0.entries entry e }
    let same := zswap_is_page_same_filled env.PAGE_SIZE page.data 0
    if s1.zswap_same_filled_pages_enabled && same.1 ≠ 0 then
      zswap_frontswap_store_insert_entry env o
        { s1 with
          entries := tput s1.entries entry { e with offset := offset, length := 0, handle := same.2 },
          zswap_same_filled_pages := atomic_inc s1.zswap_same_filled_pages }
        type entry
    else
      match zswap_pool_current_get s1 with
      | (none, s2) => some (-EINVAL, zswap_entry_cache_free s2 entry)
      | (some pid, s2) =>
        let e1 := { e with pool := some pid }
        let s3 := { s2 with entries := tput s2.entries entry e1 }
        if page_zero_filled env.PAGE_SIZE page.data ≠ 0 then
          zswap_frontswap_store_insert_entry env o
            { s3 with
              zswap_zero_pages := atomic_inc s3.zswap_zero_pages,
              entries := tput s3.entries entry { e1 with offset := offset } }
            type entry
        else zswap_frontswap_store_compress env o s3 type offset page entry pid

/-- The C function `zswap_frontswap_store`: return value and state afterwards. -/
def zswap_frontswap_store (env : Env) (o : Oracle) (s : State)
    (type offset : Nat) (page : struct_page) : Option (Int × State) :=
  if page.PageTransHuge then some (-EINVAL, s)
  else if !s.zswap_enabled || (tfind s.zswap_trees type).isNone then some (-ENODEV, s)
  else if page.PageError then some (-ENOMEM, s)
  else if zswap_is_full env s then
    let s1 := { s with zswap_pool_limit_hit := u64_inc s.zswap_pool_limit_hit }
    let r := zswap_shrink s1
    if r.1 ≠ 0 then
      some (-ENOMEM,
        { r.2 with zswap_reject_reclaim_fail := u64_inc r.2.zswap_reject_reclaim_fail })
    else if zswap_is_full env r.2 then some (-ENOMEM, r.2)
    else zswap_frontswap_store_entry env o r.2 type offset page
  else zswap_frontswap_store_entry env o s type offset page

/-- The C function `zswap_frontswap_load`: return value, destination page and
state afterwards. -/
def zswap_frontswap_load (env : Env) (s : State) (type offset : Nat) (page : Page) :
    Option (Int × Page × State) :=
  (zswap_entry_find_get s type offset).bind fun r =>
    match r.1 with
    | none => some (-1, page, r.2)
    | some entry =>
      (tfind r.2.entries entry).bind fun e =>
        if e.length = 0 then
          (zswap_entry_put env r.2 type entry).bind fun s1 =>
            some (0, zswap_fill_page env.PAGE_SIZE page e.handle, s1)
        else
          e.pool.bind fun pid =>
          (tfind r.2.zswap_pools pid).bind fun pool =>
          (tfind pool.zpool.blobs e.handle).bind fun src =>
            if e.length = env.PAGE_SIZE then
              (zswap_entry_put env r.2 type entry).bind fun s1 => some (0, src, s1)
            else
              let d := env.crypto_comp_decompress pool.tfm_name src e.length page
              let s1 := { r.2 with log := r.2.log ++ [Call.crypto_comp_decompress] }
              if d.1 ≠ 0 then none
              else (zswap_entry_put env s1 type entry).bind fun s2 => some (0, d.2.2, s2)

/-- The C function `zswap_frontswap_invalidate_page`. -/
def zswap_frontswap_invalidate_page (env : Env) (s : State) (type offset : Nat) :
    Option State :=
  (zswap_search s type offset).bind fun r =>
    match r with
    | none => some s
    | some entry =>
      (zswap_erase s type entry).bind fun s1 => zswap_entry_put env s1 type entry

/-- Modelled from the spec: `btree_visitor` of lib/btree.c, which is not among
the sources.  Section 4.3 has `invalidate_area` remove and free every entry of
the address space, so the visitor calls `func` on every element of the tree;
here in the order of the table. -/
def btree_visitor (func : State → Nat → Option State) : zswap_tree → State → Option State
  | [], s => some s
  | (_, elem) :: rest, s => (func s elem).bind fun s1 => btree_visitor func rest s1

/-- The C function `do_free_entry`, the callback of the tree walk. -/
def do_free_entry (env : Env) (s : State) (elem : Nat) : Option State :=
  zswap_free_entry env s elem

/-- The C function `zswap_frontswap_invalidate_area`: nothing when
`zswap_trees[type]` is NULL; otherwise every element is freed, the tree is
destroyed and `zswap_trees[type]` is set to NULL. -/
def zswap_frontswap_invalidate_area (env : Env) (s : State) (type : Nat) : Option State :=
  match tfind s.zswap_trees type with
  | none => some s
  | some tree =>
    (btree_visitor (do_free_entry env) tree s).bind fun s1 =>
      some { s1 with zswap_trees := terase s1.zswap_trees type }

/-! ## Runs of operations -/

/-- The operations of zswap on its state: the four frontswap hooks, and the two
halves of a reader's critical section (`zswap_entry_find_get`, later
`zswap_entry_put` on the entry found). -/
inductive Op where
  | store (o : Oracle) (type offset : Nat) (page : struct_page)
  | load (type offset : Nat) (dst : Page)
  | invalidate_page (type offset : Nat)
  | invalidate_area (type : Nat)
  | find_get (type offset : Nat)
  | put (type entry : Nat)

/-- The state of zswap together with the references that readers hold: one pair
(swap type, entry) for every `zswap_entry_find_get` that found an entry and has
not been answered by its `zswap_entry_put` yet. -/
structure Config where
  state : State
  held : List (Nat × Nat)
deriving DecidableEq, Repr

/-- One operation.  A `put` is only possible for a reference that is held (the
pairs are balanced); `none` also when the operation hits a kernel oops or a
`BUG_ON`. -/
def step (env : Env) (c : Config) : Op → Option Config
  | Op.store o type offset page =>
    (zswap_frontswap_store env o c.state type offset page).bind fun r =>
      some { c with state := r.2 }
  | Op.load type offset dst =>
    (zswap_frontswap_load env c.state type offset dst).bind fun r =>
      some { c with state := r.2.2 }
  | Op.invalidate_page type offset =>
    (zswap_frontswap_invalidate_page env c.state type offset).bind fun s =>
      some { c with state := s }
  | Op.invalidate_area type =>
    (zswap_frontswap_invalidate_area env c.state type).bind fun s =>
      some { c with state := s }
  | Op.find_get type offset =>
    (zswap_entry_find_get c.state type offset).bind fun r =>
      match r.1 with
      | none => some { c with state := r.2 }
      | some entry => some { state := r.2, held := (type, entry) :: c.held }
  | Op.put type entry =>
    if (type, entry) ∈ c.held then
      (zswap_entry_put env c.state type entry).bind fun s =>
        some { state := s, held := c.held.erase (type, entry) }
    else none

/-- A run: the operations of the list one after the other. -/
def run (env : Env) : List Op → Config → Option Config
  | [], c => some c
  | op :: ops, c => (step env c op).bind fun c1 => run env ops c1

/-- The operations that reach zswap through frontswap: store, load,
invalidate_page and invalidate_area. -/
def frontswap_op : Op → Bool
  | Op.store _ _ _ _ => true
  | Op.load _ _ _ => true
  | Op.invalidate_page _ _ => true
  | Op.invalidate_area _ => true
  | Op.find_get _ _ => false
  | Op.put _ _ => false

/-- At no point of the run of `ops` from `c` do readers hold `n` references or
more: the references held number fewer than `n` before every operation of the
run and after the last. -/
def held_below (env : Env) (n : Nat) : List Op → Config → Bool
  | [], c => decide (c.held.length < n)
  | op :: ops, c =>
    decide (c.held.length < n) &&
      match step env c op with
      | none => true
      | some c1 => held_below env n ops c1

/-- The operations that work on single entries: all but invalidate_area, which
tears the whole address space down. -/
def entry_op : Op → Bool
  | Op.invalidate_area _ => false
  | _ => true

/-! ## Auxiliary definitions for the proofs -/

/-- State after `zswap_free_entry` of an entry that owns a blob in pool `pid`. -/
def pools_after_free (pools : Table zswap_pool) (pid : Nat) (p : zswap_pool) (handle : Nat) :
    Table zswap_pool :=
  if p.kref - 1 = 0 then terase pools pid
  else tput pools pid
    { p with zpool := { p.zpool with blobs := terase p.zpool.blobs handle }, kref := p.kref - 1 }

/-- The insertion that ends `zswap_insert_or_replace`, on the state the loop
leaves. -/
def btree_insert_result (btree_insert_ok : Bool) (s : State) (type offset entry : Nat)
    (tree : zswap_tree) : Int × State :=
  if btree_insert_ok then
    (0, { s with
      log := s.log ++ [Call.btree_insert],
      zswap_trees := tput s.zswap_trees type (tput tree offset entry) })
  else (-ENOMEM, { s with log := s.log ++ [Call.btree_insert] })

/-- The blob of entry `e`: the compressor name of its pool and the contents
that `zpool_map_handle` gives for `e.handle`; `none` when the pool or the
allocation does not exist. -/
def blob_of (s : State) (e : zswap_entry) : Option (String × List Nat) :=
  e.pool.bind fun pid =>
  (tfind s.zswap_pools pid).bind fun p =>
  (tfind p.zpool.blobs e.handle).bind fun src => some (p.tfm_name, src)

/-- The entry `e` of state `s` holds the page `data`: the branch of
`zswap_frontswap_load` that `e.length` selects reads `data` back. -/
def holds_page (env : Env) (s : State) (e : zswap_entry) (data : Page) : Prop :=
  if e.length = 0 then
    ∀ dst : Page, dst.length = env.PAGE_SIZE / 8 →
      zswap_fill_page env.PAGE_SIZE dst e.handle = data
  else
    ∃ tfm src, blob_of s e = some (tfm, src) ∧
      if e.length = env.PAGE_SIZE then src = data
      else ∀ dst : Page,
        (env.crypto_comp_decompress tfm src e.length dst).1 = 0 ∧
        (env.crypto_comp_decompress tfm src e.length dst).2.2 = data

/-- Offset `offset` of tree `type` is bound to the live entry `entry`, which has
the fields `e`, among them one reference (the tree's). -/
def bound_at (s : State) (type offset entry : Nat) (e : zswap_entry) : Prop :=
  (∃ tree, tfind s.zswap_trees type = some tree ∧ tfind tree offset = some entry) ∧
    tfind s.entries entry = some e ∧ e.offset = offset ∧ e.refcount = 1

/-- The compressor's decompress inverts its compress: whenever compressing a
page succeeds, decompressing the `dlen` bytes it produced succeeds and gives the
page back. -/
def decompress_inverts_compress (env : Env) : Prop :=
  ∀ (tfm : String) (p dst : Page), p.length = env.PAGE_SIZE / 8 →
    (env.crypto_comp_compress tfm p).1 = 0 →
    (env.crypto_comp_decompress tfm
        ((env.crypto_comp_compress tfm p).2.2.take (env.crypto_comp_compress tfm p).2.1)
        (env.crypto_comp_compress tfm p).2.1 dst).1 = 0 ∧
    (env.crypto_comp_decompress tfm
        ((env.crypto_comp_compress tfm p).2.2.take (env.crypto_comp_compress tfm p).2.1)
        (env.crypto_comp_compress tfm p).2.1 dst).2.2 = p

/-- The allocator does not grant a request of 0 bytes: when the answer of
`zpool_malloc` to the store of `page` is success, the length that the store asked
for (the `dlen` of the compressor after the clamp to `PAGE_SIZE`) is not 0,
whatever the compressor of the pool is. -/
def zpool_malloc_nonempty (env : Env) (o : Oracle) (page : Page) : Prop :=
  o.zpool_malloc_ret = 0 →
    ∀ tfm : String, store_dlen env (env.crypto_comp_compress tfm page) ≠ 0

/-- The entry is live and, when it has a blob (`length` not 0), its pool is
live and the blob is allocated there. -/
def entry_ok (s : State) (entry : Nat) : Bool :=
  match tfind s.entries entry with
  | none => false
  | some e => e.length == 0 || (blob_of s e).isSome

/-- The entry that offset `offset` of tree `type` is bound to, if any, is
`entry_ok`. -/
def slot_ok (s : State) (type offset : Nat) : Bool :=
  match tfind s.zswap_trees type with
  | none => true
  | some tree =>
    match tfind tree offset with
    | none => true
    | some old => entry_ok s old

/-- The three kinds of entry a successful store of `page` at `offset` creates
from state `s`, ending in state `s1`: same-value, zero page, blob. -/
def store_entry_shape (env : Env) (s s1 : State) (offset : Nat) (page : struct_page)
    (e : zswap_entry) : Prop :=
  (s.zswap_same_filled_pages_enabled = true ∧
      (zswap_is_page_same_filled env.PAGE_SIZE page.data 0).1 ≠ 0 ∧
      e = { offset := offset, refcount := 1, length := 0, pool := none,
            handle := (zswap_is_page_same_filled env.PAGE_SIZE page.data 0).2 }) ∨
  (¬ (s.zswap_same_filled_pages_enabled = true ∧
        (zswap_is_page_same_filled env.PAGE_SIZE page.data 0).1 ≠ 0) ∧
    ∃ pid pool rest, s.zswap_pools = (pid, pool) :: rest ∧ pool.kref ≠ 0 ∧
      ((page_zero_filled env.PAGE_SIZE page.data ≠ 0 ∧
          e = { offset := offset, refcount := 1, length := 0, pool := some pid, handle := 0 }) ∨
       (page_zero_filled env.PAGE_SIZE page.data = 0 ∧
          e = { offset := offset, refcount := 1,
                length := store_dlen env (env.crypto_comp_compress pool.tfm_name page.data),
                pool := some pid, handle := tfresh pool.zpool.blobs } ∧
          blob_of s1 e = some (pool.tfm_name,
            store_buf env (env.crypto_comp_compress pool.tfm_name page.data) page.data))))

/-- How `zswap_frontswap_store` leaves `zswap_pools` in the state `S` in which
it reaches the label `insert_entry` with the new entry `e`, from the pools of
`s`: untouched (same-value entry), one more reference on the current pool (zero
page), or that and a new allocation (blob). -/
def store_pools (s S : State) (e : zswap_entry) : Prop :=
  (e.pool = none ∧ S.zswap_pools = s.zswap_pools) ∨
  ∃ pid pool rest, s.zswap_pools = (pid, pool) :: rest ∧ pool.kref ≠ 0 ∧ e.pool = some pid ∧
    (S.zswap_pools = (pid, { pool with kref := pool.kref + 1 }) :: rest ∨
     ∃ buf, S.zswap_pools =
        (pid, { pool with
          kref := pool.kref + 1,
          zpool := { pool.zpool with
            blobs := tput pool.zpool.blobs (tfresh pool.zpool.blobs) buf } }) :: rest ∧
       e.handle = tfresh pool.zpool.blobs)

/-- The entry can be released: it is live, holds at least one reference and,
when it has a blob (`length` not 0), its pool is live and the blob is allocated
there. -/
def entry_live (s : State) (entry : Nat) : Bool :=
  match tfind s.entries entry with
  | none => false
  | some e => decide (1 ≤ e.refcount) && (e.length == 0 || (blob_of s e).isSome)

/-- The entry that offset `offset` of tree `type` is bound to, if any, is
`entry_live`. -/
def slot_live (s : State) (type offset : Nat) : Bool :=
  match tfind s.zswap_trees type with
  | none => true
  | some tree =>
    match tfind tree offset with
    | none => true
    | some old => entry_live s old

/-- How `zswap_frontswap_store` ends once the loop of `zswap_insert_or_replace`
has left the state `S` with the tree `tree`: `btree_insert` and the statistics
update when it finds memory, the exit through `freepage` otherwise. -/
def insert_finish (env : Env) (o : Oracle) (S : State) (type entry offset : Nat)
    (tree : zswap_tree) : Int × State :=
  if o.btree_insert_ok then
    (0, zswap_update_total_size env
      { S with
        log := S.log ++ [Call.btree_insert],
        zswap_trees := tput S.zswap_trees type (tput tree offset entry),
        zswap_stored_pages := atomic_inc S.zswap_stored_pages })
  else
    (-ENOMEM,
      { S with
        log := S.log ++ [Call.btree_insert, Call.kmem_cache_free entry],
        zswap_reject_alloc_fail := u64_inc S.zswap_reject_alloc_fail,
        entries := terase S.entries entry })

/-- What releasing entries leaves alone, from state `s` to state `s1`: the
tunables, the zero-page counter, the limit, write-back and reject counters; and
the only calls it makes free an allocation or an entry. -/
def release_frame (s s1 : State) : Prop :=
  s1.zswap_zero_pages = s.zswap_zero_pages ∧
  s1.zswap_enabled = s.zswap_enabled ∧
  s1.zswap_max_pool_percent = s.zswap_max_pool_percent ∧
  s1.zswap_same_filled_pages_enabled = s.zswap_same_filled_pages_enabled ∧
  s1.zswap_pool_limit_hit = s.zswap_pool_limit_hit ∧
  s1.zswap_written_back_pages = s.zswap_written_back_pages ∧
  s1.zswap_reject_reclaim_fail = s.zswap_reject_reclaim_fail ∧
  s1.zswap_reject_compress_poor = s.zswap_reject_compress_poor ∧
  s1.zswap_reject_alloc_fail = s.zswap_reject_alloc_fail ∧
  s1.zswap_reject_kmemcache_fail = s.zswap_reject_kmemcache_fail ∧
  ∃ l, s1.log = s.log ++ l ∧
    ∀ c ∈ l, (∃ a b, c = Call.zpool_free a b) ∨ ∃ a, c = Call.kmem_cache_free a

/-- The state in which `zswap_frontswap_store` reaches the label `insert_entry`
on the same-value path: the new entry is allocated and filled in. -/
def store_state_same (env : Env) (s : State) (offset : Nat) (page : struct_page) : State :=
  { s with
    log := s.log ++ [Call.kmem_cache_alloc],
    entries := tput s.entries (tfresh s.entries)
      { offset := offset, refcount := 1, length := 0, pool := none,
        handle := (zswap_is_page_same_filled env.PAGE_SIZE page.data 0).2 },
    zswap_same_filled_pages := atomic_inc s.zswap_same_filled_pages }

/-- The state in which `zswap_frontswap_store` reaches the label `insert_entry`
on the zero-page path, with `(pid, pool)` the current pool. -/
def store_state_zero (s : State) (offset pid : Nat) (pool : zswap_pool)
    (rest : Table zswap_pool) : State :=
  { s with
    log := s.log ++ [Call.kmem_cache_alloc],
    entries := tput s.entries (tfresh s.entries)
      { offset := offset, refcount := 1, length := 0, pool := some pid, handle := 0 },
    zswap_pools := (pid, { pool with kref := pool.kref + 1 }) :: rest,
    zswap_zero_pages := atomic_inc s.zswap_zero_pages }

/-- The state in which `zswap_frontswap_store` reaches the label `insert_entry`
on the general path, with `(pid, pool)` the current pool. -/
def store_state_blob (env : Env) (s : State) (offset pid : Nat) (page : struct_page)
    (pool : zswap_pool) (rest : Table zswap_pool) : State :=
  { s with
    log := s.log ++ [Call.kmem_cache_alloc, Call.crypto_comp_compress,
      Call.zpool_malloc (store_dlen env (env.crypto_comp_compress pool.tfm_name page.data))],
    entries := tput s.entries (tfresh s.entries)
      { offset := offset, refcount := 1,
        length := store_dlen env (env.crypto_comp_compress pool.tfm_name page.data),
        pool := some pid, handle := tfresh pool.zpool.blobs },
    zswap_pools :=
      (pid, { pool with
        kref := pool.kref + 1,
        zpool := { pool.zpool with
          blobs := tput pool.zpool.blobs (tfresh pool.zpool.blobs)
            (store_buf env (env.crypto_comp_compress pool.tfm_name page.data)
              page.data) } }) :: rest }

/-- The keys of a table are pairwise different. -/
def keys_nodup {α : Type} (t : Table α) : Prop := (t.map Prod.fst).Nodup

/-- In every tree each offset is bound at most once. -/
def trees_nodup (s : State) : Prop :=
  ∀ type tree, tfind s.zswap_trees type = some tree → keys_nodup tree

/-- Nothing is stored: no live entry, every tree empty, and every pool holds at
least the reference of being on the list of pools. -/
def state_fresh (s : State) : Bool :=
  s.entries.isEmpty && s.zswap_trees.all (fun t => t.2.isEmpty) &&
    s.zswap_pools.all (fun p => decide (1 ≤ p.2.kref))

/-- Number of references that readers hold on `entry`. -/
def held_count (held : List (Nat × Nat)) (entry : Nat) : Nat :=
  held.countP (fun x => x.2 == entry)

/-- The entry `entry` is bound to some offset of some tree. -/
def in_tree (s : State) (entry : Nat) : Prop :=
  ∃ type tree offset, tfind s.zswap_trees type = some tree ∧ tfind tree offset = some entry

/-- Number of entries of the table that own a blob of pool `pid`. -/
def pool_users (entries : Table zswap_entry) (pid : Nat) : Nat :=
  entries.countP (fun x => decide (x.2.length ≠ 0) && decide (x.2.pool = some pid))

/-- The state is well formed with respect to the references `held` that readers
hold.  A bound offset leads to a live entry that carries that offset, and no
entry is bound in two trees.  A live entry has at least one reference, at least
as many as readers hold on it, and one more when a tree binds it.  What readers
hold is live and comes from a tree that is there.  A live entry with a blob
names a live pool in which its handle is allocated, no two of them share an
allocation, and a pool has one reference for each of them and one more. -/
structure Inv (s : State) (held : List (Nat × Nat)) : Prop where
  keyed : ∀ type tree offset id, tfind s.zswap_trees type = some tree →
    tfind tree offset = some id → ∃ e, tfind s.entries id = some e ∧ e.offset = offset
  single : ∀ type type1 tree tree1 offset offset1 id,
    tfind s.zswap_trees type = some tree → tfind tree offset = some id →
    tfind s.zswap_trees type1 = some tree1 → tfind tree1 offset1 = some id → type = type1
  refs : ∀ id e, tfind s.entries id = some e →
    1 ≤ e.refcount ∧ (held_count held id : Int) ≤ e.refcount ∧
      (in_tree s id → (held_count held id : Int) + 1 ≤ e.refcount)
  held_live : ∀ t id, (t, id) ∈ held →
    (∃ e, tfind s.entries id = some e) ∧ ∃ tree, tfind s.zswap_trees t = some tree
  blob : ∀ id e, tfind s.entries id = some e → e.length ≠ 0 →
    ∃ pid p buf, e.pool = some pid ∧ tfind s.zswap_pools pid = some p ∧
      tfind p.zpool.blobs e.handle = some buf
  distinct : ∀ id1 id2 e1 e2, id1 ≠ id2 → tfind s.entries id1 = some e1 →
    tfind s.entries id2 = some e2 → e1.length ≠ 0 → e2.length ≠ 0 → e1.pool = e2.pool →
    e1.handle ≠ e2.handle
  krefs : ∀ pid p, tfind s.zswap_pools pid = some p →
    (pool_users s.entries pid : Int) + 1 ≤ p.kref

/-- Every live entry has at most one reference more than readers hold: the
tree's. -/
def RefBound (s : State) (held : List (Nat × Nat)) : Prop :=
  ∀ id e, tfind s.entries id = some e → e.refcount ≤ (held_count held id : Int) + 1

/-- One stored page as the proofs about a whole address space see it: the id of
its entry, the entry, and the contents of its allocation (unused when the entry
has no allocation). -/
structure Item where
  id : Nat
  e : zswap_entry
  buf : List Nat

/-- The item owns an allocation: `length` is not 0. -/
def item_blob (i : Item) : Bool := decide (i.e.length ≠ 0)

/-- The slab bindings of a list of items. -/
def entries_of (items : List Item) : Table zswap_entry := items.map fun i => (i.id, i.e)

/-- The tree bindings of a list of items. -/
def tree_of (items : List Item) : zswap_tree := items.map fun i => (i.e.offset, i.id)

/-- The allocations of a list of items. -/
def blobs_of (items : List Item) : Table (List Nat) :=
  (items.filter item_blob).map fun i => (i.e.handle, i.buf)

/-- The pools `pools` after the current pool, the first one, has received the
allocations of `items` and one reference for each of them. -/
def pools_with (pools : Table zswap_pool) (items : List Item) : Table zswap_pool :=
  match pools with
  | [] => []
  | (pid, p) :: rest =>
    (pid, { p with
      kref := p.kref + ((blobs_of items).length : Int),
      zpool := { p.zpool with blobs := p.zpool.blobs ++ blobs_of items } }) :: rest

/-- The slab, the pools and the same-value counter of `s` are those of the
baseline `s0` with the items `items` added. -/
structure Shape (s0 : State) (items : List Item) (s : State) : Prop where
  entries : s.entries = s0.entries ++ entries_of items
  pools : s.zswap_pools = pools_with s0.zswap_pools items
  same : s.zswap_same_filled_pages =
    wrap_s32 (s0.zswap_same_filled_pages + ((items.filter (fun i => !item_blob i)).length : Int))
  zero : s.zswap_zero_pages = s0.zswap_zero_pages
  enabled : s.zswap_same_filled_pages_enabled = s0.zswap_same_filled_pages_enabled

/-- The items are new with respect to the baseline `s0` and do not clash: their
ids are not live in `s0` and pairwise different, and those with an allocation
name the current pool of `s0`, with handles that are not allocated in `s0` and
pairwise different. -/
structure ItemsOK (s0 : State) (items : List Item) : Prop where
  fresh : ∀ i ∈ items, tfind s0.entries i.id = none
  ids : (items.map fun i => i.id).Nodup
  blob : ∀ i ∈ items, i.e.length ≠ 0 →
    ∃ pid p rest, s0.zswap_pools = (pid, p) :: rest ∧ i.e.pool = some pid ∧
      tfind p.zpool.blobs i.e.handle = none
  handles : ((items.filter item_blob).map fun i => i.e.handle).Nodup

/-- A value that an `atomic_t` can hold. -/
def int_range (x : Int) : Prop := -2 ^ 31 ≤ x ∧ x < 2 ^ 31

/-- A sequence of stores into the address space `type`, each with the answers
of the allocators, the offset and the page; the state after the last one when
every store returned 0, and no result otherwise. -/
def store_all (env : Env) (type : Nat) :
    List (Oracle × Nat × struct_page) → State → Option State
  | [], s => some s
  | (o, offset, page) :: rest, s =>
    (zswap_frontswap_store env o s type offset page).bind fun r =>
      if r.1 = 0 then store_all env type rest r.2 else none

/-- The state `s` is the baseline `s0` with the items `items` stored in the
address space `type`: the tree of `type` binds exactly their offsets to their
ids, every item has the one reference of the tree, and `stored_pages` counts
them. -/
structure Rel (s0 : State) (type : Nat) (items : List Item) (s : State) : Prop where
  tree : tfind s.zswap_trees type = some (tree_of items)
  shape : Shape s0 items s
  ok : ItemsOK s0 items
  refs : ∀ i ∈ items, i.e.refcount = 1
  offs : (items.map fun i => i.e.offset).Nodup
  stored : s.zswap_stored_pages = wrap_s32 (s0.zswap_stored_pages + (items.length : Int))

/-- What `zswap_frontswap_load` hands out for the entry `e` and the destination
`page`, and the calls it makes on the way: the branch that `e.length` selects.
No result where the load meets `BUG_ON(ret)` or a dangling pool or handle. -/
def load_result (env : Env) (s : State) (e : zswap_entry) (page : Page) :
    Option (Page × List Call) :=
  if e.length = 0 then some (zswap_fill_page env.PAGE_SIZE page e.handle, [])
  else
    e.pool.bind fun pid =>
    (tfind s.zswap_pools pid).bind fun pool =>
    (tfind pool.zpool.blobs e.handle).bind fun src =>
      if e.length = env.PAGE_SIZE then some (src, [])
      else
        let d := env.crypto_comp_decompress pool.tfm_name src e.length page
        if d.1 ≠ 0 then none else some (d.2.2, [Call.crypto_comp_decompress])

/-! ## Parameters and pool switching -/

/-- What the parameter callbacks take from the rest of the kernel: the two
registries of backends, `strstrip`, and the size of `tfm_name`. -/
structure Registry where
  zpool_has_pool : String → Bool
  crypto_has_comp : String → Bool
  strstrip : String → String
  CRYPTO_MAX_ALG_NAME : Nat

/-- The answers that one call of a parameter callback, or of the pool creation
at init, receives: whether `kzalloc`, `zpool_create_pool` and `alloc_percpu`
return an object, and the return values of `cpuhp_state_add_instance` and
`param_set_charp`. -/
structure PoolOracle where
  kzalloc_ok : Bool
  zpool_create_pool_ok : Bool
  alloc_percpu_ok : Bool
  cpuhp_state_add_instance_ret : Int
  param_set_charp_ret : Int
deriving DecidableEq, Repr

/-- The module parameters `compressor` and `zpool`: what `kp->arg` points to. -/
inductive Param where
  | compressor
  | zpool
deriving DecidableEq, Repr

/-- The globals of zswap.c that the parameter callbacks and init work on,
around the state of the hot path. -/
structure Module where
  state : State
  zswap_compressor : String
  zswap_zpool_type : String
  zswap_init_started : Bool
  zswap_init_failed : Bool
  zswap_pools_count : Int
deriving DecidableEq, Repr

def ZSWAP_COMPRESSOR_DEFAULT : String := "lz4"
def ZSWAP_COMPRESSOR : String := "zstd"
def ZSWAP_ZPOOL_DEFAULT : String := "zsmalloc"

/-- The string `*(char **)kp->arg`. -/
def param_arg (m : Module) : Param → String
  | Param.compressor => m.zswap_compressor
  | Param.zpool => m.zswap_zpool_type

/-- Modelled from the spec: `param_set_charp` of kernel/params.c, which is not
among the sources. A changed configuration option takes the new name: when the
call returns 0 the parameter variable holds the string, otherwise it is left as
it was; `ret` is the return value the call receives. -/
def param_set_charp (ret : Int) (m : Module) (s : String) : Param → Int × Module
  | Param.compressor => (ret, if ret = 0 then { m with zswap_compressor := s } else m)
  | Param.zpool => (ret, if ret = 0 then { m with zswap_zpool_type := s } else m)

/-- The kernel's `strlcpy` into a buffer of `size` bytes: at most `size - 1`
characters are copied. -/
def strlcpy (src : String) (size : Nat) : String := String.mk (src.data.take (size - 1))

/-- The C function `zswap_pool_find_get`: the first pool of the list with the
given compressor and allocator type whose `kref` is not 0, with its `kref`
raised. -/
def zswap_pool_find_get (s : State) (type compressor : String) : Option Nat × State :=
  match s.zswap_pools.find? (fun x =>
      x.2.tfm_name == compressor && x.2.zpool.type == type && x.2.kref != 0) with
  | none => (none, s)
  | some (pid, pool) =>
    (some pid, { s with zswap_pools := tput s.zswap_pools pid { pool with kref := pool.kref + 1 } })

/-- The C function `zswap_pool_create`: the new pool, not yet on the list, or
NULL. The counter of pool names goes up once `kzalloc` has succeeded, and
`zpool_get_type` of the new zpool is the type it was created with. -/
def zswap_pool_create (reg : Registry) (po : PoolOracle) (m : Module)
    (type compressor : String) : Option zswap_pool × Module :=
  if !po.kzalloc_ok then (none, m)
  else
    let m1 := { m with zswap_pools_count := atomic_inc m.zswap_pools_count }
    if !po.zpool_create_pool_ok then (none, m1)
    else if !po.alloc_percpu_ok then (none, m1)
    else if po.cpuhp_state_add_instance_ret ≠ 0 then (none, m1)
    else
      (some { zpool := { type := type, blobs := [] },
              tfm_name := strlcpy compressor reg.CRYPTO_MAX_ALG_NAME, kref := 1 }, m1)

/-- The C function `__zswap_pool_create_fallback`. -/
def __zswap_pool_create_fallback (reg : Registry) (po : PoolOracle) (m : Module) :
    Option zswap_pool × Module :=
  if !reg.crypto_has_comp m.zswap_compressor ∧ m.zswap_compressor = ZSWAP_COMPRESSOR_DEFAULT
  then (none, m)
  else
    let m1 := if !reg.crypto_has_comp m.zswap_compressor
      then { m with zswap_compressor := ZSWAP_COMPRESSOR_DEFAULT } else m
    if !reg.zpool_has_pool m1.zswap_zpool_type ∧ m1.zswap_zpool_type = ZSWAP_ZPOOL_DEFAULT
    then (none, m1)
    else
      let m2 := if !reg.zpool_has_pool m1.zswap_zpool_type
        then { m1 with zswap_zpool_type := ZSWAP_ZPOOL_DEFAULT } else m1
      zswap_pool_create reg po m2 m2.zswap_zpool_type m2.zswap_compressor

/-- The end of `__zswap_param_set`, once it holds the pool `pool` (id `pid`),
which is on no list: set the parameter; on success put the pool at the head of
the list and release the pool that was current; otherwise put the pool at the
tail of the list and release it. -/
def zswap_param_set_finish (po : PoolOracle) (m : Module) (s : String) (kp : Param)
    (pid : Nat) (pool : zswap_pool) : Option (Int × Module) :=
  let r := param_set_charp po.param_set_charp_ret m s kp
  if r.1 = 0 then
    let listed : State :=
      { r.2.state with zswap_pools := (pid, pool) :: r.2.state.zswap_pools }
    match r.2.state.zswap_pools with
    | [] => some (r.1, { r.2 with state := listed })
    | (cur, _) :: _ =>
      (zswap_pool_put listed cur).bind fun s1 => some (r.1, { r.2 with state := s1 })
  else
    let listed : State :=
      { r.2.state with zswap_pools := r.2.state.zswap_pools ++ [(pid, pool)] }
    (zswap_pool_put listed pid).bind fun s1 => some (r.1, { r.2 with state := s1 })

/-- The part of `__zswap_param_set` from `spin_lock(&zswap_pools_lock)` on, with
`type` and `compressor` resolved: look for a pool of that pair and take it off
the list, or create one; without a pool the result is -EINVAL. -/
def zswap_param_set_pool (reg : Registry) (po : PoolOracle) (m : Module) (s : String)
    (kp : Param) (type compressor : String) : Option (Int × Module) :=
  let found := zswap_pool_find_get m.state type compressor
  match found.1 with
  | some pid =>
    (tfind found.2.zswap_pools pid).bind fun pool =>
      zswap_param_set_finish po
        { m with state := { found.2 with zswap_pools := terase found.2.zswap_pools pid } }
        s kp pid pool
  | none =>
    match zswap_pool_create reg po m type compressor with
    | (none, m1) => some (-EINVAL, m1)
    | (some pool, m1) =>
      zswap_param_set_finish po m1 s kp (tfresh m.state.zswap_pools) pool

/-- The C function `__zswap_param_set`; `val` is the string written to the
parameter `kp`. With neither `type` nor `compressor` given, which no caller
does, `strcmp` or `strlcpy` would read through NULL: no result. -/
def __zswap_param_set (reg : Registry) (po : PoolOracle) (m : Module) (val : String)
    (kp : Param) (type compressor : Option String) : Option (Int × Module) :=
  let s := reg.strstrip val
  if m.zswap_init_failed then some (-ENODEV, m)
  else if s = param_arg m kp then some (0, m)
  else if !m.zswap_init_started then some (param_set_charp po.param_set_charp_ret m s kp)
  else
    match type, compressor with
    | none, some c =>
      if !reg.zpool_has_pool s then some (-ENOENT, m)
      else zswap_param_set_pool reg po m s kp s c
    | none, none =>
      if !reg.zpool_has_pool s then some (-ENOENT, m) else none
    | some t, none =>
      if !reg.crypto_has_comp s then some (-ENOENT, m)
      else zswap_param_set_pool reg po m s kp t s
    | some _, some _ => some (-EINVAL, m)

/-- The C function `zswap_compressor_param_set`. -/
def zswap_compressor_param_set (reg : Registry) (po : PoolOracle) (m : Module)
    (val : String) : Option (Int × Module) :=
  __zswap_param_set reg po m val Param.compressor (some m.zswap_zpool_type) none

/-- The C function `zswap_zpool_param_set`. -/
def zswap_zpool_param_set (reg : Registry) (po : PoolOracle) (m : Module)
    (val : String) : Option (Int × Module) :=
  __zswap_param_set reg po m val Param.zpool none (some m.zswap_compressor)

/-- The answers `init_zswap` receives before it creates the pool: the return
values of `zswap_entry_cache_create`, `cpuhp_setup_state` and
`cpuhp_setup_state_multi`. -/
structure InitOracle where
  zswap_entry_cache_create_ret : Int
  cpuhp_setup_state_ret : Int
  cpuhp_setup_state_multi_ret : Int
deriving DecidableEq, Repr

/-- The exits of `init_zswap` through `cache_fail`. -/
def init_zswap_failed (m : Module) : Int × Module :=
  (-ENOMEM,
    { m with zswap_init_failed := true, state := { m.state with zswap_enabled := false } })

/-- The C function `init_zswap`: on success the pool of
`__zswap_pool_create_fallback` is put on the list of pools. -/
def init_zswap (reg : Registry) (io : InitOracle) (po : PoolOracle) (m : Module) :
    Int × Module :=
  let m1 := { m with zswap_init_started := true }
  if io.zswap_entry_cache_create_ret ≠ 0 then init_zswap_failed m1
  else if io.cpuhp_setup_state_ret ≠ 0 then init_zswap_failed m1
  else if io.cpuhp_setup_state_multi_ret ≠ 0 then init_zswap_failed m1
  else
    match __zswap_pool_create_fallback reg po m1 with
    | (none, m2) => init_zswap_failed m2
    | (some pool, m2) =>
      (0, { m2 with state :=
        { m2.state with
          zswap_pools := (tfresh m2.state.zswap_pools, pool) :: m2.state.zswap_pools } })

/-- The `set` operation of the parameter `kp`, as `module_param_cb` registers
it. -/
def zswap_param_callback (reg : Registry) (po : PoolOracle) (m : Module) (val : String) :
    Param → Option (Int × Module)
  | Param.compressor => zswap_compressor_param_set reg po m val
  | Param.zpool => zswap_zpool_param_set reg po m val

/-- The registry that `__zswap_param_set` asks about a new value of the
parameter `kp`: `crypto_has_comp` for the compressor, `zpool_has_pool` for the
allocator. -/
def registry_knows (reg : Registry) : Param → String → Bool
  | Param.compressor, name => reg.crypto_has_comp name
  | Param.zpool, name => reg.zpool_has_pool name

/-- The default that `__zswap_pool_create_fallback` falls back to for the
parameter `kp`. -/
def param_default : Param → String
  | Param.compressor => ZSWAP_COMPRESSOR_DEFAULT
  | Param.zpool => ZSWAP_ZPOOL_DEFAULT

/-! ## Content sharing: the code under `CONFIG_ZSWAP_SAME_PAGE_SHARING`

The functions and statements that exist only under this switch, embedded as
they are written. -/

/-- The C `struct zswap_handle`; `rb_linked` is whether `rbnode` is linked into
a tree (`RB_EMPTY_NODE` is its negation). -/
structure zswap_handle where
  rb_linked : Bool
  checksum : Nat
  ref_count : Nat
  length : Nat
  handle : Nat
deriving DecidableEq, Repr

/-- The tree below an `rb_root`: NULL, or a node with the handle it is embedded
in and its two children. -/
inductive rb_node where
  | NULL : rb_node
  | node (rb_left : rb_node) (zhandle : Nat) (rb_right : rb_node) : rb_node
deriving DecidableEq, Repr

/-- The C function `zswap_handle_rb_search`: inner `none` is NULL; no result
when a node's handle is not live. -/
def zswap_handle_rb_search (handles : Table zswap_handle) :
    rb_node → Nat → Option (Option Nat)
  | rb_node.NULL, _ => some none
  | rb_node.node rb_left zhandle rb_right, checksum =>
    (tfind handles zhandle).bind fun h =>
      if h.checksum > checksum then zswap_handle_rb_search handles rb_left checksum
      else if h.checksum < checksum then zswap_handle_rb_search handles rb_right checksum
      else some (some zhandle)

/-- The kernel's `memcmp` of the first `size` bytes, as far as its callers here
look at it: 0 when they are equal, another value (here 1) when not. -/
def memcmp (a b : Page) (size : Nat) : Int :=
  if a.take (size / 8) = b.take (size / 8) then 0 else 1

/-- The page that the allocation of handle `h` gives when it is read into the
page `dst`: `copy_page` when the length is `PAGE_SIZE`, the output of the
decompressor otherwise; with the return value `ret`. No result when the
allocation does not exist. -/
def zhandle_read (env : Env) (pool : zswap_pool) (h : zswap_handle) (dst : Page) :
    Option (Int × Page) :=
  (tfind pool.zpool.blobs h.handle).bind fun src =>
    if h.length = env.PAGE_SIZE then some (0, src)
    else
      let d := env.crypto_comp_decompress pool.tfm_name src h.length dst
      some (d.1, d.2.2)

/-- The C function `zswap_same_page_search`: the handle found, and the content
of `tree->buffer` afterwards. `map_ok` is whether `zpool_map_handle` with
`ZPOOL_MM_RO_NOWAIT` gave a mapping. No result on `BUG_ON(ret)`. -/
def zswap_same_page_search (env : Env) (map_ok : Bool) (pool : zswap_pool)
    (handles : Table zswap_handle) (zhandleroot : rb_node) (buffer uncmem : Page)
    (checksum : Nat) : Option (Option Nat × Page) :=
  (zswap_handle_rb_search handles zhandleroot checksum).bind fun myhandle =>
    match myhandle with
    | none => some (none, buffer)
    | some z =>
      (tfind handles z).bind fun h =>
        if !map_ok then some (none, buffer)
        else
          (zhandle_read env pool h buffer).bind fun d =>
            if d.1 ≠ 0 then none
            else if memcmp d.2 uncmem env.PAGE_SIZE ≠ 0 then some (none, d.2)
            else some (some z, d.2)

/-- The decompress step of `zswap_frontswap_load` as the content-sharing branch
writes it, for an entry whose `zhandle` is `h`: the page afterwards. No result
on `BUG_ON(ret)`. -/
def zswap_frontswap_load_zhandle (env : Env) (pool : zswap_pool) (h : zswap_handle)
    (page : Page) : Option Page :=
  (zhandle_read env pool h page).bind fun d => if d.1 ≠ 0 then none else some d.2

/-- The statements of `zswap_frontswap_store` for a page whose content is
already stored (`zswap_same_page_search` gave `zhandle`): the new entry takes
the handle, and the handle's `ref_count` goes up by one (`u32`). -/
def zswap_frontswap_store_share (handles : Table zswap_handle) (zhandle : Nat) :
    Option (Table zswap_handle) :=
  (tfind handles zhandle).bind fun h =>
    some (tput handles zhandle { h with ref_count := (h.ref_count + 1) % 2 ^ 32 })

/-- The C function `zswap_handle_erase`; `rb_erase` is the kernel's. -/
def zswap_handle_erase (rb_erase : rb_node → Nat → rb_node) (handles : Table zswap_handle)
    (root : rb_node) (zhandle : Nat) : Option (Table zswap_handle × rb_node) :=
  (tfind handles zhandle).bind fun h =>
    if h.rb_linked then
      some (tput handles zhandle { h with rb_linked := false }, rb_erase root zhandle)
    else some (handles, root)

/-- The statement of `zswap_entry_put` under the switch, run when the entry's
`refcount` has reached 0, before `zswap_erase` and `zswap_free_entry`; `zhandle`
is `entry->zhandle`. -/
def zswap_entry_put_zhandle (rb_erase : rb_node → Nat → rb_node)
    (handles : Table zswap_handle) (root : rb_node) (zhandle : Option Nat) :
    Option (Table zswap_handle × rb_node) :=
  match zhandle with
  | none => some (handles, root)
  | some z =>
    (tfind handles z).bind fun h =>
      if h.ref_count = 1 then zswap_handle_erase rb_erase handles root z
      else some (handles, root)

/-- The C function `zswap_free_handle`: the allocation and the handle are
freed. Nothing in the file calls it. -/
def zswap_free_handle (pool : zswap_pool) (handles : Table zswap_handle) (zhandle : Nat) :
    Option (zswap_pool × Table zswap_handle) :=
  (tfind handles zhandle).bind fun h =>
    some ({ pool with zpool := { pool.zpool with blobs := terase pool.zpool.blobs h.handle } },
      terase handles zhandle)

/-! ## Concrete environments, states and pages

Used to instantiate the theorems below and to run the code on explicit inputs:
4 KiB pages, 4 GiB of RAM (1048576 pages), one swap device (type 0) with an empty
tree, and one pool. -/

/-- A small compressor: a page whose first two words are below 256 and whose
other words are all 0 compresses to 2 bytes, the two words; any other page is
reported as a compression error. -/
def toy_compress (p : Page) : Int × Nat × List Nat :=
  if p.drop 2 = List.replicate (p.length - 2) 0 ∧ (p.take 2).all (fun w => decide (w < 256))
  then (0, 2, p.take 2) else (1, 0, [])

/-- The decompressor of `toy_compress`: every byte becomes a word, padded with
zero words to 512 words. -/
def toy_decompress (src : List Nat) : Int × Nat × Page :=
  (0, 4096, src ++ List.replicate (512 - src.length) 0)

/-- 4 KiB pages, 1048576 pages of RAM, the toy compressor, and an allocator
whose footprint is one page per allocation. -/
def env_4k : Env :=
  { PAGE_SIZE := 4096
    totalram_pages := 1048576
    crypto_comp_compress := fun _ p => toy_compress p
    crypto_comp_decompress := fun _ src _ _ => toy_decompress src
    zpool_get_total_size := fun z => 4096 * z.blobs.length }

/-- A page whose first word is 1 and whose other words are 0. -/
def page_one_zero : struct_page :=
  { PageTransHuge := false, PageError := false, data := 1 :: List.replicate 511 0 }

/-- An environment whose compressor reports success with 0 bytes of output for
`page_one_zero` and fails for every other page, and whose decompressor gives
`page_one_zero` back: its decompress inverts its compress. -/
def env_empty_output : Env :=
  { PAGE_SIZE := 4096
    totalram_pages := 1048576
    crypto_comp_compress := fun _ p => if p = page_one_zero.data then (0, 0, []) else (1, 0, [])
    crypto_comp_decompress := fun _ _ _ _ => (0, 4096, page_one_zero.data)
    zpool_get_total_size := fun z => 4096 * z.blobs.length }

/-- Nothing stored: swap type 0 has an empty tree, pool 1 (zsmalloc, zstd) is
the current pool and holds only the reference of being current. -/
def state_empty : State :=
  { zswap_pool_total_size := 0, zswap_pool_pages := 0, zswap_stored_pages := 0,
    zswap_same_filled_pages := 0, zswap_pool_limit_hit := 0, zswap_written_back_pages := 0,
    zswap_reject_reclaim_fail := 0, zswap_reject_compress_poor := 0,
    zswap_reject_alloc_fail := 0, zswap_reject_kmemcache_fail := 0,
    zswap_duplicate_entry := 0, zswap_zero_pages := 0,
    zswap_enabled := true, zswap_max_pool_percent := 30,
    zswap_same_filled_pages_enabled := true,
    zswap_trees := [(0, [])],
    zswap_pools :=
      [(1, { zpool := { type := "zsmalloc", blobs := [] }, tfm_name := "zstd", kref := 1 })],
    entries := [], log := [] }

/-- As `state_empty`, with same-value handling switched off. -/
def state_no_same_filled : State :=
  { state_empty with zswap_same_filled_pages_enabled := false }

/-- As `state_empty`, with zswap switched off. -/
def state_disabled : State :=
  { state_empty with zswap_enabled := false }

/-- The limit is 1048576 * 30 / 100 = 314572 pages; here the pool occupies
exactly 314572 pages. -/
def state_at_limit : State :=
  { state_empty with zswap_pool_total_size := 314572 * 4096, zswap_pool_pages := 314572 }

/-- The pool occupies 314573 pages, one more than the limit. -/
def state_full : State :=
  { state_empty with zswap_pool_total_size := 314573 * 4096, zswap_pool_pages := 314573 }

/-- Every allocator answers with success. -/
def oracle_ok : Oracle :=
  { kmem_cache_alloc_ok := true, zpool_malloc_ret := 0, btree_insert_ok := true }

/-- A page the toy compressor compresses: words 3, 4, then zeros. -/
def page_34 : struct_page :=
  { PageTransHuge := false, PageError := false, data := 3 :: 4 :: List.replicate 510 0 }

/-- A page filled with the word 7. -/
def page_sevens : struct_page :=
  { PageTransHuge := false, PageError := false, data := List.replicate 512 7 }

/-- Another page the toy compressor compresses: words 5, 6, then zeros. -/
def page_56 : struct_page :=
  { PageTransHuge := false, PageError := false, data := 5 :: 6 :: List.replicate 510 0 }

/-- The zero page. -/
def page_zero : struct_page :=
  { PageTransHuge := false, PageError := false, data := List.replicate 512 0 }

/-- A page that an earlier pageout attempt marked with `PageError`. -/
def page_error : struct_page :=
  { PageTransHuge := false, PageError := true, data := 3 :: 4 :: List.replicate 510 0 }

/-! The states that the scenarios below run through, written out. -/

/-- After `page_34` is stored at offset 5 of `state_empty`: entry 1 owns the
2-byte allocation 1 of pool 1, which it holds a reference to. -/
def state_stored_34 : State :=
  { state_empty with
    zswap_pool_total_size := 4096, zswap_pool_pages := 1, zswap_stored_pages := 1,
    zswap_trees := [(0, [(5, 1)])],
    zswap_pools :=
      [(1, { zpool := { type := "zsmalloc", blobs := [(1, [3, 4])] }, tfm_name := "zstd",
             kref := 2 })],
    entries := [(1, { offset := 5, refcount := 1, length := 2, pool := some 1, handle := 1 })],
    log := [Call.kmem_cache_alloc, Call.crypto_comp_compress, Call.zpool_malloc 2,
      Call.btree_insert] }

/-- After `page_56` is then stored at offset 5 of `state_stored_34`: entry 1 and
its allocation are gone, entry 2 owns allocation 2. -/
def state_34_then_56 : State :=
  { state_empty with
    zswap_pool_total_size := 4096, zswap_pool_pages := 1, zswap_stored_pages := 1,
    zswap_duplicate_entry := 1,
    zswap_trees := [(0, [(5, 2)])],
    zswap_pools :=
      [(1, { zpool := { type := "zsmalloc", blobs := [(2, [5, 6])] }, tfm_name := "zstd",
             kref := 2 })],
    entries := [(2, { offset := 5, refcount := 1, length := 2, pool := some 1, handle := 2 })],
    log := [Call.kmem_cache_alloc, Call.crypto_comp_compress, Call.zpool_malloc 2,
      Call.btree_insert, Call.kmem_cache_alloc, Call.crypto_comp_compress,
      Call.zpool_malloc 2, Call.zpool_free 1 1, Call.kmem_cache_free 1, Call.btree_insert] }

/-- After `page_34` is then stored at offset 5 of `state_34_then_56`. -/
def state_34_56_34 : State :=
  { state_empty with
    zswap_pool_total_size := 4096, zswap_pool_pages := 1, zswap_stored_pages := 1,
    zswap_duplicate_entry := 2,
    zswap_trees := [(0, [(5, 3)])],
    zswap_pools :=
      [(1, { zpool := { type := "zsmalloc", blobs := [(3, [3, 4])] }, tfm_name := "zstd",
             kref := 2 })],
    entries := [(3, { offset := 5, refcount := 1, length := 2, pool := some 1, handle := 3 })],
    log := [Call.kmem_cache_alloc, Call.crypto_comp_compress, Call.zpool_malloc 2,
      Call.btree_insert, Call.kmem_cache_alloc, Call.crypto_comp_compress,
      Call.zpool_malloc 2, Call.zpool_free 1 1, Call.kmem_cache_free 1, Call.btree_insert,
      Call.kmem_cache_alloc, Call.crypto_comp_compress, Call.zpool_malloc 2,
      Call.zpool_free 1 2, Call.kmem_cache_free 2, Call.btree_insert] }

/-- After `page_zero` is stored at offset 5 of `state_no_same_filled`: entry 1
has length 0 and holds a reference to pool 1. -/
def state_zero_stored : State :=
  { state_no_same_filled with
    zswap_stored_pages := 1, zswap_zero_pages := 1,
    zswap_trees := [(0, [(5, 1)])],
    zswap_pools :=
      [(1, { zpool := { type := "zsmalloc", blobs := [] }, tfm_name := "zstd", kref := 2 })],
    entries := [(1, { offset := 5, refcount := 1, length := 0, pool := some 1, handle := 0 })],
    log := [Call.kmem_cache_alloc, Call.btree_insert] }

/-- After `page_34` is then stored at offset 5 of `state_zero_stored`. -/
def state_zero_then_34 : State :=
  { state_no_same_filled with
    zswap_pool_total_size := 4096, zswap_pool_pages := 1, zswap_stored_pages := 1,
    zswap_same_filled_pages := -1, zswap_zero_pages := 1, zswap_duplicate_entry := 1,
    zswap_trees := [(0, [(5, 2)])],
    zswap_pools :=
      [(1, { zpool := { type := "zsmalloc", blobs := [(1, [3, 4])] }, tfm_name := "zstd",
             kref := 3 })],
    entries := [(2, { offset := 5, refcount := 1, length := 2, pool := some 1, handle := 1 })],
    log := [Call.kmem_cache_alloc, Call.btree_insert, Call.kmem_cache_alloc,
      Call.crypto_comp_compress, Call.zpool_malloc 2, Call.kmem_cache_free 1,
      Call.btree_insert] }

/-- The state `state_stored_34` after a reader took a reference to entry 1 with
`zswap_entry_find_get`. -/
def state_34_pinned : State :=
  { state_stored_34 with
    entries := [(1, { offset := 5, refcount := 2, length := 2, pool := some 1, handle := 1 })] }

/-- After `page_56` is stored at offset 5 of `state_34_pinned`: the tree maps
offset 5 to the new entry 2, and entry 1 lives on with the reader's reference. -/
def state_pinned_overwritten : State :=
  { state_empty with
    zswap_pool_total_size := 8192, zswap_pool_pages := 2, zswap_stored_pages := 2,
    zswap_duplicate_entry := 1,
    zswap_trees := [(0, [(5, 2)])],
    zswap_pools :=
      [(1, { zpool := { type := "zsmalloc", blobs := [(1, [3, 4]), (2, [5, 6])] },
             tfm_name := "zstd", kref := 3 })],
    entries :=
      [(1, { offset := 5, refcount := 1, length := 2, pool := some 1, handle := 1 }),
       (2, { offset := 5, refcount := 1, length := 2, pool := some 1, handle := 2 })],
    log := [Call.kmem_cache_alloc, Call.crypto_comp_compress, Call.zpool_malloc 2,
      Call.btree_insert, Call.kmem_cache_alloc, Call.crypto_comp_compress,
      Call.zpool_malloc 2, Call.btree_insert] }

/-- After the reader's `zswap_entry_put` on entry 1 in
`state_pinned_overwritten`: entry 1 is freed, and the tree has lost offset 5
although entry 2, its blob and its pool reference are still there. -/
def state_pinned_released : State :=
  { state_empty with
    zswap_pool_total_size := 4096, zswap_pool_pages := 1, zswap_stored_pages := 1,
    zswap_duplicate_entry := 1,
    zswap_trees := [(0, [])],
    zswap_pools :=
      [(1, { zpool := { type := "zsmalloc", blobs := [(2, [5, 6])] }, tfm_name := "zstd",
             kref := 2 })],
    entries := [(2, { offset := 5, refcount := 1, length := 2, pool := some 1, handle := 2 })],
    log := [Call.kmem_cache_alloc, Call.crypto_comp_compress, Call.zpool_malloc 2,
      Call.btree_insert, Call.kmem_cache_alloc, Call.crypto_comp_compress,
      Call.zpool_malloc 2, Call.btree_insert, Call.zpool_free 1 1,
      Call.kmem_cache_free 1] }

/-- A decompressor that reports success after writing only the words of the
bytes it was given, 16 bytes for 2 of them: `dlen` is 16 and the rest of the
destination page is left as it was. -/
def env_short_output : Env :=
  { env_4k with
    crypto_comp_decompress := fun _ src _ dst => (0, 16, src ++ dst.drop src.length) }

/-- A decompressor that reports the error -EINVAL and writes nothing. -/
def env_decompress_error : Env :=
  { env_4k with crypto_comp_decompress := fun _ _ _ dst => (-EINVAL, 0, dst) }

/-- The allocator has no room of the size asked for: `zpool_malloc` returns
-ENOSPC. -/
def oracle_nospc : Oracle :=
  { kmem_cache_alloc_ok := true, zpool_malloc_ret := -ENOSPC, btree_insert_ok := true }

/-- The slab allocator is out of memory: `kmem_cache_alloc` returns NULL. -/
def oracle_no_entry : Oracle :=
  { kmem_cache_alloc_ok := false, zpool_malloc_ret := 0, btree_insert_ok := true }

/-- After `page_sevens` is stored at offset 5 of `state_empty`: entry 1 is a
same-value entry of the word 7. -/
def state_sevens : State :=
  { state_empty with
    zswap_stored_pages := 1, zswap_same_filled_pages := 1,
    zswap_trees := [(0, [(5, 1)])],
    entries := [(1, { offset := 5, refcount := 1, length := 0, pool := none, handle := 7 })],
    log := [Call.kmem_cache_alloc, Call.btree_insert] }

/-- After `page_sevens` is stored once more at offset 5 of `state_sevens`: entry
2 has taken the place of entry 1. -/
def state_sevens_twice : State :=
  { state_empty with
    zswap_stored_pages := 1, zswap_same_filled_pages := 1, zswap_duplicate_entry := 1,
    zswap_trees := [(0, [(5, 2)])],
    entries := [(2, { offset := 5, refcount := 1, length := 0, pool := none, handle := 7 })],
    log := [Call.kmem_cache_alloc, Call.btree_insert, Call.kmem_cache_alloc,
      Call.kmem_cache_free 1, Call.btree_insert] }

/-- After offset 5 of `state_zero_stored` is invalidated. -/
def state_zero_invalidated : State :=
  { state_no_same_filled with
    zswap_same_filled_pages := -1, zswap_zero_pages := 1,
    zswap_trees := [(0, [])],
    zswap_pools :=
      [(1, { zpool := { type := "zsmalloc", blobs := [] }, tfm_name := "zstd", kref := 2 })],
    log := [Call.kmem_cache_alloc, Call.btree_insert, Call.kmem_cache_free 1] }

/-- The slab and the zpool allocator answer with success, `btree_insert` finds
no memory for its node. -/
def oracle_no_node : Oracle :=
  { kmem_cache_alloc_ok := true, zpool_malloc_ret := 0, btree_insert_ok := false }

/-- After the store of `page_34` at offset 5 of `state_empty` has failed at
`btree_insert`: the entry is gone, its allocation and its pool reference are
not. -/
def state_34_insert_failed : State :=
  { state_empty with
    zswap_reject_alloc_fail := 1,
    zswap_pools :=
      [(1, { zpool := { type := "zsmalloc", blobs := [(1, [3, 4])] }, tfm_name := "zstd",
             kref := 2 })],
    log := [Call.kmem_cache_alloc, Call.crypto_comp_compress, Call.zpool_malloc 2,
      Call.btree_insert, Call.kmem_cache_free 1] }

/-- After the store of `page_sevens` at offset 5 of `state_empty` has failed at
`btree_insert`. -/
def state_sevens_insert_failed : State :=
  { state_empty with
    zswap_reject_alloc_fail := 1, zswap_same_filled_pages := 1,
    log := [Call.kmem_cache_alloc, Call.btree_insert, Call.kmem_cache_free 1] }

/-- After the store of `page_zero` at offset 5 of `state_no_same_filled` has
failed at `btree_insert`. -/
def state_zero_insert_failed : State :=
  { state_no_same_filled with
    zswap_reject_alloc_fail := 1, zswap_zero_pages := 1,
    zswap_pools :=
      [(1, { zpool := { type := "zsmalloc", blobs := [] }, tfm_name := "zstd", kref := 2 })],
    log := [Call.kmem_cache_alloc, Call.btree_insert, Call.kmem_cache_free 1] }

/-- The white space that `strstrip` removes: the space and the characters 9
to 13. -/
def isspace (c : Char) : Bool := c.toNat == 32 || (9 ≤ c.toNat && c.toNat ≤ 13)

/-- A `strstrip`: leading and trailing white space removed. -/
def strstrip_ascii (s : String) : String :=
  String.mk ((s.data.dropWhile isspace).reverse.dropWhile isspace).reverse

/-- A registry that knows the allocators zsmalloc and zbud and the compressors
zstd and lz4; `tfm_name` has 128 bytes. -/
def registry_std : Registry :=
  { zpool_has_pool := fun n => n == "zsmalloc" || n == "zbud"
    crypto_has_comp := fun n => n == "zstd" || n == "lz4"
    strstrip := strstrip_ascii
    CRYPTO_MAX_ALG_NAME := 128 }

/-- Every allocation and call of a parameter callback succeeds. -/
def pool_oracle_ok : PoolOracle :=
  { kzalloc_ok := true, zpool_create_pool_ok := true, alloc_percpu_ok := true,
    cpuhp_state_add_instance_ret := 0, param_set_charp_ret := 0 }

/-- The pool can be created, and `param_set_charp` has no memory for the
string. -/
def pool_oracle_charp_fails : PoolOracle :=
  { pool_oracle_ok with param_set_charp_ret := -ENOMEM }

/-- Every step of `init_zswap` before the pool creation succeeds. -/
def init_oracle_ok : InitOracle :=
  { zswap_entry_cache_create_ret := 0, cpuhp_setup_state_ret := 0,
    cpuhp_setup_state_multi_ret := 0 }

/-- The module before `init_zswap`: the parameters have their compiled-in
values, there is no pool and no tree. -/
def module_boot : Module :=
  { state := { state_empty with zswap_trees := [], zswap_pools := [] }
    zswap_compressor := ZSWAP_COMPRESSOR
    zswap_zpool_type := ZSWAP_ZPOOL_DEFAULT
    zswap_init_started := false
    zswap_init_failed := false
    zswap_pools_count := 0 }

/-- The module before `init_zswap`, after the compressor parameter has been set
to the name nosuch. -/
def module_boot_nosuch : Module :=
  { module_boot with zswap_compressor := "nosuch" }

/-- After `init_zswap` on `module_boot_nosuch`: pool 1 is made from the default
compressor. -/
def module_init_nosuch : Module :=
  { state :=
      { state_empty with
        zswap_trees := [],
        zswap_pools :=
          [(1, { zpool := { type := "zsmalloc", blobs := [] }, tfm_name := "lz4", kref := 1 })] }
    zswap_compressor := "lz4"
    zswap_zpool_type := "zsmalloc"
    zswap_init_started := true
    zswap_init_failed := false
    zswap_pools_count := 1 }

/-- The running module around `state_empty`: pool 1 (zsmalloc, zstd) is
current. -/
def module_running : Module :=
  { state := state_empty
    zswap_compressor := "zstd"
    zswap_zpool_type := "zsmalloc"
    zswap_init_started := true
    zswap_init_failed := false
    zswap_pools_count := 1 }

/-- The running module around `state_stored_34`: pool 1 is current and entry 1
holds a reference to it. -/
def module_running_34 : Module :=
  { module_running with state := state_stored_34 }

/-- After the compressor of `module_running_34` has been set to lz4: the new
pool 2 is current, pool 1 stays for entry 1. -/
def module_switched_34 : Module :=
  { module_running_34 with
    zswap_compressor := "lz4"
    zswap_pools_count := 2
    state :=
      { state_stored_34 with
        zswap_pools :=
          [(2, { zpool := { type := "zsmalloc", blobs := [] }, tfm_name := "lz4", kref := 1 }),
           (1, { zpool := { type := "zsmalloc", blobs := [(1, [3, 4])] }, tfm_name := "zstd",
                 kref := 1 })] } }

/-- Pool 1 of `state_stored_34`: zsmalloc and zstd, one allocation, the
reference of being current and that of entry 1. -/
def pool_zstd_34 : zswap_pool :=
  { zpool := { type := "zsmalloc", blobs := [(1, [3, 4])] }, tfm_name := "zstd", kref := 2 }

/-- One handle: handle 1 for the allocation 1 of `pool_zstd_34`, 2 bytes, with
the checksum 77, linked into the tree and used by one entry. -/
def handles_one : Table zswap_handle :=
  [(1, { rb_linked := true, checksum := 77, ref_count := 1, length := 2, handle := 1 })]

/-- As `handles_one`, after a second entry has taken handle 1. -/
def handles_shared : Table zswap_handle :=
  [(1, { rb_linked := true, checksum := 77, ref_count := 2, length := 2, handle := 1 })]

/-- The tree of handles with the one node of handle 1. -/
def root_one : rb_node := rb_node.node rb_node.NULL 1 rb_node.NULL

/-! ## Lemmas -/

theorem tfind_tput {α : Type} (t : Table α) (k k' : Nat) (v : α) :
    tfind (tput t k v) k' = if k = k' then some v else tfind t k' := by
  induction t with
  | nil => simp [tput, tfind]
  | cons hd rest ih =>
    obtain ⟨a, b⟩ := hd
    by_cases h : a = k
    · subst h
      by_cases h2 : a = k' <;> simp [tput, tfind, h2]
    · by_cases h2 : a = k'
      · subst h2
        simp [tput, tfind, h, Ne.symm h]
      · simp [tput, tfind, h, h2, ih]

theorem tfind_terase {α : Type} (t : Table α) (k k' : Nat) :
    tfind (terase t k) k' = if k = k' then none else tfind t k' := by
  induction t with
  | nil => simp [terase, tfind]
  | cons hd rest ih =>
    obtain ⟨a, b⟩ := hd
    by_cases h : a = k
    · subst h
      by_cases h2 : a = k'
      · subst h2; simpa [terase] using ih
      · simp [terase, tfind, h2, ih]
    · by_cases h2 : a = k'
      · subst h2
        simp [terase, tfind, h, Ne.symm h]
      · simp [terase, tfind, h, h2, ih]

theorem tfind_le_tmax {α : Type} (t : Table α) (k : Nat) (v : α) (h : tfind t k = some v) :
    k ≤ tmax t := by
  induction t with
  | nil => simp [tfind] at h
  | cons hd rest ih =>
    obtain ⟨a, b⟩ := hd
    by_cases h2 : a = k
    · subst h2; simp [tmax]
    · simp [tfind, h2] at h
      have := ih h
      simp [tmax]; omega

theorem tfind_tfresh {α : Type} (t : Table α) : tfind t (tfresh t) = none := by
  cases h : tfind t (tfresh t) with
  | none => rfl
  | some v =>
    have := tfind_le_tmax t _ v h
    simp [tfresh] at this

theorem same_filled_of_fill (P : Nat) (hP : 8 ≤ P) (dst : Page) (v value0 : Nat) :
    zswap_is_page_same_filled P (zswap_fill_page P dst v) value0 = (1, v) := by
  have hn : 0 < P / 8 := by omega
  have key : ∀ pos, pos < P / 8 →
      (List.replicate (P / 8) v ++ dst.drop (P / 8)).getD pos 0 = v := by
    intro pos hpos
    simp [List.getD, List.getElem?_append_left, hpos]
  have hall : (List.range' 1 (P / 8 - 1)).all
      (fun pos => (List.replicate (P / 8) v ++ dst.drop (P / 8)).getD pos 0 ==
        (List.replicate (P / 8) v ++ dst.drop (P / 8)).getD 0 0) = true := by
    rw [List.all_eq_true]
    intro pos hpos
    rw [List.mem_range'_1] at hpos
    rw [key pos (by omega), key 0 hn]
    simp
  unfold zswap_is_page_same_filled zswap_fill_page
  rw [if_pos hall, key 0 hn]

theorem fill_of_same_filled (P : Nat) (hP : 8 ≤ P) (p dst : Page) (v value0 : Nat)
    (hp : p.length = P / 8) (hd : dst.length = P / 8)
    (h : zswap_is_page_same_filled P p value0 = (1, v)) :
    zswap_fill_page P dst v = p := by
  have hn : 0 < P / 8 := by omega
  unfold zswap_is_page_same_filled at h
  split at h
  · rename_i hall
    simp only [Prod.mk.injEq, true_and] at h
    rw [List.all_eq_true] at hall
    unfold zswap_fill_page
    rw [List.drop_of_length_le (by omega), List.append_nil]
    apply List.ext_getElem
    · simp [hp]
    · intro i h1 h2
      simp only [List.getElem_replicate]
      by_cases hi : i = 0
      · subst hi
        rw [← h]
        simp [List.getD, List.getElem?_eq_getElem h2]
      · have := hall i (by rw [List.mem_range'_1]; omega)
        simp [List.getD, List.getElem?_eq_getElem h2,
          List.getElem?_eq_getElem (show 0 < p.length by omega)] at this
        rw [← h]
        simp [List.getD, List.getElem?_eq_getElem (show 0 < p.length by omega), this]
  · simp at h

theorem terase_tput_same {α : Type} (t : Table α) (k : Nat) (v : α) :
    terase (tput t k v) k = terase t k := by
  induction t with
  | nil => simp [tput, terase]
  | cons hd rest ih =>
    obtain ⟨a, b⟩ := hd
    by_cases h : a = k
    · subst h; simp [tput, terase]
    · simp [tput, terase, h, ih]

@[simp] theorem int_dec_one : int_dec 1 = 0 := by decide

/-- Below `INT_MAX` the increment of an `int` is one more. -/
theorem int_inc_of_lt (x : Int) (h : x < 2 ^ 31 - 1) : int_inc x = x + 1 := by
  unfold int_inc
  rw [if_neg (by omega)]

/-- From 1 up the decrement of an `int` is one less. -/
theorem int_dec_of_pos (x : Int) (h : 1 ≤ x) : int_dec x = x - 1 := by
  unfold int_dec
  rw [if_neg (by omega)]

/-- From 1 up the decrement undoes the increment, also at `INT_MAX`. -/
theorem int_dec_int_inc (x : Int) (h : 1 ≤ x) : int_dec (int_inc x) = x := by
  unfold int_inc int_dec
  by_cases hx : x = 2 ^ 31 - 1
  · rw [if_pos hx, if_pos rfl, hx]
  · rw [if_neg hx, if_neg (by omega)]
    omega

/-- On the values of an `int` the increment is the wrap-around of `x + 1`. -/
theorem int_inc_eq_wrap (x : Int) (h : int_range x) : int_inc x = wrap_s32 (x + 1) := by
  unfold int_inc wrap_s32
  unfold int_range at h
  split <;> omega

/-- On the values of an `int` the decrement is the wrap-around of `x - 1`. -/
theorem int_dec_eq_wrap (x : Int) (h : int_range x) : int_dec x = wrap_s32 (x - 1) := by
  unfold int_dec wrap_s32
  unfold int_range at h
  split <;> omega

theorem zswap_entry_put_alive (env : Env) (s : State) (type entry : Nat) (e : zswap_entry)
    (h : tfind s.entries entry = some e) (hr : 1 < e.refcount) :
    zswap_entry_put env s type entry =
      some { s with entries := tput s.entries entry { e with refcount := e.refcount - 1 } } := by
  unfold zswap_entry_put
  have h1 : ¬ (e.refcount - 1 < 0) := by omega
  have h2 : ¬ (e.refcount - 1 = 0) := by omega
  rw [h]
  simp only [Option.some_bind, int_dec_of_pos e.refcount (by omega)]
  rw [if_neg h1, if_neg h2]

theorem zswap_entry_put_last_same (env : Env) (s : State) (type entry : Nat)
    (e : zswap_entry) (tree : zswap_tree)
    (h : tfind s.entries entry = some e) (hr : e.refcount = 1) (hl : e.length = 0)
    (ht : tfind s.zswap_trees type = some tree) :
    zswap_entry_put env s type entry =
      some (zswap_update_total_size env
        { s with
          entries := terase s.entries entry,
          zswap_trees := tput s.zswap_trees type (terase tree e.offset),
          zswap_same_filled_pages := atomic_dec s.zswap_same_filled_pages,
          zswap_stored_pages := atomic_dec s.zswap_stored_pages,
          log := s.log ++ [Call.kmem_cache_free entry] }) := by
  unfold zswap_entry_put
  simp [h, hr, zswap_erase, ht, zswap_free_entry, tfind_tput, hl, zswap_entry_cache_free,
    terase_tput_same]

theorem tput_tput_same {α : Type} (t : Table α) (k : Nat) (v w : α) :
    tput (tput t k v) k w = tput t k w := by
  induction t with
  | nil => simp [tput]
  | cons hd rest ih =>
    obtain ⟨a, b⟩ := hd
    by_cases h : a = k
    · subst h; simp [tput]
    · simp [tput, h, ih]

theorem zswap_entry_put_last_blob (env : Env) (s : State) (type entry pid : Nat)
    (e : zswap_entry) (tree : zswap_tree) (p : zswap_pool)
    (h : tfind s.entries entry = some e) (hr : e.refcount = 1) (hl : e.length ≠ 0)
    (ht : tfind s.zswap_trees type = some tree)
    (hp : e.pool = some pid) (hpp : tfind s.zswap_pools pid = some p) :
    zswap_entry_put env s type entry =
      some (zswap_update_total_size env
        { s with
          entries := terase s.entries entry,
          zswap_trees := tput s.zswap_trees type (terase tree e.offset),
          zswap_pools := pools_after_free s.zswap_pools pid p e.handle,
          zswap_stored_pages := atomic_dec s.zswap_stored_pages,
          log := s.log ++ [Call.zpool_free pid e.handle, Call.kmem_cache_free entry] }) := by
  unfold zswap_entry_put
  by_cases hk : p.kref - 1 = 0
  · simp [h, hr, zswap_erase, ht, zswap_free_entry, tfind_tput, hl, zswap_entry_cache_free,
      terase_tput_same, hp, hpp, zswap_pool_put, hk, pools_after_free]
  · simp [h, hr, zswap_erase, ht, zswap_free_entry, tfind_tput, hl, zswap_entry_cache_free,
      terase_tput_same, hp, hpp, zswap_pool_put, hk, pools_after_free, tput_tput_same]

theorem tput_tfind_same {α : Type} (t : Table α) (k : Nat) (v : α) (h : tfind t k = some v) :
    tput t k v = t := by
  induction t with
  | nil => simp [tfind] at h
  | cons hd rest ih =>
    obtain ⟨a, b⟩ := hd
    by_cases h2 : a = k
    · subst h2
      simp [tfind] at h
      simp [tput, h]
    · simp [tfind, h2] at h
      simp [tput, h2, ih h]

theorem tfind_some_length {α : Type} (t : Table α) (k : Nat) (v : α) (h : tfind t k = some v) :
    1 ≤ t.length := by
  cases t with
  | nil => simp [tfind] at h
  | cons hd rest => simp

/-- What `zswap_entry_put` on another entry leaves alone: a live entry `x` and
an unbound key of the tree. -/
theorem zswap_entry_put_preserves (env : Env) (s s1 : State) (type old x k : Nat)
    (e : zswap_entry) (tree : zswap_tree)
    (hput : zswap_entry_put env s type old = some s1) (hne : old ≠ x)
    (hx : tfind s.entries x = some e)
    (ht : tfind s.zswap_trees type = some tree) (hk : tfind tree k = none) :
    tfind s1.entries x = some e ∧
      ∃ tree1, tfind s1.zswap_trees type = some tree1 ∧ tfind tree1 k = none := by
  unfold zswap_entry_put at hput
  cases ho : tfind s.entries old with
  | none => simp [ho] at hput
  | some oe =>
    simp only [ho, Option.some_bind] at hput
    split at hput
    · simp at hput
    · split at hput
      · simp only [zswap_erase, ht, tfind_tput, Option.some_bind, if_true] at hput
        unfold zswap_free_entry at hput
        simp only [tfind_tput, if_true, Option.some_bind] at hput
        split at hput
        · simp only [Option.some_bind, Option.some.injEq] at hput
          subst hput
          simp [zswap_update_total_size, zswap_entry_cache_free, tfind_terase, tfind_tput, hne,
            hx, hk]
        · cases hpl : oe.pool with
          | none => simp [hpl] at hput
          | some pid =>
            cases hpp : tfind s.zswap_pools pid with
            | none => simp [hpl, hpp] at hput
            | some p =>
              simp only [hpl, hpp, Option.some_bind, zswap_pool_put, tfind_tput, if_true] at hput
              split at hput
              · simp only [Option.some_bind, Option.some.injEq] at hput
                subst hput
                simp [zswap_update_total_size, zswap_entry_cache_free, tfind_terase, tfind_tput,
                  hne, hx, hk]
              · simp only [Option.some_bind, Option.some.injEq] at hput
                subst hput
                simp [zswap_update_total_size, zswap_entry_cache_free, tfind_terase, tfind_tput,
                  hne, hx, hk]
      · simp only [Option.some.injEq] at hput
        subst hput
        simp [tfind_tput, hne, hx, ht, hk]

theorem zswap_insert_or_replace_none (env : Env) (ok : Bool) (s : State) (type entry : Nat)
    (e : zswap_entry) (tree : zswap_tree)
    (he : tfind s.entries entry = some e) (ht : tfind s.zswap_trees type = some tree)
    (hk : tfind tree e.offset = none) :
    zswap_insert_or_replace env ok s type entry =
      some (btree_insert_result ok s type e.offset entry tree) := by
  unfold zswap_insert_or_replace
  simp only [ht, Option.some_bind, zswap_insert_or_replace_loop, he, hk, btree_insert_result]
  split <;> rfl

theorem zswap_insert_or_replace_some (env : Env) (ok : Bool) (s s1 : State)
    (type entry old : Nat) (e : zswap_entry) (tree : zswap_tree)
    (he : tfind s.entries entry = some e) (ht : tfind s.zswap_trees type = some tree)
    (hk : tfind tree e.offset = some old) (hne : old ≠ entry)
    (hput : zswap_entry_put env
      { s with
        zswap_trees := tput s.zswap_trees type (terase tree e.offset),
        zswap_duplicate_entry := u64_inc s.zswap_duplicate_entry } type old = some s1) :
    ∃ tree1, tfind s1.zswap_trees type = some tree1 ∧ tfind tree1 e.offset = none ∧
      tfind s1.entries entry = some e ∧
      zswap_insert_or_replace env ok s type entry =
        some (btree_insert_result ok s1 type e.offset entry tree1) := by
  have hpres := zswap_entry_put_preserves env _ s1 type old entry e.offset e
    (terase tree e.offset) hput hne (by simpa using he) (by simp [tfind_tput])
    (by simp [tfind_terase])
  obtain ⟨he1, tree1, ht1, hk1⟩ := hpres
  refine ⟨tree1, ht1, hk1, he1, ?_⟩
  have hlen := tfind_some_length tree e.offset old hk
  obtain ⟨n, hn⟩ : ∃ n, tree.length = n + 1 := ⟨tree.length - 1, by omega⟩
  unfold zswap_insert_or_replace
  simp only [ht, Option.some_bind, hn, zswap_insert_or_replace_loop, he, hk, hput, ht1, he1, hk1,
    btree_insert_result]
  split <;> rfl

/-- A blob of a pool that keeps a reference survives `zswap_entry_put` on an
entry that does not own it. -/
theorem zswap_entry_put_keeps_blob (env : Env) (s s1 : State) (type old pid h : Nat)
    (oe : zswap_entry) (p : zswap_pool) (buf : List Nat)
    (hput : zswap_entry_put env s type old = some s1)
    (ho : tfind s.entries old = some oe)
    (hp : tfind s.zswap_pools pid = some p) (hb : tfind p.zpool.blobs h = some buf)
    (hk : p.kref ≠ 1) (hh : oe.length ≠ 0 → oe.pool = some pid → oe.handle ≠ h) :
    ∃ p1, tfind s1.zswap_pools pid = some p1 ∧ tfind p1.zpool.blobs h = some buf ∧
      p1.tfm_name = p.tfm_name := by
  unfold zswap_entry_put at hput
  simp only [ho, Option.some_bind] at hput
  split at hput
  · simp at hput
  · split at hput
    · cases ht : tfind s.zswap_trees type with
      | none => simp [zswap_erase, ht] at hput
      | some tree =>
        simp only [zswap_erase, ht, tfind_tput, Option.some_bind, if_true] at hput
        unfold zswap_free_entry at hput
        simp only [tfind_tput, if_true, Option.some_bind] at hput
        split at hput
        · simp only [Option.some_bind, Option.some.injEq] at hput
          subst hput
          exact ⟨p, by simp [zswap_update_total_size, zswap_entry_cache_free, hp], hb, rfl⟩
        · rename_i hl
          cases hpl : oe.pool with
          | none => simp [hpl] at hput
          | some pid1 =>
            cases hpp : tfind s.zswap_pools pid1 with
            | none => simp [hpl, hpp] at hput
            | some p' =>
              simp only [hpl, hpp, Option.some_bind, zswap_pool_put, tfind_tput, if_true] at hput
              by_cases hpid : pid1 = pid
              · subst hpid
                rw [hp] at hpp
                simp only [Option.some.injEq] at hpp
                subst hpp
                have hk1 : ¬ (p.kref - 1 = 0) := by omega
                have hne := hh hl hpl
                simp only [if_neg hk1, Option.some_bind, Option.some.injEq] at hput
                subst hput
                refine ⟨{ p with
                    zpool := { p.zpool with blobs := terase p.zpool.blobs oe.handle },
                    kref := p.kref - 1 },
                  by simp [zswap_update_total_size, zswap_entry_cache_free, tfind_tput], ?_, rfl⟩
                simp [tfind_terase, hne, hb]
              · split at hput
                · simp only [Option.some_bind, Option.some.injEq] at hput
                  subst hput
                  exact ⟨p, by simp [zswap_update_total_size, zswap_entry_cache_free, tfind_terase,
                    tfind_tput, hpid, hp], hb, rfl⟩
                · simp only [Option.some_bind, Option.some.injEq] at hput
                  subst hput
                  exact ⟨p, by simp [zswap_update_total_size, zswap_entry_cache_free, tfind_terase,
                    tfind_tput, hpid, hp], hb, rfl⟩
    · simp only [Option.some.injEq] at hput
      subst hput
      exact ⟨p, hp, hb, rfl⟩

/-- The statistics update keeps the tables. -/
theorem zswap_update_total_size_tables (env : Env) (s : State) :
    (zswap_update_total_size env s).zswap_trees = s.zswap_trees ∧
    (zswap_update_total_size env s).zswap_pools = s.zswap_pools ∧
    (zswap_update_total_size env s).entries = s.entries := by
  simp [zswap_update_total_size]

theorem blob_of_some (s : State) (e : zswap_entry) (x : String × List Nat)
    (h : blob_of s e = some x) :
    ∃ pid p, e.pool = some pid ∧ tfind s.zswap_pools pid = some p ∧
      tfind p.zpool.blobs e.handle = some x.2 ∧ p.tfm_name = x.1 := by
  unfold blob_of at h
  cases hp : e.pool with
  | none => simp [hp] at h
  | some pid =>
    cases hpp : tfind s.zswap_pools pid with
    | none => simp [hp, hpp] at h
    | some p =>
      cases hb : tfind p.zpool.blobs e.handle with
      | none => simp [hp, hpp, hb] at h
      | some src =>
        simp [hp, hpp, hb] at h
        subst h
        exact ⟨pid, p, rfl, hpp, hb, rfl⟩

theorem blob_of_intro (s : State) (e : zswap_entry) (pid : Nat) (p : zswap_pool)
    (src : List Nat) (h1 : e.pool = some pid) (h2 : tfind s.zswap_pools pid = some p)
    (h3 : tfind p.zpool.blobs e.handle = some src) :
    blob_of s e = some (p.tfm_name, src) := by
  simp [blob_of, h1, h2, h3]

/-- The blob of an entry survives `zswap_entry_put` on another entry that does
not own it, when the pool keeps a reference. -/
theorem zswap_entry_put_blob_of (env : Env) (s s1 : State) (type old : Nat)
    (oe e : zswap_entry) (x : String × List Nat)
    (hput : zswap_entry_put env s type old = some s1)
    (ho : tfind s.entries old = some oe)
    (hx : blob_of s e = some x)
    (hk : ∀ pid p, e.pool = some pid → tfind s.zswap_pools pid = some p → p.kref ≠ 1)
    (hh : oe.length ≠ 0 → oe.pool = e.pool → oe.handle ≠ e.handle) :
    blob_of s1 e = some x := by
  obtain ⟨pid, p, h1, h2, h3, h4⟩ := blob_of_some s e x hx
  obtain ⟨p1, h5, h6, h7⟩ := zswap_entry_put_keeps_blob env s s1 type old pid e.handle oe p x.2
    hput ho h2 h3 (hk pid p h1 h2) (fun hl hp => hh hl (by rw [hp, h1]))
  rw [blob_of_intro s1 e pid p1 x.2 h1 h5 h6, h7, h4]

/-- Inserting a prepared entry: when the tail of store from `insert_entry`
returns 0, the entry is bound at its offset with one reference, and its blob is
untouched when the replaced entry does not own it and the pool keeps a
reference. -/
theorem insert_entry_bound (env : Env) (o : Oracle) (s s1 : State) (type entry : Nat)
    (e : zswap_entry)
    (he : tfind s.entries entry = some e) (href : e.refcount = 1)
    (hold : ∀ tree old, tfind s.zswap_trees type = some tree → tfind tree e.offset = some old →
      old ≠ entry ∧ ∃ oe, tfind s.entries old = some oe)
    (hres : zswap_frontswap_store_insert_entry env o s type entry = some (0, s1)) :
    bound_at s1 type e.offset entry e ∧
      (∀ x, blob_of s e = some x →
        (∀ tree old oe, tfind s.zswap_trees type = some tree → tfind tree e.offset = some old →
          tfind s.entries old = some oe → oe.length ≠ 0 → oe.pool = e.pool →
          oe.handle ≠ e.handle) →
        (∀ pid p, e.pool = some pid → tfind s.zswap_pools pid = some p → p.kref ≠ 1) →
        blob_of s1 e = some x) := by
  unfold zswap_frontswap_store_insert_entry at hres
  cases ht : tfind s.zswap_trees type with
  | none => simp [zswap_insert_or_replace, ht] at hres
  | some tree =>
    cases hk : tfind tree e.offset with
    | none =>
      rw [zswap_insert_or_replace_none env _ s type entry e tree he ht hk] at hres
      simp only [Option.some_bind, btree_insert_result] at hres
      cases hok : o.btree_insert_ok with
      | false => simp [hok, ENOMEM] at hres
      | true =>
        simp only [hok, if_true, lt_self_iff_false, if_false, Option.some.injEq,
          Prod.mk.injEq, true_and] at hres
        subst hres
        refine ⟨⟨⟨tput tree e.offset entry, by simp [zswap_update_total_size, tfind_tput],
          by simp [tfind_tput]⟩, by simpa [zswap_update_total_size] using he, rfl, href⟩, ?_⟩
        intro x hx _ _
        simpa [blob_of, zswap_update_total_size] using hx
    | some old =>
      obtain ⟨hne, oe, hoe⟩ := hold tree old ht hk
      cases hput : zswap_entry_put env
          { s with
            zswap_trees := tput s.zswap_trees type (terase tree e.offset),
            zswap_duplicate_entry := u64_inc s.zswap_duplicate_entry } type old with
      | none =>
        have hlen := tfind_some_length tree e.offset old hk
        obtain ⟨n, hn⟩ : ∃ n, tree.length = n + 1 := ⟨tree.length - 1, by omega⟩
        simp [zswap_insert_or_replace, ht, hn, zswap_insert_or_replace_loop, he, hk, hput] at hres
      | some s2 =>
        obtain ⟨tree1, ht1, hk1, he1, heq⟩ :=
          zswap_insert_or_replace_some env o.btree_insert_ok s s2 type entry old e tree he ht hk
            hne hput
        rw [heq] at hres
        simp only [Option.some_bind, btree_insert_result] at hres
        cases hok : o.btree_insert_ok with
        | false => simp [hok, ENOMEM] at hres
        | true =>
          simp only [hok, if_true, lt_self_iff_false, if_false, Option.some.injEq,
            Prod.mk.injEq, true_and] at hres
          subst hres
          refine ⟨⟨⟨tput tree1 e.offset entry, by simp [zswap_update_total_size, tfind_tput],
            by simp [tfind_tput]⟩, by simpa [zswap_update_total_size] using he1, rfl, href⟩, ?_⟩
          intro x hx hoh hkref
          have := zswap_entry_put_blob_of env _ s2 type old oe e x hput (by simpa using hoe)
            (by simpa [blob_of] using hx) (fun pid p h1 h2 => hkref pid p h1 (by simpa using h2))
            (hoh tree old oe rfl hk hoe)
          simpa [blob_of, zswap_update_total_size] using this

theorem zswap_pool_current_get_cases (s : State) :
    zswap_pool_current_get s = (none, s) ∨
    ∃ pid pool rest, s.zswap_pools = (pid, pool) :: rest ∧ pool.kref ≠ 0 ∧
      zswap_pool_current_get s =
        (some pid, { s with zswap_pools := (pid, { pool with kref := pool.kref + 1 }) :: rest }) := by
  unfold zswap_pool_current_get
  cases hp : s.zswap_pools with
  | nil => left; rfl
  | cons hd rest =>
    obtain ⟨pid, pool⟩ := hd
    by_cases hk : pool.kref = 0
    · left; simp [hk]
    · right
      exact ⟨pid, pool, rest, rfl, hk, by simp [hk, tput]⟩

theorem same_filled_ret (P : Nat) (page : Page) (value : Nat)
    (h : (zswap_is_page_same_filled P page value).1 ≠ 0) :
    zswap_is_page_same_filled P page value =
      (1, (zswap_is_page_same_filled P page value).2) := by
  unfold zswap_is_page_same_filled at h ⊢
  split
  · rfl
  · rename_i hc
    rw [if_neg hc] at h
    exact absurd rfl h

theorem tfind_ne_tfresh {α : Type} (t : Table α) (k : Nat) (h : (tfind t k).isSome = true) :
    k ≠ tfresh t := by
  intro hk
  rw [hk, tfind_tfresh] at h
  simp at h

/-- What `slot_ok` gives about the entry bound at the offset. -/
theorem slot_ok_old (s : State) (type offset old : Nat) (tree : zswap_tree)
    (hslot : slot_ok s type offset = true)
    (ht : tfind s.zswap_trees type = some tree) (hk : tfind tree offset = some old) :
    ∃ oe, tfind s.entries old = some oe ∧ old ≠ tfresh s.entries ∧
      (oe.length ≠ 0 → ∃ x, blob_of s oe = some x) := by
  unfold slot_ok entry_ok at hslot
  simp only [ht, hk] at hslot
  cases ho : tfind s.entries old with
  | none => simp [ho] at hslot
  | some oe =>
    refine ⟨oe, rfl, tfind_ne_tfresh _ _ (by simp [ho]), ?_⟩
    intro hl
    simp only [ho, Bool.or_eq_true, beq_iff_eq, hl, false_or] at hslot
    exact Option.isSome_iff_exists.mp hslot

theorem store_entry_ok (env : Env) (o : Oracle) (s s1 : State) (type offset : Nat)
    (page : struct_page) (hslot : slot_ok s type offset = true)
    (hres : zswap_frontswap_store_entry env o s type offset page = some (0, s1)) :
    ∃ e, bound_at s1 type offset (tfresh s.entries) e ∧
      store_entry_shape env s s1 offset page e := by
  have hold_gen := fun tree old ht hk => slot_ok_old s type offset old tree hslot ht hk
  unfold zswap_frontswap_store_entry at hres
  cases hak : o.kmem_cache_alloc_ok with
  | false => simp [hak, ENOMEM] at hres
  | true =>
    simp only [hak, Bool.not_true, Bool.false_eq_true, if_false] at hres
    split at hres
    · rename_i hc
      have hc2 : s.zswap_same_filled_pages_enabled = true ∧
          (zswap_is_page_same_filled env.PAGE_SIZE page.data 0).1 ≠ 0 := by simpa using hc
      obtain ⟨hb, _⟩ := insert_entry_bound env o _ s1 type (tfresh s.entries)
        { offset := offset, refcount := 1, length := 0, pool := none,
          handle := (zswap_is_page_same_filled env.PAGE_SIZE page.data 0).2 }
        (by simp [tfind_tput]) rfl
        (by
          intro tree old ht hk
          obtain ⟨oe, hoe, hne, _⟩ := hold_gen tree old ht hk
          exact ⟨hne, oe, by simp [tfind_tput, Ne.symm hne, hoe]⟩)
        hres
      exact ⟨_, hb, Or.inl ⟨hc2.1, hc2.2, rfl⟩⟩
    · rename_i hc
      have hc2 : ¬ (s.zswap_same_filled_pages_enabled = true ∧
          (zswap_is_page_same_filled env.PAGE_SIZE page.data 0).1 ≠ 0) := by simpa using hc
      unfold zswap_pool_current_get at hres
      cases hp : s.zswap_pools with
      | nil => simp [hp, EINVAL] at hres
      | cons hd rest =>
        obtain ⟨pid, pool⟩ := hd
        simp only [hp] at hres
        by_cases hk : pool.kref = 0
        · simp [hk, EINVAL] at hres
        · simp only [hk, if_false, tput, if_true] at hres
          have hpool : tfind s.zswap_pools pid = some pool := by simp [hp, tfind]
          split at hres
          · rename_i hz
            obtain ⟨hb, _⟩ := insert_entry_bound env o _ s1 type (tfresh s.entries)
              { offset := offset, refcount := 1, length := 0, pool := some pid, handle := 0 }
              (by simp [tfind_tput]) rfl
              (by
                intro tree old ht hk
                obtain ⟨oe, hoe, hne, _⟩ := hold_gen tree old ht hk
                exact ⟨hne, oe, by simp [tfind_tput, Ne.symm hne, hoe]⟩)
              hres
            exact ⟨_, hb, Or.inr ⟨hc2, pid, pool, rest, hp, hk, Or.inl ⟨hz, rfl⟩⟩⟩
          · rename_i hz
            have hz2 : page_zero_filled env.PAGE_SIZE page.data = 0 := by simpa using hz
            unfold zswap_frontswap_store_compress at hres
            simp only [tfind, if_true, Option.some_bind, tfind_tput] at hres
            by_cases hr1 : o.zpool_malloc_ret = -ENOSPC
            · simp only [hr1, if_true, Option.bind_eq_some, Option.some.injEq, Prod.mk.injEq] at hres
              obtain ⟨_, _, h0, _⟩ := hres
              simp [ENOSPC] at h0
            · by_cases hr2 : o.zpool_malloc_ret = 0
              · have hne : ¬ ((0 : Int) = -ENOSPC) := by simp [ENOSPC]
                simp only [hr2, hne, if_false, ne_eq, not_true_eq_false] at hres
                obtain ⟨hb, hblob⟩ := insert_entry_bound env o _ s1 type (tfresh s.entries)
                  { offset := offset, refcount := 1,
                    length := store_dlen env (env.crypto_comp_compress pool.tfm_name page.data),
                    pool := some pid, handle := tfresh pool.zpool.blobs }
                  (by simp [tfind_tput]) rfl
                  (by
                    intro tree old ht hk
                    obtain ⟨oe, hoe, hne, _⟩ := hold_gen tree old ht hk
                    exact ⟨hne, oe, by simp [tfind_tput, Ne.symm hne, hoe]⟩)
                  hres
                refine ⟨_, hb, Or.inr ⟨hc2, pid, pool, rest, hp, hk, Or.inr ⟨hz2, rfl, ?_⟩⟩⟩
                apply hblob
                · simp [blob_of, tput, tfind, tfind_tput]
                · intro tree old oe ht hk1 hoe hol hop
                  obtain ⟨oe', hoe', hne, hbl⟩ := hold_gen tree old ht hk1
                  have hoe2 : tfind s.entries old = some oe := by
                    simpa [tfind_tput, Ne.symm hne] using hoe
                  rw [hoe'] at hoe2
                  simp only [Option.some.injEq] at hoe2
                  subst hoe2
                  obtain ⟨x, hx⟩ := hbl hol
                  obtain ⟨pid', p', h1, h2, h3, _⟩ := blob_of_some s oe' x hx
                  simp only at hop
                  rw [hop] at h1
                  simp only [Option.some.injEq] at h1
                  subst h1
                  rw [hpool] at h2
                  simp only [Option.some.injEq] at h2
                  subst h2
                  exact tfind_ne_tfresh _ _ (by simp [h3])
                · intro pid1 p h1 h2
                  simp only [Option.some.injEq] at h1
                  subst h1
                  simp only [tput, if_true, tfind, Option.some.injEq] at h2
                  subst h2
                  simp only
                  omega
              · simp only [hr1, hr2, if_false, ne_eq, not_false_eq_true, if_true,
                  Option.bind_eq_some, Option.some.injEq, Prod.mk.injEq] at hres
                obtain ⟨_, _, h0, _⟩ := hres
                exact h0.elim

theorem zswap_shrink_ret (s : State) : (zswap_shrink s).1 = -EINVAL := rfl

/-- A store that returns 0 passed every gate and ran the part from `allocate
entry` on, from the same state. -/
theorem store_ok_entry (env : Env) (o : Oracle) (s s1 : State) (type offset : Nat)
    (page : struct_page)
    (h : zswap_frontswap_store env o s type offset page = some (0, s1)) :
    page.PageTransHuge = false ∧ s.zswap_enabled = true ∧
      (∃ tree, tfind s.zswap_trees type = some tree) ∧ page.PageError = false ∧
      zswap_is_full env s = false ∧
      zswap_frontswap_store_entry env o s type offset page = some (0, s1) := by
  unfold zswap_frontswap_store at h
  split at h
  · simp [EINVAL] at h
  · rename_i h1
    split at h
    · simp [ENODEV] at h
    · rename_i h2
      split at h
      · simp [ENOMEM] at h
      · rename_i h3
        split at h
        · simp [zswap_shrink, EINVAL, ENOMEM] at h
        · rename_i h4
          simp only [Bool.or_eq_true, Bool.not_eq_true', Option.isNone_iff_eq_none, not_or,
            Bool.not_eq_false] at h2
          refine ⟨by simpa using h1, h2.1, ?_, by simpa using h3, by simpa using h4, h⟩
          cases ht : tfind s.zswap_trees type with
          | none => exact absurd ht h2.2
          | some tree => exact ⟨tree, rfl⟩

theorem fill_of_zero_filled (P : Nat) (p dst : Page)
    (hp : p.length = P / 8) (hd : dst.length = P / 8)
    (h : page_zero_filled P p ≠ 0) :
    zswap_fill_page P dst 0 = p := by
  unfold page_zero_filled at h
  split at h
  · rename_i hall
    rw [List.all_eq_true] at hall
    unfold zswap_fill_page
    rw [List.drop_of_length_le (by omega), List.append_nil]
    apply List.ext_getElem
    · simp [hp]
    · intro i h1 h2
      simp only [List.getElem_replicate]
      have := hall i (by rw [List.mem_range]; omega)
      simp [List.getD, List.getElem?_eq_getElem h2] at this
      exact this.symm
  · simp at h

/-- The entry a successful store creates holds the page that was stored, when
the length of a blob on the compressed path is not 0. -/
theorem shape_holds_page (env : Env) (s s1 : State) (offset : Nat) (page : struct_page)
    (e : zswap_entry) (hP : 8 ≤ env.PAGE_SIZE) (hlen : page.data.length = env.PAGE_SIZE / 8)
    (hinv : decompress_inverts_compress env)
    (hnz : ¬ (s.zswap_same_filled_pages_enabled = true ∧
        (zswap_is_page_same_filled env.PAGE_SIZE page.data 0).1 ≠ 0) →
      page_zero_filled env.PAGE_SIZE page.data = 0 →
      ∀ tfm : String, store_dlen env (env.crypto_comp_compress tfm page.data) ≠ 0)
    (hsh : store_entry_shape env s s1 offset page e) :
    holds_page env s1 e page.data := by
  rcases hsh with ⟨_, hsame, he⟩ | ⟨hns, pid, pool, rest, _, _, ⟨hz, he⟩ | ⟨hz0, he, hblob⟩⟩
  · subst he
    unfold holds_page
    simp only [if_true]
    intro dst hd
    exact fill_of_same_filled env.PAGE_SIZE hP page.data dst _ 0 hlen hd
      (same_filled_ret env.PAGE_SIZE page.data 0 hsame)
  · subst he
    unfold holds_page
    simp only [if_true]
    intro dst hd
    exact fill_of_zero_filled env.PAGE_SIZE page.data dst hlen hd hz
  · have hd0 := hnz hns hz0 pool.tfm_name
    have hel : e.length = store_dlen env (env.crypto_comp_compress pool.tfm_name page.data) := by
      rw [he]
    unfold holds_page
    rw [if_neg (by rw [hel]; exact hd0)]
    refine ⟨_, _, hblob, ?_⟩
    rw [hel]
    by_cases hd : store_dlen env (env.crypto_comp_compress pool.tfm_name page.data) = env.PAGE_SIZE
    · rw [if_pos hd]
      simp [store_buf, hd]
    · rw [if_neg hd]
      intro dst
      have hc : ¬ ((env.crypto_comp_compress pool.tfm_name page.data).1 ≠ 0 ∨
          (env.crypto_comp_compress pool.tfm_name page.data).2.1 > env.PAGE_SIZE) := by
        intro hc
        apply hd
        simp [store_dlen, hc]
      have hdl : store_dlen env (env.crypto_comp_compress pool.tfm_name page.data) =
          (env.crypto_comp_compress pool.tfm_name page.data).2.1 := by
        simp [store_dlen, hc]
      have hc1 : (env.crypto_comp_compress pool.tfm_name page.data).1 = 0 := by
        by_contra h0
        exact hc (Or.inl h0)
      have hb : store_buf env (env.crypto_comp_compress pool.tfm_name page.data) page.data =
          (env.crypto_comp_compress pool.tfm_name page.data).2.2.take
            (env.crypto_comp_compress pool.tfm_name page.data).2.1 := by
        unfold store_buf
        rw [if_neg hd, hdl]
      rw [hb, hdl]
      exact hinv pool.tfm_name page.data dst hlen hc1

/-- Taking a reference and dropping it again leaves the state as it was. -/
theorem zswap_entry_get_put (env : Env) (s : State) (type entry : Nat) (e : zswap_entry)
    (he : tfind s.entries entry = some e) (hr : 1 ≤ e.refcount) :
    zswap_entry_put env
      { s with entries := tput s.entries entry { e with refcount := int_inc e.refcount } }
      type entry = some s := by
  unfold zswap_entry_put
  simp only [tfind_tput, if_true, Option.some_bind, int_dec_int_inc e.refcount hr]
  rw [if_neg (by omega), if_neg (by omega)]
  simp only [tput_tput_same]
  rw [tput_tfind_same s.entries entry e he]

/-- Load of an offset bound to an entry that holds `data`: returns 0, writes
`data`, and changes nothing but the log of decompressor calls. -/
theorem load_of_bound (env : Env) (s : State) (type offset entry : Nat) (e : zswap_entry)
    (data dst : Page) (hb : bound_at s type offset entry e) (hh : holds_page env s e data)
    (hd : dst.length = env.PAGE_SIZE / 8) :
    zswap_frontswap_load env s type offset dst =
      some (0, data,
        { s with log := s.log ++
            (if e.length = 0 ∨ e.length = env.PAGE_SIZE then []
             else [Call.crypto_comp_decompress]) }) := by
  obtain ⟨⟨tree, ht, hk⟩, he, _, hr⟩ := hb
  unfold zswap_frontswap_load zswap_entry_find_get zswap_search zswap_entry_get
  simp only [ht, hk, he, Option.some_bind, tfind_tput, if_true]
  unfold holds_page at hh
  have hput := zswap_entry_get_put env s type entry e he (by omega)
  have hput2 := zswap_entry_get_put env
    { s with log := s.log ++ [Call.crypto_comp_decompress] } type entry e he (by omega)
  simp only at hput hput2
  generalize ({ s with
    entries := tput s.entries entry { e with refcount := int_inc e.refcount } } :
    State) = sg at hput ⊢
  generalize ({ s with
    entries := tput s.entries entry { e with refcount := int_inc e.refcount },
    log := s.log ++ [Call.crypto_comp_decompress] } : State) = sg2 at hput2 ⊢
  by_cases hl : e.length = 0
  · rw [if_pos hl] at hh
    rw [if_pos hl, if_pos (Or.inl hl), hput]
    simp [hh dst hd]
  · rw [if_neg hl] at hh
    obtain ⟨tfm, src, hblob, hcont⟩ := hh
    obtain ⟨pid, p, h1, h2, h3, h4⟩ := blob_of_some s e _ hblob
    simp only at h3 h4
    rw [if_neg hl]
    simp only [h1, h2, h3, Option.some_bind]
    by_cases hp : e.length = env.PAGE_SIZE
    · rw [if_pos hp] at hcont
      rw [if_pos hp, if_pos (Or.inr hp), hput]
      simp [hcont]
    · rw [if_neg hp] at hcont
      subst h4
      rw [if_neg hp, if_neg (show ¬ (e.length = 0 ∨ e.length = env.PAGE_SIZE) by simp [hl, hp]),
        (hcont dst).1]
      simp only [ne_eq, not_true_eq_false, if_false]
      rw [hput2]
      simp [(hcont dst).2]

theorem env_4k_inverts : decompress_inverts_compress env_4k := by
  intro tfm p dst hp hc
  simp only [env_4k, toy_compress] at hp hc ⊢
  split at hc
  · rename_i h
    rw [if_pos h]
    simp only [toy_decompress, List.take_take, true_and]
    have h2 : (List.take (min 2 2) p).length = 2 := by simp [hp]
    rw [h2, show min 2 2 = 2 from rfl]
    have h3 : p.length - 2 = 512 - 2 := by omega
    rw [h3] at h
    rw [← h.1, List.take_append_drop]
  · simp at hc

/-- Dropping the last reference: the entry is freed, `stored_pages` goes down
by one, and the key `entry->offset` is erased from the tree. -/
theorem zswap_entry_put_last (env : Env) (s : State) (type entry : Nat) (e : zswap_entry)
    (tree : zswap_tree)
    (he : tfind s.entries entry = some e) (hr : e.refcount = 1)
    (ht : tfind s.zswap_trees type = some tree)
    (hblob : e.length ≠ 0 → ∃ x, blob_of s e = some x) :
    ∃ s1, zswap_entry_put env s type entry = some s1 ∧ tfind s1.entries entry = none ∧
      s1.zswap_stored_pages = atomic_dec s.zswap_stored_pages ∧
      s1.zswap_trees = tput s.zswap_trees type (terase tree e.offset) ∧
      (∀ x, x ≠ entry → tfind s1.entries x = tfind s.entries x) := by
  by_cases hl : e.length = 0
  · refine ⟨_, zswap_entry_put_last_same env s type entry e tree he hr hl ht, ?_, rfl, rfl, ?_⟩
    · simp [zswap_update_total_size, tfind_terase]
    · intro x hx
      simp [zswap_update_total_size, tfind_terase, Ne.symm hx]
  · obtain ⟨x, hx⟩ := hblob hl
    obtain ⟨pid, p, h1, h2, _, _⟩ := blob_of_some s e x hx
    refine ⟨_, zswap_entry_put_last_blob env s type entry pid e tree p he hr hl ht h1 h2, ?_, rfl,
      rfl, ?_⟩
    · simp [zswap_update_total_size, tfind_terase]
    · intro x hx
      simp [zswap_update_total_size, tfind_terase, Ne.symm hx]

/-- Invalidating an offset bound to an entry with one reference frees it. -/
theorem invalidate_bound (env : Env) (s : State) (type offset entry : Nat) (e : zswap_entry)
    (hb : bound_at s type offset entry e)
    (hblob : e.length ≠ 0 → ∃ x, blob_of s e = some x) :
    ∃ s1, zswap_frontswap_invalidate_page env s type offset = some s1 ∧
      zswap_search s1 type offset = some none ∧ tfind s1.entries entry = none ∧
      s1.zswap_stored_pages = atomic_dec s.zswap_stored_pages := by
  obtain ⟨⟨tree, ht, hk⟩, he, hoff, hr⟩ := hb
  obtain ⟨s1, hput, hfree, hst, htr, _⟩ := zswap_entry_put_last env
    { s with zswap_trees := tput s.zswap_trees type (terase tree e.offset) } type entry e
    (terase tree e.offset) he hr (by simp [tfind_tput]) (by simpa [blob_of] using hblob)
  refine ⟨s1, ?_, ?_, hfree, hst⟩
  · unfold zswap_frontswap_invalidate_page zswap_search zswap_erase
    simp only [ht, hk, he, Option.some_bind]
    exact hput
  · unfold zswap_search
    rw [htr]
    simp [tfind_tput, tfind_terase, hoff]

theorem load_not_found (env : Env) (s : State) (type offset : Nat) (dst : Page)
    (h : zswap_search s type offset = some none) :
    zswap_frontswap_load env s type offset dst = some (-1, dst, s) := by
  unfold zswap_frontswap_load zswap_entry_find_get
  simp [h]

theorem invalidate_absent (env : Env) (s : State) (type offset : Nat)
    (h : zswap_search s type offset = some none) :
    zswap_frontswap_invalidate_page env s type offset = some s := by
  unfold zswap_frontswap_invalidate_page
  simp [h]

theorem shape_blob (env : Env) (s s1 : State) (offset : Nat) (page : struct_page)
    (e : zswap_entry) (hsh : store_entry_shape env s s1 offset page e) :
    e.length ≠ 0 → ∃ x, blob_of s1 e = some x := by
  rcases hsh with ⟨_, _, he⟩ | ⟨_, pid, pool, rest, _, _, ⟨_, he⟩ | ⟨_, _, hblob⟩⟩
  · subst he; intro h; exact absurd rfl h
  · subst he; intro h; exact absurd rfl h
  · intro _; exact ⟨_, hblob⟩

/-- While holders remain, `k` releases only lower the reference count by `k`. -/
theorem zswap_entry_put_n_alive (env : Env) (type entry : Nat) :
    ∀ (k : Nat) (s : State) (e : zswap_entry), tfind s.entries entry = some e →
      (k : Int) < e.refcount →
      zswap_entry_put_n env k s type entry =
        some { s with entries := tput s.entries entry { e with refcount := e.refcount - k } } := by
  intro k
  induction k with
  | zero =>
    intro s e he _
    simp only [zswap_entry_put_n, Nat.cast_zero, sub_zero]
    rw [tput_tfind_same s.entries entry e he]
  | succ k ih =>
    intro s e he hk
    have hk2 : (k : Int) < e.refcount - 1 := by push_cast at hk; omega
    have h1 : 1 < e.refcount := by omega
    simp only [zswap_entry_put_n]
    rw [zswap_entry_put_alive env s type entry e he h1]
    simp only [Option.some_bind]
    rw [ih _ { e with refcount := e.refcount - 1 } (by simp [tfind_tput]) hk2]
    simp only [tput_tput_same]
    have h2 : e.refcount - 1 - (k : Int) = e.refcount - ((k + 1 : Nat) : Int) := by
      push_cast; omega
    rw [h2]

theorem zswap_entry_put_n_succ (env : Env) (type entry : Nat) :
    ∀ (k : Nat) (s : State),
      zswap_entry_put_n env (k + 1) s type entry =
        (zswap_entry_put_n env k s type entry).bind fun s1 => zswap_entry_put env s1 type entry := by
  intro k
  induction k with
  | zero =>
    intro s
    simp only [zswap_entry_put_n, Option.some_bind]
    cases zswap_entry_put env s type entry <;> simp
  | succ k ih =>
    intro s
    rw [zswap_entry_put_n]
    cases h : zswap_entry_put env s type entry with
    | none => simp [zswap_entry_put_n, h]
    | some s1 =>
      simp only [Option.some_bind]
      rw [ih s1]
      simp [zswap_entry_put_n, h]

/-- A successful store reaches the label `insert_entry` in a state `S` that
differs from `s` in the new entry, the pools (`store_pools`), counters other
than `stored_pages`, and the log. -/
theorem store_entry_insert (env : Env) (o : Oracle) (s s1 : State) (type offset : Nat)
    (page : struct_page)
    (hres : zswap_frontswap_store_entry env o s type offset page = some (0, s1)) :
    ∃ S e, zswap_frontswap_store_insert_entry env o S type (tfresh s.entries) = some (0, s1) ∧
      tfind S.entries (tfresh s.entries) = some e ∧ e.offset = offset ∧ e.refcount = 1 ∧
      S.zswap_trees = s.zswap_trees ∧
      (∀ x, x ≠ tfresh s.entries → tfind S.entries x = tfind s.entries x) ∧
      S.zswap_stored_pages = s.zswap_stored_pages ∧ store_pools s S e := by
  unfold zswap_frontswap_store_entry at hres
  cases hak : o.kmem_cache_alloc_ok with
  | false => simp [hak, ENOMEM] at hres
  | true =>
    simp only [hak, Bool.not_true, Bool.false_eq_true, if_false] at hres
    split at hres
    · exact ⟨_, ⟨offset, 1, 0, none, (zswap_is_page_same_filled env.PAGE_SIZE page.data 0).2⟩,
        hres, by simp [tfind_tput], rfl, rfl, rfl,
        fun x hx => by simp [tfind_tput, Ne.symm hx], rfl, Or.inl ⟨rfl, rfl⟩⟩
    · unfold zswap_pool_current_get at hres
      cases hp : s.zswap_pools with
      | nil => simp [hp, EINVAL] at hres
      | cons hd rest =>
        obtain ⟨pid, pool⟩ := hd
        simp only [hp] at hres
        by_cases hk : pool.kref = 0
        · simp [hk, EINVAL] at hres
        · simp only [hk, if_false, tput, if_true] at hres
          split at hres
          · exact ⟨_, ⟨offset, 1, 0, some pid, 0⟩,
              hres, by simp [tfind_tput], rfl, rfl, rfl,
              fun x hx => by simp [tfind_tput, Ne.symm hx], rfl,
              Or.inr ⟨pid, pool, rest, hp, hk, rfl, Or.inl rfl⟩⟩
          · unfold zswap_frontswap_store_compress at hres
            simp only [tfind, if_true, Option.some_bind, tfind_tput] at hres
            by_cases hr1 : o.zpool_malloc_ret = -ENOSPC
            · simp only [hr1, if_true, Option.bind_eq_some, Option.some.injEq,
                Prod.mk.injEq] at hres
              obtain ⟨_, _, h0, _⟩ := hres
              simp [ENOSPC] at h0
            · by_cases hr2 : o.zpool_malloc_ret = 0
              · have hne : ¬ ((0 : Int) = -ENOSPC) := by simp [ENOSPC]
                simp only [hr2, hne, if_false, ne_eq, not_true_eq_false] at hres
                exact ⟨_, ⟨offset, 1,
                    store_dlen env (env.crypto_comp_compress pool.tfm_name page.data),
                    some pid, tfresh pool.zpool.blobs⟩,
                  hres, by simp [tfind_tput], rfl, rfl, rfl,
                  fun x hx => by simp [tfind_tput, Ne.symm hx], rfl,
                  Or.inr ⟨pid, pool, rest, hp, hk, rfl,
                    Or.inr ⟨store_buf env (env.crypto_comp_compress pool.tfm_name page.data)
                      page.data, by simp [tput], rfl⟩⟩⟩
              · simp only [hr1, hr2, if_false, ne_eq, not_false_eq_true, if_true,
                  Option.bind_eq_some, Option.some.injEq, Prod.mk.injEq] at hres
                obtain ⟨_, _, h0, _⟩ := hres
                exact h0.elim

/-- What a `zswap_entry_put` that drops the last reference and returns has
done. -/
theorem zswap_entry_put_last_inv (env : Env) (s s1 : State) (type entry : Nat)
    (e : zswap_entry) (tree : zswap_tree)
    (he : tfind s.entries entry = some e) (hr : e.refcount = 1)
    (ht : tfind s.zswap_trees type = some tree)
    (hput : zswap_entry_put env s type entry = some s1) :
    tfind s1.entries entry = none ∧
      s1.zswap_stored_pages = atomic_dec s.zswap_stored_pages ∧
      (e.length = 0 → s1.zswap_pools = s.zswap_pools) ∧
      (e.length ≠ 0 → ∃ pid p, e.pool = some pid ∧ tfind s.zswap_pools pid = some p ∧
        s1.zswap_pools = pools_after_free s.zswap_pools pid p e.handle) := by
  by_cases hl : e.length = 0
  · rw [zswap_entry_put_last_same env s type entry e tree he hr hl ht] at hput
    simp only [Option.some.injEq] at hput
    subst hput
    exact ⟨by simp [zswap_update_total_size, tfind_terase], rfl, fun _ => rfl,
      fun h => absurd hl h⟩
  · cases hp : e.pool with
    | none =>
      unfold zswap_entry_put at hput
      simp [he, hr, zswap_erase, ht, zswap_free_entry, tfind_tput, hl, hp] at hput
    | some pid =>
      cases hpp : tfind s.zswap_pools pid with
      | none =>
        unfold zswap_entry_put at hput
        simp [he, hr, zswap_erase, ht, zswap_free_entry, tfind_tput, hl, hp, hpp] at hput
      | some p =>
        rw [zswap_entry_put_last_blob env s type entry pid e tree p he hr hl ht hp hpp] at hput
        simp only [Option.some.injEq] at hput
        subst hput
        exact ⟨by simp [zswap_update_total_size, tfind_terase], rfl, fun h => absurd h hl,
          fun _ => ⟨pid, p, rfl, hpp, rfl⟩⟩

/-- A store that returns 0 over an entry with one reference has freed that
entry. -/
theorem insert_entry_replaces (env : Env) (o : Oracle) (S s2 : State)
    (type entry old : Nat) (e oe : zswap_entry) (tree : zswap_tree)
    (he : tfind S.entries entry = some e) (ht : tfind S.zswap_trees type = some tree)
    (hk : tfind tree e.offset = some old) (hne : old ≠ entry)
    (hoe : tfind S.entries old = some oe) (hr : oe.refcount = 1)
    (hres : zswap_frontswap_store_insert_entry env o S type entry = some (0, s2)) :
    tfind s2.entries old = none ∧
      s2.zswap_stored_pages = atomic_inc (atomic_dec S.zswap_stored_pages) ∧
      (oe.length = 0 → s2.zswap_pools = S.zswap_pools) ∧
      (oe.length ≠ 0 → ∃ pid p, oe.pool = some pid ∧ tfind S.zswap_pools pid = some p ∧
        s2.zswap_pools = pools_after_free S.zswap_pools pid p oe.handle) := by
  unfold zswap_frontswap_store_insert_entry at hres
  cases hput : zswap_entry_put env
      { S with
        zswap_trees := tput S.zswap_trees type (terase tree e.offset),
        zswap_duplicate_entry := u64_inc S.zswap_duplicate_entry } type old with
  | none =>
    have hlen := tfind_some_length tree e.offset old hk
    obtain ⟨n, hn⟩ : ∃ n, tree.length = n + 1 := ⟨tree.length - 1, by omega⟩
    simp [zswap_insert_or_replace, ht, hn, zswap_insert_or_replace_loop, he, hk, hput] at hres
  | some s1 =>
    obtain ⟨tree1, ht1, hk1, he1, heq⟩ :=
      zswap_insert_or_replace_some env o.btree_insert_ok S s1 type entry old e tree he ht hk
        hne hput
    obtain ⟨h1, h2, h3, h4⟩ := zswap_entry_put_last_inv env _ s1 type old oe
      (terase tree e.offset) (by simpa using hoe) hr (by simp [tfind_tput]) hput
    rw [heq] at hres
    simp only [Option.some_bind, btree_insert_result] at hres
    cases hok : o.btree_insert_ok with
    | false => simp [hok, ENOMEM] at hres
    | true =>
      simp only [hok, if_true, lt_self_iff_false, if_false, Option.some.injEq,
        Prod.mk.injEq, true_and] at hres
      subst hres
      refine ⟨by simpa [zswap_update_total_size] using h1, ?_, ?_, ?_⟩
      · simp only [zswap_update_total_size]
        rw [h2]
      · intro hl
        simpa [zswap_update_total_size] using h3 hl
      · intro hl
        obtain ⟨pid, p, h5, h6, h7⟩ := h4 hl
        exact ⟨pid, p, h5, by simpa using h6, by simpa [zswap_update_total_size] using h7⟩

theorem atomic_inc_dec_inc (x : Int) : atomic_inc (atomic_dec (atomic_inc x)) = atomic_inc x := by
  unfold atomic_inc atomic_dec wrap_s32
  omega

theorem tfind_pools_after_free (pools : Table zswap_pool) (pid : Nat) (p : zswap_pool)
    (h : Nat) :
    tfind (pools_after_free pools pid p h) pid =
      if p.kref - 1 = 0 then none
      else some { p with
        zpool := { p.zpool with blobs := terase p.zpool.blobs h }, kref := p.kref - 1 } := by
  unfold pools_after_free
  split
  · simp [tfind_terase]
  · simp [tfind_tput]

theorem slot_ok_of_bound (s : State) (type offset entry : Nat) (e : zswap_entry)
    (hb : bound_at s type offset entry e)
    (hblob : e.length ≠ 0 → ∃ x, blob_of s e = some x) :
    slot_ok s type offset = true := by
  obtain ⟨⟨tree, ht, hk⟩, he, _, _⟩ := hb
  unfold slot_ok entry_ok
  simp only [ht, hk, he, Bool.or_eq_true, beq_iff_eq]
  by_cases hl : e.length = 0
  · exact Or.inl hl
  · obtain ⟨x, hx⟩ := hblob hl
    exact Or.inr (by simp [hx])

/-- Storing at an unbound offset raises `stored_pages` by one. -/
theorem insert_entry_fresh (env : Env) (o : Oracle) (S s1 : State) (type entry : Nat)
    (e : zswap_entry) (tree : zswap_tree)
    (he : tfind S.entries entry = some e) (ht : tfind S.zswap_trees type = some tree)
    (hk : tfind tree e.offset = none)
    (hres : zswap_frontswap_store_insert_entry env o S type entry = some (0, s1)) :
    s1.zswap_stored_pages = atomic_inc S.zswap_stored_pages := by
  unfold zswap_frontswap_store_insert_entry at hres
  rw [zswap_insert_or_replace_none env _ S type entry e tree he ht hk] at hres
  simp only [Option.some_bind, btree_insert_result] at hres
  cases hok : o.btree_insert_ok with
  | false => simp [hok, ENOMEM] at hres
  | true =>
    simp only [hok, if_true, lt_self_iff_false, if_false, Option.some.injEq,
      Prod.mk.injEq, true_and] at hres
    subst hres
    simp [zswap_update_total_size]

theorem terase_of_tfind_none {α : Type} (t : Table α) (k : Nat) (h : tfind t k = none) :
    terase t k = t := by
  induction t with
  | nil => rfl
  | cons hd rest ih =>
    obtain ⟨a, b⟩ := hd
    by_cases hab : a = k
    · simp [tfind, hab] at h
    · simp only [tfind, hab, if_false] at h
      simp [terase, hab, ih h]

/-- What `slot_live` gives about the entry bound at the offset. -/
theorem slot_live_old (s : State) (type offset old : Nat) (tree : zswap_tree)
    (hslot : slot_live s type offset = true)
    (ht : tfind s.zswap_trees type = some tree) (hk : tfind tree offset = some old) :
    ∃ oe, tfind s.entries old = some oe ∧ 1 ≤ oe.refcount ∧
      (oe.length ≠ 0 → ∃ x, blob_of s oe = some x) := by
  unfold slot_live at hslot
  simp only [ht, hk, entry_live] at hslot
  cases he : tfind s.entries old with
  | none => simp [he] at hslot
  | some oe =>
    simp only [he, Bool.and_eq_true, decide_eq_true_eq, Bool.or_eq_true, beq_iff_eq] at hslot
    refine ⟨oe, rfl, hslot.1, fun hl => ?_⟩
    rcases hslot.2 with h | h
    · exact absurd h hl
    · exact Option.isSome_iff_exists.mp h

theorem slot_ok_of_slot_live (s : State) (type offset : Nat)
    (hslot : slot_live s type offset = true) : slot_ok s type offset = true := by
  cases ht : tfind s.zswap_trees type with
  | none => simp [slot_ok, ht]
  | some tree =>
    cases hk : tfind tree offset with
    | none => simp [slot_ok, ht, hk]
    | some old =>
      obtain ⟨oe, he, _, hb⟩ := slot_live_old s type offset old tree hslot ht hk
      simp only [slot_ok, ht, hk, entry_ok, he, Bool.or_eq_true, beq_iff_eq]
      by_cases hl : oe.length = 0
      · exact Or.inl hl
      · obtain ⟨x, hx⟩ := hb hl
        exact Or.inr (by rw [hx]; rfl)

/-- The three ways `zswap_entry_put` ends on a live entry with a reference to
drop: other holders remain; the last reference of a same-value entry; the last
reference of an entry with a blob. -/
theorem zswap_entry_put_cases (env : Env) (s : State) (type entry : Nat) (e : zswap_entry)
    (tree : zswap_tree)
    (he : tfind s.entries entry = some e) (hr : 1 ≤ e.refcount)
    (ht : tfind s.zswap_trees type = some tree)
    (hpool : e.length ≠ 0 → ∃ pid p, e.pool = some pid ∧ tfind s.zswap_pools pid = some p) :
    (1 < e.refcount ∧
      zswap_entry_put env s type entry =
        some { s with entries := tput s.entries entry { e with refcount := e.refcount - 1 } }) ∨
    (e.refcount = 1 ∧ e.length = 0 ∧
      zswap_entry_put env s type entry =
        some (zswap_update_total_size env
          { s with
            entries := terase s.entries entry,
            zswap_trees := tput s.zswap_trees type (terase tree e.offset),
            zswap_same_filled_pages := atomic_dec s.zswap_same_filled_pages,
            zswap_stored_pages := atomic_dec s.zswap_stored_pages,
            log := s.log ++ [Call.kmem_cache_free entry] })) ∨
    (e.refcount = 1 ∧ e.length ≠ 0 ∧ ∃ pid p, e.pool = some pid ∧
      tfind s.zswap_pools pid = some p ∧
      zswap_entry_put env s type entry =
        some (zswap_update_total_size env
          { s with
            entries := terase s.entries entry,
            zswap_trees := tput s.zswap_trees type (terase tree e.offset),
            zswap_pools := pools_after_free s.zswap_pools pid p e.handle,
            zswap_stored_pages := atomic_dec s.zswap_stored_pages,
            log := s.log ++ [Call.zpool_free pid e.handle, Call.kmem_cache_free entry] })) := by
  by_cases h1 : 1 < e.refcount
  · exact Or.inl ⟨h1, zswap_entry_put_alive env s type entry e he h1⟩
  · have hr1 : e.refcount = 1 := by omega
    by_cases hl : e.length = 0
    · exact Or.inr (Or.inl ⟨hr1, hl, zswap_entry_put_last_same env s type entry e tree he hr1 hl ht⟩)
    · obtain ⟨pid, p, hp, hpp⟩ := hpool hl
      exact Or.inr (Or.inr ⟨hr1, hl, pid, p, hp, hpp,
        zswap_entry_put_last_blob env s type entry pid e tree p he hr1 hl ht hp hpp⟩)

/-- The tail of store from `insert_entry` when the offset is unbound. -/
theorem insert_entry_none (env : Env) (o : Oracle) (S : State) (type entry : Nat)
    (e : zswap_entry) (tree : zswap_tree)
    (he : tfind S.entries entry = some e) (ht : tfind S.zswap_trees type = some tree)
    (hk : tfind tree e.offset = none) :
    zswap_frontswap_store_insert_entry env o S type entry =
      some (insert_finish env o S type entry e.offset tree) := by
  unfold zswap_frontswap_store_insert_entry
  rw [zswap_insert_or_replace_none env o.btree_insert_ok S type entry e tree he ht hk]
  unfold btree_insert_result insert_finish
  cases o.btree_insert_ok <;> simp [ENOMEM, zswap_entry_cache_free]

/-- The tail of store from `insert_entry` when the offset is bound to `old`:
`old` leaves the tree, loses the tree's reference, and the new entry is
inserted in the state `zswap_entry_put` leaves. -/
theorem insert_entry_some (env : Env) (o : Oracle) (S : State) (type entry old : Nat)
    (e oe : zswap_entry) (tree : zswap_tree)
    (he : tfind S.entries entry = some e) (ht : tfind S.zswap_trees type = some tree)
    (hk : tfind tree e.offset = some old) (hne : old ≠ entry)
    (hoe : tfind S.entries old = some oe) (hr : 1 ≤ oe.refcount)
    (hpool : oe.length ≠ 0 → ∃ pid p, oe.pool = some pid ∧ tfind S.zswap_pools pid = some p) :
    ∃ s1 tree1,
      zswap_entry_put env
        { S with
          zswap_trees := tput S.zswap_trees type (terase tree e.offset),
          zswap_duplicate_entry := u64_inc S.zswap_duplicate_entry } type old = some s1 ∧
      tfind s1.zswap_trees type = some tree1 ∧ tfind tree1 e.offset = none ∧
      tfind s1.entries entry = some e ∧
      zswap_frontswap_store_insert_entry env o S type entry =
        some (insert_finish env o s1 type entry e.offset tree1) := by
  have hex : ∃ s1, zswap_entry_put env
      { S with
        zswap_trees := tput S.zswap_trees type (terase tree e.offset),
        zswap_duplicate_entry := u64_inc S.zswap_duplicate_entry } type old = some s1 := by
    rcases zswap_entry_put_cases env
      { S with
        zswap_trees := tput S.zswap_trees type (terase tree e.offset),
        zswap_duplicate_entry := u64_inc S.zswap_duplicate_entry } type old oe
      (terase tree e.offset) hoe hr (by simp [tfind_tput]) hpool with
      ⟨_, h⟩ | ⟨_, _, h⟩ | ⟨_, _, _, _, _, _, h⟩
    · exact ⟨_, h⟩
    · exact ⟨_, h⟩
    · exact ⟨_, h⟩
  obtain ⟨s1, hput⟩ := hex
  obtain ⟨tree1, ht1, hk1, he1, hins⟩ :=
    zswap_insert_or_replace_some env o.btree_insert_ok S s1 type entry old e tree he ht hk hne hput
  refine ⟨s1, tree1, hput, ht1, hk1, he1, ?_⟩
  unfold zswap_frontswap_store_insert_entry
  rw [hins]
  unfold btree_insert_result insert_finish
  cases o.btree_insert_ok <;> simp [ENOMEM, zswap_entry_cache_free]

/-- A store that passes the gates with room in the pool runs the part from
`allocate entry` on. -/
theorem store_gates_pass (env : Env) (o : Oracle) (s : State) (type offset : Nat)
    (page : struct_page) (hhuge : page.PageTransHuge = false) (hen : s.zswap_enabled = true)
    (ht : (tfind s.zswap_trees type).isSome = true) (herr : page.PageError = false)
    (hfull : zswap_is_full env s = false) :
    zswap_frontswap_store env o s type offset page =
      zswap_frontswap_store_entry env o s type offset page := by
  unfold zswap_frontswap_store
  have h2 : ¬ ((!s.zswap_enabled || (tfind s.zswap_trees type).isNone) = true) := by
    cases h : tfind s.zswap_trees type with
    | none => simp [h] at ht
    | some t => simp [hen]
  rw [if_neg (by simp [hhuge]), if_neg h2, if_neg (by simp [herr]), if_neg (by simp [hfull])]

/-- The same-value path of store up to the label `insert_entry`. -/
theorem store_entry_same (env : Env) (o : Oracle) (s : State) (type offset : Nat)
    (page : struct_page) (hk : o.kmem_cache_alloc_ok = true)
    (hsf : s.zswap_same_filled_pages_enabled = true)
    (hs : (zswap_is_page_same_filled env.PAGE_SIZE page.data 0).1 ≠ 0) :
    zswap_frontswap_store_entry env o s type offset page =
      zswap_frontswap_store_insert_entry env o (store_state_same env s offset page)
        type (tfresh s.entries) := by
  unfold zswap_frontswap_store_entry store_state_same
  simp [hk, hsf, hs, tput_tput_same]

/-- The zero-page path of store up to the label `insert_entry`. -/
theorem store_entry_zero (env : Env) (o : Oracle) (s : State) (type offset pid : Nat)
    (page : struct_page) (pool : zswap_pool) (rest : Table zswap_pool)
    (hk : o.kmem_cache_alloc_ok = true)
    (hs : ¬ (s.zswap_same_filled_pages_enabled = true ∧
      (zswap_is_page_same_filled env.PAGE_SIZE page.data 0).1 ≠ 0))
    (hp : s.zswap_pools = (pid, pool) :: rest) (hkref : pool.kref ≠ 0)
    (hz : page_zero_filled env.PAGE_SIZE page.data ≠ 0) :
    zswap_frontswap_store_entry env o s type offset page =
      zswap_frontswap_store_insert_entry env o (store_state_zero s offset pid pool rest)
        type (tfresh s.entries) := by
  unfold zswap_frontswap_store_entry store_state_zero
  have hs2 : (s.zswap_same_filled_pages_enabled &&
      decide ((zswap_is_page_same_filled env.PAGE_SIZE page.data 0).1 ≠ 0)) = false := by
    cases h1 : s.zswap_same_filled_pages_enabled
    · rfl
    · simp only [Bool.true_and, decide_eq_false_iff_not]
      exact fun h => hs ⟨h1, h⟩
  simp [hk, hs2, zswap_pool_current_get, hp, hkref, hz, tput, tput_tput_same]
  intro h1 h2
  exact absurd ⟨h1, h2⟩ hs

/-- The general path of store up to the call of `zpool_malloc`, when that call
fails: the reject counter that matches the error is incremented, the pool
reference is given back and the new entry is freed. -/
theorem store_entry_malloc_fail (env : Env) (o : Oracle) (s : State) (type offset pid : Nat)
    (page : struct_page) (pool : zswap_pool) (rest : Table zswap_pool)
    (hk : o.kmem_cache_alloc_ok = true)
    (hs : ¬ (s.zswap_same_filled_pages_enabled = true ∧
      (zswap_is_page_same_filled env.PAGE_SIZE page.data 0).1 ≠ 0))
    (hp : s.zswap_pools = (pid, pool) :: rest) (hkref : pool.kref ≠ 0)
    (hz : page_zero_filled env.PAGE_SIZE page.data = 0)
    (hm : o.zpool_malloc_ret ≠ 0) :
    zswap_frontswap_store_entry env o s type offset page =
      some (o.zpool_malloc_ret,
        { s with
          log := s.log ++ [Call.kmem_cache_alloc, Call.crypto_comp_compress,
            Call.zpool_malloc (store_dlen env (env.crypto_comp_compress pool.tfm_name page.data)),
            Call.kmem_cache_free (tfresh s.entries)],
          zswap_reject_compress_poor :=
            if o.zpool_malloc_ret = -ENOSPC then u64_inc s.zswap_reject_compress_poor
            else s.zswap_reject_compress_poor,
          zswap_reject_alloc_fail :=
            if o.zpool_malloc_ret = -ENOSPC then s.zswap_reject_alloc_fail
            else u64_inc s.zswap_reject_alloc_fail }) := by
  unfold zswap_frontswap_store_entry
  have hs2 : (s.zswap_same_filled_pages_enabled &&
      decide ((zswap_is_page_same_filled env.PAGE_SIZE page.data 0).1 ≠ 0)) = false := by
    cases h1 : s.zswap_same_filled_pages_enabled
    · rfl
    · simp only [Bool.true_and, decide_eq_false_iff_not]
      exact fun h => hs ⟨h1, h⟩
  have hfr : terase s.entries (tfresh s.entries) = s.entries :=
    terase_of_tfind_none _ _ (tfind_tfresh _)
  have hk1 : ¬ (pool.kref + 1 - 1 = 0) := by omega
  by_cases hsp : o.zpool_malloc_ret = -ENOSPC
  · simp [hk, hs2, zswap_pool_current_get, hp, hkref, hz, tput, tput_tput_same,
      zswap_frontswap_store_compress, tfind, tfind_tput, hsp, zswap_pool_put, hk1,
      zswap_entry_cache_free, terase_tput_same, hfr]
    intro h1 h2
    exact absurd ⟨h1, h2⟩ hs
  · simp [hk, hs2, zswap_pool_current_get, hp, hkref, hz, tput, tput_tput_same,
      zswap_frontswap_store_compress, tfind, tfind_tput, hsp, hm, zswap_pool_put, hk1,
      zswap_entry_cache_free, terase_tput_same, hfr]
    intro h1 h2
    exact absurd ⟨h1, h2⟩ hs

/-- The general path of store up to the label `insert_entry`, when `zpool_malloc`
succeeds. -/
theorem store_entry_blob (env : Env) (o : Oracle) (s : State) (type offset pid : Nat)
    (page : struct_page) (pool : zswap_pool) (rest : Table zswap_pool)
    (hk : o.kmem_cache_alloc_ok = true)
    (hs : ¬ (s.zswap_same_filled_pages_enabled = true ∧
      (zswap_is_page_same_filled env.PAGE_SIZE page.data 0).1 ≠ 0))
    (hp : s.zswap_pools = (pid, pool) :: rest) (hkref : pool.kref ≠ 0)
    (hz : page_zero_filled env.PAGE_SIZE page.data = 0)
    (hm : o.zpool_malloc_ret = 0) :
    zswap_frontswap_store_entry env o s type offset page =
      zswap_frontswap_store_insert_entry env o (store_state_blob env s offset pid page pool rest)
        type (tfresh s.entries) := by
  unfold zswap_frontswap_store_entry store_state_blob
  have hs2 : (s.zswap_same_filled_pages_enabled &&
      decide ((zswap_is_page_same_filled env.PAGE_SIZE page.data 0).1 ≠ 0)) = false := by
    cases h1 : s.zswap_same_filled_pages_enabled
    · rfl
    · simp only [Bool.true_and, decide_eq_false_iff_not]
      exact fun h => hs ⟨h1, h⟩
  simp [hk, hs2, zswap_pool_current_get, hp, hkref, hz, tput, tput_tput_same,
    zswap_frontswap_store_compress, tfind, tfind_tput, hm, ENOSPC]
  intro h1 h2
  exact absurd ⟨h1, h2⟩ hs

theorem store_state_same_new (env : Env) (s : State) (offset : Nat) (page : struct_page) :
    tfind (store_state_same env s offset page).entries (tfresh s.entries) =
      some { offset := offset, refcount := 1, length := 0, pool := none,
             handle := (zswap_is_page_same_filled env.PAGE_SIZE page.data 0).2 } := by
  simp [store_state_same, tfind_tput]

theorem store_state_same_old (env : Env) (s : State) (offset x : Nat) (page : struct_page)
    (hne : x ≠ tfresh s.entries) :
    tfind (store_state_same env s offset page).entries x = tfind s.entries x := by
  simp [store_state_same, tfind_tput, hne.symm]

theorem store_state_zero_new (s : State) (offset pid : Nat) (pool : zswap_pool)
    (rest : Table zswap_pool) :
    tfind (store_state_zero s offset pid pool rest).entries (tfresh s.entries) =
      some { offset := offset, refcount := 1, length := 0, pool := some pid, handle := 0 } := by
  simp [store_state_zero, tfind_tput]

theorem store_state_zero_old (s : State) (offset pid x : Nat) (pool : zswap_pool)
    (rest : Table zswap_pool) (hne : x ≠ tfresh s.entries) :
    tfind (store_state_zero s offset pid pool rest).entries x = tfind s.entries x := by
  simp [store_state_zero, tfind_tput, hne.symm]

theorem store_state_blob_new (env : Env) (s : State) (offset pid : Nat) (page : struct_page)
    (pool : zswap_pool) (rest : Table zswap_pool) :
    tfind (store_state_blob env s offset pid page pool rest).entries (tfresh s.entries) =
      some { offset := offset, refcount := 1,
             length := store_dlen env (env.crypto_comp_compress pool.tfm_name page.data),
             pool := some pid, handle := tfresh pool.zpool.blobs } := by
  simp [store_state_blob, tfind_tput]

theorem store_state_blob_old (env : Env) (s : State) (offset pid x : Nat) (page : struct_page)
    (pool : zswap_pool) (rest : Table zswap_pool) (hne : x ≠ tfresh s.entries) :
    tfind (store_state_blob env s offset pid page pool rest).entries x = tfind s.entries x := by
  simp [store_state_blob, tfind_tput, hne.symm]

/-- A pool that is live before the store is live in the state at `insert_entry`
of the general and the zero-page path. -/
theorem tfind_cons_pool (pid x : Nat) (pool pool1 p : zswap_pool) (rest : Table zswap_pool)
    (h : tfind ((pid, pool) :: rest) x = some p) :
    ∃ p1, tfind ((pid, pool1) :: rest) x = some p1 := by
  by_cases hx : pid = x
  · exact ⟨pool1, by simp [tfind, hx]⟩
  · exact ⟨p, by simpa [tfind, hx] using h⟩

/-- The entry at the offset can be released in the state at `insert_entry` when
it could in the state before the store. -/
theorem slot_live_pool (s S : State) (type offset old : Nat) (tree : zswap_tree)
    (pid : Nat) (pool pool1 : zswap_pool) (rest : Table zswap_pool)
    (hslot : slot_live s type offset = true)
    (ht : tfind s.zswap_trees type = some tree) (hk : tfind tree offset = some old)
    (hent : ∀ x, x ≠ tfresh s.entries → tfind S.entries x = tfind s.entries x)
    (hpools : S.zswap_pools = s.zswap_pools ∨
      (s.zswap_pools = (pid, pool) :: rest ∧ S.zswap_pools = (pid, pool1) :: rest)) :
    old ≠ tfresh s.entries ∧ ∃ oe, tfind S.entries old = some oe ∧ 1 ≤ oe.refcount ∧
      (oe.length ≠ 0 → ∃ pid p, oe.pool = some pid ∧ tfind S.zswap_pools pid = some p) := by
  obtain ⟨oe, hoe, hr, hblob⟩ := slot_live_old s type offset old tree hslot ht hk
  have hne : old ≠ tfresh s.entries := tfind_ne_tfresh _ _ (by simp [hoe])
  refine ⟨hne, oe, by rw [hent old hne]; exact hoe, hr, fun hl => ?_⟩
  obtain ⟨x, hx⟩ := hblob hl
  obtain ⟨pid1, p1, h1, h2, _, _⟩ := blob_of_some s oe x hx
  rcases hpools with h | ⟨hs, hS⟩
  · exact ⟨pid1, p1, h1, by rw [h]; exact h2⟩
  · rw [hs] at h2
    obtain ⟨p2, hp2⟩ := tfind_cons_pool pid pid1 pool pool1 p1 rest h2
    exact ⟨pid1, p2, h1, by rw [hS]; exact hp2⟩

/-- From the label `insert_entry` the store returns, with 0 when `btree_insert`
finds memory: the entry at the offset, if any, can be released. -/
theorem insert_entry_returns (env : Env) (o : Oracle) (S : State) (type entry : Nat)
    (e : zswap_entry) (tree : zswap_tree)
    (he : tfind S.entries entry = some e) (ht : tfind S.zswap_trees type = some tree)
    (hold : ∀ old, tfind tree e.offset = some old →
      old ≠ entry ∧ ∃ oe, tfind S.entries old = some oe ∧ 1 ≤ oe.refcount ∧
        (oe.length ≠ 0 → ∃ pid p, oe.pool = some pid ∧ tfind S.zswap_pools pid = some p))
    (hb : o.btree_insert_ok = true) :
    ∃ s1, zswap_frontswap_store_insert_entry env o S type entry = some (0, s1) := by
  cases hko : tfind tree e.offset with
  | none =>
    rw [insert_entry_none env o S type entry e tree he ht hko]
    refine ⟨(insert_finish env o S type entry e.offset tree).2, ?_⟩
    simp [insert_finish, hb]
  | some old =>
    obtain ⟨hne, oe, hoe, hr, hpool⟩ := hold old hko
    obtain ⟨s1, tree1, _, _, _, _, hins⟩ := insert_entry_some env o S type entry old e oe tree
      he ht hko hne hoe hr hpool
    rw [hins]
    refine ⟨(insert_finish env o s1 type entry e.offset tree1).2, ?_⟩
    simp [insert_finish, hb]

theorem release_frame_refl (s : State) : release_frame s s :=
  ⟨rfl, rfl, rfl, rfl, rfl, rfl, rfl, rfl, rfl, rfl, [], by simp, by simp⟩

theorem release_frame_trans (s s1 s2 : State) (h1 : release_frame s s1)
    (h2 : release_frame s1 s2) : release_frame s s2 := by
  obtain ⟨a1, a2, a3, a4, a5, a6, a7, a8, a9, a10, l1, hl1, hc1⟩ := h1
  obtain ⟨b1, b2, b3, b4, b5, b6, b7, b8, b9, b10, l2, hl2, hc2⟩ := h2
  refine ⟨b1.trans a1, b2.trans a2, b3.trans a3, b4.trans a4, b5.trans a5, b6.trans a6,
    b7.trans a7, b8.trans a8, b9.trans a9, b10.trans a10, l1 ++ l2, ?_, ?_⟩
  · rw [hl2, hl1, List.append_assoc]
  · intro c hc
    rcases List.mem_append.mp hc with h | h
    · exact hc1 c h
    · exact hc2 c h

theorem zswap_pool_put_frame (s s1 : State) (pool : Nat)
    (h : zswap_pool_put s pool = some s1) :
    s1 = { s with zswap_pools := s1.zswap_pools } := by
  unfold zswap_pool_put at h
  cases hp : tfind s.zswap_pools pool with
  | none => simp [hp] at h
  | some p =>
    simp only [hp, Option.some_bind] at h
    split at h <;> (simp only [Option.some.injEq] at h; subst h; rfl)

theorem zswap_free_entry_frame (env : Env) (s s1 : State) (entry : Nat)
    (h : zswap_free_entry env s entry = some s1) : release_frame s s1 := by
  unfold zswap_free_entry at h
  cases he : tfind s.entries entry with
  | none => simp [he] at h
  | some e =>
    simp only [he, Option.some_bind] at h
    by_cases hl : e.length = 0
    · simp only [hl, if_true, Option.some_bind, Option.some.injEq] at h
      subst h
      exact ⟨rfl, rfl, rfl, rfl, rfl, rfl, rfl, rfl, rfl, rfl, [Call.kmem_cache_free entry],
        rfl, by simp⟩
    · simp only [hl, if_false] at h
      cases hp : e.pool with
      | none => simp [hp] at h
      | some pid =>
        cases hpp : tfind s.zswap_pools pid with
        | none => simp [hp, hpp] at h
        | some p =>
          simp only [hp, hpp, Option.some_bind] at h
          cases hput : zswap_pool_put
              { s with
                zswap_pools := tput s.zswap_pools pid
                  { p with zpool := { p.zpool with blobs := terase p.zpool.blobs e.handle } },
                log := s.log ++ [Call.zpool_free pid e.handle] } pid with
          | none => simp [hput] at h
          | some s2 =>
            have hf := zswap_pool_put_frame _ s2 pid hput
            simp only [hput, Option.some_bind, Option.some.injEq] at h
            subst h
            rw [hf]
            exact ⟨rfl, rfl, rfl, rfl, rfl, rfl, rfl, rfl, rfl, rfl,
              [Call.zpool_free pid e.handle, Call.kmem_cache_free entry],
              by simp [zswap_update_total_size, zswap_entry_cache_free], by simp⟩

theorem zswap_entry_put_frame (env : Env) (s s1 : State) (type entry : Nat)
    (h : zswap_entry_put env s type entry = some s1) : release_frame s s1 := by
  unfold zswap_entry_put at h
  cases he : tfind s.entries entry with
  | none => simp [he] at h
  | some e =>
    simp only [he, Option.some_bind] at h
    split at h
    · simp at h
    · split at h
      · cases hz : zswap_erase
            { s with entries := tput s.entries entry { e with refcount := int_dec e.refcount } }
            type entry with
        | none => simp [hz] at h
        | some s2 =>
          simp only [hz, Option.some_bind] at h
          have hf := zswap_free_entry_frame env s2 s1 entry h
          refine release_frame_trans s s2 s1 ?_ hf
          unfold zswap_erase at hz
          cases ht : tfind s.zswap_trees type with
          | none => simp [ht] at hz
          | some tree =>
            simp only [ht, Option.some_bind, tfind_tput, if_true, Option.some.injEq] at hz
            subst hz
            exact ⟨rfl, rfl, rfl, rfl, rfl, rfl, rfl, rfl, rfl, rfl, [], by simp, by simp⟩
      · simp only [Option.some.injEq] at h
        subst h
        exact ⟨rfl, rfl, rfl, rfl, rfl, rfl, rfl, rfl, rfl, rfl, [], by simp, by simp⟩

theorem zswap_insert_or_replace_loop_frame (env : Env) (type entry : Nat) :
    ∀ (fuel : Nat) (s s1 : State),
      zswap_insert_or_replace_loop env fuel s type entry = some s1 → release_frame s s1 := by
  intro fuel
  induction fuel with
  | zero => intro s s1 h; simp [zswap_insert_or_replace_loop] at h
  | succ n ih =>
    intro s s1 h
    unfold zswap_insert_or_replace_loop at h
    cases ht : tfind s.zswap_trees type with
    | none => simp [ht] at h
    | some tree =>
      cases he : tfind s.entries entry with
      | none => simp [ht, he] at h
      | some e =>
        simp only [ht, he, Option.some_bind] at h
        cases hk : tfind tree e.offset with
        | none =>
          simp only [hk, Option.some.injEq] at h
          subst h
          exact release_frame_refl s
        | some old =>
          simp only [hk] at h
          cases hput : zswap_entry_put env
              { s with
                zswap_trees := tput s.zswap_trees type (terase tree e.offset),
                zswap_duplicate_entry := u64_inc s.zswap_duplicate_entry } type old with
          | none => simp [hput] at h
          | some s2 =>
            simp only [hput, Option.some_bind] at h
            have h1 := zswap_entry_put_frame env _ s2 type old hput
            have h2 := ih s2 s1 h
            exact release_frame_trans s s2 s1
              (release_frame_trans s _ s2
                ⟨rfl, rfl, rfl, rfl, rfl, rfl, rfl, rfl, rfl, rfl, [], by simp, by simp⟩ h1) h2

/-- The tail of store from `insert_entry`, whatever it returns, leaves the
zero-page counter and the tunables alone, and calls nothing but releases and
`btree_insert`. -/
theorem insert_entry_frame (env : Env) (o : Oracle) (S s1 : State) (type entry : Nat) (r : Int)
    (h : zswap_frontswap_store_insert_entry env o S type entry = some (r, s1)) :
    s1.zswap_zero_pages = S.zswap_zero_pages ∧
    s1.zswap_same_filled_pages_enabled = S.zswap_same_filled_pages_enabled ∧
    s1.zswap_enabled = S.zswap_enabled ∧
    ∃ l, s1.log = S.log ++ l ∧
      ∀ c ∈ l, (∃ a b, c = Call.zpool_free a b) ∨ (∃ a, c = Call.kmem_cache_free a) ∨
        c = Call.btree_insert := by
  unfold zswap_frontswap_store_insert_entry zswap_insert_or_replace at h
  cases ht : tfind S.zswap_trees type with
  | none => simp [ht] at h
  | some tree0 =>
    simp only [ht, Option.some_bind] at h
    cases hl : zswap_insert_or_replace_loop env (tree0.length + 1) S type entry with
    | none => simp [hl] at h
    | some S1 =>
      obtain ⟨a1, _, _, a4, _, _, _, _, _, _, l, hlog, hc⟩ :=
        zswap_insert_or_replace_loop_frame env type entry _ S S1 hl
      have a2 : S1.zswap_enabled = S.zswap_enabled :=
        (zswap_insert_or_replace_loop_frame env type entry _ S S1 hl).2.1
      simp only [hl, Option.some_bind] at h
      cases ht1 : tfind S1.zswap_trees type with
      | none => simp [ht1] at h
      | some tree =>
        cases he : tfind S1.entries entry with
        | none => simp [ht1, he] at h
        | some e =>
          simp only [ht1, he, Option.some_bind] at h
          cases hb : o.btree_insert_ok with
          | true =>
            simp only [hb, if_true, Option.some_bind, Option.some.injEq, Prod.mk.injEq] at h
            have h0 : ¬ ((0 : Int) < 0) := by decide
            simp only [h0, if_false, Option.some.injEq, Prod.mk.injEq] at h
            obtain ⟨_, h2⟩ := h
            subst h2
            refine ⟨a1, a4, a2, l ++ [Call.btree_insert], ?_, ?_⟩
            · simp [zswap_update_total_size, hlog]
            · intro c hc1
              rcases List.mem_append.mp hc1 with h | h
              · rcases hc c h with h | h
                · exact Or.inl h
                · exact Or.inr (Or.inl h)
              · exact Or.inr (Or.inr (by simpa using h))
          | false =>
            simp only [hb, Bool.false_eq_true, if_false, Option.some_bind] at h
            have h0 : (-ENOMEM : Int) < 0 := by decide
            simp only [h0, if_true, Option.some.injEq, Prod.mk.injEq] at h
            obtain ⟨_, h2⟩ := h
            subst h2
            refine ⟨a1, a4, a2, l ++ [Call.btree_insert, Call.kmem_cache_free entry], ?_, ?_⟩
            · simp [zswap_entry_cache_free, hlog]
            · intro c hc1
              rcases List.mem_append.mp hc1 with h | h
              · rcases hc c h with h | h
                · exact Or.inl h
                · exact Or.inr (Or.inl h)
              · simp only [List.mem_cons, List.mem_singleton, List.not_mem_nil, or_false] at h
                rcases h with h | h
                · exact Or.inr (Or.inr h)
                · exact Or.inr (Or.inl ⟨entry, h⟩)

/-- Store without an entry object: `kmem_cache_alloc` failed. -/
theorem store_entry_nomem (env : Env) (o : Oracle) (s : State) (type offset : Nat)
    (page : struct_page) (hk : o.kmem_cache_alloc_ok = false) :
    zswap_frontswap_store_entry env o s type offset page =
      some (-ENOMEM,
        { s with
          log := s.log ++ [Call.kmem_cache_alloc],
          zswap_reject_kmemcache_fail := u64_inc s.zswap_reject_kmemcache_fail }) := by
  unfold zswap_frontswap_store_entry
  simp [hk]

/-- Store without a current pool: the new entry is freed and -EINVAL returned. -/
theorem store_entry_nopool (env : Env) (o : Oracle) (s : State) (type offset : Nat)
    (page : struct_page) (hk : o.kmem_cache_alloc_ok = true)
    (hs : ¬ (s.zswap_same_filled_pages_enabled = true ∧
      (zswap_is_page_same_filled env.PAGE_SIZE page.data 0).1 ≠ 0))
    (hp : zswap_pool_current_get s = (none, s)) :
    zswap_frontswap_store_entry env o s type offset page =
      some (-EINVAL,
        { s with
          log := s.log ++ [Call.kmem_cache_alloc, Call.kmem_cache_free (tfresh s.entries)] }) := by
  unfold zswap_frontswap_store_entry
  have hfr : terase s.entries (tfresh s.entries) = s.entries :=
    terase_of_tfind_none _ _ (tfind_tfresh _)
  have hp2 : zswap_pool_current_get
      { s with
        log := s.log ++ [Call.kmem_cache_alloc],
        entries := tput s.entries (tfresh s.entries)
          { offset := 0, refcount := 1, length := 0, pool := none, handle := 0 } } =
      (none, { s with
        log := s.log ++ [Call.kmem_cache_alloc],
        entries := tput s.entries (tfresh s.entries)
          { offset := 0, refcount := 1, length := 0, pool := none, handle := 0 } }) := by
    unfold zswap_pool_current_get at hp ⊢
    cases hpl : s.zswap_pools with
    | nil => simp [hpl]
    | cons hd tl =>
      obtain ⟨pid, pool⟩ := hd
      simp only [hpl] at hp ⊢
      by_cases hkr : pool.kref = 0
      · simp [hkr]
      · simp [hkr] at hp
  simp only [hk, Bool.not_true, Bool.false_eq_true, if_false]
  rw [if_neg (by
    simp only [Bool.and_eq_true, decide_eq_true_eq]
    exact hs)]
  simp only [hp2]
  simp [zswap_entry_cache_free, terase_tput_same, hfr]

/-- A page of zero words is a same-value page. -/
theorem same_filled_of_zero_filled (P : Nat) (page : Page) (value : Nat)
    (h : page_zero_filled P page ≠ 0) :
    (zswap_is_page_same_filled P page value).1 ≠ 0 := by
  unfold page_zero_filled at h
  unfold zswap_is_page_same_filled
  by_cases hall : (List.range (P / 8)).all (fun pos => page.getD pos 0 == 0) = true
  · have h2 : (List.range' 1 (P / 8 - 1)).all
        (fun pos => page.getD pos 0 == page.getD 0 0) = true := by
      rw [List.all_eq_true] at hall ⊢
      intro x hx
      rw [List.mem_range'_1] at hx
      have hx1 := hall x (List.mem_range.mpr (by omega))
      have h0 := hall 0 (List.mem_range.mpr (by omega))
      simp only [beq_iff_eq] at hx1 h0 ⊢
      rw [hx1, h0]
    rw [if_pos h2]
    exact one_ne_zero
  · rw [if_neg hall] at h
    exact absurd rfl h

/-- A page made of one repeated word is a same-value page of that word. -/
theorem same_filled_replicate (P : Nat) (hP : 8 ≤ P) (w value : Nat) :
    zswap_is_page_same_filled P (List.replicate (P / 8) w) value = (1, w) := by
  have h := same_filled_of_fill P hP [] w value
  simpa [zswap_fill_page] using h

/-- A same-value page is made of one repeated word. -/
theorem replicate_of_same_filled (P : Nat) (hP : 8 ≤ P) (p : Page) (v value : Nat)
    (hp : p.length = P / 8) (h : zswap_is_page_same_filled P p value = (1, v)) :
    p = List.replicate (P / 8) v := by
  have h1 := fill_of_same_filled P hP p p v value hp hp h
  rw [← h1]
  simp [zswap_fill_page, hp]

theorem tfind_pools_after_free_ne (pools : Table zswap_pool) (pid x : Nat) (p : zswap_pool)
    (h : Nat) (hne : pid ≠ x) :
    tfind (pools_after_free pools pid p h) x = tfind pools x := by
  unfold pools_after_free
  split
  · simp [tfind_terase, hne]
  · simp [tfind_tput, hne]

theorem keys_tput {α : Type} (t : Table α) (k : Nat) (v : α) :
    (tput t k v).map Prod.fst =
      if k ∈ t.map Prod.fst then t.map Prod.fst else t.map Prod.fst ++ [k] := by
  induction t with
  | nil => simp [tput]
  | cons hd rest ih =>
    obtain ⟨a, b⟩ := hd
    by_cases hab : a = k
    · subst hab
      simp [tput]
    · have hka : ¬ k = a := fun h => hab h.symm
      simp only [tput, hab, if_false, List.map_cons, ih, List.mem_cons, hka, false_or]
      split <;> simp

theorem keys_terase {α : Type} (t : Table α) (k : Nat) :
    (terase t k).map Prod.fst = (t.map Prod.fst).filter (fun x => decide (x ≠ k)) := by
  induction t with
  | nil => simp [terase]
  | cons hd rest ih =>
    obtain ⟨a, b⟩ := hd
    by_cases hab : a = k
    · simp [terase, hab, ih]
    · simp [terase, hab, ih]

theorem keys_nodup_tput {α : Type} (t : Table α) (k : Nat) (v : α) (h : keys_nodup t) :
    keys_nodup (tput t k v) := by
  unfold keys_nodup at h ⊢
  rw [keys_tput]
  split
  · exact h
  · rename_i hk
    exact List.Nodup.append h (List.nodup_singleton k) (by
      intro x hx hx2
      simp only [List.mem_singleton] at hx2
      subst hx2
      exact hk hx)

theorem keys_nodup_terase {α : Type} (t : Table α) (k : Nat) (h : keys_nodup t) :
    keys_nodup (terase t k) := by
  unfold keys_nodup at h ⊢
  rw [keys_terase]
  exact List.Nodup.filter _ h

theorem trees_nodup_tput (s s1 : State) (type : Nat) (tree : zswap_tree)
    (h : trees_nodup s) (ht : keys_nodup tree)
    (h1 : s1.zswap_trees = tput s.zswap_trees type tree) : trees_nodup s1 := by
  intro ty tr htr
  rw [h1, tfind_tput] at htr
  split at htr
  · simp only [Option.some.injEq] at htr
    subst htr
    exact ht
  · exact h ty tr htr

theorem trees_nodup_eq (s s1 : State) (h : trees_nodup s)
    (h1 : s1.zswap_trees = s.zswap_trees) : trees_nodup s1 := by
  intro ty tr htr
  rw [h1] at htr
  exact h ty tr htr

theorem zswap_free_entry_trees (env : Env) (s s1 : State) (entry : Nat)
    (h : zswap_free_entry env s entry = some s1) : s1.zswap_trees = s.zswap_trees := by
  unfold zswap_free_entry at h
  cases he : tfind s.entries entry with
  | none => simp [he] at h
  | some e =>
    simp only [he, Option.some_bind] at h
    by_cases hl : e.length = 0
    · simp only [hl, if_true, Option.some_bind, Option.some.injEq] at h
      subst h
      rfl
    · simp only [hl, if_false] at h
      cases hp : e.pool with
      | none => simp [hp] at h
      | some pid =>
        cases hpp : tfind s.zswap_pools pid with
        | none => simp [hp, hpp] at h
        | some p =>
          simp only [hp, hpp, Option.some_bind] at h
          cases hput : zswap_pool_put
              { s with
                zswap_pools := tput s.zswap_pools pid
                  { p with zpool := { p.zpool with blobs := terase p.zpool.blobs e.handle } },
                log := s.log ++ [Call.zpool_free pid e.handle] } pid with
          | none => simp [hput] at h
          | some s2 =>
            have hf := zswap_pool_put_frame _ s2 pid hput
            simp only [hput, Option.some_bind, Option.some.injEq] at h
            subst h
            rw [hf]
            rfl

/-- What `zswap_entry_put` does to the trees: nothing, or it erases one key of
the tree it was given. -/
theorem zswap_entry_put_trees (env : Env) (s s1 : State) (type entry : Nat)
    (h : zswap_entry_put env s type entry = some s1) :
    s1.zswap_trees = s.zswap_trees ∨
    ∃ tree k, tfind s.zswap_trees type = some tree ∧
      s1.zswap_trees = tput s.zswap_trees type (terase tree k) := by
  unfold zswap_entry_put at h
  cases he : tfind s.entries entry with
  | none => simp [he] at h
  | some e =>
    simp only [he, Option.some_bind] at h
    split at h
    · simp at h
    · split at h
      · cases hz : zswap_erase
            { s with entries := tput s.entries entry { e with refcount := int_dec e.refcount } }
            type entry with
        | none => simp [hz] at h
        | some s2 =>
          simp only [hz, Option.some_bind] at h
          have hf := zswap_free_entry_trees env s2 s1 entry h
          unfold zswap_erase at hz
          cases ht : tfind s.zswap_trees type with
          | none => simp [ht] at hz
          | some tree =>
            simp only [ht, Option.some_bind, tfind_tput, if_true, Option.some.injEq] at hz
            subst hz
            exact Or.inr ⟨tree, e.offset, rfl, hf⟩
      · simp only [Option.some.injEq] at h
        subst h
        exact Or.inl rfl

theorem zswap_entry_put_nodup (env : Env) (s s1 : State) (type entry : Nat)
    (hn : trees_nodup s) (h : zswap_entry_put env s type entry = some s1) :
    trees_nodup s1 := by
  rcases zswap_entry_put_trees env s s1 type entry h with h1 | ⟨tree, k, ht, h1⟩
  · exact trees_nodup_eq s s1 hn h1
  · exact trees_nodup_tput s s1 type _ hn (keys_nodup_terase tree k (hn type tree ht)) h1

theorem zswap_insert_or_replace_loop_nodup (env : Env) (type entry : Nat) :
    ∀ (fuel : Nat) (s s1 : State), trees_nodup s →
      zswap_insert_or_replace_loop env fuel s type entry = some s1 → trees_nodup s1 := by
  intro fuel
  induction fuel with
  | zero => intro s s1 _ h; simp [zswap_insert_or_replace_loop] at h
  | succ n ih =>
    intro s s1 hn h
    unfold zswap_insert_or_replace_loop at h
    cases ht : tfind s.zswap_trees type with
    | none => simp [ht] at h
    | some tree =>
      cases he : tfind s.entries entry with
      | none => simp [ht, he] at h
      | some e =>
        simp only [ht, he, Option.some_bind] at h
        cases hk : tfind tree e.offset with
        | none =>
          simp only [hk, Option.some.injEq] at h
          subst h
          exact hn
        | some old =>
          simp only [hk] at h
          cases hput : zswap_entry_put env
              { s with
                zswap_trees := tput s.zswap_trees type (terase tree e.offset),
                zswap_duplicate_entry := u64_inc s.zswap_duplicate_entry } type old with
          | none => simp [hput] at h
          | some s2 =>
            simp only [hput, Option.some_bind] at h
            have h1 : trees_nodup
                { s with
                  zswap_trees := tput s.zswap_trees type (terase tree e.offset),
                  zswap_duplicate_entry := u64_inc s.zswap_duplicate_entry } :=
              trees_nodup_tput s _ type _ hn (keys_nodup_terase tree _ (hn type tree ht)) rfl
            exact ih s2 s1 (zswap_entry_put_nodup env _ s2 type old h1 hput) h

theorem insert_entry_nodup (env : Env) (o : Oracle) (S s1 : State) (type entry : Nat) (r : Int)
    (hn : trees_nodup S)
    (h : zswap_frontswap_store_insert_entry env o S type entry = some (r, s1)) :
    trees_nodup s1 := by
  unfold zswap_frontswap_store_insert_entry zswap_insert_or_replace at h
  cases ht : tfind S.zswap_trees type with
  | none => simp [ht] at h
  | some tree0 =>
    simp only [ht, Option.some_bind] at h
    cases hl : zswap_insert_or_replace_loop env (tree0.length + 1) S type entry with
    | none => simp [hl] at h
    | some S1 =>
      have hn1 := zswap_insert_or_replace_loop_nodup env type entry _ S S1 hn hl
      simp only [hl, Option.some_bind] at h
      cases ht1 : tfind S1.zswap_trees type with
      | none => simp [ht1] at h
      | some tree =>
        cases he : tfind S1.entries entry with
        | none => simp [ht1, he] at h
        | some e =>
          simp only [ht1, he, Option.some_bind] at h
          cases hb : o.btree_insert_ok with
          | true =>
            simp only [hb, if_true, Option.some_bind, Option.some.injEq, Prod.mk.injEq] at h
            have h0 : ¬ ((0 : Int) < 0) := by decide
            simp only [h0, if_false, Option.some.injEq, Prod.mk.injEq] at h
            obtain ⟨_, h2⟩ := h
            subst h2
            exact trees_nodup_tput S1 _ type _ hn1
              (keys_nodup_tput tree e.offset entry (hn1 type tree ht1))
              (by simp [zswap_update_total_size])
          | false =>
            simp only [hb, Bool.false_eq_true, if_false, Option.some_bind] at h
            have h0 : (-ENOMEM : Int) < 0 := by decide
            simp only [h0, if_true, Option.some.injEq, Prod.mk.injEq] at h
            obtain ⟨_, h2⟩ := h
            subst h2
            exact trees_nodup_eq S1 _ hn1 (by simp [zswap_entry_cache_free])

/-- The six ways the part of store from `allocate entry` on can go. -/
theorem store_entry_cases (env : Env) (o : Oracle) (s : State) (type offset : Nat)
    (page : struct_page) :
    (o.kmem_cache_alloc_ok = false ∧
      zswap_frontswap_store_entry env o s type offset page =
        some (-ENOMEM,
          { s with
            log := s.log ++ [Call.kmem_cache_alloc],
            zswap_reject_kmemcache_fail := u64_inc s.zswap_reject_kmemcache_fail })) ∨
    (s.zswap_same_filled_pages_enabled = true ∧
      (zswap_is_page_same_filled env.PAGE_SIZE page.data 0).1 ≠ 0 ∧
      zswap_frontswap_store_entry env o s type offset page =
        zswap_frontswap_store_insert_entry env o (store_state_same env s offset page) type
          (tfresh s.entries)) ∨
    (¬ (s.zswap_same_filled_pages_enabled = true ∧
        (zswap_is_page_same_filled env.PAGE_SIZE page.data 0).1 ≠ 0) ∧
      ((zswap_frontswap_store_entry env o s type offset page =
          some (-EINVAL,
            { s with
              log := s.log ++
                [Call.kmem_cache_alloc, Call.kmem_cache_free (tfresh s.entries)] })) ∨
       ∃ pid pool rest, s.zswap_pools = (pid, pool) :: rest ∧ pool.kref ≠ 0 ∧
        ((page_zero_filled env.PAGE_SIZE page.data ≠ 0 ∧
            zswap_frontswap_store_entry env o s type offset page =
              zswap_frontswap_store_insert_entry env o
                (store_state_zero s offset pid pool rest) type (tfresh s.entries)) ∨
         (page_zero_filled env.PAGE_SIZE page.data = 0 ∧ o.zpool_malloc_ret ≠ 0 ∧
            zswap_frontswap_store_entry env o s type offset page =
              some (o.zpool_malloc_ret,
                { s with
                  log := s.log ++ [Call.kmem_cache_alloc, Call.crypto_comp_compress,
                    Call.zpool_malloc
                      (store_dlen env (env.crypto_comp_compress pool.tfm_name page.data)),
                    Call.kmem_cache_free (tfresh s.entries)],
                  zswap_reject_compress_poor :=
                    if o.zpool_malloc_ret = -ENOSPC then u64_inc s.zswap_reject_compress_poor
                    else s.zswap_reject_compress_poor,
                  zswap_reject_alloc_fail :=
                    if o.zpool_malloc_ret = -ENOSPC then s.zswap_reject_alloc_fail
                    else u64_inc s.zswap_reject_alloc_fail })) ∨
         (page_zero_filled env.PAGE_SIZE page.data = 0 ∧ o.zpool_malloc_ret = 0 ∧
            zswap_frontswap_store_entry env o s type offset page =
              zswap_frontswap_store_insert_entry env o
                (store_state_blob env s offset pid page pool rest) type
                (tfresh s.entries))))) := by
  cases hk : o.kmem_cache_alloc_ok with
  | false => exact Or.inl ⟨rfl, store_entry_nomem env o s type offset page hk⟩
  | true =>
    by_cases hs : s.zswap_same_filled_pages_enabled = true ∧
        (zswap_is_page_same_filled env.PAGE_SIZE page.data 0).1 ≠ 0
    · exact Or.inr (Or.inl ⟨hs.1, hs.2, store_entry_same env o s type offset page hk hs.1 hs.2⟩)
    · refine Or.inr (Or.inr ⟨hs, ?_⟩)
      rcases zswap_pool_current_get_cases s with hp | ⟨pid, pool, rest, hp, hkref, _⟩
      · exact Or.inl (store_entry_nopool env o s type offset page hk hs hp)
      · refine Or.inr ⟨pid, pool, rest, hp, hkref, ?_⟩
        by_cases hz : page_zero_filled env.PAGE_SIZE page.data = 0
        · by_cases hm : o.zpool_malloc_ret = 0
          · exact Or.inr (Or.inr ⟨hz, hm,
              store_entry_blob env o s type offset pid page pool rest hk hs hp hkref hz hm⟩)
          · exact Or.inr (Or.inl ⟨hz, hm,
              store_entry_malloc_fail env o s type offset pid page pool rest hk hs hp hkref hz
                hm⟩)
        · exact Or.inl ⟨hz,
            store_entry_zero env o s type offset pid page pool rest hk hs hp hkref hz⟩

/-- A store either is rejected at a gate, with the tables of the state as they
were, or runs the part from `allocate entry` on, with the tree present. -/
theorem store_cases (env : Env) (o : Oracle) (s : State) (type offset : Nat)
    (page : struct_page) :
    (∃ r s1, zswap_frontswap_store env o s type offset page = some (r, s1) ∧ r < 0 ∧
      s1.zswap_trees = s.zswap_trees ∧ s1.entries = s.entries ∧
      s1.zswap_pools = s.zswap_pools ∧
      s1.zswap_stored_pages = s.zswap_stored_pages ∧
      s1.zswap_same_filled_pages = s.zswap_same_filled_pages ∧
      s1.zswap_zero_pages = s.zswap_zero_pages ∧
      s1.zswap_same_filled_pages_enabled = s.zswap_same_filled_pages_enabled) ∨
    ((tfind s.zswap_trees type).isSome = true ∧
      zswap_frontswap_store env o s type offset page =
        zswap_frontswap_store_entry env o s type offset page) := by
  unfold zswap_frontswap_store
  by_cases h1 : page.PageTransHuge = true
  · rw [if_pos h1]
    exact Or.inl ⟨_, _, rfl, by decide, rfl, rfl, rfl, rfl, rfl, rfl, rfl⟩
  · rw [if_neg h1]
    by_cases h2 : (!s.zswap_enabled || (tfind s.zswap_trees type).isNone) = true
    · rw [if_pos h2]
      exact Or.inl ⟨_, _, rfl, by decide, rfl, rfl, rfl, rfl, rfl, rfl, rfl⟩
    · rw [if_neg h2]
      have ht : (tfind s.zswap_trees type).isSome = true := by
        cases h : tfind s.zswap_trees type with
        | none => simp [h] at h2
        | some t => rfl
      by_cases h3 : page.PageError = true
      · rw [if_pos h3]
        exact Or.inl ⟨_, _, rfl, by decide, rfl, rfl, rfl, rfl, rfl, rfl, rfl⟩
      · rw [if_neg h3]
        by_cases h4 : zswap_is_full env s = true
        · rw [if_pos h4]
          refine Or.inl ⟨-ENOMEM,
            { s with
              zswap_pool_limit_hit := u64_inc s.zswap_pool_limit_hit,
              zswap_reject_reclaim_fail := u64_inc s.zswap_reject_reclaim_fail,
              log := s.log ++ [Call.zswap_shrink] }, ?_, by decide, ?_⟩
          · simp [zswap_shrink, EINVAL]
          · exact ⟨rfl, rfl, rfl, rfl, rfl, rfl, rfl⟩
        · rw [if_neg h4]
          exact Or.inr ⟨ht, rfl⟩

theorem tfind_mem {α : Type} (t : Table α) (k : Nat) (v : α) (h : tfind t k = some v) :
    (k, v) ∈ t := by
  induction t with
  | nil => simp [tfind] at h
  | cons hd rest ih =>
    obtain ⟨a, b⟩ := hd
    by_cases hab : a = k
    · simp only [tfind, hab, if_true, Option.some.injEq] at h
      subst hab h
      exact List.mem_cons_self _ _
    · simp only [tfind, hab, if_false] at h
      exact List.mem_cons_of_mem _ (ih h)

theorem state_fresh_nodup (s : State) (h : state_fresh s = true) : trees_nodup s := by
  intro ty tr htr
  unfold state_fresh at h
  simp only [Bool.and_eq_true, List.all_eq_true] at h
  have h1 := h.1.2 (ty, tr) (tfind_mem _ _ _ htr)
  simp only [List.isEmpty_iff] at h1
  rw [h1]
  exact List.nodup_nil

theorem store_entry_nodup (env : Env) (o : Oracle) (s s1 : State) (type offset : Nat)
    (page : struct_page) (r : Int) (hn : trees_nodup s)
    (h : zswap_frontswap_store_entry env o s type offset page = some (r, s1)) :
    trees_nodup s1 := by
  rcases store_entry_cases env o s type offset page with
    ⟨_, h1⟩ | ⟨_, _, h1⟩ | ⟨_, h1 | ⟨pid, pool, rest, _, _, ⟨_, h1⟩ | ⟨_, _, h1⟩ | ⟨_, _, h1⟩⟩⟩
  · rw [h1] at h
    simp only [Option.some.injEq, Prod.mk.injEq] at h
    rw [← h.2]
    exact trees_nodup_eq s _ hn rfl
  · rw [h1] at h
    exact insert_entry_nodup env o _ s1 type _ r (by exact trees_nodup_eq s _ hn rfl) h
  · rw [h1] at h
    simp only [Option.some.injEq, Prod.mk.injEq] at h
    rw [← h.2]
    exact trees_nodup_eq s _ hn rfl
  · rw [h1] at h
    exact insert_entry_nodup env o _ s1 type _ r (by exact trees_nodup_eq s _ hn rfl) h
  · rw [h1] at h
    simp only [Option.some.injEq, Prod.mk.injEq] at h
    rw [← h.2]
    exact trees_nodup_eq s _ hn rfl
  · rw [h1] at h
    exact insert_entry_nodup env o _ s1 type _ r (by exact trees_nodup_eq s _ hn rfl) h

theorem store_nodup (env : Env) (o : Oracle) (s s1 : State) (type offset : Nat)
    (page : struct_page) (r : Int) (hn : trees_nodup s)
    (h : zswap_frontswap_store env o s type offset page = some (r, s1)) :
    trees_nodup s1 := by
  rcases store_cases env o s type offset page with
    ⟨r1, s2, h1, _, ht, _⟩ | ⟨_, h1⟩
  · rw [h1] at h
    simp only [Option.some.injEq, Prod.mk.injEq] at h
    rw [← h.2]
    exact trees_nodup_eq s _ hn ht
  · rw [h1] at h
    exact store_entry_nodup env o s s1 type offset page r hn h

/-- A load that returns either missed, and changed nothing, or took a reference
to the entry at the offset and ended with `zswap_entry_put` on it, having
changed nothing else but the log. -/
theorem load_cases (env : Env) (s s1 : State) (type offset : Nat) (page dst : Page) (r : Int)
    (h : zswap_frontswap_load env s type offset page = some (r, dst, s1)) :
    (zswap_search s type offset = some none ∧ s1 = s ∧ r = -1 ∧ dst = page) ∨
    ∃ entry e l, zswap_search s type offset = some (some entry) ∧
      tfind s.entries entry = some e ∧ r = 0 ∧
      zswap_entry_put env
        { s with
          entries := tput s.entries entry { e with refcount := int_inc e.refcount },
          log := s.log ++ l } type entry = some s1 := by
  unfold zswap_frontswap_load zswap_entry_find_get at h
  cases hsr : zswap_search s type offset with
  | none => simp [hsr] at h
  | some found =>
    simp only [hsr, Option.some_bind] at h
    cases found with
    | none =>
      simp only [Option.some_bind, Option.some.injEq, Prod.mk.injEq] at h
      exact Or.inl ⟨rfl, h.2.2.symm, h.1.symm, h.2.1.symm⟩
    | some entry =>
      right
      simp only at h
      unfold zswap_entry_get at h
      cases he : tfind s.entries entry with
      | none => simp [he] at h
      | some e =>
        simp only [he, Option.some_bind, tfind_tput, if_true] at h
        split at h
        · rw [Option.bind_eq_some] at h
          obtain ⟨s2, hput, h2⟩ := h
          simp only [Option.some.injEq, Prod.mk.injEq] at h2
          refine ⟨entry, e, [], rfl, he, h2.1.symm, ?_⟩
          rw [← h2.2.2]
          simpa using hput
        · rw [Option.bind_eq_some] at h
          obtain ⟨pid, _, h⟩ := h
          rw [Option.bind_eq_some] at h
          obtain ⟨pool, _, h⟩ := h
          rw [Option.bind_eq_some] at h
          obtain ⟨src, _, h⟩ := h
          split at h
          · rw [Option.bind_eq_some] at h
            obtain ⟨s2, hput, h2⟩ := h
            simp only [Option.some.injEq, Prod.mk.injEq] at h2
            refine ⟨entry, e, [], rfl, he, h2.1.symm, ?_⟩
            rw [← h2.2.2]
            simpa using hput
          · split at h
            · simp at h
            · rw [Option.bind_eq_some] at h
              obtain ⟨s2, hput, h2⟩ := h
              simp only [Option.some.injEq, Prod.mk.injEq] at h2
              refine ⟨entry, e, [Call.crypto_comp_decompress], rfl, he, h2.1.symm, ?_⟩
              rw [← h2.2.2]
              exact hput

theorem load_nodup (env : Env) (s s1 : State) (type offset : Nat) (page dst : Page) (r : Int)
    (hn : trees_nodup s)
    (h : zswap_frontswap_load env s type offset page = some (r, dst, s1)) :
    trees_nodup s1 := by
  rcases load_cases env s s1 type offset page dst r h with
    ⟨_, h1, _⟩ | ⟨entry, e, l, _, _, _, hput⟩
  · rw [h1]; exact hn
  · exact zswap_entry_put_nodup env _ s1 type entry (by exact trees_nodup_eq s _ hn rfl) hput

theorem invalidate_page_nodup (env : Env) (s s1 : State) (type offset : Nat)
    (hn : trees_nodup s)
    (h : zswap_frontswap_invalidate_page env s type offset = some s1) :
    trees_nodup s1 := by
  unfold zswap_frontswap_invalidate_page zswap_search at h
  cases ht : tfind s.zswap_trees type with
  | none => simp [ht] at h
  | some tree =>
    simp only [ht, Option.some_bind] at h
    cases hk : tfind tree offset with
    | none =>
      simp only [hk, Option.some.injEq] at h
      rw [← h]
      exact hn
    | some entry =>
      simp only [hk] at h
      unfold zswap_erase at h
      cases he : tfind s.entries entry with
      | none => simp [ht, he] at h
      | some e =>
        simp only [ht, he, Option.some_bind] at h
        exact zswap_entry_put_nodup env _ s1 type entry
          (trees_nodup_tput s _ type _ hn (keys_nodup_terase tree _ (hn type tree ht)) rfl) h

theorem btree_visitor_trees (env : Env) :
    ∀ (tree : zswap_tree) (s s1 : State),
      btree_visitor (do_free_entry env) tree s = some s1 → s1.zswap_trees = s.zswap_trees := by
  intro tree
  induction tree with
  | nil =>
    intro s s1 h
    simp only [btree_visitor, Option.some.injEq] at h
    rw [h]
  | cons hd rest ih =>
    intro s s1 h
    obtain ⟨k, elem⟩ := hd
    simp only [btree_visitor] at h
    cases hf : do_free_entry env s elem with
    | none => simp [hf] at h
    | some s2 =>
      simp only [hf, Option.some_bind] at h
      rw [ih s2 s1 h]
      exact zswap_free_entry_trees env s s2 elem hf

theorem invalidate_area_nodup (env : Env) (s s1 : State) (type : Nat)
    (hn : trees_nodup s)
    (h : zswap_frontswap_invalidate_area env s type = some s1) :
    trees_nodup s1 := by
  unfold zswap_frontswap_invalidate_area at h
  cases ht : tfind s.zswap_trees type with
  | none =>
    simp only [ht, Option.some.injEq] at h
    rw [← h]
    exact hn
  | some tree =>
    simp only [ht] at h
    cases hv : btree_visitor (do_free_entry env) tree s with
    | none => simp [hv] at h
    | some s2 =>
      simp only [hv, Option.some_bind, Option.some.injEq] at h
      have ht2 := btree_visitor_trees env tree s s2 hv
      intro ty tr htr
      rw [← h] at htr
      simp only [tfind_terase, ht2] at htr
      split at htr
      · simp at htr
      · exact hn ty tr htr

theorem step_nodup (env : Env) (c c1 : Config) (op : Op) (hop : frontswap_op op = true)
    (hn : trees_nodup c.state) (h : step env c op = some c1) : trees_nodup c1.state := by
  cases op with
  | store o type offset page =>
    simp only [step] at h
    cases hs : zswap_frontswap_store env o c.state type offset page with
    | none => simp [hs] at h
    | some r =>
      simp only [hs, Option.some_bind, Option.some.injEq] at h
      rw [← h]
      exact store_nodup env o c.state r.2 type offset page r.1 hn hs
  | load type offset dst =>
    simp only [step] at h
    cases hs : zswap_frontswap_load env c.state type offset dst with
    | none => simp [hs] at h
    | some r =>
      simp only [hs, Option.some_bind, Option.some.injEq] at h
      rw [← h]
      exact load_nodup env c.state r.2.2 type offset dst r.2.1 r.1 hn hs
  | invalidate_page type offset =>
    simp only [step] at h
    cases hs : zswap_frontswap_invalidate_page env c.state type offset with
    | none => simp [hs] at h
    | some r =>
      simp only [hs, Option.some_bind, Option.some.injEq] at h
      rw [← h]
      exact invalidate_page_nodup env c.state r type offset hn hs
  | invalidate_area type =>
    simp only [step] at h
    cases hs : zswap_frontswap_invalidate_area env c.state type with
    | none => simp [hs] at h
    | some r =>
      simp only [hs, Option.some_bind, Option.some.injEq] at h
      rw [← h]
      exact invalidate_area_nodup env c.state r type hn hs
  | find_get type offset => simp [frontswap_op] at hop
  | put type entry => simp [frontswap_op] at hop

theorem run_nodup (env : Env) :
    ∀ (ops : List Op) (c c1 : Config), (∀ op ∈ ops, frontswap_op op = true) →
      trees_nodup c.state → run env ops c = some c1 → trees_nodup c1.state := by
  intro ops
  induction ops with
  | nil =>
    intro c c1 _ hn h
    simp only [run, Option.some.injEq] at h
    rw [← h]
    exact hn
  | cons op rest ih =>
    intro c c1 hops hn h
    simp only [run] at h
    cases hs : step env c op with
    | none => simp [hs] at h
    | some c2 =>
      simp only [hs, Option.some_bind] at h
      exact ih c2 c1 (fun o ho => hops o (List.mem_cons_of_mem _ ho))
        (step_nodup env c c2 op (hops op (List.mem_cons_self _ _)) hn hs) h

theorem zswap_free_entry_entries (env : Env) (s s1 : State) (entry : Nat)
    (h : zswap_free_entry env s entry = some s1) : s1.entries = terase s.entries entry := by
  unfold zswap_free_entry at h
  cases he : tfind s.entries entry with
  | none => simp [he] at h
  | some e =>
    simp only [he, Option.some_bind] at h
    by_cases hl : e.length = 0
    · simp only [hl, if_true, Option.some_bind, Option.some.injEq] at h
      subst h
      rfl
    · simp only [hl, if_false] at h
      rw [Option.bind_eq_some] at h
      obtain ⟨s2, h2, h3⟩ := h
      rw [Option.bind_eq_some] at h2
      obtain ⟨pid, _, h2⟩ := h2
      rw [Option.bind_eq_some] at h2
      obtain ⟨p, _, h2⟩ := h2
      have hf := zswap_pool_put_frame _ s2 pid h2
      simp only [Option.some.injEq] at h3
      subst h3
      rw [hf]
      rfl

/-- What `zswap_entry_put` does to the entries: the entry it is given loses one
reference, and is freed when that was its last; no other entry changes. -/
theorem zswap_entry_put_entries (env : Env) (s s1 : State) (type entry : Nat) (e : zswap_entry)
    (he : tfind s.entries entry = some e) (hmin : e.refcount ≠ -2 ^ 31)
    (h : zswap_entry_put env s type entry = some s1) :
    (∀ x, x ≠ entry → tfind s1.entries x = tfind s.entries x) ∧
    ((e.refcount = 1 ∧ tfind s1.entries entry = none) ∨
     (1 < e.refcount ∧
      tfind s1.entries entry = some { e with refcount := e.refcount - 1 })) := by
  unfold zswap_entry_put at h
  have hdec : int_dec e.refcount = e.refcount - 1 := by
    unfold int_dec
    rw [if_neg hmin]
  simp only [he, Option.some_bind, hdec] at h
  split at h
  · simp at h
  · rename_i hneg
    split at h
    · rename_i hzero
      rw [Option.bind_eq_some] at h
      obtain ⟨s2, hz, hf⟩ := h
      have hent := zswap_free_entry_entries env s2 s1 entry hf
      unfold zswap_erase at hz
      rw [Option.bind_eq_some] at hz
      obtain ⟨tree, _, hz⟩ := hz
      simp only [tfind_tput, if_true, Option.some_bind, Option.some.injEq] at hz
      subst hz
      simp only at hent
      refine ⟨fun x hx => ?_, Or.inl ⟨by omega, ?_⟩⟩
      · rw [hent, tfind_terase, if_neg (Ne.symm hx), tfind_tput, if_neg (Ne.symm hx)]
      · rw [hent, tfind_terase, if_pos rfl]
    · rename_i hzero
      simp only [Option.some.injEq] at h
      subst h
      refine ⟨fun x hx => ?_, Or.inr ⟨by omega, ?_⟩⟩
      · rw [tfind_tput, if_neg (Ne.symm hx)]
      · simp only [tfind_tput, if_true]

theorem zswap_insert_or_replace_put_none (env : Env) (ok : Bool) (s : State)
    (type entry old : Nat) (e : zswap_entry) (tree : zswap_tree)
    (he : tfind s.entries entry = some e) (ht : tfind s.zswap_trees type = some tree)
    (hk : tfind tree e.offset = some old)
    (hput : zswap_entry_put env
      { s with
        zswap_trees := tput s.zswap_trees type (terase tree e.offset),
        zswap_duplicate_entry := u64_inc s.zswap_duplicate_entry } type old = none) :
    zswap_insert_or_replace env ok s type entry = none := by
  unfold zswap_insert_or_replace
  simp only [ht, Option.some_bind, zswap_insert_or_replace_loop, he, hk, hput, Option.none_bind]

theorem countP_tput_none {α : Type} (t : Table α) (k : Nat) (v : α) (p : Nat × α → Bool)
    (h : tfind t k = none) :
    (tput t k v).countP p = t.countP p + if p (k, v) = true then 1 else 0 := by
  induction t with
  | nil => simp [tput, List.countP_cons]
  | cons hd rest ih =>
    obtain ⟨a, b⟩ := hd
    by_cases hab : a = k
    · simp [tfind, hab] at h
    · simp only [tfind, hab, if_false] at h
      simp only [tput, hab, if_false, List.countP_cons, ih h]
      omega

theorem countP_tput_some {α : Type} (t : Table α) (k : Nat) (v v0 : α) (p : Nat × α → Bool)
    (h : tfind t k = some v0) (hp : p (k, v) = p (k, v0)) :
    (tput t k v).countP p = t.countP p := by
  induction t with
  | nil => simp [tfind] at h
  | cons hd rest ih =>
    obtain ⟨a, b⟩ := hd
    by_cases hab : a = k
    · simp only [tfind, hab, if_true, Option.some.injEq] at h
      subst hab h
      simp [tput, List.countP_cons, hp]
    · simp only [tfind, hab, if_false] at h
      simp only [tput, hab, if_false, List.countP_cons, ih h]

theorem countP_terase_le {α : Type} (t : Table α) (k : Nat) (p : Nat × α → Bool) :
    (terase t k).countP p ≤ t.countP p := by
  induction t with
  | nil => simp [terase]
  | cons hd rest ih =>
    obtain ⟨a, b⟩ := hd
    by_cases hab : a = k
    · simp only [terase, hab, if_true, List.countP_cons]
      omega
    · simp only [terase, hab, if_false, List.countP_cons]
      omega

theorem countP_terase_lt {α : Type} (t : Table α) (k : Nat) (v0 : α) (p : Nat × α → Bool)
    (h : tfind t k = some v0) (hp : p (k, v0) = true) :
    (terase t k).countP p + 1 ≤ t.countP p := by
  induction t with
  | nil => simp [tfind] at h
  | cons hd rest ih =>
    obtain ⟨a, b⟩ := hd
    by_cases hab : a = k
    · simp only [tfind, hab, if_true, Option.some.injEq] at h
      subst hab h
      simp only [terase, if_true, List.countP_cons, hp]
      have := countP_terase_le rest a p
      omega
    · simp only [tfind, hab, if_false] at h
      simp only [terase, hab, if_false, List.countP_cons]
      have := ih h
      omega

theorem held_count_zero (held : List (Nat × Nat)) (id : Nat)
    (h : ∀ t, (t, id) ∉ held) : held_count held id = 0 := by
  unfold held_count
  rw [List.countP_eq_zero]
  intro x hx hx2
  simp only [beq_iff_eq] at hx2
  exact h x.1 (by rw [← hx2]; exact hx)

theorem held_count_pos (held : List (Nat × Nat)) (t id : Nat) (h : (t, id) ∈ held) :
    1 ≤ held_count held id := by
  unfold held_count
  exact List.countP_pos_iff.mpr ⟨(t, id), h, by simp⟩

theorem held_count_cons (held : List (Nat × Nat)) (t id x : Nat) :
    held_count ((t, id) :: held) x = held_count held x + if id = x then 1 else 0 := by
  unfold held_count
  simp [List.countP_cons]

theorem held_count_erase (held : List (Nat × Nat)) (t id x : Nat) (h : (t, id) ∈ held) :
    held_count (held.erase (t, id)) x + (if id = x then 1 else 0) = held_count held x := by
  induction held with
  | nil => simp at h
  | cons hd rest ih =>
    by_cases hhd : hd = (t, id)
    · subst hhd
      simp only [List.erase_cons_head]
      rw [held_count_cons]
    · rw [List.erase_cons_tail (by simpa using hhd)]
      have hmem : (t, id) ∈ rest := by
        rcases List.mem_cons.mp h with h1 | h1
        · exact absurd h1.symm hhd
        · exact h1
      have := ih hmem
      obtain ⟨a, b⟩ := hd
      rw [held_count_cons, held_count_cons]
      omega

theorem mem_of_mem_erase_held (held : List (Nat × Nat)) (a b : Nat × Nat)
    (h : a ∈ held.erase b) : a ∈ held := List.mem_of_mem_erase h

/-- The invariant only looks at the three tables. -/
theorem Inv_congr (s s1 : State) (held : List (Nat × Nat)) (h : Inv s held)
    (h1 : s1.zswap_trees = s.zswap_trees) (h2 : s1.entries = s.entries)
    (h3 : s1.zswap_pools = s.zswap_pools) : Inv s1 held := by
  obtain ⟨a1, a2, a3, a4, a5, a6, a7⟩ := h
  refine ⟨?_, ?_, ?_, ?_, ?_, ?_, ?_⟩
  · intro type tree offset id ht hk
    rw [h1] at ht
    rw [h2]
    exact a1 type tree offset id ht hk
  · intro type type1 tree tree1 offset offset1 id ht hk ht1 hk1
    rw [h1] at ht ht1
    exact a2 type type1 tree tree1 offset offset1 id ht hk ht1 hk1
  · intro id e he
    rw [h2] at he
    obtain ⟨b1, b2, b3⟩ := a3 id e he
    refine ⟨b1, b2, fun hin => b3 ?_⟩
    obtain ⟨ty, tr, off, ht, hk⟩ := hin
    rw [h1] at ht
    exact ⟨ty, tr, off, ht, hk⟩
  · intro t id hm
    rw [h1, h2]
    exact a4 t id hm
  · intro id e he hl
    rw [h2] at he
    rw [h3]
    exact a5 id e he hl
  · intro id1 id2 e1 e2 hne he1 he2
    rw [h2] at he1 he2
    exact a6 id1 id2 e1 e2 hne he1 he2
  · intro pid p hp
    rw [h3] at hp
    rw [h2]
    exact a7 pid p hp

/-- A binding of the tree table after one key of one tree was erased is a
binding of the table before. -/
theorem binding_of_erased (trees : Table zswap_tree) (t k ty off id : Nat)
    (tree tr : zswap_tree) (ht : tfind trees t = some tree)
    (h1 : tfind (tput trees t (terase tree k)) ty = some tr) (h2 : tfind tr off = some id) :
    (∃ tr0, tfind trees ty = some tr0 ∧ tfind tr0 off = some id) ∧ (t = ty → k ≠ off) := by
  rw [tfind_tput] at h1
  by_cases hty : t = ty
  · subst hty
    simp only [if_true, Option.some.injEq] at h1
    subst h1
    rw [tfind_terase] at h2
    by_cases hko : k = off
    · simp [hko] at h2
    · simp only [hko, if_false] at h2
      exact ⟨⟨tree, ht, h2⟩, fun _ => hko⟩
  · simp only [hty, if_false] at h1
    exact ⟨⟨tr, h1, h2⟩, fun h => absurd h hty⟩

theorem in_tree_of_erased (s : State) (t k id : Nat) (tree : zswap_tree)
    (ht : tfind s.zswap_trees t = some tree)
    (h : in_tree { s with zswap_trees := tput s.zswap_trees t (terase tree k) } id) :
    in_tree s id := by
  obtain ⟨ty, tr, off, h1, h2⟩ := h
  obtain ⟨⟨tr0, h3, h4⟩, _⟩ := binding_of_erased s.zswap_trees t k ty off id tree tr ht h1 h2
  exact ⟨ty, tr0, off, h3, h4⟩

/-- Erasing a key of a tree keeps the invariant. -/
theorem inv_tree_erase (s : State) (held : List (Nat × Nat)) (t k : Nat) (tree : zswap_tree)
    (h : Inv s held) (ht : tfind s.zswap_trees t = some tree) :
    Inv { s with zswap_trees := tput s.zswap_trees t (terase tree k) } held := by
  obtain ⟨a1, a2, a3, a4, a5, a6, a7⟩ := h
  refine ⟨?_, ?_, ?_, ?_, a5, a6, a7⟩
  · intro ty tr off id h1 h2
    obtain ⟨⟨tr0, h3, h4⟩, _⟩ := binding_of_erased s.zswap_trees t k ty off id tree tr ht h1 h2
    exact a1 ty tr0 off id h3 h4
  · intro ty ty1 tr tr1 off off1 id h1 h2 h3 h4
    obtain ⟨⟨tr0, h5, h6⟩, _⟩ := binding_of_erased s.zswap_trees t k ty off id tree tr ht h1 h2
    obtain ⟨⟨tr2, h7, h8⟩, _⟩ :=
      binding_of_erased s.zswap_trees t k ty1 off1 id tree tr1 ht h3 h4
    exact a2 ty ty1 tr0 tr2 off off1 id h5 h6 h7 h8
  · intro id e he
    obtain ⟨b1, b2, b3⟩ := a3 id e he
    exact ⟨b1, b2, fun hin => b3 (in_tree_of_erased s t k id tree ht hin)⟩
  · intro t1 id hm
    obtain ⟨b1, tr, b2⟩ := a4 t1 id hm
    refine ⟨b1, ?_⟩
    simp only [tfind_tput]
    split
    · exact ⟨_, rfl⟩
    · exact ⟨tr, b2⟩

/-- The entry whose key was erased is bound nowhere any more. -/
theorem not_in_tree_erased (s : State) (held : List (Nat × Nat)) (t k id : Nat)
    (tree : zswap_tree) (h : Inv s held) (ht : tfind s.zswap_trees t = some tree)
    (hk : tfind tree k = some id) :
    ¬ in_tree { s with zswap_trees := tput s.zswap_trees t (terase tree k) } id := by
  intro hin
  obtain ⟨ty, tr, off, h1, h2⟩ := hin
  obtain ⟨⟨tr0, h3, h4⟩, hko⟩ :=
    binding_of_erased s.zswap_trees t k ty off id tree tr ht h1 h2
  have hty : t = ty := h.single t ty tree tr0 k off id ht hk h3 h4
  obtain ⟨e, he, hoff⟩ := h.keyed t tree k id ht hk
  obtain ⟨e1, he1, hoff1⟩ := h.keyed ty tr0 off id h3 h4
  rw [he] at he1
  simp only [Option.some.injEq] at he1
  subst he1
  exact hko hty (hoff.symm.trans hoff1)

/-- Changing the reference count of a live entry keeps the invariant when the
new count covers the tree's reference and those that readers hold. -/
theorem inv_set_refcount (s : State) (held : List (Nat × Nat)) (id : Nat) (e : zswap_entry)
    (r : Int) (h : Inv s held) (he : tfind s.entries id = some e) (h1 : 1 ≤ r)
    (h2 : (held_count held id : Int) ≤ r)
    (h3 : in_tree s id → (held_count held id : Int) + 1 ≤ r) :
    Inv { s with entries := tput s.entries id { e with refcount := r } } held := by
  obtain ⟨a1, a2, a3, a4, a5, a6, a7⟩ := h
  refine ⟨?_, a2, ?_, ?_, ?_, ?_, ?_⟩
  · intro ty tr off x ht hk
    obtain ⟨e1, he1, hoff⟩ := a1 ty tr off x ht hk
    simp only [tfind_tput]
    by_cases hx : id = x
    · subst hx
      rw [he] at he1
      simp only [Option.some.injEq] at he1
      subst he1
      exact ⟨{ e with refcount := r }, by simp, hoff⟩
    · exact ⟨e1, by simp [hx, he1], hoff⟩
  · intro x e1 he1
    simp only [tfind_tput] at he1
    by_cases hx : id = x
    · subst hx
      simp only [if_true, Option.some.injEq] at he1
      subst he1
      exact ⟨h1, h2, h3⟩
    · simp only [hx, if_false] at he1
      exact a3 x e1 he1
  · intro t1 x hm
    obtain ⟨⟨e1, he1⟩, b2⟩ := a4 t1 x hm
    refine ⟨?_, b2⟩
    simp only [tfind_tput]
    split
    · exact ⟨_, rfl⟩
    · exact ⟨e1, he1⟩
  · intro x e1 he1 hl
    simp only [tfind_tput] at he1
    by_cases hx : id = x
    · subst hx
      simp only [if_true, Option.some.injEq] at he1
      subst he1
      exact a5 id e he hl
    · simp only [hx, if_false] at he1
      exact a5 x e1 he1 hl
  · intro x1 x2 e1 e2 hne he1 he2 hl1 hl2 hp
    simp only [tfind_tput] at he1 he2
    by_cases hx1 : id = x1
    · subst hx1
      simp only [if_true, Option.some.injEq] at he1
      subst he1
      simp only [if_neg hne] at he2
      exact a6 id x2 e e2 hne he he2 hl1 hl2 hp
    · simp only [hx1, if_false] at he1
      by_cases hx2 : id = x2
      · subst hx2
        simp only [if_true, Option.some.injEq] at he2
        subst he2
        exact a6 x1 id e1 e hne he1 he hl1 hl2 hp
      · simp only [hx2, if_false] at he2
        exact a6 x1 x2 e1 e2 hne he1 he2 hl1 hl2 hp
  · intro pid p hp
    have hc : pool_users (tput s.entries id { e with refcount := r }) pid =
        pool_users s.entries pid := by
      unfold pool_users
      exact countP_tput_some s.entries id _ e _ he rfl
    simp only [hc]
    exact a7 pid p hp

/-- Freeing the slab object of a live entry that no tree binds and no reader
holds keeps the invariant. -/
theorem inv_remove_entry (s : State) (held : List (Nat × Nat)) (id : Nat)
    (h : Inv s held) (hh : held_count held id = 0) (hn : ¬ in_tree s id) :
    Inv { s with entries := terase s.entries id } held := by
  obtain ⟨a1, a2, a3, a4, a5, a6, a7⟩ := h
  refine ⟨?_, a2, ?_, ?_, ?_, ?_, ?_⟩
  · intro ty tr off x ht hk
    obtain ⟨e1, he1, hoff⟩ := a1 ty tr off x ht hk
    have hx : id ≠ x := by
      intro hx
      subst hx
      exact hn ⟨ty, tr, off, ht, hk⟩
    exact ⟨e1, by simp [tfind_terase, hx, he1], hoff⟩
  · intro x e1 he1
    simp only [tfind_terase] at he1
    split at he1
    · simp at he1
    · exact a3 x e1 he1
  · intro t1 x hm
    obtain ⟨⟨e1, he1⟩, b2⟩ := a4 t1 x hm
    have hx : id ≠ x := by
      intro hx
      subst hx
      have := held_count_pos held t1 id hm
      omega
    exact ⟨⟨e1, by simp [tfind_terase, hx, he1]⟩, b2⟩
  · intro x e1 he1 hl
    simp only [tfind_terase] at he1
    split at he1
    · simp at he1
    · exact a5 x e1 he1 hl
  · intro x1 x2 e1 e2 hne he1 he2 hl1 hl2 hp
    simp only [tfind_terase] at he1 he2
    split at he1
    · simp at he1
    · split at he2
      · simp at he2
      · exact a6 x1 x2 e1 e2 hne he1 he2 hl1 hl2 hp
  · intro pid p hp
    have hc : pool_users (terase s.entries id) pid ≤ pool_users s.entries pid := by
      unfold pool_users
      exact countP_terase_le s.entries id _
    have := a7 pid p hp
    simp only
    omega

/-- The bound only looks at the slab. -/
theorem RefBound_congr (s s1 : State) (held : List (Nat × Nat)) (h : RefBound s held)
    (h1 : s1.entries = s.entries) : RefBound s1 held := by
  intro id e he
  rw [h1] at he
  exact h id e he

/-- No entry is held more often than there are references held. -/
theorem held_count_le_length (held : List (Nat × Nat)) (id : Nat) :
    held_count held id ≤ held.length := by
  unfold held_count
  exact List.countP_le_length _

/-- Under the bound, with fewer than `INT_MAX - 1` references held, no
reference count is `INT_MAX`: the next `zswap_entry_get` does not wrap. -/
theorem RefBound_lt (s : State) (held : List (Nat × Nat)) (id : Nat) (e : zswap_entry)
    (h : RefBound s held) (hlen : held.length < 2 ^ 31 - 2)
    (he : tfind s.entries id = some e) : e.refcount < 2 ^ 31 - 1 := by
  have h1 := h id e he
  have h2 := held_count_le_length held id
  omega

/-- Dropping a reference keeps the bound: no count goes up. -/
theorem put_refbound (env : Env) (s s1 : State) (held : List (Nat × Nat)) (t id : Nat)
    (e : zswap_entry) (he : tfind s.entries id = some e) (hr : 1 ≤ e.refcount)
    (hput : zswap_entry_put env s t id = some s1) (h : RefBound s held) :
    RefBound s1 held := by
  obtain ⟨d1, d2⟩ := zswap_entry_put_entries env s s1 t id e he (by omega) hput
  intro x ex hx
  by_cases hxe : x = id
  · subst hxe
    rcases d2 with ⟨_, hfree⟩ | ⟨_, hlive⟩
    · rw [hfree] at hx
      simp at hx
    · rw [hlive] at hx
      simp only [Option.some.injEq] at hx
      subst hx
      have := h x e he
      simp only
      omega
  · rw [d1 x hxe] at hx
    exact h x ex hx

/-- A reader dropping the reference it holds keeps the bound, with that
reference taken off those held. -/
theorem put_refbound_erase (env : Env) (s s1 : State) (held : List (Nat × Nat)) (t id : Nat)
    (e : zswap_entry) (he : tfind s.entries id = some e) (hr : 1 ≤ e.refcount)
    (hm : (t, id) ∈ held)
    (hput : zswap_entry_put env s t id = some s1) (h : RefBound s held) :
    RefBound s1 (held.erase (t, id)) := by
  obtain ⟨d1, d2⟩ := zswap_entry_put_entries env s s1 t id e he (by omega) hput
  intro x ex hx
  have hc := held_count_erase held t id x hm
  by_cases hxe : x = id
  · subst hxe
    simp only [if_true] at hc
    rcases d2 with ⟨_, hfree⟩ | ⟨_, hlive⟩
    · rw [hfree] at hx
      simp at hx
    · rw [hlive] at hx
      simp only [Option.some.injEq] at hx
      subst hx
      have := h x e he
      simp only
      omega
  · rw [d1 x hxe] at hx
    rw [if_neg (Ne.symm hxe)] at hc
    have := h x ex hx
    omega

/-- A reader taking a reference to an entry whose count is below `INT_MAX`
keeps the bound, with the reference added to those held. -/
theorem get_refbound (s : State) (held : List (Nat × Nat)) (t id : Nat) (e : zswap_entry)
    (he : tfind s.entries id = some e) (h : RefBound s held) :
    RefBound { s with entries := tput s.entries id { e with refcount := e.refcount + 1 } }
      ((t, id) :: held) := by
  intro x ex hx
  rw [held_count_cons]
  simp only [tfind_tput] at hx
  by_cases hxe : id = x
  · subst hxe
    simp only [if_true, Option.some.injEq] at hx
    subst hx
    have := h id e he
    simp only [if_true]
    push_cast
    omega
  · simp only [hxe, if_false] at hx
    have := h x ex hx
    simp only [hxe, if_false]
    omega

/-- Releasing an allocation that no live entry owns, together with one pool
reference the pool can spare, keeps the invariant. -/
theorem inv_pool_free (s : State) (held : List (Nat × Nat)) (pid hd : Nat) (p : zswap_pool)
    (h : Inv s held) (hp : tfind s.zswap_pools pid = some p)
    (hfree : ∀ x e, tfind s.entries x = some e → e.length ≠ 0 → e.pool = some pid →
      e.handle ≠ hd)
    (hk : (pool_users s.entries pid : Int) + 2 ≤ p.kref) :
    Inv { s with zswap_pools := pools_after_free s.zswap_pools pid p hd } held := by
  have hk1 : ¬ (p.kref - 1 = 0) := by omega
  have hpools : pools_after_free s.zswap_pools pid p hd =
      tput s.zswap_pools pid
        { p with zpool := { p.zpool with blobs := terase p.zpool.blobs hd },
                 kref := p.kref - 1 } := by
    unfold pools_after_free
    rw [if_neg hk1]
  rw [hpools]
  obtain ⟨a1, a2, a3, a4, a5, a6, a7⟩ := h
  refine ⟨a1, a2, a3, a4, ?_, a6, ?_⟩
  · intro x e he hl
    obtain ⟨pid1, p1, buf, b1, b2, b3⟩ := a5 x e he hl
    by_cases hpp : pid = pid1
    · subst hpp
      rw [hp] at b2
      simp only [Option.some.injEq] at b2
      subst b2
      refine ⟨pid,
        { p with zpool := { p.zpool with blobs := terase p.zpool.blobs hd },
                 kref := p.kref - 1 }, buf, b1, by simp [tfind_tput], ?_⟩
      simp only [tfind_terase]
      rw [if_neg (Ne.symm (hfree x e he hl b1))]
      exact b3
    · exact ⟨pid1, p1, buf, b1, by simp [tfind_tput, hpp, b2], b3⟩
  · intro pid1 p1 hp1
    simp only [tfind_tput] at hp1
    by_cases hpp : pid = pid1
    · subst hpp
      simp only [if_true, Option.some.injEq] at hp1
      subst hp1
      simp only
      omega
    · simp only [hpp, if_false] at hp1
      exact a7 pid1 p1 hp1

/-- Replacing a pool by one with at least as many references and at least the
same allocations keeps the invariant. -/
theorem inv_pool_update (s : State) (held : List (Nat × Nat)) (pid : Nat) (p p1 : zswap_pool)
    (h : Inv s held) (hp : tfind s.zswap_pools pid = some p) (hkref : p.kref ≤ p1.kref)
    (hblobs : ∀ hd buf, tfind p.zpool.blobs hd = some buf →
      ∃ buf1, tfind p1.zpool.blobs hd = some buf1) :
    Inv { s with zswap_pools := tput s.zswap_pools pid p1 } held := by
  obtain ⟨a1, a2, a3, a4, a5, a6, a7⟩ := h
  refine ⟨a1, a2, a3, a4, ?_, a6, ?_⟩
  · intro x e he hl
    obtain ⟨pid1, p2, buf, b1, b2, b3⟩ := a5 x e he hl
    by_cases hpp : pid = pid1
    · subst hpp
      rw [hp] at b2
      simp only [Option.some.injEq] at b2
      subst b2
      obtain ⟨buf1, hb1⟩ := hblobs e.handle buf b3
      exact ⟨pid, p1, buf1, b1, by simp [tfind_tput], hb1⟩
    · exact ⟨pid1, p2, buf, b1, by simp [tfind_tput, hpp, b2], b3⟩
  · intro pid1 p2 hp2
    simp only [tfind_tput] at hp2
    by_cases hpp : pid = pid1
    · subst hpp
      simp only [if_true, Option.some.injEq] at hp2
      subst hp2
      have := a7 pid p hp
      simp only
      omega
    · simp only [hpp, if_false] at hp2
      exact a7 pid1 p2 hp2

/-- An id that is not live is held by no reader and bound in no tree. -/
theorem not_live_free (s : State) (held : List (Nat × Nat)) (id : Nat) (h : Inv s held)
    (hfresh : tfind s.entries id = none) : held_count held id = 0 ∧ ¬ in_tree s id := by
  constructor
  · apply held_count_zero
    intro t hm
    obtain ⟨⟨e, he⟩, _⟩ := h.held_live t id hm
    rw [hfresh] at he
    simp at he
  · intro hin
    obtain ⟨ty, tr, off, ht, hk⟩ := hin
    obtain ⟨e, he, _⟩ := h.keyed ty tr off id ht hk
    rw [hfresh] at he
    simp at he

/-- A new slab object with one reference keeps the invariant; when it has a
blob, the blob is allocated, owned by no other entry, and the pool has a
reference for it. -/
theorem inv_add_entry (s : State) (held : List (Nat × Nat)) (id : Nat) (e : zswap_entry)
    (h : Inv s held) (hfresh : tfind s.entries id = none) (hr : e.refcount = 1)
    (hb : e.length ≠ 0 → ∃ pid p buf, e.pool = some pid ∧ tfind s.zswap_pools pid = some p ∧
      tfind p.zpool.blobs e.handle = some buf ∧
      (∀ x e2, tfind s.entries x = some e2 → e2.length ≠ 0 → e2.pool = some pid →
        e2.handle ≠ e.handle) ∧
      (pool_users s.entries pid : Int) + 2 ≤ p.kref) :
    Inv { s with entries := tput s.entries id e } held := by
  obtain ⟨hh, hn⟩ := not_live_free s held id h hfresh
  obtain ⟨a1, a2, a3, a4, a5, a6, a7⟩ := h
  refine ⟨?_, a2, ?_, ?_, ?_, ?_, ?_⟩
  · intro ty tr off x ht hk
    obtain ⟨e1, he1, hoff⟩ := a1 ty tr off x ht hk
    have hx : id ≠ x := by
      intro hx
      subst hx
      rw [hfresh] at he1
      simp at he1
    exact ⟨e1, by simp [tfind_tput, hx, he1], hoff⟩
  · intro x e1 he1
    simp only [tfind_tput] at he1
    by_cases hx : id = x
    · subst hx
      simp only [if_true, Option.some.injEq] at he1
      subst he1
      refine ⟨by omega, by omega, fun hin => absurd hin hn⟩
    · simp only [hx, if_false] at he1
      exact a3 x e1 he1
  · intro t1 x hm
    obtain ⟨⟨e1, he1⟩, b2⟩ := a4 t1 x hm
    refine ⟨?_, b2⟩
    simp only [tfind_tput]
    split
    · exact ⟨_, rfl⟩
    · exact ⟨e1, he1⟩
  · intro x e1 he1 hl
    simp only [tfind_tput] at he1
    by_cases hx : id = x
    · subst hx
      simp only [if_true, Option.some.injEq] at he1
      subst he1
      obtain ⟨pid, p, buf, b1, b2, b3, _⟩ := hb hl
      exact ⟨pid, p, buf, b1, b2, b3⟩
    · simp only [hx, if_false] at he1
      exact a5 x e1 he1 hl
  · intro x1 x2 e1 e2 hne he1 he2 hl1 hl2 hp
    simp only [tfind_tput] at he1 he2
    by_cases hx1 : id = x1
    · subst hx1
      simp only [if_true, Option.some.injEq] at he1
      subst he1
      simp only [if_neg hne] at he2
      obtain ⟨pid, p, buf, b1, _, _, b4, _⟩ := hb hl1
      exact Ne.symm (b4 x2 e2 he2 hl2 (by rw [← hp, b1]))
    · simp only [hx1, if_false] at he1
      by_cases hx2 : id = x2
      · subst hx2
        simp only [if_true, Option.some.injEq] at he2
        subst he2
        obtain ⟨pid, p, buf, b1, _, _, b4, _⟩ := hb hl2
        exact b4 x1 e1 he1 hl1 (by rw [hp, b1])
      · simp only [hx2, if_false] at he2
        exact a6 x1 x2 e1 e2 hne he1 he2 hl1 hl2 hp
  · intro pid p hp
    have hc : pool_users (tput s.entries id e) pid =
        pool_users s.entries pid +
          if (decide (e.length ≠ 0) && decide (e.pool = some pid)) = true then 1 else 0 := by
      unfold pool_users
      exact countP_tput_none s.entries id e _ hfresh
    simp only [hc]
    have h7 := a7 pid p hp
    split
    · rename_i hcond
      simp only [Bool.and_eq_true, decide_eq_true_eq] at hcond
      obtain ⟨pid1, p1, buf, b1, b2, _, _, b5⟩ := hb hcond.1
      rw [hcond.2] at b1
      simp only [Option.some.injEq] at b1
      subst b1
      rw [hp] at b2
      simp only [Option.some.injEq] at b2
      subst b2
      push_cast
      omega
    · push_cast
      omega

/-- Binding an unbound offset to a live entry of that offset which no tree
binds yet, and which has a reference to give to the tree, keeps the
invariant. -/
theorem inv_tree_insert (s : State) (held : List (Nat × Nat)) (t k id : Nat)
    (tree : zswap_tree) (e : zswap_entry)
    (h : Inv s held) (ht : tfind s.zswap_trees t = some tree)
    (he : tfind s.entries id = some e) (hoff : e.offset = k) (hn : ¬ in_tree s id)
    (hr : (held_count held id : Int) + 1 ≤ e.refcount) :
    Inv { s with zswap_trees := tput s.zswap_trees t (tput tree k id) } held := by
  have hbind : ∀ ty tr off x, tfind (tput s.zswap_trees t (tput tree k id)) ty = some tr →
      tfind tr off = some x →
      (x = id ∧ ty = t ∧ off = k) ∨
      (x ≠ id ∧ ∃ tr0, tfind s.zswap_trees ty = some tr0 ∧ tfind tr0 off = some x) := by
    intro ty tr off x h1 h2
    rw [tfind_tput] at h1
    by_cases hty : t = ty
    · subst hty
      simp only [if_true, Option.some.injEq] at h1
      subst h1
      rw [tfind_tput] at h2
      by_cases hko : k = off
      · subst hko
        simp only [if_true, Option.some.injEq] at h2
        exact Or.inl ⟨h2.symm, rfl, rfl⟩
      · simp only [hko, if_false] at h2
        refine Or.inr ⟨?_, tree, ht, h2⟩
        intro hx
        subst hx
        exact hn ⟨t, tree, off, ht, h2⟩
    · simp only [hty, if_false] at h1
      refine Or.inr ⟨?_, tr, h1, h2⟩
      intro hx
      subst hx
      exact hn ⟨ty, tr, off, h1, h2⟩
  obtain ⟨a1, a2, a3, a4, a5, a6, a7⟩ := h
  refine ⟨?_, ?_, ?_, ?_, a5, a6, a7⟩
  · intro ty tr off x h1 h2
    rcases hbind ty tr off x h1 h2 with ⟨hx, _, hoff1⟩ | ⟨_, tr0, h3, h4⟩
    · subst hx hoff1
      exact ⟨e, he, hoff⟩
    · exact a1 ty tr0 off x h3 h4
  · intro ty ty1 tr tr1 off off1 x h1 h2 h3 h4
    rcases hbind ty tr off x h1 h2 with ⟨hx, hty, _⟩ | ⟨hx, tr0, h5, h6⟩
    · rcases hbind ty1 tr1 off1 x h3 h4 with ⟨_, hty1, _⟩ | ⟨hx1, _⟩
      · rw [hty, hty1]
      · exact absurd hx hx1
    · rcases hbind ty1 tr1 off1 x h3 h4 with ⟨hx1, _⟩ | ⟨_, tr2, h7, h8⟩
      · exact absurd hx1 hx
      · exact a2 ty ty1 tr0 tr2 off off1 x h5 h6 h7 h8
  · intro x e1 he1
    obtain ⟨b1, b2, b3⟩ := a3 x e1 he1
    refine ⟨b1, b2, fun hin => ?_⟩
    obtain ⟨ty, tr, off, h1, h2⟩ := hin
    rcases hbind ty tr off x h1 h2 with ⟨hx, _, _⟩ | ⟨_, tr0, h3, h4⟩
    · subst hx
      rw [he] at he1
      simp only [Option.some.injEq] at he1
      subst he1
      exact hr
    · exact b3 ⟨ty, tr0, off, h3, h4⟩
  · intro t1 x hm
    obtain ⟨b1, tr, b2⟩ := a4 t1 x hm
    refine ⟨b1, ?_⟩
    simp only [tfind_tput]
    split
    · exact ⟨_, rfl⟩
    · exact ⟨tr, b2⟩

/-- A reader taking a reference keeps the invariant, with the reference added
to those held. -/
theorem inv_get (s : State) (held : List (Nat × Nat)) (t id : Nat) (e : zswap_entry)
    (tree : zswap_tree) (h : Inv s held) (he : tfind s.entries id = some e)
    (ht : tfind s.zswap_trees t = some tree) :
    Inv { s with entries := tput s.entries id { e with refcount := e.refcount + 1 } }
      ((t, id) :: held) := by
  obtain ⟨c1, c2, c3⟩ := h.refs id e he
  have h1 := inv_set_refcount s held id e (e.refcount + 1) h he (by omega) (by omega)
    (fun hin => by have := c3 hin; omega)
  obtain ⟨a1, a2, a3, a4, a5, a6, a7⟩ := h1
  refine ⟨a1, a2, ?_, ?_, a5, a6, a7⟩
  · intro x e1 he1
    obtain ⟨b1, b2, b3⟩ := a3 x e1 he1
    rw [held_count_cons]
    simp only [tfind_tput] at he1
    by_cases hx : id = x
    · subst hx
      simp only [if_true, Option.some.injEq] at he1
      subst he1
      simp only [if_true]
      push_cast
      refine ⟨b1, by omega, fun hin => ?_⟩
      have := c3 hin
      omega
    · simp only [hx, if_false, Nat.add_zero]
      exact ⟨b1, b2, b3⟩
  · intro t1 x hm
    rcases List.mem_cons.mp hm with hm | hm
    · simp only [Prod.mk.injEq] at hm
      obtain ⟨ht1, hx⟩ := hm
      rw [ht1, hx]
      exact ⟨⟨{ e with refcount := e.refcount + 1 }, by simp [tfind_tput]⟩, tree, ht⟩
    · exact a4 t1 x hm

/-- Forgetting a reference that a reader holds: the invariant stays, and the
reader's reference is one that the entry has to spare. -/
theorem inv_release (s : State) (held : List (Nat × Nat)) (t id : Nat)
    (h : Inv s held) (hm : (t, id) ∈ held) :
    Inv s (held.erase (t, id)) ∧
    ∃ e tree, tfind s.entries id = some e ∧ tfind s.zswap_trees t = some tree ∧
      (held_count (held.erase (t, id)) id : Int) + 1 ≤ e.refcount ∧
      (in_tree s id → (held_count (held.erase (t, id)) id : Int) + 2 ≤ e.refcount) := by
  obtain ⟨⟨e, he⟩, tree, ht⟩ := h.held_live t id hm
  obtain ⟨c1, c2, c3⟩ := h.refs id e he
  have hcnt := held_count_erase held t id id hm
  simp only [if_true] at hcnt
  refine ⟨?_, e, tree, he, ht, by omega, fun hin => by have := c3 hin; omega⟩
  obtain ⟨a1, a2, a3, a4, a5, a6, a7⟩ := h
  refine ⟨a1, a2, ?_, ?_, a5, a6, a7⟩
  · intro x e1 he1
    obtain ⟨b1, b2, b3⟩ := a3 x e1 he1
    have hc := held_count_erase held t id x hm
    refine ⟨b1, ?_, fun hin => ?_⟩
    · split at hc <;> omega
    · have := b3 hin
      split at hc <;> omega
  · intro t1 x hm1
    exact a4 t1 x (List.mem_of_mem_erase hm1)

theorem tfind_terase_some {α : Type} (t : Table α) (k x : Nat) (v : α)
    (h : tfind (terase t k) x = some v) : k ≠ x ∧ tfind t x = some v := by
  rw [tfind_terase] at h
  by_cases hk : k = x
  · simp [hk] at h
  · simp only [hk, if_false] at h
    exact ⟨hk, h⟩

/-- Dropping a reference that the caller owns: `zswap_entry_put` returns, and
the invariant holds afterwards. -/
theorem inv_put (env : Env) (s : State) (held : List (Nat × Nat)) (t id : Nat)
    (e : zswap_entry) (tree : zswap_tree)
    (h : Inv s held) (he : tfind s.entries id = some e)
    (ht : tfind s.zswap_trees t = some tree)
    (h1 : (held_count held id : Int) + 1 ≤ e.refcount)
    (h2 : in_tree s id → (held_count held id : Int) + 2 ≤ e.refcount) :
    ∃ s1, zswap_entry_put env s t id = some s1 ∧ Inv s1 held := by
  have hpool : e.length ≠ 0 →
      ∃ pid p, e.pool = some pid ∧ tfind s.zswap_pools pid = some p := by
    intro hl
    obtain ⟨pid, p, _, b1, b2, _⟩ := h.blob id e he hl
    exact ⟨pid, p, b1, b2⟩
  rcases zswap_entry_put_cases env s t id e tree he (by omega) ht hpool with
    ⟨hr, hput⟩ | ⟨hr, hl, hput⟩ | ⟨hr, hl, pid, p, hp, hpp, hput⟩
  · exact ⟨_, hput, inv_set_refcount s held id e (e.refcount - 1) h he (by omega) (by omega)
      (fun hin => by have := h2 hin; omega)⟩
  · have hh : held_count held id = 0 := by omega
    have hn : ¬ in_tree s id := fun hin => by have := h2 hin; omega
    have hA := inv_tree_erase s held t e.offset tree h ht
    have hB := inv_remove_entry _ held id hA hh
      (fun hin => hn (in_tree_of_erased s t e.offset id tree ht hin))
    exact ⟨_, hput, Inv_congr _ _ held hB rfl rfl rfl⟩
  · have hh : held_count held id = 0 := by omega
    have hn : ¬ in_tree s id := fun hin => by have := h2 hin; omega
    have hA := inv_tree_erase s held t e.offset tree h ht
    have hB := inv_remove_entry _ held id hA hh
      (fun hin => hn (in_tree_of_erased s t e.offset id tree ht hin))
    have hC := inv_pool_free _ held pid e.handle p hB hpp
      (by
        intro x e2 he2 hl2 hp2
        obtain ⟨hne, he3⟩ := tfind_terase_some s.entries id x e2 he2
        exact h.distinct x id e2 e (Ne.symm hne) he3 he hl2 hl (by rw [hp2, hp]))
      (by
        have hlt : pool_users (terase s.entries id) pid + 1 ≤ pool_users s.entries pid := by
          unfold pool_users
          exact countP_terase_lt s.entries id e _ he (by simp [hl, hp])
        have hk := h.krefs pid p hpp
        simp only
        omega)
    exact ⟨_, hput, Inv_congr _ _ held hC rfl rfl rfl⟩

/-- The end of store from the state the loop of `zswap_insert_or_replace`
leaves keeps the invariant: the new entry is bound, or freed when `btree_insert`
has no memory. -/
theorem insert_finish_inv (env : Env) (o : Oracle) (S : State) (held : List (Nat × Nat))
    (type entry : Nat) (e : zswap_entry) (tree : zswap_tree)
    (h : Inv S held) (he : tfind S.entries entry = some e)
    (ht : tfind S.zswap_trees type = some tree)
    (hh : held_count held entry = 0) (hn : ¬ in_tree S entry) (hr : 1 ≤ e.refcount) :
    Inv (insert_finish env o S type entry e.offset tree).2 held := by
  unfold insert_finish
  cases o.btree_insert_ok with
  | true =>
    simp only [if_true]
    exact Inv_congr _ _ held
      (inv_tree_insert S held type e.offset entry tree e h ht he rfl hn (by omega))
      rfl rfl rfl
  | false =>
    simp only [Bool.false_eq_true, if_false]
    exact Inv_congr _ _ held (inv_remove_entry S held entry h hh hn) rfl rfl rfl

theorem in_tree_of_put (env : Env) (s s1 : State) (t id x : Nat)
    (hput : zswap_entry_put env s t id = some s1) (hin : in_tree s1 x) : in_tree s x := by
  rcases zswap_entry_put_trees env s s1 t id hput with h1 | ⟨tree, k, ht, h1⟩
  · obtain ⟨ty, tr, off, a, b⟩ := hin
    rw [h1] at a
    exact ⟨ty, tr, off, a, b⟩
  · obtain ⟨ty, tr, off, a, b⟩ := hin
    rw [h1] at a
    obtain ⟨⟨tr0, c, d⟩, _⟩ := binding_of_erased s.zswap_trees t k ty off x tree tr ht a b
    exact ⟨ty, tr0, off, c, d⟩

/-- From the label `insert_entry`, with a new entry that no tree binds and no
reader holds: the store returns, with 0 when `btree_insert` finds memory; the
invariant holds afterwards; and an older entry that is gone afterwards had one
reference. -/
theorem insert_entry_inv (env : Env) (o : Oracle) (S : State) (held : List (Nat × Nat))
    (type entry : Nat) (e : zswap_entry) (tree : zswap_tree)
    (h : Inv S held) (he : tfind S.entries entry = some e)
    (ht : tfind S.zswap_trees type = some tree)
    (hh : held_count held entry = 0) (hn : ¬ in_tree S entry) (hr : 1 ≤ e.refcount) :
    ∃ r s1, zswap_frontswap_store_insert_entry env o S type entry = some (r, s1) ∧
      Inv s1 held ∧ (o.btree_insert_ok = true → r = 0) ∧
      (∀ x ex, x ≠ entry → tfind S.entries x = some ex → tfind s1.entries x = none →
        ex.refcount = 1) ∧
      (RefBound S held → RefBound s1 held) := by
  have hrb : ∀ (S1 : State) tree1, RefBound S1 held →
      RefBound (insert_finish env o S1 type entry e.offset tree1).2 held := by
    intro S1 tree1 hb x ex hx
    unfold insert_finish at hx
    cases hok : o.btree_insert_ok with
    | true =>
      simp only [hok, if_true, zswap_update_total_size] at hx
      exact hb x ex hx
    | false =>
      simp only [hok, Bool.false_eq_true, if_false, tfind_terase] at hx
      split at hx
      · simp at hx
      · exact hb x ex hx
  have hret : ∀ S1 tree1, o.btree_insert_ok = true →
      (insert_finish env o S1 type entry e.offset tree1).1 = 0 := by
    intro S1 tree1 hb
    simp [insert_finish, hb]
  have hent : ∀ (S1 : State) tree1 x, x ≠ entry →
      tfind (insert_finish env o S1 type entry e.offset tree1).2.entries x =
        tfind S1.entries x := by
    intro S1 tree1 x hx
    unfold insert_finish
    cases o.btree_insert_ok with
    | true => simp [zswap_update_total_size]
    | false => simp [tfind_terase, Ne.symm hx]
  cases hk : tfind tree e.offset with
  | none =>
    refine ⟨(insert_finish env o S type entry e.offset tree).1,
      (insert_finish env o S type entry e.offset tree).2,
      insert_entry_none env o S type entry e tree he ht hk,
      insert_finish_inv env o S held type entry e tree h he ht hh hn hr,
      hret S tree, fun x ex hx hx1 hx2 => ?_, hrb S tree⟩
    rw [hent S tree x hx, hx1] at hx2
    simp at hx2
  | some old =>
    have hne : old ≠ entry := by
      intro heq
      subst heq
      exact hn ⟨type, tree, e.offset, ht, hk⟩
    obtain ⟨oe, hoe, hoff⟩ := h.keyed type tree e.offset old ht hk
    obtain ⟨c1, c2, c3⟩ := h.refs old oe hoe
    have hA : Inv { S with
        zswap_trees := tput S.zswap_trees type (terase tree e.offset),
        zswap_duplicate_entry := u64_inc S.zswap_duplicate_entry } held :=
      Inv_congr _ _ held (inv_tree_erase S held type e.offset tree h ht) rfl rfl rfl
    have hnold : ¬ in_tree { S with
        zswap_trees := tput S.zswap_trees type (terase tree e.offset),
        zswap_duplicate_entry := u64_inc S.zswap_duplicate_entry } old :=
      not_in_tree_erased S held type e.offset old tree h ht hk
    obtain ⟨s1, hput, hB⟩ := inv_put env _ held type old oe (terase tree e.offset) hA hoe
      (by simp [tfind_tput]) (by have := c3 ⟨type, tree, e.offset, ht, hk⟩; omega)
      (fun hin => absurd hin hnold)
    obtain ⟨s2, tree1, hput2, ht1, hk1, he1, hins⟩ := insert_entry_some env o S type entry old
      e oe tree he ht hk hne hoe c1
      (by
        intro hl
        obtain ⟨pid, p, _, b1, b2, _⟩ := h.blob old oe hoe hl
        exact ⟨pid, p, b1, b2⟩)
    rw [hput] at hput2
    simp only [Option.some.injEq] at hput2
    subst hput2
    have hn1 : ¬ in_tree s1 entry := by
      intro hin
      have h3 := in_tree_of_put env _ s1 type old entry hput hin
      exact hn (in_tree_of_erased S type e.offset entry tree ht h3)
    refine ⟨(insert_finish env o s1 type entry e.offset tree1).1,
      (insert_finish env o s1 type entry e.offset tree1).2, hins,
      insert_finish_inv env o s1 held type entry e tree1 hB he1 ht1 hh hn1 hr,
      hret s1 tree1, fun x ex hx hx1 hx2 => ?_,
      fun hb => hrb s1 tree1 (put_refbound env _ s1 held type old oe (by exact hoe) c1 hput
        (RefBound_congr S _ held hb rfl))⟩
    rw [hent s1 tree1 x hx] at hx2
    obtain ⟨d1, d2⟩ := zswap_entry_put_entries env _ s1 type old oe (by exact hoe)
      (by omega) hput
    by_cases hxo : x = old
    · subst hxo
      rw [hoe] at hx1
      simp only [Option.some.injEq] at hx1
      subst hx1
      rcases d2 with ⟨hr1, _⟩ | ⟨_, hlive⟩
      · exact hr1
      · rw [hlive] at hx2
        simp at hx2
    · rw [d1 x hxo] at hx2
      simp only at hx2
      rw [hx1] at hx2
      simp at hx2

theorem tput_head_pool (pid : Nat) (pool p1 : zswap_pool) (rest : Table zswap_pool) :
    tput ((pid, pool) :: rest) pid p1 = (pid, p1) :: rest := by
  simp [tput]

/-- The part of store from `allocate entry` on, from a well-formed state with
the tree present: it returns, the invariant holds afterwards, and an entry that
is gone afterwards had one reference. -/
theorem store_entry_inv (env : Env) (o : Oracle) (s : State) (held : List (Nat × Nat))
    (type offset : Nat) (page : struct_page) (tree : zswap_tree)
    (h : Inv s held) (ht : tfind s.zswap_trees type = some tree) :
    ∃ r s1, zswap_frontswap_store_entry env o s type offset page = some (r, s1) ∧
      Inv s1 held ∧
      (∀ x ex, tfind s.entries x = some ex → tfind s1.entries x = none →
        ex.refcount = 1) ∧
      (RefBound s held → RefBound s1 held) := by
  obtain ⟨hh, hn⟩ := not_live_free s held (tfresh s.entries) h (tfind_tfresh _)
  have hsame_entries : ∀ (s1 : State), s1.entries = s.entries →
      ∀ x ex, tfind s.entries x = some ex → tfind s1.entries x = none → ex.refcount = 1 := by
    intro s1 h1 x ex hx hx1
    rw [h1, hx] at hx1
    simp at hx1
  have hvia : ∀ (S : State) (e : zswap_entry), Inv S held →
      tfind S.entries (tfresh s.entries) = some e → e.refcount = 1 →
      S.zswap_trees = s.zswap_trees →
      (∀ x, x ≠ tfresh s.entries → tfind S.entries x = tfind s.entries x) →
      ∃ r s1, zswap_frontswap_store_insert_entry env o S type (tfresh s.entries) =
          some (r, s1) ∧ Inv s1 held ∧
        (∀ x ex, tfind s.entries x = some ex → tfind s1.entries x = none →
          ex.refcount = 1) ∧
        (RefBound s held → RefBound s1 held) := by
    intro S e hS he hr htr hold
    have hnS : ¬ in_tree S (tfresh s.entries) := by
      intro hin
      obtain ⟨ty, tr, off, a, b⟩ := hin
      rw [htr] at a
      exact hn ⟨ty, tr, off, a, b⟩
    obtain ⟨r, s1, h1, h2, _, h4, h5⟩ := insert_entry_inv env o S held type (tfresh s.entries) e
      tree hS he (by rw [htr]; exact ht) hh hnS (by omega)
    refine ⟨r, s1, h1, h2, fun x ex hx hx1 => ?_, fun hb => h5 ?_⟩
    · have hne : x ≠ tfresh s.entries := tfind_ne_tfresh _ _ (by simp [hx])
      exact h4 x ex hne (by rw [hold x hne]; exact hx) hx1
    · intro x ex hx
      by_cases hxe : x = tfresh s.entries
      · subst hxe
        rw [he] at hx
        simp only [Option.some.injEq] at hx
        subst hx
        omega
      · rw [hold x hxe] at hx
        exact hb x ex hx
  rcases store_entry_cases env o s type offset page with
    ⟨_, h1⟩ | ⟨_, _, h1⟩ | ⟨_, h1 | ⟨pid, pool, rest, hp, hkref, ⟨_, h1⟩ | ⟨_, _, h1⟩ | ⟨_, _, h1⟩⟩⟩
  · exact ⟨_, _, h1, Inv_congr _ _ held h rfl rfl rfl, hsame_entries _ rfl,
      fun hb => RefBound_congr s _ held hb rfl⟩
  · rw [h1]
    refine hvia (store_state_same env s offset page) _ ?_
      (store_state_same_new env s offset page) rfl rfl
      (fun x hx => store_state_same_old env s offset x page hx)
    exact Inv_congr _ _ held
      (inv_add_entry s held (tfresh s.entries) _ h (tfind_tfresh _) rfl
        (fun hl => absurd rfl hl)) rfl rfl rfl
  · exact ⟨_, _, h1, Inv_congr _ _ held h rfl rfl rfl, hsame_entries _ rfl,
      fun hb => RefBound_congr s _ held hb rfl⟩
  · have hpp : tfind s.zswap_pools pid = some pool := by simp [hp, tfind]
    rw [h1]
    refine hvia (store_state_zero s offset pid pool rest) _ ?_
      (store_state_zero_new s offset pid pool rest) rfl rfl
      (fun x hx => store_state_zero_old s offset pid x pool rest hx)
    have hA := inv_pool_update s held pid pool { pool with kref := pool.kref + 1 } h hpp
      (by simp) (fun hd buf hb => ⟨buf, hb⟩)
    have hB := inv_add_entry _ held (tfresh s.entries)
      { offset := offset, refcount := 1, length := 0, pool := some pid, handle := 0 } hA
      (tfind_tfresh _) rfl (fun hl => absurd rfl hl)
    exact Inv_congr _ _ held hB rfl rfl (by simp [store_state_zero, hp, tput])
  · exact ⟨_, _, h1, Inv_congr _ _ held h rfl rfl rfl, hsame_entries _ rfl,
      fun hb => RefBound_congr s _ held hb rfl⟩
  · have hpp : tfind s.zswap_pools pid = some pool := by simp [hp, tfind]
    rw [h1]
    refine hvia (store_state_blob env s offset pid page pool rest) _ ?_
      (store_state_blob_new env s offset pid page pool rest) rfl rfl
      (fun x hx => store_state_blob_old env s offset pid x page pool rest hx)
    have hA := inv_pool_update s held pid pool
      { pool with
        kref := pool.kref + 1,
        zpool := { pool.zpool with
          blobs := tput pool.zpool.blobs (tfresh pool.zpool.blobs)
            (store_buf env (env.crypto_comp_compress pool.tfm_name page.data) page.data) } }
      h hpp (by simp)
      (fun hd buf hb => by
        simp only [tfind_tput]
        split
        · exact ⟨_, rfl⟩
        · exact ⟨buf, hb⟩)
    have hB := inv_add_entry _ held (tfresh s.entries)
      { offset := offset, refcount := 1,
        length := store_dlen env (env.crypto_comp_compress pool.tfm_name page.data),
        pool := some pid, handle := tfresh pool.zpool.blobs } hA
      (tfind_tfresh _) rfl
      (fun _ => ⟨pid,
        { pool with
          kref := pool.kref + 1,
          zpool := { pool.zpool with
            blobs := tput pool.zpool.blobs (tfresh pool.zpool.blobs)
              (store_buf env (env.crypto_comp_compress pool.tfm_name page.data)
                page.data) } },
        store_buf env (env.crypto_comp_compress pool.tfm_name page.data) page.data,
        rfl, by simp [tfind_tput], by simp [tfind_tput],
        (by
          intro x e2 he2 hl2 hp2
          obtain ⟨pid1, p1, buf1, b1, b2, b3⟩ := h.blob x e2 he2 hl2
          rw [hp2] at b1
          simp only [Option.some.injEq] at b1
          subst b1
          rw [hpp] at b2
          simp only [Option.some.injEq] at b2
          subst b2
          exact tfind_ne_tfresh _ _ (by simp [b3])),
        (by
          have := h.krefs pid pool hpp
          simp only
          omega)⟩)
    exact Inv_congr _ _ held hB rfl rfl (by simp [store_state_blob, hp, tput])

/-- A store from a well-formed state returns, the invariant holds afterwards,
and an entry that is gone afterwards had one reference. -/
theorem store_inv (env : Env) (o : Oracle) (s : State) (held : List (Nat × Nat))
    (type offset : Nat) (page : struct_page) (h : Inv s held) :
    ∃ r s1, zswap_frontswap_store env o s type offset page = some (r, s1) ∧ Inv s1 held ∧
      (∀ x ex, tfind s.entries x = some ex → tfind s1.entries x = none →
        ex.refcount = 1) ∧
      (RefBound s held → RefBound s1 held) := by
  rcases store_cases env o s type offset page with
    ⟨r1, s2, h1, _, a, b, c, _⟩ | ⟨ht, h1⟩
  · refine ⟨r1, s2, h1, Inv_congr _ _ held h a b c, fun x ex hx hx1 => ?_,
      fun hb => RefBound_congr s _ held hb b⟩
    rw [b, hx] at hx1
    simp at hx1
  · obtain ⟨tree, htree⟩ := Option.isSome_iff_exists.mp ht
    rw [h1]
    exact store_entry_inv env o s held type offset page tree h htree

theorem state_fresh_inv (s : State) (h : state_fresh s = true) : Inv s [] := by
  unfold state_fresh at h
  simp only [Bool.and_eq_true, List.all_eq_true, decide_eq_true_eq, List.isEmpty_iff] at h
  obtain ⟨⟨h1, h2⟩, h3⟩ := h
  have hent : ∀ id, tfind s.entries id = none := by
    intro id
    rw [h1]
    rfl
  have htree : ∀ ty tr off id, tfind s.zswap_trees ty = some tr → tfind tr off = some id →
      False := by
    intro ty tr off id ht hk
    have := h2 (ty, tr) (tfind_mem _ _ _ ht)
    simp only at this
    rw [this] at hk
    simp [tfind] at hk
  refine ⟨?_, ?_, ?_, ?_, ?_, ?_, ?_⟩
  · intro ty tr off id ht hk
    exact (htree ty tr off id ht hk).elim
  · intro ty ty1 tr tr1 off off1 id ht hk
    exact (htree ty tr off id ht hk).elim
  · intro id e he
    rw [hent id] at he
    simp at he
  · intro t id hm
    simp at hm
  · intro id e he
    rw [hent id] at he
    simp at he
  · intro id1 id2 e1 e2 _ he
    rw [hent id1] at he
    simp at he
  · intro pid p hp
    have := h3 (pid, p) (tfind_mem _ _ _ hp)
    simp only [pool_users, h1, List.countP_nil]
    simp only at this
    omega

/-- A load that returns keeps the invariant and the bound and frees nothing: it
leaves the tables as they were. -/
theorem load_inv (env : Env) (s s1 : State) (held : List (Nat × Nat)) (type offset : Nat)
    (page dst : Page) (r : Int) (h : Inv s held)
    (hl : zswap_frontswap_load env s type offset page = some (r, dst, s1)) :
    Inv s1 held ∧
    (∀ x ex, tfind s.entries x = some ex → tfind s1.entries x = none → ex.refcount = 1) ∧
    (RefBound s held → RefBound s1 held) := by
  have hsame : s1.zswap_trees = s.zswap_trees ∧ s1.entries = s.entries ∧
      s1.zswap_pools = s.zswap_pools := by
    rcases load_cases env s s1 type offset page dst r hl with
      ⟨_, h1, _⟩ | ⟨entry, e, l, hs, he, _, hput⟩
    · subst h1
      exact ⟨rfl, rfl, rfl⟩
    · obtain ⟨c1, _, _⟩ := h.refs entry e he
      have hgp := zswap_entry_get_put env { s with log := s.log ++ l } type entry e
        (by exact he) c1
      have heq := hgp.symm.trans hput
      simp only [Option.some.injEq] at heq
      rw [← heq]
      exact ⟨rfl, rfl, rfl⟩
  obtain ⟨a, b, c⟩ := hsame
  refine ⟨Inv_congr _ _ held h a b c, fun x ex hx hx1 => ?_,
    fun hb => RefBound_congr s _ held hb b⟩
  rw [b, hx] at hx1
  simp at hx1

/-- Invalidating an offset of a well-formed state with the tree present returns,
keeps the invariant, and frees only an entry that had one reference. -/
theorem invalidate_page_inv (env : Env) (s : State) (held : List (Nat × Nat))
    (type offset : Nat) (tree : zswap_tree) (h : Inv s held)
    (ht : tfind s.zswap_trees type = some tree) :
    ∃ s1, zswap_frontswap_invalidate_page env s type offset = some s1 ∧ Inv s1 held ∧
      (∀ x ex, tfind s.entries x = some ex → tfind s1.entries x = none →
        ex.refcount = 1) ∧
      (RefBound s held → RefBound s1 held) := by
  unfold zswap_frontswap_invalidate_page zswap_search
  simp only [ht, Option.some_bind]
  cases hk : tfind tree offset with
  | none =>
    exact ⟨s, rfl, h, fun x ex hx hx1 => by rw [hx] at hx1; simp at hx1, fun hb => hb⟩
  | some entry =>
    obtain ⟨e, he, hoff⟩ := h.keyed type tree offset entry ht hk
    obtain ⟨c1, c2, c3⟩ := h.refs entry e he
    simp only [zswap_erase, ht, he, Option.some_bind]
    have hk2 : tfind tree e.offset = some entry := by rw [hoff]; exact hk
    have hA := inv_tree_erase s held type e.offset tree h ht
    have hn := not_in_tree_erased s held type e.offset entry tree h ht hk2
    obtain ⟨s1, hput, hB⟩ := inv_put env _ held type entry e (terase tree e.offset) hA
      (by exact he) (by simp [tfind_tput])
      (by have := c3 ⟨type, tree, offset, ht, hk⟩; omega)
      (fun hin => absurd hin hn)
    refine ⟨s1, hput, hB, fun x ex hx hx1 => ?_,
      fun hb => put_refbound env _ s1 held type entry e (by exact he) c1 hput
        (RefBound_congr s _ held hb rfl)⟩
    obtain ⟨d1, d2⟩ := zswap_entry_put_entries env _ s1 type entry e (by exact he)
      (by omega) hput
    by_cases hxe : x = entry
    · subst hxe
      rw [he] at hx
      simp only [Option.some.injEq] at hx
      subst hx
      rcases d2 with ⟨hr1, _⟩ | ⟨_, hlive⟩
      · exact hr1
      · rw [hlive] at hx1
        simp at hx1
    · rw [d1 x hxe] at hx1
      simp only at hx1
      rw [hx] at hx1
      simp at hx1

/-- The `zswap_entry_put` of a reader that holds a reference returns, keeps the
invariant with that reference taken off, and frees the entry exactly when that
was its last reference. -/
theorem put_held_inv (env : Env) (s : State) (held : List (Nat × Nat)) (t id : Nat)
    (h : Inv s held) (hm : (t, id) ∈ held) :
    ∃ e s1, tfind s.entries id = some e ∧ zswap_entry_put env s t id = some s1 ∧
      Inv s1 (held.erase (t, id)) ∧
      (tfind s1.entries id = none ↔ e.refcount = 1) ∧
      (∀ x ex, tfind s.entries x = some ex → tfind s1.entries x = none →
        ex.refcount = 1) ∧
      (RefBound s held → RefBound s1 (held.erase (t, id))) := by
  obtain ⟨hA, e, tree, he, ht, h1, h2⟩ := inv_release s held t id h hm
  obtain ⟨s1, hput, hB⟩ := inv_put env s _ t id e tree hA he ht h1 h2
  have hr1 : 1 ≤ e.refcount := (h.refs id e he).1
  obtain ⟨d1, d2⟩ := zswap_entry_put_entries env s s1 t id e he (by omega) hput
  refine ⟨e, s1, he, hput, hB, ?_, fun x ex hx hx1 => ?_,
    fun hb => put_refbound_erase env s s1 held t id e he hr1 hm hput hb⟩
  · rcases d2 with ⟨hr1, hfree⟩ | ⟨hr1, hlive⟩
    · exact ⟨fun _ => hr1, fun _ => hfree⟩
    · constructor
      · intro hf
        rw [hlive] at hf
        simp at hf
      · intro hr
        omega
  · by_cases hxe : x = id
    · subst hxe
      rw [he] at hx
      simp only [Option.some.injEq] at hx
      subst hx
      rcases d2 with ⟨hr1, _⟩ | ⟨_, hlive⟩
      · exact hr1
      · rw [hlive] at hx1
        simp at hx1
    · rw [d1 x hxe, hx] at hx1
      simp at hx1

/-- One operation on single entries, with fewer than `INT_MAX - 1` references
held, keeps the invariant and the bound; an entry that is gone afterwards had
one reference. -/
theorem step_inv (env : Env) (c c1 : Config) (op : Op) (hop : entry_op op = true)
    (h : Inv c.state c.held) (hb : RefBound c.state c.held)
    (hlen : c.held.length < 2 ^ 31 - 2) (hs : step env c op = some c1) :
    Inv c1.state c1.held ∧
    (∀ x ex, tfind c.state.entries x = some ex → tfind c1.state.entries x = none →
      ex.refcount = 1) ∧
    RefBound c1.state c1.held := by
  cases op with
  | store o type offset page =>
    simp only [step] at hs
    obtain ⟨r, s1, h1, h2, h3, h4⟩ := store_inv env o c.state c.held type offset page h
    simp only [h1, Option.some_bind, Option.some.injEq] at hs
    rw [← hs]
    exact ⟨h2, h3, h4 hb⟩
  | load type offset dst =>
    simp only [step] at hs
    cases hl : zswap_frontswap_load env c.state type offset dst with
    | none => simp [hl] at hs
    | some r =>
      simp only [hl, Option.some_bind, Option.some.injEq] at hs
      rw [← hs]
      obtain ⟨a1, a2, a3⟩ :=
        load_inv env c.state r.2.2 c.held type offset dst r.2.1 r.1 h hl
      exact ⟨a1, a2, a3 hb⟩
  | invalidate_page type offset =>
    simp only [step] at hs
    cases ht : tfind c.state.zswap_trees type with
    | none =>
      simp [zswap_frontswap_invalidate_page, zswap_search, ht] at hs
    | some tree =>
      obtain ⟨s1, h1, h2, h3, h4⟩ :=
        invalidate_page_inv env c.state c.held type offset tree h ht
      simp only [h1, Option.some_bind, Option.some.injEq] at hs
      rw [← hs]
      exact ⟨h2, h3, h4 hb⟩
  | invalidate_area type => simp [entry_op] at hop
  | find_get type offset =>
    simp only [step, zswap_entry_find_get] at hs
    cases hsr : zswap_search c.state type offset with
    | none => simp [hsr] at hs
    | some found =>
      simp only [hsr, Option.some_bind] at hs
      cases found with
      | none =>
        simp only [Option.some_bind, Option.some.injEq] at hs
        rw [← hs]
        exact ⟨h, fun x ex hx hx1 => by rw [hx] at hx1; simp at hx1, hb⟩
      | some entry =>
        simp only [zswap_entry_get] at hs
        cases he : tfind c.state.entries entry with
        | none => simp [he] at hs
        | some e =>
          have hinc : int_inc e.refcount = e.refcount + 1 :=
            int_inc_of_lt _ (RefBound_lt c.state c.held entry e hb hlen he)
          simp only [he, Option.some_bind, Option.some.injEq, hinc] at hs
          rw [← hs]
          have ht : ∃ tree, tfind c.state.zswap_trees type = some tree := by
            cases htr : tfind c.state.zswap_trees type with
            | none => simp [zswap_search, htr] at hsr
            | some tree => exact ⟨tree, rfl⟩
          obtain ⟨tree, htree⟩ := ht
          refine ⟨inv_get c.state c.held type entry e tree h he htree,
            fun x ex hx hx1 => ?_, get_refbound c.state c.held type entry e he hb⟩
          simp only [tfind_tput] at hx1
          split at hx1
          · simp at hx1
          · rw [hx] at hx1
            simp at hx1
  | put type entry =>
    simp only [step] at hs
    by_cases hm : (type, entry) ∈ c.held
    · simp only [hm, if_true] at hs
      obtain ⟨e, s1, _, hput, h2, _, h3, h4⟩ :=
        put_held_inv env c.state c.held type entry h hm
      simp only [hput, Option.some_bind, Option.some.injEq] at hs
      rw [← hs]
      exact ⟨h2, h3, h4 hb⟩
    · simp [hm] at hs

/-- A state in which nothing is stored has no reference count to bound. -/
theorem state_fresh_refbound (s : State) (h : state_fresh s = true) : RefBound s [] := by
  unfold state_fresh at h
  simp only [Bool.and_eq_true, List.isEmpty_iff] at h
  intro id e he
  rw [h.1.1] at he
  simp [tfind] at he

/-- A run of operations on single entries during which readers hold fewer than
`INT_MAX - 1` references keeps the invariant and the bound. -/
theorem run_inv (env : Env) :
    ∀ (ops : List Op) (c c1 : Config), (∀ op ∈ ops, entry_op op = true) →
      Inv c.state c.held → RefBound c.state c.held →
      held_below env (2 ^ 31 - 2) ops c = true → run env ops c = some c1 →
      Inv c1.state c1.held ∧ RefBound c1.state c1.held ∧ c1.held.length < 2 ^ 31 - 2 := by
  intro ops
  induction ops with
  | nil =>
    intro c c1 _ hn hb hlen h
    simp only [run, Option.some.injEq] at h
    simp only [held_below, decide_eq_true_eq] at hlen
    rw [← h]
    exact ⟨hn, hb, hlen⟩
  | cons op rest ih =>
    intro c c1 hops hn hb hlen h
    simp only [run] at h
    cases hs : step env c op with
    | none => simp [hs] at h
    | some c2 =>
      simp only [hs, Option.some_bind] at h
      simp only [held_below, hs, Bool.and_eq_true, decide_eq_true_eq] at hlen
      obtain ⟨a1, _, a3⟩ := step_inv env c c2 op (hops op (List.mem_cons_self _ _)) hn hb
        hlen.1 hs
      exact ih c2 c1 (fun o ho => hops o (List.mem_cons_of_mem _ ho)) a1 a3 hlen.2 h

/-- A load of an offset bound to a live entry that the tree holds a reference
to: the result is `load_result`, and the state changes in its log only. -/
theorem load_bound (env : Env) (s : State) (type offset entry : Nat) (e : zswap_entry)
    (tree : zswap_tree) (page : Page)
    (ht : tfind s.zswap_trees type = some tree) (hk : tfind tree offset = some entry)
    (he : tfind s.entries entry = some e) (hr : 1 ≤ e.refcount) :
    zswap_frontswap_load env s type offset page =
      (load_result env s e page).map fun r => (0, r.1, { s with log := s.log ++ r.2 }) := by
  have hp0 : zswap_entry_put env
      { s with entries := tput s.entries entry { e with refcount := int_inc e.refcount } }
      type entry = some s := zswap_entry_get_put env s type entry e he hr
  have hp1 : zswap_entry_put env
      { s with
        entries := tput s.entries entry { e with refcount := int_inc e.refcount },
        log := s.log ++ [Call.crypto_comp_decompress] }
      type entry = some { s with log := s.log ++ [Call.crypto_comp_decompress] } :=
    zswap_entry_get_put env { s with log := s.log ++ [Call.crypto_comp_decompress] } type entry
      e (by exact he) hr
  unfold zswap_frontswap_load zswap_entry_find_get zswap_search load_result
  simp only [ht, Option.some_bind, hk, zswap_entry_get, he, tfind_tput, if_true]
  simp only [hp0, hp1, Option.some_bind]
  by_cases hl : e.length = 0
  · rw [if_pos hl, if_pos hl]
    simp only [Option.map_some', List.append_nil]
  · rw [if_neg hl, if_neg hl]
    cases hp : e.pool with
    | none => rfl
    | some pid =>
      simp only [Option.some_bind]
      cases hpp : tfind s.zswap_pools pid with
      | none => rfl
      | some pool =>
        simp only [Option.some_bind]
        cases hb : tfind pool.zpool.blobs e.handle with
        | none => rfl
        | some src =>
          simp only [Option.some_bind]
          by_cases hfull : e.length = env.PAGE_SIZE
          · rw [if_pos hfull, if_pos hfull]
            simp only [Option.map_some', List.append_nil]
          · rw [if_neg hfull, if_neg hfull]
            by_cases hd : (env.crypto_comp_decompress pool.tfm_name src e.length page).1 ≠ 0
            · simp [hd]
            · simp [hd]

/-- A load from a well-formed state with the tree present returns whenever the
decompressor does not fail: the `zswap_entry_put` inside it never meets a
reference count below 1. -/
theorem load_total (env : Env) (s : State) (held : List (Nat × Nat)) (type offset : Nat)
    (tree : zswap_tree) (page : Page) (h : Inv s held)
    (ht : tfind s.zswap_trees type = some tree)
    (hd : ∀ tfm src len dst, (env.crypto_comp_decompress tfm src len dst).1 = 0) :
    ∃ r, zswap_frontswap_load env s type offset page = some r := by
  cases hk : tfind tree offset with
  | none =>
    unfold zswap_frontswap_load zswap_entry_find_get zswap_search
    simp only [ht, Option.some_bind, hk]
    exact ⟨_, rfl⟩
  | some entry =>
    obtain ⟨e, he, _⟩ := h.keyed type tree offset entry ht hk
    obtain ⟨c1, _, _⟩ := h.refs entry e he
    rw [load_bound env s type offset entry e tree page ht hk he c1]
    unfold load_result
    by_cases hl : e.length = 0
    · rw [if_pos hl]
      exact ⟨_, rfl⟩
    · obtain ⟨pid, p, buf, b1, b2, b3⟩ := h.blob entry e he hl
      rw [if_neg hl]
      simp only [b1, b2, b3, Option.some_bind]
      by_cases hfull : e.length = env.PAGE_SIZE
      · rw [if_pos hfull]
        exact ⟨_, rfl⟩
      · rw [if_neg hfull]
        simp only [hd, ne_eq, not_true_eq_false, if_false]
        exact ⟨_, rfl⟩

theorem wrap_s32_of_range (x : Int) (h : int_range x) : wrap_s32 x = x := by
  unfold int_range at h
  unfold wrap_s32
  omega

theorem atomic_inc_wrap (x : Int) : atomic_inc (wrap_s32 x) = wrap_s32 (x + 1) := by
  unfold atomic_inc wrap_s32
  omega

theorem atomic_dec_wrap (x : Int) : atomic_dec (wrap_s32 (x + 1)) = wrap_s32 x := by
  unfold atomic_dec wrap_s32
  omega

theorem tfind_append_some {α : Type} (a b : Table α) (k : Nat) (v : α)
    (h : tfind a k = some v) : tfind (a ++ b) k = some v := by
  induction a with
  | nil => simp [tfind] at h
  | cons x rest ih =>
    obtain ⟨k1, v1⟩ := x
    simp only [List.cons_append, tfind] at h ⊢
    split
    · rename_i hk
      simpa [hk] using h
    · rename_i hk
      simp only [hk, if_false] at h
      exact ih h

theorem tfind_append_none {α : Type} (a b : Table α) (k : Nat)
    (h : tfind a k = none) : tfind (a ++ b) k = tfind b k := by
  induction a with
  | nil => rfl
  | cons x rest ih =>
    obtain ⟨k1, v1⟩ := x
    simp only [List.cons_append, tfind] at h ⊢
    split
    · rename_i hk
      simp [hk] at h
    · rename_i hk
      simp only [hk, if_false] at h
      exact ih h

theorem terase_append {α : Type} (a b : Table α) (k : Nat) :
    terase (a ++ b) k = terase a k ++ terase b k := by
  induction a with
  | nil => rfl
  | cons x rest ih =>
    obtain ⟨k1, v1⟩ := x
    simp only [List.cons_append, terase]
    split
    · exact ih
    · simp [ih]

theorem tput_append_none {α : Type} (a b : Table α) (k : Nat) (v : α)
    (h : tfind a k = none) : tput (a ++ b) k v = a ++ tput b k v := by
  induction a with
  | nil => rfl
  | cons x rest ih =>
    obtain ⟨k1, v1⟩ := x
    simp only [List.cons_append, tfind, tput] at h ⊢
    split
    · rename_i hk
      simp [hk] at h
    · rename_i hk
      simp only [hk, if_false] at h
      exact congrArg _ (ih h)

theorem tput_new {α : Type} (b : Table α) (k : Nat) (v : α)
    (h : tfind b k = none) : tput b k v = b ++ [(k, v)] := by
  induction b with
  | nil => rfl
  | cons x rest ih =>
    obtain ⟨k1, v1⟩ := x
    simp only [List.cons_append, tfind, tput] at h ⊢
    split
    · rename_i hk
      simp [hk] at h
    · rename_i hk
      simp only [hk, if_false] at h
      rw [ih h]

/-- Lookup in a table built from a list, when no element has the key. -/
theorem tfind_map_none {α β : Type} (l : List β) (f : β → Nat) (g : β → α) (k : Nat)
    (h : ∀ x ∈ l, f x ≠ k) : tfind (l.map fun x => (f x, g x)) k = none := by
  induction l with
  | nil => rfl
  | cons x rest ih =>
    simp only [List.map_cons, tfind]
    rw [if_neg (h x (List.mem_cons_self _ _))]
    exact ih (fun y hy => h y (List.mem_cons_of_mem _ hy))

theorem tfind_map_some {α β : Type} (l : List β) (f : β → Nat) (g : β → α) (k : Nat) (v : α)
    (h : tfind (l.map fun x => (f x, g x)) k = some v) :
    ∃ pre j post, l = pre ++ j :: post ∧ f j = k ∧ g j = v ∧ ∀ x ∈ pre, f x ≠ k := by
  induction l with
  | nil => simp [tfind] at h
  | cons x rest ih =>
    simp only [List.map_cons, tfind] at h
    by_cases hx : f x = k
    · rw [if_pos hx] at h
      simp only [Option.some.injEq] at h
      exact ⟨[], x, rest, rfl, hx, h, by simp⟩
    · rw [if_neg hx] at h
      obtain ⟨pre, j, post, h1, h2, h3, h4⟩ := ih h
      refine ⟨x :: pre, j, post, by rw [h1]; rfl, h2, h3, ?_⟩
      intro y hy
      rcases List.mem_cons.mp hy with hy | hy
      · rw [hy]; exact hx
      · exact h4 y hy

theorem tfind_map_split {α β : Type} (pre post : List β) (j : β) (f : β → Nat) (g : β → α)
    (h : ∀ x ∈ pre, f x ≠ f j) :
    tfind ((pre ++ j :: post).map fun x => (f x, g x)) (f j) = some (g j) := by
  rw [List.map_append, tfind_append_none _ _ _ (tfind_map_none pre f g (f j) h)]
  simp [tfind]

theorem terase_map_none {α β : Type} (l : List β) (f : β → Nat) (g : β → α) (k : Nat)
    (h : ∀ x ∈ l, f x ≠ k) :
    terase (l.map fun x => (f x, g x)) k = l.map fun x => (f x, g x) :=
  terase_of_tfind_none _ _ (tfind_map_none l f g k h)

theorem terase_map_split {α β : Type} (pre post : List β) (j : β) (f : β → Nat) (g : β → α)
    (h1 : ∀ x ∈ pre, f x ≠ f j) (h2 : ∀ x ∈ post, f x ≠ f j) :
    terase ((pre ++ j :: post).map fun x => (f x, g x)) (f j) =
      (pre ++ post).map fun x => (f x, g x) := by
  rw [List.map_append, terase_append, terase_map_none pre f g (f j) h1, List.map_cons]
  simp only [terase, if_true]
  rw [terase_map_none post f g (f j) h2, List.map_append]

/-- In a list without repetition under `f`, the elements around `j` differ
from `j` under `f`. -/
theorem nodup_split {β : Type} (pre post : List β) (j : β) (f : β → Nat)
    (h : ((pre ++ j :: post).map f).Nodup) :
    (∀ x ∈ pre, f x ≠ f j) ∧ (∀ x ∈ post, f x ≠ f j) ∧ ((pre ++ post).map f).Nodup := by
  rw [List.map_append, List.map_cons, List.nodup_append] at h
  obtain ⟨h1, h2, h3⟩ := h
  rw [List.nodup_cons] at h2
  refine ⟨?_, ?_, ?_⟩
  · intro x hx heq
    exact h3 (List.mem_map_of_mem f hx) (by rw [heq]; exact List.mem_cons_self _ _)
  · intro x hx heq
    exact h2.1 (by rw [← heq]; exact List.mem_map_of_mem f hx)
  · rw [List.map_append, List.nodup_append]
    exact ⟨h1, h2.2, fun a ha hb => h3 ha (List.mem_cons_of_mem _ hb)⟩

theorem blobs_of_append (a b : List Item) : blobs_of (a ++ b) = blobs_of a ++ blobs_of b := by
  simp [blobs_of, List.filter_append]

theorem blobs_of_cons_blob (j : Item) (l : List Item) (h : item_blob j = true) :
    blobs_of (j :: l) = (j.e.handle, j.buf) :: blobs_of l := by
  simp [blobs_of, List.filter_cons, h]

theorem blobs_of_cons_noblob (j : Item) (l : List Item) (h : item_blob j = false) :
    blobs_of (j :: l) = blobs_of l := by
  simp [blobs_of, List.filter_cons, h]

theorem entries_of_append (a b : List Item) :
    entries_of (a ++ b) = entries_of a ++ entries_of b := by
  simp [entries_of]

theorem tree_of_append (a b : List Item) : tree_of (a ++ b) = tree_of a ++ tree_of b := by
  simp [tree_of]

theorem pools_with_nil (pools : Table zswap_pool) : pools_with pools [] = pools := by
  cases pools with
  | nil => rfl
  | cons x rest =>
    obtain ⟨pid, p⟩ := x
    simp [pools_with, blobs_of]

/-- Removing an item from the list keeps `ItemsOK`. -/
theorem ItemsOK_remove (s0 : State) (pre post : List Item) (j : Item)
    (h : ItemsOK s0 (pre ++ j :: post)) : ItemsOK s0 (pre ++ post) := by
  obtain ⟨a1, a2, a3, a4⟩ := h
  refine ⟨?_, ?_, ?_, ?_⟩
  · intro i hi
    apply a1
    rcases List.mem_append.mp hi with hi | hi
    · exact List.mem_append_left _ hi
    · exact List.mem_append_right _ (List.mem_cons_of_mem _ hi)
  · exact (nodup_split pre post j (fun i => i.id) a2).2.2
  · intro i hi
    apply a3
    rcases List.mem_append.mp hi with hi | hi
    · exact List.mem_append_left _ hi
    · exact List.mem_append_right _ (List.mem_cons_of_mem _ hi)
  · rw [List.filter_append] at a4 ⊢
    by_cases hb : item_blob j = true
    · rw [List.filter_cons, if_pos hb] at a4
      exact (nodup_split _ _ j (fun i => i.e.handle) a4).2.2
    · rw [List.filter_cons, if_neg hb] at a4
      exact a4

/-- The entry of an item is what the slab holds under its id. -/
theorem shape_tfind (s0 s : State) (pre post : List Item) (j : Item)
    (hs : Shape s0 (pre ++ j :: post) s) (hok : ItemsOK s0 (pre ++ j :: post)) :
    tfind s.entries j.id = some j.e := by
  rw [hs.entries, tfind_append_none _ _ _ (hok.fresh j (by simp))]
  exact tfind_map_split pre post j (fun i => i.id) (fun i => i.e)
    (nodup_split pre post j (fun i => i.id) hok.ids).1

theorem shape_terase (s0 : State) (pre post : List Item) (j : Item)
    (hok : ItemsOK s0 (pre ++ j :: post)) :
    terase (s0.entries ++ entries_of (pre ++ j :: post)) j.id =
      s0.entries ++ entries_of (pre ++ post) := by
  obtain ⟨n1, n2, _⟩ := nodup_split pre post j (fun i => i.id) hok.ids
  rw [terase_append, terase_of_tfind_none _ _ (hok.fresh j (by simp))]
  exact congrArg _ (terase_map_split pre post j (fun i => i.id) (fun i => i.e) n1 n2)

/-- The C function `zswap_free_entry` on one of the items: the item is gone
from the slab, the pools and the same-value counter, and `stored_pages` is one
lower. -/
theorem free_item_gen (env : Env) (s0 s : State) (pre post : List Item) (j : Item)
    (e1 : zswap_entry) (he : tfind s.entries j.id = some e1)
    (hlen : e1.length = j.e.length) (hpl : e1.pool = j.e.pool) (hhd : e1.handle = j.e.handle)
    (hent : terase s.entries j.id = s0.entries ++ entries_of (pre ++ post))
    (hpools : s.zswap_pools = pools_with s0.zswap_pools (pre ++ j :: post))
    (hsame : s.zswap_same_filled_pages = wrap_s32 (s0.zswap_same_filled_pages +
      (((pre ++ j :: post).filter (fun i => !item_blob i)).length : Int)))
    (hzero : s.zswap_zero_pages = s0.zswap_zero_pages)
    (hen : s.zswap_same_filled_pages_enabled = s0.zswap_same_filled_pages_enabled)
    (hok : ItemsOK s0 (pre ++ j :: post))
    (hk : ∀ pid p rest, s0.zswap_pools = (pid, p) :: rest → 1 ≤ p.kref) :
    ∃ s1, zswap_free_entry env s j.id = some s1 ∧ Shape s0 (pre ++ post) s1 ∧
      s1.zswap_stored_pages = atomic_dec s.zswap_stored_pages ∧
      s1.zswap_trees = s.zswap_trees := by
  unfold zswap_free_entry
  simp only [he, Option.some_bind, hlen, hpl, hhd]
  by_cases hl : j.e.length = 0
  · have hb : item_blob j = false := by simp [item_blob, hl]
    rw [if_pos hl]
    refine ⟨_, rfl, ⟨?_, ?_, ?_, ?_, ?_⟩, rfl, rfl⟩
    · simp only [zswap_update_total_size, zswap_entry_cache_free]
      exact hent
    · simp only [zswap_update_total_size, zswap_entry_cache_free]
      rw [hpools]
      cases hp : s0.zswap_pools with
      | nil => rfl
      | cons x rest =>
        obtain ⟨pid, p⟩ := x
        simp only [pools_with, blobs_of_append, blobs_of_cons_noblob j post hb]
    · simp only [zswap_update_total_size, zswap_entry_cache_free]
      rw [hsame]
      have hcount : (((pre ++ j :: post).filter (fun i => !item_blob i)).length : Int) =
          (((pre ++ post).filter (fun i => !item_blob i)).length : Int) + 1 := by
        simp [List.filter_append, List.filter_cons, hb]
        omega
      rw [hcount, ← add_assoc]
      exact atomic_dec_wrap _
    · simp only [zswap_update_total_size, zswap_entry_cache_free]
      exact hzero
    · simp only [zswap_update_total_size, zswap_entry_cache_free]
      exact hen
  · have hb : item_blob j = true := by simp [item_blob, hl]
    obtain ⟨pid, p, rest, hp0, hpool, hfree⟩ := hok.blob j (by simp) hl
    have hkref := hk pid p rest hp0
    rw [if_neg hl]
    have hpools : s.zswap_pools =
        (pid, { p with
          kref := p.kref + ((blobs_of (pre ++ post)).length : Int) + 1,
          zpool := { p.zpool with
            blobs := p.zpool.blobs ++
              (blobs_of pre ++ (j.e.handle, j.buf) :: blobs_of post) } }) :: rest := by
      rw [hpools, hp0]
      simp only [pools_with, blobs_of_append, blobs_of_cons_blob j post hb, List.length_append,
        List.length_cons]
      congr 3
      push_cast
      omega
    have hnd := hok.handles
    rw [List.filter_append, List.filter_cons, if_pos hb] at hnd
    obtain ⟨m1, m2, _⟩ := nodup_split _ _ j (fun i => i.e.handle) hnd
    have hblobs : terase (p.zpool.blobs ++
        (blobs_of pre ++ (j.e.handle, j.buf) :: blobs_of post)) j.e.handle =
        p.zpool.blobs ++ blobs_of (pre ++ post) := by
      have h1 := terase_map_split (pre.filter item_blob) (post.filter item_blob) j
        (fun i => i.e.handle) (fun i => i.buf) m1 m2
      simp only [List.map_append, List.map_cons] at h1
      rw [terase_append, terase_of_tfind_none _ _ hfree, blobs_of_append]
      exact congrArg _ h1
    have hne : p.kref + ((blobs_of (pre ++ post)).length : Int) + 1 - 1 ≠ 0 := by
      have : (0 : Int) ≤ ((blobs_of (pre ++ post)).length : Int) := Int.natCast_nonneg _
      omega
    simp only [hpool, Option.some_bind, hpools, tfind, if_true, tput, zswap_pool_put, hne,
      if_false, hblobs]
    refine ⟨_, rfl, ⟨?_, ?_, ?_, ?_, ?_⟩, rfl, rfl⟩
    · simp only [zswap_update_total_size, zswap_entry_cache_free]
      exact hent
    · simp only [zswap_update_total_size, zswap_entry_cache_free]
      rw [hp0]
      simp only [pools_with]
      congr 3
      omega
    · simp only [zswap_update_total_size, zswap_entry_cache_free]
      rw [hsame]
      simp [List.filter_append, List.filter_cons, hb]
    · simp only [zswap_update_total_size, zswap_entry_cache_free]
      exact hzero
    · simp only [zswap_update_total_size, zswap_entry_cache_free]
      exact hen

/-- The C function `zswap_free_entry` on one of the items: the item is gone
from the slab, the pools and the same-value counter, and `stored_pages` is one
lower. -/
theorem free_item (env : Env) (s0 s : State) (pre post : List Item) (j : Item)
    (hs : Shape s0 (pre ++ j :: post) s) (hok : ItemsOK s0 (pre ++ j :: post))
    (hk : ∀ pid p rest, s0.zswap_pools = (pid, p) :: rest → 1 ≤ p.kref) :
    ∃ s1, zswap_free_entry env s j.id = some s1 ∧ Shape s0 (pre ++ post) s1 ∧
      s1.zswap_stored_pages = atomic_dec s.zswap_stored_pages ∧
      s1.zswap_trees = s.zswap_trees :=
  free_item_gen env s0 s pre post j j.e (shape_tfind s0 s pre post j hs hok) rfl rfl rfl
    (by rw [hs.entries]; exact shape_terase s0 pre post j hok) hs.pools hs.same hs.zero
    hs.enabled hok hk

/-- The tree walk of invalidate_area over the items frees them all. -/
theorem visitor_items (env : Env) (s0 : State) (x : Int)
    (hk : ∀ pid p rest, s0.zswap_pools = (pid, p) :: rest → 1 ≤ p.kref) :
    ∀ (items : List Item) (s : State), Shape s0 items s → ItemsOK s0 items →
      s.zswap_stored_pages = wrap_s32 (x + (items.length : Int)) →
      ∃ s1, btree_visitor (do_free_entry env) (tree_of items) s = some s1 ∧
        Shape s0 [] s1 ∧ s1.zswap_stored_pages = wrap_s32 x ∧
        s1.zswap_trees = s.zswap_trees := by
  intro items
  induction items with
  | nil =>
    intro s hs _ hst
    exact ⟨s, rfl, hs, by simpa using hst, rfl⟩
  | cons j rest ih =>
    intro s hs hok hst
    obtain ⟨s1, h1, h2, h3, h4⟩ := free_item env s0 s [] rest j hs hok hk
    obtain ⟨s2, g1, g2, g3, g4⟩ := ih s1 h2 (ItemsOK_remove s0 [] rest j hok) (by
      rw [h3, hst]
      simp only [List.length_cons, Nat.cast_add, Nat.cast_one, ← add_assoc]
      exact atomic_dec_wrap _)
    refine ⟨s2, ?_, g2, g3, g4.trans h4⟩
    simp only [tree_of, List.map_cons, btree_visitor, do_free_entry]
    rw [h1]
    exact g1

/-- The C function `zswap_entry_put` on an item with one reference: the item
leaves the tree, the slab, the pools and the counters. -/
theorem put_item (env : Env) (s0 s : State) (type : Nat) (tree : zswap_tree)
    (pre post : List Item) (j : Item)
    (ht : tfind s.zswap_trees type = some tree)
    (hs : Shape s0 (pre ++ j :: post) s) (hok : ItemsOK s0 (pre ++ j :: post))
    (hr : j.e.refcount = 1)
    (hk : ∀ pid p rest, s0.zswap_pools = (pid, p) :: rest → 1 ≤ p.kref) :
    ∃ s1, zswap_entry_put env s type j.id = some s1 ∧ Shape s0 (pre ++ post) s1 ∧
      s1.zswap_stored_pages = atomic_dec s.zswap_stored_pages ∧
      s1.zswap_trees = tput s.zswap_trees type (terase tree j.e.offset) := by
  have he := shape_tfind s0 s pre post j hs hok
  unfold zswap_entry_put
  simp only [he, Option.some_bind, hr, sub_self, lt_irrefl, if_false, if_true, zswap_erase,
    ht, tfind_tput]
  obtain ⟨s1, h1, h2, h3, h4⟩ := free_item_gen env s0
    { s with
      entries := tput s.entries j.id { j.e with refcount := 0 },
      zswap_trees := tput s.zswap_trees type (terase tree j.e.offset) }
    pre post j { j.e with refcount := 0 } (by simp [tfind_tput]) rfl rfl rfl
    (by
      simp only
      rw [terase_tput_same, hs.entries]
      exact shape_terase s0 pre post j hok)
    hs.pools hs.same hs.zero hs.enabled hok hk
  exact ⟨s1, h1, h2, h3, h4⟩

theorem mem_le_tmax {α : Type} (t : Table α) (x : Nat × α) (h : x ∈ t) : x.1 ≤ tmax t := by
  induction t with
  | nil => simp at h
  | cons y rest ih =>
    obtain ⟨k, v⟩ := y
    simp only [tmax]
    rcases List.mem_cons.mp h with h | h
    · rw [h]
      exact le_max_left _ _
    · exact le_trans (ih h) (le_max_right _ _)

theorem tfind_none_of_keys {α : Type} (t : Table α) (k : Nat) (h : ∀ x ∈ t, x.1 ≠ k) :
    tfind t k = none := by
  induction t with
  | nil => rfl
  | cons y rest ih =>
    obtain ⟨k1, v⟩ := y
    simp only [tfind]
    rw [if_neg (h (k1, v) (List.mem_cons_self _ _))]
    exact ih (fun x hx => h x (List.mem_cons_of_mem _ hx))

/-- A fresh id of a table is bound in no part of it. -/
theorem tfind_fresh_left {α : Type} (a b : Table α) : tfind a (tfresh (a ++ b)) = none := by
  apply tfind_none_of_keys
  intro x hx heq
  have := mem_le_tmax (a ++ b) x (List.mem_append_left _ hx)
  unfold tfresh at heq
  omega

theorem fresh_ne_right {α : Type} (a b : Table α) (x : Nat × α) (hx : x ∈ b) :
    x.1 ≠ tfresh (a ++ b) := by
  intro heq
  have := mem_le_tmax (a ++ b) x (List.mem_append_right _ hx)
  unfold tfresh at heq
  omega

theorem keys_of_tfind_map_none {α β : Type} (l : List β) (f : β → Nat) (g : β → α) (k : Nat)
    (h : tfind (l.map fun x => (f x, g x)) k = none) : ∀ x ∈ l, f x ≠ k := by
  induction l with
  | nil => simp
  | cons y rest ih =>
    simp only [List.map_cons, tfind] at h
    by_cases hy : f y = k
    · simp [hy] at h
    · rw [if_neg hy] at h
      intro x hx
      rcases List.mem_cons.mp hx with hx | hx
      · rw [hx]; exact hy
      · exact ih h x hx

/-- The end of a store that has reached `insert_entry` with the offset unbound
and `btree_insert` finding memory: the new item is added. -/
theorem finish_rel (env : Env) (o : Oracle) (s0 S s1 : State) (type : Nat)
    (items : List Item) (n : Item)
    (hk : tfind (tree_of items) n.e.offset = none)
    (hs : Shape s0 (items ++ [n]) S) (hok : ItemsOK s0 (items ++ [n]))
    (hr : ∀ i ∈ items ++ [n], i.e.refcount = 1)
    (hoffs : (items.map fun i => i.e.offset).Nodup)
    (hst : S.zswap_stored_pages = wrap_s32 (s0.zswap_stored_pages + (items.length : Int)))
    (hfin : insert_finish env o S type n.id n.e.offset (tree_of items) = (0, s1)) :
    Rel s0 type (items ++ [n]) s1 := by
  unfold insert_finish at hfin
  cases hok1 : o.btree_insert_ok with
  | false =>
    simp [hok1, ENOMEM] at hfin
  | true =>
    simp only [hok1, if_true, Prod.mk.injEq, true_and] at hfin
    subst hfin
    refine ⟨?_, ⟨?_, ?_, ?_, ?_, ?_⟩, hok, hr, ?_, ?_⟩
    · simp only [zswap_update_total_size, tfind_tput, if_true]
      rw [tput_new _ _ _ hk, tree_of_append]
      rfl
    · exact hs.entries
    · exact hs.pools
    · exact hs.same
    · exact hs.zero
    · exact hs.enabled
    · rw [List.map_append, List.nodup_append]
      refine ⟨hoffs, by simp, ?_⟩
      intro a ha hb
      simp only [List.map_cons, List.map_nil, List.mem_singleton] at hb
      obtain ⟨x, hx, hxa⟩ := List.mem_map.mp ha
      exact keys_of_tfind_map_none items (fun i => i.e.offset) (fun i => i.id) n.e.offset hk x hx
        (hxa.trans hb)
    · simp only [zswap_update_total_size]
      rw [hst, List.length_append, List.length_singleton]
      push_cast
      rw [← add_assoc]
      exact atomic_inc_wrap _

/-- The tail of a store from `insert_entry`, when it returns 0: the item that
was bound to the offset, if any, is released and the new item is added. -/
theorem insert_rel (env : Env) (o : Oracle) (s0 S s1 : State) (type : Nat)
    (items : List Item) (n : Item)
    (hk0 : ∀ pid p rest, s0.zswap_pools = (pid, p) :: rest → 1 ≤ p.kref)
    (ht : tfind S.zswap_trees type = some (tree_of items))
    (hs : Shape s0 (items ++ [n]) S) (hok : ItemsOK s0 (items ++ [n]))
    (hr : ∀ i ∈ items ++ [n], i.e.refcount = 1)
    (hoffs : (items.map fun i => i.e.offset).Nodup)
    (hst : S.zswap_stored_pages = wrap_s32 (s0.zswap_stored_pages + (items.length : Int)))
    (hins : zswap_frontswap_store_insert_entry env o S type n.id = some (0, s1)) :
    ∃ items1, Rel s0 type items1 s1 := by
  have he : tfind S.entries n.id = some n.e := shape_tfind s0 S items [] n hs hok
  cases hk : tfind (tree_of items) n.e.offset with
  | none =>
    rw [insert_entry_none env o S type n.id n.e (tree_of items) he ht hk] at hins
    simp only [Option.some.injEq] at hins
    exact ⟨items ++ [n], finish_rel env o s0 S s1 type items n hk hs hok hr hoffs hst hins⟩
  | some old =>
    obtain ⟨pre, j, post, hsplit, hjo, hjid, _⟩ :=
      tfind_map_some items (fun i => i.e.offset) (fun i => i.id) n.e.offset old hk
    have hsplit2 : items ++ [n] = pre ++ j :: (post ++ [n]) := by
      rw [hsplit]
      simp
    rw [hsplit2] at hs hok hr
    have hjr : j.e.refcount = 1 := hr j (by simp)
    obtain ⟨i1, i2, _⟩ := nodup_split pre (post ++ [n]) j (fun i => i.id) hok.ids
    have hne : old ≠ n.id := by
      rw [← hjid]
      exact (i2 n (by simp)).symm
    have hoe : tfind S.entries old = some j.e := by
      rw [← hjid]
      exact shape_tfind s0 S pre (post ++ [n]) j hs hok
    have hpool : j.e.length ≠ 0 →
        ∃ pid p, j.e.pool = some pid ∧ tfind S.zswap_pools pid = some p := by
      intro hl
      obtain ⟨pid, p, rest, hp0, hp, _⟩ := hok.blob j (by simp) hl
      have hex : ∃ p1, tfind S.zswap_pools pid = some p1 := by
        rw [hs.pools, hp0]
        simp only [pools_with, tfind, if_true]
        exact ⟨_, rfl⟩
      obtain ⟨p1, hp1⟩ := hex
      exact ⟨pid, p1, hp, hp1⟩
    obtain ⟨sa, tree1, hput, ht1, _, _, hfin⟩ :=
      insert_entry_some env o S type n.id old n.e j.e (tree_of items) he ht hk hne hoe
        (by omega) hpool
    obtain ⟨sb, hputb, hshape, hstored, htrees⟩ := put_item env s0
      { S with
        zswap_trees := tput S.zswap_trees type (terase (tree_of items) n.e.offset),
        zswap_duplicate_entry := u64_inc S.zswap_duplicate_entry }
      type (terase (tree_of items) n.e.offset) pre (post ++ [n]) j
      (by simp [tfind_tput])
      ⟨hs.entries, hs.pools, hs.same, hs.zero, hs.enabled⟩ hok hjr hk0
    rw [hjid, hput] at hputb
    simp only [Option.some.injEq] at hputb
    subst hputb
    obtain ⟨o1, o2, o3⟩ := nodup_split pre post j (fun i => i.e.offset) (by rw [← hsplit]; exact hoffs)
    have htree : tree1 = tree_of (pre ++ post) := by
      rw [htrees] at ht1
      simp only [tfind_tput, if_true, Option.some.injEq] at ht1
      rw [← ht1, hjo, hsplit]
      have h1 := terase_map_split pre post j (fun i => i.e.offset) (fun i => i.id) o1 o2
      simp only at h1
      rw [hjo] at h1
      unfold tree_of
      rw [h1]
      exact terase_map_none _ _ _ _ (by
        intro x hx
        rcases List.mem_append.mp hx with hx | hx
        · rw [← hjo]; exact o1 x hx
        · rw [← hjo]; exact o2 x hx)
    rw [hfin, htree] at hins
    simp only [Option.some.injEq] at hins
    have hsplit3 : pre ++ (post ++ [n]) = (pre ++ post) ++ [n] := by simp
    refine ⟨(pre ++ post) ++ [n], finish_rel env o s0 sa s1 type (pre ++ post) n ?_ ?_ ?_ ?_ o3
      ?_ hins⟩
    · apply tfind_map_none
      intro x hx
      rcases List.mem_append.mp hx with hx | hx
      · rw [← hjo]; exact o1 x hx
      · rw [← hjo]; exact o2 x hx
    · rw [← hsplit3]
      exact hshape
    · rw [← hsplit3]
      exact ItemsOK_remove s0 pre (post ++ [n]) j hok
    · intro i hi
      apply hr
      rw [← hsplit3] at hi
      rcases List.mem_append.mp hi with hi | hi
      · exact List.mem_append_left _ hi
      · exact List.mem_append_right _ (List.mem_cons_of_mem _ hi)
    · rw [hstored]
      simp only
      rw [hst, hsplit]
      simp only [List.length_append, List.length_cons]
      push_cast
      have : s0.zswap_stored_pages + ((pre.length : Int) + ((post.length : Int) + 1)) =
          s0.zswap_stored_pages + ((pre.length : Int) + (post.length : Int)) + 1 := by omega
      rw [this]
      exact atomic_dec_wrap _

theorem blobs_of_snoc_noblob (items : List Item) (n : Item) (h : item_blob n = false) :
    blobs_of (items ++ [n]) = blobs_of items := by
  rw [blobs_of_append, blobs_of_cons_noblob n [] h]
  simp [blobs_of]

theorem blobs_of_snoc_blob (items : List Item) (n : Item) (h : item_blob n = true) :
    blobs_of (items ++ [n]) = blobs_of items ++ [(n.e.handle, n.buf)] := by
  rw [blobs_of_append, blobs_of_cons_blob n [] h]
  simp [blobs_of]

/-- Adding an item whose id and handle are new keeps `ItemsOK`. -/
theorem ItemsOK_add (s0 : State) (items : List Item) (n : Item) (h : ItemsOK s0 items)
    (h1 : tfind s0.entries n.id = none) (h2 : ∀ i ∈ items, i.id ≠ n.id)
    (h3 : n.e.length ≠ 0 →
      (∃ pid p rest, s0.zswap_pools = (pid, p) :: rest ∧ n.e.pool = some pid ∧
        tfind p.zpool.blobs n.e.handle = none) ∧
      ∀ i ∈ items, item_blob i = true → i.e.handle ≠ n.e.handle) :
    ItemsOK s0 (items ++ [n]) := by
  obtain ⟨a1, a2, a3, a4⟩ := h
  refine ⟨?_, ?_, ?_, ?_⟩
  · intro i hi
    rcases List.mem_append.mp hi with hi | hi
    · exact a1 i hi
    · simp only [List.mem_singleton] at hi
      rw [hi]
      exact h1
  · rw [List.map_append, List.nodup_append]
    refine ⟨a2, by simp, ?_⟩
    intro a ha hb
    simp only [List.map_cons, List.map_nil, List.mem_singleton] at hb
    obtain ⟨x, hx, hxa⟩ := List.mem_map.mp ha
    exact h2 x hx (hxa.trans hb)
  · intro i hi hl
    rcases List.mem_append.mp hi with hi | hi
    · exact a3 i hi hl
    · simp only [List.mem_singleton] at hi
      rw [hi] at hl ⊢
      exact (h3 hl).1
  · rw [List.filter_append, List.map_append, List.nodup_append]
    refine ⟨a4, ?_, ?_⟩
    · by_cases hb : item_blob n = true
      · simp [List.filter_cons, hb]
      · simp [List.filter_cons, hb]
    · intro a ha hb
      by_cases hbn : item_blob n = true
      · simp only [List.filter_cons, hbn, if_true, List.filter_nil, List.map_cons, List.map_nil,
          List.mem_singleton] at hb
        obtain ⟨x, hx, hxa⟩ := List.mem_map.mp ha
        have hxm := List.mem_filter.mp hx
        have hl : n.e.length ≠ 0 := by simpa [item_blob] using hbn
        exact (h3 hl).2 x hxm.1 hxm.2 (hxa.trans hb)
      · simp [List.filter_cons, hbn] at hb

/-- A store that returns 0 keeps the relation to the baseline: the stored
items are updated. -/
theorem store_rel (env : Env) (o : Oracle) (s0 s s1 : State) (type offset : Nat)
    (page : struct_page) (items : List Item)
    (hc : zpool_malloc_nonempty env o page.data)
    (hen : s0.zswap_same_filled_pages_enabled = true ∨
      page_zero_filled env.PAGE_SIZE page.data = 0)
    (hk0 : ∀ pid p rest, s0.zswap_pools = (pid, p) :: rest → 1 ≤ p.kref)
    (h : Rel s0 type items s)
    (hst : zswap_frontswap_store env o s type offset page = some (0, s1)) :
    ∃ items1, Rel s0 type items1 s1 := by
  have hfresh : tfind s0.entries (tfresh s.entries) = none := by
    rw [h.shape.entries]
    exact tfind_fresh_left _ _
  have hids : ∀ i ∈ items, i.id ≠ tfresh s.entries := by
    intro i hi
    rw [h.shape.entries]
    exact fresh_ne_right s0.entries (entries_of items) (i.id, i.e)
      (List.mem_map_of_mem (fun i => (i.id, i.e)) hi)
  have hentries : ∀ e : zswap_entry, tput s.entries (tfresh s.entries) e =
      s0.entries ++ entries_of (items ++ [{ id := tfresh s.entries, e := e, buf := [] }]) := by
    intro e
    rw [tput_new _ _ _ (tfind_tfresh _), h.shape.entries, entries_of_append, List.append_assoc]
    rfl
  rcases store_cases env o s type offset page with ⟨r, s2, h1, hneg, _⟩ | ⟨_, heq⟩
  · rw [hst] at h1
    simp only [Option.some.injEq, Prod.mk.injEq] at h1
    omega
  · rw [heq] at hst
    rcases store_entry_cases env o s type offset page with
      ⟨_, h1⟩ | ⟨_, _, h1⟩ | ⟨hns, h1 | ⟨pid, pool, rest, hp, hkref, hz | hm | hb⟩⟩
    · rw [h1] at hst
      simp [ENOMEM] at hst
    · rw [h1] at hst
      have hnb : item_blob
          { id := tfresh s.entries,
            e := { offset := offset, refcount := 1, length := 0, pool := none,
                   handle := (zswap_is_page_same_filled env.PAGE_SIZE page.data 0).2 },
            buf := [] } = false := by simp [item_blob]
      refine insert_rel env o s0 (store_state_same env s offset page) s1 type items
        { id := tfresh s.entries,
          e := { offset := offset, refcount := 1, length := 0, pool := none,
                 handle := (zswap_is_page_same_filled env.PAGE_SIZE page.data 0).2 },
          buf := [] } hk0 h.tree ⟨?_, ?_, ?_, h.shape.zero, h.shape.enabled⟩ ?_ ?_ h.offs
        h.stored hst
      · exact hentries _
      · simp only [store_state_same]
        rw [h.shape.pools]
        cases s0.zswap_pools with
        | nil => rfl
        | cons x rest =>
          obtain ⟨pid, p⟩ := x
          simp only [pools_with, blobs_of_snoc_noblob items _ hnb]
      · simp only [store_state_same]
        rw [h.shape.same]
        simp only [List.filter_append, List.filter_cons, hnb, Bool.not_false, if_true,
          List.filter_nil, List.length_append, List.length_singleton]
        push_cast
        rw [← add_assoc]
        exact atomic_inc_wrap _
      · exact ItemsOK_add s0 items _ h.ok hfresh hids (fun hl => absurd rfl hl)
      · intro i hi
        rcases List.mem_append.mp hi with hi | hi
        · exact h.refs i hi
        · simp only [List.mem_singleton] at hi
          rw [hi]
    · rw [h1] at hst
      simp [EINVAL] at hst
    · exfalso
      rcases hen with hen | hen
      · exact hns ⟨h.shape.enabled.trans hen, same_filled_of_zero_filled _ _ _ hz.1⟩
      · exact hz.1 hen
    · rw [hm.2.2] at hst
      simp only [Option.some.injEq, Prod.mk.injEq] at hst
      exact absurd hst.1 hm.2.1
    · rw [hb.2.2] at hst
      have hpools := h.shape.pools
      rw [hp] at hpools
      cases hp0 : s0.zswap_pools with
      | nil =>
        rw [hp0] at hpools
        simp [pools_with] at hpools
      | cons x rest0 =>
        obtain ⟨pid0, p0⟩ := x
        rw [hp0] at hpools
        simp only [pools_with, List.cons.injEq, Prod.mk.injEq] at hpools
        obtain ⟨⟨hpid, hpool⟩, hrest⟩ := hpools
        subst hpid
        subst hrest
        have hlen : store_dlen env (env.crypto_comp_compress pool.tfm_name page.data) ≠ 0 :=
          hc hb.2.1 pool.tfm_name
        have hblob : item_blob
            { id := tfresh s.entries,
              e := { offset := offset, refcount := 1,
                     length := store_dlen env (env.crypto_comp_compress pool.tfm_name page.data),
                     pool := some pid, handle := tfresh pool.zpool.blobs },
              buf := store_buf env (env.crypto_comp_compress pool.tfm_name page.data)
                page.data } = true := by simp [item_blob, hlen]
        refine insert_rel env o s0 (store_state_blob env s offset pid page pool rest) s1 type
          items
          { id := tfresh s.entries,
            e := { offset := offset, refcount := 1,
                   length := store_dlen env (env.crypto_comp_compress pool.tfm_name page.data),
                   pool := some pid, handle := tfresh pool.zpool.blobs },
            buf := store_buf env (env.crypto_comp_compress pool.tfm_name page.data)
              page.data } hk0 h.tree ⟨?_, ?_, ?_, h.shape.zero, h.shape.enabled⟩ ?_ ?_ h.offs
          h.stored hst
        · simp only [store_state_blob]
          rw [tput_new _ _ _ (tfind_tfresh _), h.shape.entries, entries_of_append,
            List.append_assoc]
          rfl
        · simp only [store_state_blob]
          rw [hp0]
          simp only [pools_with, blobs_of_snoc_blob items _ hblob]
          rw [tput_new _ _ _ (tfind_tfresh _), hpool]
          simp only [List.length_append, List.length_singleton, List.append_assoc]
          congr 3
          push_cast
          omega
        · simp only [store_state_blob]
          rw [h.shape.same]
          simp [List.filter_append, List.filter_cons, hblob]
        · refine ItemsOK_add s0 items _ h.ok hfresh hids (fun _ => ⟨⟨pid, p0, rest, hp0, rfl, ?_⟩, ?_⟩)
          · simp only
            rw [hpool]
            exact tfind_fresh_left _ _
          · intro i hi hbi
            simp only
            rw [hpool]
            exact fresh_ne_right p0.zpool.blobs (blobs_of items) (i.e.handle, i.buf)
              (List.mem_map_of_mem (fun i => (i.e.handle, i.buf))
                (List.mem_filter.mpr ⟨hi, hbi⟩))
        · intro i hi
          rcases List.mem_append.mp hi with hi | hi
          · exact h.refs i hi
          · simp only [List.mem_singleton] at hi
            rw [hi]

/-- The baseline is related to itself with no item stored. -/
theorem rel_base (s0 : State) (type : Nat) (ht : tfind s0.zswap_trees type = some [])
    (hr1 : int_range s0.zswap_stored_pages) (hr2 : int_range s0.zswap_same_filled_pages) :
    Rel s0 type [] s0 := by
  refine ⟨ht, ⟨?_, ?_, ?_, rfl, rfl⟩, ⟨?_, ?_, ?_, ?_⟩, ?_, ?_, ?_⟩
  · simp [entries_of]
  · exact (pools_with_nil _).symm
  · simp only [List.filter_nil, List.length_nil, Nat.cast_zero, add_zero]
    exact (wrap_s32_of_range _ hr2).symm
  · intro i hi
    simp at hi
  · simp
  · intro i hi
    simp at hi
  · simp
  · intro i hi
    simp at hi
  · simp
  · simp only [List.length_nil, Nat.cast_zero, add_zero]
    exact (wrap_s32_of_range _ hr1).symm

/-- A sequence of stores that all return 0 keeps the relation to the
baseline. -/
theorem store_all_rel (env : Env) (s0 : State) (type : Nat)
    (hk0 : ∀ pid p rest, s0.zswap_pools = (pid, p) :: rest → 1 ≤ p.kref) :
    ∀ (reqs : List (Oracle × Nat × struct_page)) (s s1 : State) (items : List Item),
      (∀ q ∈ reqs, zpool_malloc_nonempty env q.1 q.2.2.data ∧
        (s0.zswap_same_filled_pages_enabled = true ∨
          page_zero_filled env.PAGE_SIZE q.2.2.data = 0)) →
      Rel s0 type items s → store_all env type reqs s = some s1 →
      ∃ items1, Rel s0 type items1 s1 := by
  intro reqs
  induction reqs with
  | nil =>
    intro s s1 items _ h hrun
    simp only [store_all, Option.some.injEq] at hrun
    rw [← hrun]
    exact ⟨items, h⟩
  | cons q rest ih =>
    intro s s1 items hreq h hrun
    obtain ⟨hq1, hq2⟩ := hreq q (List.mem_cons_self _ _)
    obtain ⟨o, offset, page⟩ := q
    simp only [store_all] at hrun
    cases hst : zswap_frontswap_store env o s type offset page with
    | none => simp [hst] at hrun
    | some r =>
      obtain ⟨ret, s2⟩ := r
      simp only [hst, Option.some_bind] at hrun
      by_cases hret : ret = 0
      · rw [if_pos hret] at hrun
        rw [hret] at hst
        obtain ⟨items2, h2⟩ :=
          store_rel env o s0 s s2 type offset page items hq1 hq2 hk0 h hst
        exact ih s2 s1 items2 (fun q hq => hreq q (List.mem_cons_of_mem _ hq)) h2 hrun
      · rw [if_neg hret] at hrun
        simp at hrun

/-- From a state related to the baseline, invalidate_area gives the slab, the
pools and the counters of the baseline back. -/
theorem invalidate_rel (env : Env) (s0 s : State) (type : Nat) (items : List Item)
    (hk0 : ∀ pid p rest, s0.zswap_pools = (pid, p) :: rest → 1 ≤ p.kref)
    (hr1 : int_range s0.zswap_stored_pages) (hr2 : int_range s0.zswap_same_filled_pages)
    (h : Rel s0 type items s) :
    ∃ s2, zswap_frontswap_invalidate_area env s type = some s2 ∧
      s2.zswap_stored_pages = s0.zswap_stored_pages ∧
      s2.zswap_same_filled_pages = s0.zswap_same_filled_pages ∧
      s2.zswap_zero_pages = s0.zswap_zero_pages ∧
      s2.zswap_pools = s0.zswap_pools ∧
      s2.entries = s0.entries ∧
      s2.zswap_trees = terase s.zswap_trees type := by
  obtain ⟨s1, h1, h2, h3, h4⟩ :=
    visitor_items env s0 s0.zswap_stored_pages hk0 items s h.shape h.ok h.stored
  refine ⟨{ s1 with zswap_trees := terase s1.zswap_trees type }, ?_, ?_, ?_, h2.zero, ?_, ?_, ?_⟩
  · unfold zswap_frontswap_invalidate_area
    simp only [h.tree, h1, Option.some_bind]
  · simp only
    rw [h3]
    exact wrap_s32_of_range _ hr1
  · simp only
    rw [h2.same]
    simp only [List.filter_nil, List.length_nil, Nat.cast_zero, add_zero]
    exact wrap_s32_of_range _ hr2
  · simp only
    rw [h2.pools]
    exact pools_with_nil _
  · simp only
    rw [h2.entries]
    simp [entries_of]
  · simp only
    rw [h4]

/-- An address space without entries: invalidate_area only takes the tree
away. -/
theorem invalidate_area_empty (env : Env) (s : State) (type : Nat)
    (h : tfind s.zswap_trees type = none ∨ tfind s.zswap_trees type = some []) :
    zswap_frontswap_invalidate_area env s type =
      some { s with zswap_trees := terase s.zswap_trees type } := by
  unfold zswap_frontswap_invalidate_area
  rcases h with h | h
  · simp only [h]
    rw [terase_of_tfind_none _ _ h]
  · simp only [h, btree_visitor, Option.some_bind]

/-- A second invalidate_area on the same address space changes nothing. -/
theorem invalidate_area_twice (env : Env) (s s2 : State) (type : Nat)
    (h : zswap_frontswap_invalidate_area env s type = some s2) :
    zswap_frontswap_invalidate_area env s2 type = some s2 := by
  have hnone : tfind s2.zswap_trees type = none := by
    unfold zswap_frontswap_invalidate_area at h
    cases ht : tfind s.zswap_trees type with
    | none =>
      simp only [ht, Option.some.injEq] at h
      rw [← h]
      exact ht
    | some tree =>
      simp only [ht] at h
      rw [Option.bind_eq_some] at h
      obtain ⟨s1, _, h1⟩ := h
      simp only [Option.some.injEq] at h1
      rw [← h1]
      simp [tfind_terase]
  unfold zswap_frontswap_invalidate_area
  simp only [hnone]

/-- Zero-filled is same-value-filled with value 0, for pages of at least one
word. -/
theorem zero_filled_iff (P : Nat) (page : Page) (value : Nat) (hP : 8 ≤ P) :
    page_zero_filled P page = 1 ↔ zswap_is_page_same_filled P page value = (1, 0) := by
  have hw : 1 ≤ P / 8 := by omega
  unfold page_zero_filled zswap_is_page_same_filled
  constructor
  · intro h
    have hall : (List.range (P / 8)).all (fun pos => page.getD pos 0 == 0) = true := by
      by_contra hc
      rw [if_neg hc] at h
      exact absurd h (by decide)
    rw [List.all_eq_true] at hall
    have h0 : page.getD 0 0 = 0 := by
      have := hall 0 (List.mem_range.mpr (by omega))
      simpa using this
    have hsame : (List.range' 1 (P / 8 - 1)).all
        (fun pos => page.getD pos 0 == page.getD 0 0) = true := by
      rw [List.all_eq_true]
      intro x hx
      rw [List.mem_range'_1] at hx
      have := hall x (List.mem_range.mpr (by omega))
      simp only [beq_iff_eq] at this ⊢
      rw [this, h0]
    rw [if_pos hsame, h0]
  · intro h
    by_cases hsame : (List.range' 1 (P / 8 - 1)).all
        (fun pos => page.getD pos 0 == page.getD 0 0) = true
    · rw [if_pos hsame] at h
      simp only [Prod.mk.injEq, true_and] at h
      rw [List.all_eq_true] at hsame
      have hall : (List.range (P / 8)).all (fun pos => page.getD pos 0 == 0) = true := by
        rw [List.all_eq_true]
        intro x hx
        rw [List.mem_range] at hx
        by_cases hx0 : x = 0
        · rw [hx0]
          simpa using h
        · have := hsame x (List.mem_range'_1.mpr (by omega))
          simp only [beq_iff_eq] at this ⊢
          rw [this, h]
      rw [if_pos hall]
    · rw [if_neg hsame] at h
      simp at h

/-- With same-value handling on, no outcome of store changes the zero-page
counter when the page is all zero. -/
theorem store_zero_page_enabled (env : Env) (o : Oracle) (s s1 : State) (type offset : Nat)
    (page : struct_page) (r : Int)
    (hen : s.zswap_same_filled_pages_enabled = true)
    (hz : page_zero_filled env.PAGE_SIZE page.data ≠ 0)
    (h : zswap_frontswap_store env o s type offset page = some (r, s1)) :
    s1.zswap_zero_pages = s.zswap_zero_pages := by
  rcases store_cases env o s type offset page with ⟨r2, s2, h1, _, _, _, _, _, _, h6, _⟩ | ⟨_, heq⟩
  · rw [h] at h1
    simp only [Option.some.injEq, Prod.mk.injEq] at h1
    rw [h1.2]
    exact h6
  · rw [heq] at h
    rcases store_entry_cases env o s type offset page with
      ⟨_, h1⟩ | ⟨_, _, h1⟩ | ⟨hns, _⟩
    · rw [h1] at h
      simp only [Option.some.injEq, Prod.mk.injEq] at h
      rw [← h.2]
    · rw [h1] at h
      exact (insert_entry_frame env o _ s1 type _ r h).1
    · exact absurd ⟨hen, same_filled_of_zero_filled _ _ _ hz⟩ hns

theorem tfind_of_mem_nodup {α : Type} (t : Table α) (k : Nat) (v : α)
    (hn : keys_nodup t) (hm : (k, v) ∈ t) : tfind t k = some v := by
  induction t with
  | nil => simp at hm
  | cons x rest ih =>
    obtain ⟨k1, v1⟩ := x
    unfold keys_nodup at hn
    simp only [List.map_cons, List.nodup_cons] at hn
    simp only [tfind]
    rcases List.mem_cons.mp hm with h | h
    · simp only [Prod.mk.injEq] at h
      rw [if_pos h.1.symm, h.2]
    · have hne : k1 ≠ k := by
        intro heq
        apply hn.1
        rw [heq]
        exact List.mem_map_of_mem Prod.fst h
      rw [if_neg hne]
      exact ih hn.2 h

theorem tfind_none_of_not_key {α : Type} (t : Table α) (k : Nat)
    (h : k ∉ t.map Prod.fst) : tfind t k = none := by
  apply tfind_none_of_keys
  intro x hx heq
  exact h (by rw [← heq]; exact List.mem_map_of_mem Prod.fst hx)

theorem strlcpy_fits (src : String) (size : Nat) (h : src.length < size) :
    strlcpy src size = src := by
  unfold strlcpy
  have : src.data.take (size - 1) = src.data :=
    List.take_of_length_le (by
      have : src.data.length = src.length := rfl
      omega)
  rw [this]

theorem tfind_terase_ne {α : Type} (t : Table α) (k k1 : Nat) (h : k ≠ k1) :
    tfind (terase t k) k1 = tfind t k1 := by
  rw [tfind_terase, if_neg h]

/-- The parameters after `param_set_charp`. -/
theorem param_set_charp_ret (ret : Int) (m : Module) (s : String) (kp : Param) :
    (param_set_charp ret m s kp).1 = ret ∧
    (param_set_charp ret m s kp).2.state = m.state ∧
    (ret ≠ 0 → (param_set_charp ret m s kp).2 = m) ∧
    (ret = 0 → param_arg (param_set_charp ret m s kp).2 kp = s) := by
  cases kp <;> by_cases h : ret = 0 <;> simp [param_set_charp, h, param_arg]

/-- The end of `__zswap_param_set` when the list starts with the current pool
`(pid0, p0)` and the pool in hand is another one. -/
theorem param_set_finish_spec (po : PoolOracle) (m : Module) (s : String) (kp : Param)
    (pid pid0 : Nat) (pool p0 : zswap_pool) (rest : Table zswap_pool)
    (hcur : m.state.zswap_pools = (pid0, p0) :: rest) (hne : pid ≠ pid0)
    (hn1 : tfind rest pid = none) (hn0 : tfind rest pid0 = none) :
    ∃ m1, zswap_param_set_finish po m s kp pid pool = some (po.param_set_charp_ret, m1) ∧
      (po.param_set_charp_ret = 0 →
        m1.state.zswap_pools =
          (pid, pool) ::
            (if p0.kref - 1 = 0 then rest
             else (pid0, { p0 with kref := p0.kref - 1 }) :: rest) ∧
        param_arg m1 kp = s ∧
        m1.zswap_compressor = (param_set_charp 0 m s kp).2.zswap_compressor ∧
        m1.zswap_zpool_type = (param_set_charp 0 m s kp).2.zswap_zpool_type) ∧
      (po.param_set_charp_ret ≠ 0 →
        (∃ rest1, m1.state.zswap_pools = (pid0, p0) :: rest1) ∧
        m1.zswap_compressor = m.zswap_compressor ∧
        m1.zswap_zpool_type = m.zswap_zpool_type) := by
  unfold zswap_param_set_finish
  generalize po.param_set_charp_ret = ret
  obtain ⟨r1, r2, r3, r4⟩ := param_set_charp_ret ret m s kp
  by_cases hret : ret = 0
  · subst hret
    simp only [r1, if_true, r2, hcur]
    have hf : tfind ((pid, pool) :: (pid0, p0) :: rest) pid0 = some p0 := by
      simp [tfind, hne]
    simp only [zswap_pool_put, hf, Option.some_bind]
    by_cases hk : p0.kref - 1 = 0
    · simp only [hk, if_true, Option.some_bind]
      refine ⟨_, rfl, fun _ => ⟨?_, r4 rfl, rfl, rfl⟩, fun h => absurd rfl h⟩
      simp only [terase, if_neg hne, if_true]
      rw [terase_of_tfind_none _ _ hn0]
    · simp only [hk, if_false, Option.some_bind]
      refine ⟨_, rfl, fun _ => ⟨?_, r4 rfl, rfl, rfl⟩, fun h => absurd rfl h⟩
      simp only [tput, if_neg hne, if_true]
  · have hm := r3 hret
    simp only [r1, hret, if_false, hm, hcur]
    have hf : tfind ((pid0, p0) :: rest ++ [(pid, pool)]) pid = some pool := by
      have h1 := tfind_append_none rest [(pid, pool)] pid hn1
      simp only [List.cons_append, tfind, if_neg (Ne.symm hne)]
      exact h1.trans (by simp [tfind])
    simp only [zswap_pool_put, hf, Option.some_bind]
    by_cases hk : pool.kref - 1 = 0
    · simp only [hk, if_true, Option.some_bind]
      refine ⟨_, rfl, fun h => h.elim,
        fun _ => ⟨⟨terase (rest ++ [(pid, pool)]) pid, ?_⟩, rfl, rfl⟩⟩
      simp only [List.cons_append, terase, if_neg (Ne.symm hne)]
      rfl
    · simp only [hk, if_false, Option.some_bind]
      refine ⟨_, rfl, fun h => h.elim,
        fun _ => ⟨⟨tput (rest ++ [(pid, pool)]) pid { pool with kref := pool.kref - 1 }, ?_⟩,
          rfl, rfl⟩⟩
      simp only [List.cons_append, tput, if_neg (Ne.symm hne)]
      rfl

/-- The two outcomes of `zswap_pool_create`. -/
theorem zswap_pool_create_cases (reg : Registry) (po : PoolOracle) (m : Module)
    (type compressor : String) :
    (∃ m1, zswap_pool_create reg po m type compressor = (none, m1) ∧ m1.state = m.state ∧
      m1.zswap_compressor = m.zswap_compressor ∧ m1.zswap_zpool_type = m.zswap_zpool_type ∧
      m1.zswap_init_started = m.zswap_init_started ∧
      m1.zswap_init_failed = m.zswap_init_failed) ∨
    zswap_pool_create reg po m type compressor =
      (some { zpool := { type := type, blobs := [] },
              tfm_name := strlcpy compressor reg.CRYPTO_MAX_ALG_NAME, kref := 1 },
        { m with zswap_pools_count := atomic_inc m.zswap_pools_count }) := by
  unfold zswap_pool_create
  by_cases h1 : po.kzalloc_ok = true
  · by_cases h2 : po.zpool_create_pool_ok = true
    · by_cases h3 : po.alloc_percpu_ok = true
      · by_cases h4 : po.cpuhp_state_add_instance_ret = 0
        · exact Or.inr (by simp [h1, h2, h3, h4])
        · exact Or.inl ⟨{ m with zswap_pools_count := atomic_inc m.zswap_pools_count },
            by simp [h1, h2, h3, h4], rfl, rfl, rfl, rfl, rfl⟩
      · exact Or.inl ⟨{ m with zswap_pools_count := atomic_inc m.zswap_pools_count },
          by simp [h1, h2, h3], rfl, rfl, rfl, rfl, rfl⟩
    · exact Or.inl ⟨{ m with zswap_pools_count := atomic_inc m.zswap_pools_count },
        by simp [h1, h2], rfl, rfl, rfl, rfl, rfl⟩
  · exact Or.inl ⟨m, by simp [h1], rfl, rfl, rfl, rfl, rfl⟩

/-- The two outcomes of `zswap_pool_find_get`. -/
theorem zswap_pool_find_get_cases (s : State) (type compressor : String) :
    zswap_pool_find_get s type compressor = (none, s) ∨
    ∃ pid pool, (pid, pool) ∈ s.zswap_pools ∧ pool.tfm_name = compressor ∧
      pool.zpool.type = type ∧ pool.kref ≠ 0 ∧
      zswap_pool_find_get s type compressor =
        (some pid,
          { s with zswap_pools := tput s.zswap_pools pid { pool with kref := pool.kref + 1 } }) := by
  unfold zswap_pool_find_get
  cases hf : s.zswap_pools.find? (fun x =>
      x.2.tfm_name == compressor && x.2.zpool.type == type && x.2.kref != 0) with
  | none => exact Or.inl rfl
  | some x =>
    obtain ⟨pid, pool⟩ := x
    have hp := List.find?_some hf
    have hm := List.mem_of_find?_eq_some hf
    simp only [Bool.and_eq_true, beq_iff_eq, bne_iff_ne, ne_eq] at hp
    exact Or.inr ⟨pid, pool, hm, hp.1.1, hp.1.2, hp.2, rfl⟩

/-- The pool switch of `__zswap_param_set` when the list starts with the current
pool `(pid0, p0)`, which is not a pool of the requested pair. -/
theorem param_set_pool_spec (reg : Registry) (po : PoolOracle) (m : Module) (s : String)
    (kp : Param) (type compressor : String) (pid0 : Nat) (p0 : zswap_pool)
    (rest0 : Table zswap_pool)
    (hcur : m.state.zswap_pools = (pid0, p0) :: rest0)
    (hnot : ¬ (p0.tfm_name = compressor ∧ p0.zpool.type = type))
    (hnd : keys_nodup m.state.zswap_pools)
    (hfit : compressor.length < reg.CRYPTO_MAX_ALG_NAME) :
    ∃ r m1, zswap_param_set_pool reg po m s kp type compressor = some (r, m1) ∧
      (r = 0 →
        ∃ pid1 p1 rest1, pid1 ≠ pid0 ∧ p1.tfm_name = compressor ∧ p1.zpool.type = type ∧
          tfind rest1 pid0 = none ∧
          m1.state.zswap_pools =
            (pid1, p1) ::
              (if p0.kref - 1 = 0 then rest1
               else (pid0, { p0 with kref := p0.kref - 1 }) :: rest1) ∧
          param_arg m1 kp = s ∧
          m1.zswap_compressor = (param_set_charp 0 m s kp).2.zswap_compressor ∧
          m1.zswap_zpool_type = (param_set_charp 0 m s kp).2.zswap_zpool_type) ∧
      (r ≠ 0 →
        (∃ rest1, m1.state.zswap_pools = (pid0, p0) :: rest1) ∧
        m1.zswap_compressor = m.zswap_compressor ∧
        m1.zswap_zpool_type = m.zswap_zpool_type) := by
  have hnd0 : pid0 ∉ rest0.map Prod.fst ∧ keys_nodup rest0 := by
    unfold keys_nodup at hnd
    rw [hcur] at hnd
    simpa [List.nodup_cons] using hnd
  have hn0 : tfind rest0 pid0 = none := tfind_none_of_not_key rest0 pid0 hnd0.1
  unfold zswap_param_set_pool
  rcases zswap_pool_find_get_cases m.state type compressor with hfg | ⟨pid, pool, hm, h1, h2, h3, hfg⟩
  · simp only [hfg]
    have hfr : tfind m.state.zswap_pools (tfresh m.state.zswap_pools) = none := tfind_tfresh _
    have hne : tfresh m.state.zswap_pools ≠ pid0 := by
      intro heq
      rw [heq, hcur] at hfr
      simp [tfind] at hfr
    have hn1 : tfind rest0 (tfresh m.state.zswap_pools) = none := by
      rw [hcur] at hfr
      simp only [tfind, if_neg (Ne.symm (by rw [hcur] at hne; exact hne))] at hfr
      rw [hcur]
      exact hfr
    rcases zswap_pool_create_cases reg po m type compressor with
      ⟨m1, hc, hs1, hc1, hz1, _, _⟩ | hc
    · rw [hc]
      refine ⟨-EINVAL, m1, rfl, fun h => absurd h (by decide), fun _ => ⟨⟨rest0, ?_⟩, hc1, hz1⟩⟩
      rw [hs1, hcur]
    · rw [hc]
      obtain ⟨m2, hfin, hok, hfail⟩ := param_set_finish_spec po
        { m with zswap_pools_count := atomic_inc m.zswap_pools_count } s kp
        (tfresh m.state.zswap_pools) pid0
        { zpool := { type := type, blobs := [] },
          tfm_name := strlcpy compressor reg.CRYPTO_MAX_ALG_NAME, kref := 1 } p0 rest0
        hcur hne hn1 hn0
      refine ⟨_, m2, hfin, fun h => ?_, fun h => hfail h⟩
      obtain ⟨g1, g2, g3, g4⟩ := hok h
      refine ⟨_, _, rest0, hne, strlcpy_fits _ _ hfit, rfl, hn0, g1, g2, ?_, ?_⟩
      · rw [g3]
        cases kp <;> rfl
      · rw [g4]
        cases kp <;> rfl
  · have hmr : (pid, pool) ∈ rest0 := by
      rw [hcur] at hm
      rcases List.mem_cons.mp hm with h | h
      · simp only [Prod.mk.injEq] at h
        exact absurd ⟨by rw [← h.2]; exact h1, by rw [← h.2]; exact h2⟩ hnot
      · exact h
    have hne : pid ≠ pid0 := by
      intro heq
      apply hnd0.1
      rw [← heq]
      exact List.mem_map_of_mem Prod.fst hmr
    have hfound : tfind m.state.zswap_pools pid = some pool :=
      tfind_of_mem_nodup _ _ _ hnd hm
    simp only [hfg, tfind_tput, if_true, Option.some_bind, terase_tput_same]
    obtain ⟨m2, hfin, hok, hfail⟩ := param_set_finish_spec po
      { m with state :=
        { m.state with zswap_pools := terase m.state.zswap_pools pid } } s kp pid pid0
      { pool with kref := pool.kref + 1 } p0 (terase rest0 pid)
      (by
        simp only
        rw [hcur]
        simp only [terase, if_neg (Ne.symm hne)])
      hne (by simp [tfind_terase]) (by rw [tfind_terase_ne _ _ _ hne]; exact hn0)
    refine ⟨_, m2, hfin, fun h => ?_, fun h => hfail h⟩
    obtain ⟨g1, g2, g3, g4⟩ := hok h
    refine ⟨pid, { pool with kref := pool.kref + 1 }, terase rest0 pid, hne, h1, h2,
      by rw [tfind_terase_ne _ _ _ hne]; exact hn0, g1, g2, ?_, ?_⟩
    · rw [g3]
      cases kp <;> rfl
    · rw [g4]
      cases kp <;> rfl

/-- What `__zswap_pool_create_fallback` makes a pool from: the configured names
where the registries know them, the defaults where they do not. -/
theorem pool_create_fallback_some (reg : Registry) (po : PoolOracle) (m m1 : Module)
    (pool : zswap_pool) (h : __zswap_pool_create_fallback reg po m = (some pool, m1)) :
    m1.state = m.state ∧ m1.zswap_init_started = m.zswap_init_started ∧
    pool.zpool.type = m1.zswap_zpool_type ∧
    pool.tfm_name = strlcpy m1.zswap_compressor reg.CRYPTO_MAX_ALG_NAME ∧
    (∀ kp, registry_knows reg kp (param_arg m kp) = false →
      param_arg m1 kp = param_default kp ∧ param_arg m kp ≠ param_default kp) ∧
    (∀ kp, registry_knows reg kp (param_arg m kp) = true → param_arg m1 kp = param_arg m kp) := by
  unfold __zswap_pool_create_fallback at h
  by_cases hc : reg.crypto_has_comp m.zswap_compressor = true
  · by_cases hz : reg.zpool_has_pool m.zswap_zpool_type = true
    · simp only [hc, hz, Bool.not_true, Bool.false_eq_true, false_and, if_false] at h
      rcases zswap_pool_create_cases reg po m m.zswap_zpool_type m.zswap_compressor with
        ⟨m2, h2, _⟩ | h2
      · rw [h2] at h
        simp at h
      · rw [h2] at h
        simp only [Prod.mk.injEq, Option.some.injEq] at h
        obtain ⟨hp, hm⟩ := h
        subst hp
        subst hm
        refine ⟨rfl, rfl, rfl, rfl, ?_, ?_⟩
        · intro kp hk
          cases kp
          · simp [registry_knows, param_arg, hc] at hk
          · simp [registry_knows, param_arg, hz] at hk
        · intro kp _
          cases kp <;> rfl
    · by_cases hzd : m.zswap_zpool_type = ZSWAP_ZPOOL_DEFAULT
      · simp [hc, hz, hzd] at h
        rw [hzd] at hz
        simp [hz] at h
      · simp only [hc, hz, Bool.not_true, Bool.false_eq_true, false_and, if_false,
          Bool.not_false, true_and, hzd, if_true] at h
        rcases zswap_pool_create_cases reg po
          { m with zswap_zpool_type := ZSWAP_ZPOOL_DEFAULT } ZSWAP_ZPOOL_DEFAULT
          m.zswap_compressor with ⟨m2, h2, _⟩ | h2
        · rw [h2] at h
          simp at h
        · rw [h2] at h
          simp only [Prod.mk.injEq, Option.some.injEq] at h
          obtain ⟨hp, hm⟩ := h
          subst hp
          subst hm
          refine ⟨rfl, rfl, rfl, rfl, ?_, ?_⟩
          · intro kp hk
            cases kp
            · simp [registry_knows, param_arg, hc] at hk
            · exact ⟨rfl, hzd⟩
          · intro kp hk
            cases kp
            · rfl
            · simp [registry_knows, param_arg, hz] at hk
  · by_cases hcd : m.zswap_compressor = ZSWAP_COMPRESSOR_DEFAULT
    · simp [hc, hcd] at h
      rw [hcd] at hc
      simp [hc] at h
    · by_cases hz : reg.zpool_has_pool m.zswap_zpool_type = true
      · simp only [hc, hz, Bool.not_true, Bool.false_eq_true, false_and, if_false,
          Bool.not_false, true_and, hcd, if_true] at h
        rcases zswap_pool_create_cases reg po
          { m with zswap_compressor := ZSWAP_COMPRESSOR_DEFAULT } m.zswap_zpool_type
          ZSWAP_COMPRESSOR_DEFAULT with ⟨m2, h2, _⟩ | h2
        · rw [h2] at h
          simp at h
        · rw [h2] at h
          simp only [Prod.mk.injEq, Option.some.injEq] at h
          obtain ⟨hp, hm⟩ := h
          subst hp
          subst hm
          refine ⟨rfl, rfl, rfl, rfl, ?_, ?_⟩
          · intro kp hk
            cases kp
            · exact ⟨rfl, hcd⟩
            · simp [registry_knows, param_arg, hz] at hk
          · intro kp hk
            cases kp
            · simp [registry_knows, param_arg, hc] at hk
            · rfl
      · by_cases hzd : m.zswap_zpool_type = ZSWAP_ZPOOL_DEFAULT
        · simp [hc, hcd, hz, hzd] at h
          rw [hzd] at hz
          simp [hz] at h
        · simp only [hc, hz, Bool.not_true, Bool.false_eq_true, false_and, if_false,
            Bool.not_false, true_and, hcd, hzd, if_true] at h
          rcases zswap_pool_create_cases reg po
            { m with zswap_compressor := ZSWAP_COMPRESSOR_DEFAULT,
                     zswap_zpool_type := ZSWAP_ZPOOL_DEFAULT } ZSWAP_ZPOOL_DEFAULT
            ZSWAP_COMPRESSOR_DEFAULT with ⟨m2, h2, _⟩ | h2
          · rw [h2] at h
            simp at h
          · rw [h2] at h
            simp only [Prod.mk.injEq, Option.some.injEq] at h
            obtain ⟨hp, hm⟩ := h
            subst hp
            subst hm
            refine ⟨rfl, rfl, rfl, rfl, ?_, ?_⟩
            · intro kp _
              cases kp
              · exact ⟨rfl, hcd⟩
              · exact ⟨rfl, hzd⟩
            · intro kp hk
              cases kp
              · simp [registry_knows, param_arg, hc] at hk
              · simp [registry_knows, param_arg, hz] at hk

/-- When `init_zswap` returns 0, the list of pools has gained, at its head, the
pool of `__zswap_pool_create_fallback`. -/
theorem init_zswap_ok (reg : Registry) (io : InitOracle) (po : PoolOracle) (m m1 : Module)
    (h : init_zswap reg io po m = (0, m1)) :
    ∃ pid pool, m1.state.zswap_pools = (pid, pool) :: m.state.zswap_pools ∧
      m1.zswap_init_started = true ∧
      pool.zpool.type = m1.zswap_zpool_type ∧
      pool.tfm_name = strlcpy m1.zswap_compressor reg.CRYPTO_MAX_ALG_NAME ∧
      (∀ kp, registry_knows reg kp (param_arg m kp) = false →
        param_arg m1 kp = param_default kp ∧ param_arg m kp ≠ param_default kp) ∧
      (∀ kp, registry_knows reg kp (param_arg m kp) = true →
        param_arg m1 kp = param_arg m kp) := by
  unfold init_zswap at h
  by_cases h1 : io.zswap_entry_cache_create_ret ≠ 0
  · simp [h1, init_zswap_failed, ENOMEM] at h
  · by_cases h2 : io.cpuhp_setup_state_ret ≠ 0
    · simp [h1, h2, init_zswap_failed, ENOMEM] at h
    · by_cases h3 : io.cpuhp_setup_state_multi_ret ≠ 0
      · simp [h1, h2, h3, init_zswap_failed, ENOMEM] at h
      · simp only [h1, h2, h3, if_false] at h
        cases hf : __zswap_pool_create_fallback reg po { m with zswap_init_started := true } with
        | mk created m2 =>
          cases created with
          | none =>
            rw [hf] at h
            simp [init_zswap_failed, ENOMEM] at h
          | some pool =>
            rw [hf] at h
            simp only [Prod.mk.injEq, true_and] at h
            obtain ⟨a1, a2, a3, a4, a5, a6⟩ := pool_create_fallback_some reg po _ m2 pool hf
            subst h
            refine ⟨tfresh m2.state.zswap_pools, pool, ?_, a2, a3, a4, ?_, ?_⟩
            · simp only
              rw [a1]
            · intro kp hk
              have := a5 kp (by cases kp <;> exact hk)
              cases kp <;> exact this
            · intro kp hk
              have := a6 kp (by cases kp <;> exact hk)
              cases kp <;> exact this

/-- What `zswap_handle_rb_search` returns is a live handle with the checksum
searched for. -/
theorem zswap_handle_rb_search_some (handles : Table zswap_handle) (c z : Nat) :
    ∀ root : rb_node, zswap_handle_rb_search handles root c = some (some z) →
      ∃ hd, tfind handles z = some hd ∧ hd.checksum = c := by
  intro root
  induction root with
  | NULL =>
    intro h
    simp [zswap_handle_rb_search] at h
  | node l zh r ihl ihr =>
    intro h
    simp only [zswap_handle_rb_search] at h
    cases hf : tfind handles zh with
    | none => simp [hf] at h
    | some hd =>
      simp only [hf, Option.some_bind] at h
      by_cases h1 : hd.checksum > c
      · rw [if_pos h1] at h
        exact ihl h
      · rw [if_neg h1] at h
        by_cases h2 : hd.checksum < c
        · rw [if_pos h2] at h
          exact ihr h
        · rw [if_neg h2] at h
          simp only [Option.some.injEq] at h
          subst h
          exact ⟨hd, hf, by omega⟩

/-- The statement of `zswap_entry_put` under the switch changes no
`ref_count`. -/
theorem zswap_entry_put_zhandle_ref_count (rb_erase : rb_node → Nat → rb_node)
    (handles handles1 : Table zswap_handle) (root root1 : rb_node) (zhandle : Option Nat)
    (h : zswap_entry_put_zhandle rb_erase handles root zhandle = some (handles1, root1))
    (z : Nat) :
    (tfind handles1 z).map (fun hd => hd.ref_count) =
      (tfind handles z).map (fun hd => hd.ref_count) := by
  cases zhandle with
  | none =>
    simp only [zswap_entry_put_zhandle, Option.some.injEq, Prod.mk.injEq] at h
    rw [← h.1]
  | some zh =>
    simp only [zswap_entry_put_zhandle] at h
    cases hf : tfind handles zh with
    | none => simp [hf] at h
    | some hd =>
      simp only [hf, Option.some_bind] at h
      by_cases h1 : hd.ref_count = 1
      · rw [if_pos h1] at h
        simp only [zswap_handle_erase, hf, Option.some_bind] at h
        by_cases hl : hd.rb_linked = true
        · rw [if_pos hl] at h
          simp only [Option.some.injEq, Prod.mk.injEq] at h
          rw [← h.1, tfind_tput]
          by_cases hz : zh = z
          · rw [if_pos hz, ← hz, hf]
            rfl
          · rw [if_neg hz]
        · rw [if_neg hl] at h
          simp only [Option.some.injEq, Prod.mk.injEq] at h
          rw [← h.1]
      · rw [if_neg h1] at h
        simp only [Option.some.injEq, Prod.mk.injEq] at h
        rw [← h.1]

/-- A store that succeeds on the compressed path got its allocation: the answer
of `zpool_malloc` was 0. -/
theorem store_entry_malloc_ok (env : Env) (o : Oracle) (s s1 : State) (type offset : Nat)
    (page : struct_page)
    (hres : zswap_frontswap_store_entry env o s type offset page = some (0, s1))
    (hns : ¬ (s.zswap_same_filled_pages_enabled = true ∧
        (zswap_is_page_same_filled env.PAGE_SIZE page.data 0).1 ≠ 0))
    (hz : page_zero_filled env.PAGE_SIZE page.data = 0) : o.zpool_malloc_ret = 0 := by
  rcases store_entry_cases env o s type offset page with
    ⟨_, h⟩ | ⟨h1, h2, _⟩ | ⟨_, h | ⟨pid, pool, rest, _, _, ⟨h1, _⟩ | ⟨_, hm, h⟩ | ⟨_, hm, _⟩⟩⟩
  · rw [h] at hres
    simp [ENOMEM] at hres
  · exact absurd ⟨h1, h2⟩ hns
  · rw [h] at hres
    simp [EINVAL] at hres
  · exact absurd hz h1
  · rw [h] at hres
    simp only [Option.some.injEq, Prod.mk.injEq] at hres
    exact absurd hres.1 hm
  · exact hm

/-- The form in which the claims use `zpool_malloc_nonempty`: on the compressed
path of a successful store the length of the blob is not 0. -/
theorem store_entry_dlen_ne_zero (env : Env) (o : Oracle) (s s1 : State) (type offset : Nat)
    (page : struct_page) (hz0 : zpool_malloc_nonempty env o page.data)
    (hres : zswap_frontswap_store_entry env o s type offset page = some (0, s1)) :
    ¬ (s.zswap_same_filled_pages_enabled = true ∧
        (zswap_is_page_same_filled env.PAGE_SIZE page.data 0).1 ≠ 0) →
      page_zero_filled env.PAGE_SIZE page.data = 0 →
      ∀ tfm : String, store_dlen env (env.crypto_comp_compress tfm page.data) ≠ 0 :=
  fun hns hz => hz0 (store_entry_malloc_ok env o s s1 type offset page hres hns hz)

theorem atomic_inc_dec_range (x : Int) (h : int_range x) : atomic_inc (atomic_dec x) = x := by
  unfold int_range at h
  unfold atomic_inc atomic_dec wrap_s32
  omega

/-- The toy compressor never gives a blob of 0 bytes: whatever the allocator
answers, a request of `env_4k` is for 2 bytes or for a page. -/
theorem env_4k_malloc_nonempty (o : Oracle) (p : Page) : zpool_malloc_nonempty env_4k o p := by
  intro _ tfm
  simp only [env_4k, toy_compress, store_dlen]
  split <;> split <;> simp_all

/-- The remaining case of `zswap_entry_put`: the count of an entry at `INT_MIN`
wraps to `INT_MAX`, which is neither negative nor 0, so the entry lives on. -/
theorem zswap_entry_put_int_min (env : Env) (s s1 : State) (type entry : Nat) (e : zswap_entry)
    (he : tfind s.entries entry = some e) (hmin : e.refcount = -2 ^ 31)
    (h : zswap_entry_put env s type entry = some s1) :
    (∀ x, x ≠ entry → tfind s1.entries x = tfind s.entries x) ∧
    tfind s1.entries entry = some { e with refcount := 2 ^ 31 - 1 } := by
  unfold zswap_entry_put at h
  have hdec : int_dec e.refcount = 2 ^ 31 - 1 := by
    unfold int_dec
    rw [if_pos hmin]
  simp only [he, Option.some_bind, hdec] at h
  rw [if_neg (by decide), if_neg (by decide)] at h
  simp only [Option.some.injEq] at h
  subst h
  refine ⟨fun x hx => ?_, ?_⟩
  · simp only
    rw [tfind_tput, if_neg (Ne.symm hx)]
  · simp only
    rw [tfind_tput, if_pos rfl]

/-- The return value of `zswap_param_set_finish` is that of
`param_set_charp`. -/
theorem param_set_finish_ret (po : PoolOracle) (m m1 : Module) (s : String) (kp : Param)
    (pid : Nat) (pool : zswap_pool) (r : Int)
    (h : zswap_param_set_finish po m s kp pid pool = some (r, m1)) :
    r = po.param_set_charp_ret := by
  have hr : (param_set_charp po.param_set_charp_ret m s kp).1 = po.param_set_charp_ret := by
    cases kp <;> rfl
  unfold zswap_param_set_finish at h
  simp only at h
  split at h
  · split at h
    · simp only [Option.some.injEq, Prod.mk.injEq] at h
      rw [← h.1, hr]
    · rw [Option.bind_eq_some] at h
      obtain ⟨_, _, h⟩ := h
      simp only [Option.some.injEq, Prod.mk.injEq] at h
      rw [← h.1, hr]
  · rw [Option.bind_eq_some] at h
    obtain ⟨_, _, h⟩ := h
    simp only [Option.some.injEq, Prod.mk.injEq] at h
    rw [← h.1, hr]

/-- When the allocations of `zswap_pool_create` succeed, the pool switch of
`__zswap_param_set` gets a pool, found or new, and returns what
`param_set_charp` returns. -/
theorem param_set_pool_ret (reg : Registry) (po : PoolOracle) (m m1 : Module) (s : String)
    (kp : Param) (type compressor : String) (r : Int)
    (hk : po.kzalloc_ok = true) (hz : po.zpool_create_pool_ok = true)
    (ha : po.alloc_percpu_ok = true) (hc : po.cpuhp_state_add_instance_ret = 0)
    (h : zswap_param_set_pool reg po m s kp type compressor = some (r, m1)) :
    r = po.param_set_charp_ret := by
  unfold zswap_param_set_pool at h
  simp only at h
  split at h
  · rw [Option.bind_eq_some] at h
    obtain ⟨pool, _, h⟩ := h
    exact param_set_finish_ret po _ m1 s kp _ pool r h
  · have hcr : zswap_pool_create reg po m type compressor =
        (some { zpool := { type := type, blobs := [] },
                tfm_name := strlcpy compressor reg.CRYPTO_MAX_ALG_NAME, kref := 1 },
          { m with zswap_pools_count := atomic_inc m.zswap_pools_count }) := by
      simp [zswap_pool_create, hk, hz, ha, hc]
    rw [hcr] at h
    exact param_set_finish_ret po _ m1 s kp _ _ r h

/-! ## Properties of the frontswap hooks -/

/-- C1: round trip. For every address space with an entry store, every offset
and every one-page content `p` (compressible, incompressible, same-value-filled
or zero-filled): if `zswap_frontswap_store` returns 0, then a
`zswap_frontswap_load` of the same offset that follows immediately returns 0 and
leaves the destination page identical to `p`, assuming that the compressor's
decompress inverts its compress. The answers of the allocator are those of an
allocator that refuses a request of 0 bytes (`zpool_malloc_nonempty`), and the
entry found at the offset before the store, if any, is a live entry that owns
its blob (`slot_ok`). -/
theorem zswap_store_load_round_trip (env : Env) (o : Oracle) (s s1 : State)
    (type offset : Nat) (page : struct_page) (dst : Page)
    (hP : 8 ≤ env.PAGE_SIZE) (hlen : page.data.length = env.PAGE_SIZE / 8)
    (hdst : dst.length = env.PAGE_SIZE / 8)
    (hinv : decompress_inverts_compress env) (hz0 : zpool_malloc_nonempty env o page.data)
    (hslot : slot_ok s type offset = true)
    (hstore : zswap_frontswap_store env o s type offset page = some (0, s1)) :
    ∃ s2, zswap_frontswap_load env s1 type offset dst = some (0, page.data, s2) := by
  obtain ⟨_, _, _, _, _, hentry⟩ := store_ok_entry env o s s1 type offset page hstore
  obtain ⟨e, hb, hsh⟩ := store_entry_ok env o s s1 type offset page hslot hentry
  have hh := shape_holds_page env s s1 offset page e hP hlen hinv
    (store_entry_dlen_ne_zero env o s s1 type offset page hz0 hentry) hsh
  exact ⟨_, load_of_bound env s1 type offset _ e page.data dst hb hh hdst⟩

/-- C1 at a concrete input: the page 3, 4, 0, ..., 0 stored at offset 5 of an
empty tree (it takes the compressed path) is loaded back unchanged. -/
theorem zswap_store_load_round_trip_witness :
    zswap_frontswap_store env_4k oracle_ok state_empty 0 5 page_34 =
      some (0, state_stored_34) ∧
    ∃ s2, zswap_frontswap_load env_4k state_stored_34 0 5 page_zero.data =
      some (0, page_34.data, s2) := by
  have h : zswap_frontswap_store env_4k oracle_ok state_empty 0 5 page_34 =
      some (0, state_stored_34) := by decide!
  exact ⟨h, zswap_store_load_round_trip env_4k oracle_ok state_empty _ 0 5 page_34
    page_zero.data (by decide) (by decide!) (by decide!) env_4k_inverts
    (env_4k_malloc_nonempty oracle_ok page_34.data) (by decide) h⟩

/-- C2: same-value round trip of the pure helpers. For every machine word `v`,
`zswap_is_page_same_filled` applied to the page that `zswap_fill_page` produces
for `v` returns 1 and reports `v`; and for every page `p` on which
`zswap_is_page_same_filled` returns 1 with value `v`, `zswap_fill_page` with `v`
produces a page identical to `p`. A page has `PAGE_SIZE / 8` words, at least
one. -/
theorem zswap_same_filled_round_trip (PAGE_SIZE : Nat) (hP : 8 ≤ PAGE_SIZE) :
    (∀ (v value0 : Nat) (dst : Page),
      zswap_is_page_same_filled PAGE_SIZE (zswap_fill_page PAGE_SIZE dst v) value0 = (1, v)) ∧
    (∀ (p dst : Page) (v value0 : Nat), p.length = PAGE_SIZE / 8 →
      dst.length = PAGE_SIZE / 8 →
      zswap_is_page_same_filled PAGE_SIZE p value0 = (1, v) →
      zswap_fill_page PAGE_SIZE dst v = p) :=
  ⟨fun v value0 dst => same_filled_of_fill PAGE_SIZE hP dst v value0,
   fun p dst v value0 hp hd h => fill_of_same_filled PAGE_SIZE hP p dst v value0 hp hd h⟩

/-- C2 at a concrete input: 4 KiB pages and the word 7. -/
theorem zswap_same_filled_round_trip_witness :
    zswap_is_page_same_filled 4096 (zswap_fill_page 4096 page_zero.data 7) 0 = (1, 7) ∧
    zswap_fill_page 4096 page_zero.data 7 = page_sevens.data :=
  ⟨(zswap_same_filled_round_trip 4096 (by decide)).1 7 0 page_zero.data,
   (zswap_same_filled_round_trip 4096 (by decide)).2 page_sevens.data page_zero.data 7 0
    (by decide!) (by decide!) (by decide!)⟩

/-- C3 (amended): overwrite. For every offset and pages A, B, after
`store(off, A)` and then `store(off, B)` both return 0 with nothing in between
(no reader holds A's entry), with a compressor whose decompress inverts its
compress and an allocator that refuses a request of 0 bytes
(`zpool_malloc_nonempty`): `load(off)` returns B's content; A's entry has been
freed; when A's entry has a blob (`length` not 0) the blob is no longer
allocated and the pool has lost A's reference (its `kref` is one less, B's own
reference on the same pool counted separately, and the pool is gone when that
was its last reference); the second store changes `stored_pages` by -1 and +1,
and the net change over the two stores is +1 when the offset held no entry
before the first store, and 0 when it held an entry that no reader holds
(`refcount` 1; the counter within the range of an `int`). -/
theorem zswap_overwrite_frees_old (env : Env) (o1 o2 : Oracle) (s0 s1 s2 : State) (type offset : Nat)
    (pageA pageB : struct_page) (dst : Page)
    (hP : 8 ≤ env.PAGE_SIZE) (hlen : pageB.data.length = env.PAGE_SIZE / 8)
    (hdst : dst.length = env.PAGE_SIZE / 8)
    (hinv : decompress_inverts_compress env) (hz0 : zpool_malloc_nonempty env o2 pageB.data)
    (hslot : slot_ok s0 type offset = true)
    (hA : zswap_frontswap_store env o1 s0 type offset pageA = some (0, s1))
    (hB : zswap_frontswap_store env o2 s1 type offset pageB = some (0, s2)) :
    ∃ eA eB, bound_at s1 type offset (tfresh s0.entries) eA ∧
      bound_at s2 type offset (tfresh s1.entries) eB ∧
      (∃ s3, zswap_frontswap_load env s2 type offset dst = some (0, pageB.data, s3)) ∧
      tfind s2.entries (tfresh s0.entries) = none ∧
      (eA.length ≠ 0 → ∃ pid p1, eA.pool = some pid ∧ tfind s1.zswap_pools pid = some p1 ∧
        (tfind s2.zswap_pools pid).map (fun p2 => (p2.kref, tfind p2.zpool.blobs eA.handle)) =
          if p1.kref - 1 + (if eB.pool = some pid then 1 else 0) = 0 then none
          else some (p1.kref - 1 + (if eB.pool = some pid then 1 else 0), none)) ∧
      s2.zswap_stored_pages = atomic_inc (atomic_dec s1.zswap_stored_pages) ∧
      (zswap_search s0 type offset = some none →
        s2.zswap_stored_pages = atomic_inc s0.zswap_stored_pages) ∧
      (∀ old oe, zswap_search s0 type offset = some (some old) →
        tfind s0.entries old = some oe → oe.refcount = 1 →
        int_range s0.zswap_stored_pages →
        s2.zswap_stored_pages = s0.zswap_stored_pages) := by
  obtain ⟨_, _, ⟨tree0, ht0⟩, _, _, hentryA⟩ := store_ok_entry env o1 s0 s1 type offset pageA hA
  obtain ⟨eA, hbA, hshA⟩ := store_entry_ok env o1 s0 s1 type offset pageA hslot hentryA
  have hblobA := shape_blob env s0 s1 offset pageA eA hshA
  have hslot1 := slot_ok_of_bound s1 type offset _ eA hbA hblobA
  obtain ⟨_, _, _, _, _, hentryB⟩ := store_ok_entry env o2 s1 s2 type offset pageB hB
  obtain ⟨eB, hbB, hshB⟩ := store_entry_ok env o2 s1 s2 type offset pageB hslot1 hentryB
  have hhB := shape_holds_page env s1 s2 offset pageB eB hP hlen hinv
    (store_entry_dlen_ne_zero env o2 s1 s2 type offset pageB hz0 hentryB) hshB
  obtain ⟨S, eB', hins, heB', hoffB, hrB', hStrees, hSent, hSst, hSpools⟩ :=
    store_entry_insert env o2 s1 s2 type offset pageB hentryB
  obtain ⟨⟨tree1, ht1, hk1⟩, heA, hoffA, hrA⟩ := hbA
  have hneA : tfresh s0.entries ≠ tfresh s1.entries := tfind_ne_tfresh _ _ (by simp [heA])
  have hrep := insert_entry_replaces env o2 S s2 type (tfresh s1.entries) (tfresh s0.entries)
    eB' eA tree1 heB' (by rw [hStrees]; exact ht1) (by rw [hoffB]; exact hk1) hneA
    (by rw [hSent _ hneA]; exact heA) hrA hins
  obtain ⟨hfree, hst, _, hpools⟩ := hrep
  have hee : eB' = eB := by
    have h1 : ∀ tree old, tfind S.zswap_trees type = some tree →
        tfind tree eB'.offset = some old →
        old ≠ tfresh s1.entries ∧ ∃ oe, tfind S.entries old = some oe := by
      intro tree old ht hk
      rw [hStrees, ht1] at ht
      simp only [Option.some.injEq] at ht
      subst ht
      rw [hoffB, hk1] at hk
      simp only [Option.some.injEq] at hk
      subst hk
      exact ⟨hneA, eA, by rw [hSent _ hneA]; exact heA⟩
    obtain ⟨⟨_, h2, _, _⟩, _⟩ := insert_entry_bound env o2 S s2 type (tfresh s1.entries) eB' heB'
      hrB' h1 hins
    have h3 := hbB.2.1
    rw [h2] at h3
    simpa using h3
  subst hee
  refine ⟨eA, eB', ⟨⟨tree1, ht1, hk1⟩, heA, hoffA, hrA⟩, hbB,
    ⟨_, load_of_bound env s2 type offset _ eB' pageB.data dst hbB hhB hdst⟩, hfree, ?_, ?_, ?_,
    ?_⟩
  · intro hl
    obtain ⟨pid, pS, hpA, hpS, hs2p⟩ := hpools hl
    obtain ⟨x, hx⟩ := hblobA hl
    obtain ⟨pid', p1, h1, h2, _, _⟩ := blob_of_some s1 eA x hx
    rw [hpA] at h1
    simp only [Option.some.injEq] at h1
    subst h1
    refine ⟨pid, p1, hpA, h2, ?_⟩
    rw [hs2p, tfind_pools_after_free]
    rcases hSpools with ⟨hnone, hSp⟩ | ⟨pidB, pool, rest, hs1p, hkB, hpB, hS⟩
    · rw [hSp, h2] at hpS
      simp only [Option.some.injEq] at hpS
      subst hpS
      simp only [hnone, reduceCtorEq, if_false, add_zero]
      split <;> simp [tfind_terase]
    · by_cases hpid : pidB = pid
      · subst hpid
        have hp1 : p1 = pool := by
          rw [hs1p] at h2
          simpa [tfind] using h2.symm
        subst hp1
        simp only [hpB, if_true]
        have hk1 : ¬ (p1.kref - 1 + 1 = 0) := by omega
        rw [if_neg hk1]
        rcases hS with hS | ⟨buf, hS, _⟩
        · rw [hS] at hpS
          simp only [tfind, if_true, Option.some.injEq] at hpS
          subst hpS
          simp only
          rw [if_neg (by omega)]
          simp [tfind_terase]
        · rw [hS] at hpS
          simp only [tfind, if_true, Option.some.injEq] at hpS
          subst hpS
          simp only
          rw [if_neg (by omega)]
          simp [tfind_terase]
      · have hb0 : ¬ (eB'.pool = some pid) := by
          rw [hpB]
          simpa using hpid
        have hpS1 : tfind s1.zswap_pools pid = some pS := by
          rw [hs1p]
          rcases hS with hS | ⟨buf, hS, _⟩
          · rw [hS] at hpS
            simpa [tfind, hpid] using hpS
          · rw [hS] at hpS
            simpa [tfind, hpid] using hpS
        rw [h2] at hpS1
        simp only [Option.some.injEq] at hpS1
        subst hpS1
        simp only [hb0, if_false, add_zero]
        split <;> simp [tfind_terase]
  · rw [hst, hSst]
  · intro hs0
    obtain ⟨SA, eA', hinsA, heA', hoffA', _, hSAtrees, _, hSAst, _⟩ :=
      store_entry_insert env o1 s0 s1 type offset pageA hentryA
    have hk0 : tfind tree0 offset = none := by
      simpa [zswap_search, ht0] using hs0
    have h1 := insert_entry_fresh env o1 SA s1 type (tfresh s0.entries) eA' tree0 heA'
      (by rw [hSAtrees]; exact ht0) (by rw [hoffA']; exact hk0) hinsA
    rw [hst, hSst, h1, hSAst, atomic_inc_dec_inc]
  · intro old oe hs0 hoe hr hrange
    obtain ⟨SA, eA', hinsA, heA', hoffA', _, hSAtrees, hSAent, hSAst, _⟩ :=
      store_entry_insert env o1 s0 s1 type offset pageA hentryA
    have hk0 : tfind tree0 offset = some old := by
      simpa [zswap_search, ht0] using hs0
    have hne : old ≠ tfresh s0.entries := tfind_ne_tfresh _ _ (by simp [hoe])
    obtain ⟨_, h1, _, _⟩ := insert_entry_replaces env o1 SA s1 type (tfresh s0.entries) old
      eA' oe tree0 heA' (by rw [hSAtrees]; exact ht0) (by rw [hoffA']; exact hk0) hne
      (by rw [hSAent _ hne]; exact hoe) hr hinsA
    rw [hst, hSst, h1, hSAst, atomic_inc_dec_range _ hrange, atomic_inc_dec_range _ hrange]

/-- C3 at a concrete input: the page 3, 4, 0, ..., 0 at offset 5 is overwritten
by the page 5, 6, 0, ..., 0. -/
theorem zswap_overwrite_frees_old_witness :
    zswap_frontswap_store env_4k oracle_ok state_empty 0 5 page_34 =
      some (0, state_stored_34) ∧
    zswap_frontswap_store env_4k oracle_ok state_stored_34 0 5 page_56 =
      some (0, state_34_then_56) ∧
    (∃ s3, zswap_frontswap_load env_4k state_34_then_56 0 5 page_zero.data =
      some (0, page_56.data, s3)) ∧
    tfind state_34_then_56.entries (tfresh state_empty.entries) = none ∧
    state_34_then_56.zswap_stored_pages = atomic_inc state_empty.zswap_stored_pages := by
  have hA : zswap_frontswap_store env_4k oracle_ok state_empty 0 5 page_34 =
      some (0, state_stored_34) := by decide!
  have hB : zswap_frontswap_store env_4k oracle_ok state_stored_34 0 5 page_56 =
      some (0, state_34_then_56) := by decide!
  obtain ⟨_, _, _, _, hload, hfree, _, _, hnet, _⟩ :=
    zswap_overwrite_frees_old env_4k oracle_ok oracle_ok state_empty _ _ 0 5 page_34
      page_56 page_zero.data (by decide) (by decide!) (by decide!) env_4k_inverts
      (env_4k_malloc_nonempty oracle_ok page_56.data) (by decide) hA hB
  exact ⟨hA, hB, hload, hfree, hnet (by decide)⟩

/-- C3 as stated fails in two ways. (1) When the offset already holds an entry,
the two stores leave `stored_pages` where it was (1 before them, 1 after them),
not one higher. (2) With same-value handling off, a zero page A takes a pool
reference (`kref` 1 to 2) that the overwrite does not give back: `kref` is 3
afterwards, with B's entry the only one left. -/
theorem zswap_overwrite_counterexample :
    (zswap_frontswap_store env_4k oracle_ok state_stored_34 0 5 page_56 =
        some (0, state_34_then_56) ∧
      zswap_frontswap_store env_4k oracle_ok state_34_then_56 0 5 page_34 =
        some (0, state_34_56_34) ∧
      state_stored_34.zswap_stored_pages = 1 ∧
      state_34_56_34.zswap_stored_pages = 1) ∧
    (zswap_frontswap_store env_4k oracle_ok state_no_same_filled 0 5 page_zero =
        some (0, state_zero_stored) ∧
      zswap_frontswap_store env_4k oracle_ok state_zero_stored 0 5 page_34 =
        some (0, state_zero_then_34) ∧
      (tfind state_no_same_filled.zswap_pools 1).map (fun p => p.kref) = some 1 ∧
      (tfind state_zero_stored.zswap_pools 1).map (fun p => p.kref) = some 2 ∧
      (tfind state_zero_then_34.zswap_pools 1).map (fun p => p.kref) = some 3 ∧
      tfind state_zero_then_34.entries 1 = none) :=
  ⟨⟨by decide!, by decide!, by decide, by decide⟩,
   ⟨by decide!, by decide!, by decide, by decide, by decide, by decide⟩⟩

/-- C4 (code defect, evaluated): overwrite while a reader holds the old entry.
The page 3, 4, 0, ..., 0 is stored at offset 5 (entry 1); a reader pins it with
`zswap_entry_find_get`; the page 5, 6, 0, ..., 0 is stored at offset 5 (entry
2), to which the tree then maps offset 5; the reader releases entry 1 with
`zswap_entry_put`. That last put erases the key 5, which by now belongs to
entry 2: the tree no longer maps offset 5, load returns -1, and entry 2 stays
allocated, with its blob and its pool reference, and counted in `stored_pages`,
with nothing left that refers to it. -/
theorem zswap_overwrite_pinned_loses_new_entry :
    zswap_frontswap_store env_4k oracle_ok state_empty 0 5 page_34 =
      some (0, state_stored_34) ∧
    zswap_entry_find_get state_stored_34 0 5 = some (some 1, state_34_pinned) ∧
    zswap_frontswap_store env_4k oracle_ok state_34_pinned 0 5 page_56 =
      some (0, state_pinned_overwritten) ∧
    zswap_search state_pinned_overwritten 0 5 = some (some 2) ∧
    zswap_entry_put env_4k state_pinned_overwritten 0 1 = some state_pinned_released ∧
    zswap_search state_pinned_released 0 5 = some none ∧
    zswap_frontswap_load env_4k state_pinned_released 0 5 page_zero.data =
      some (-1, page_zero.data, state_pinned_released) ∧
    tfind state_pinned_released.entries 1 = none ∧
    tfind state_pinned_released.entries 2 =
      some { offset := 5, refcount := 1, length := 2, pool := some 1, handle := 2 } ∧
    state_pinned_released.zswap_stored_pages = 1 :=
  ⟨by decide!, by decide!, by decide!, by decide, by decide!, by decide, by decide!,
    by decide, by decide, by decide⟩

/-- C5: invalidate-then-load. For every offset and page A, after
`zswap_frontswap_store` of A at the offset returns 0 and
`zswap_frontswap_invalidate_page` of the offset runs, `zswap_frontswap_load` of
the offset returns -1 (and leaves the destination alone); and invalidating an
offset that has no entry changes nothing. The entry found at the offset before
the store, if any, is a live entry that owns its blob (`slot_ok`). -/
theorem zswap_invalidate_then_load (env : Env) (o : Oracle) (s s1 : State) (type offset : Nat)
    (page : struct_page) (dst : Page)
    (hslot : slot_ok s type offset = true)
    (hstore : zswap_frontswap_store env o s type offset page = some (0, s1)) :
    (∃ s2, zswap_frontswap_invalidate_page env s1 type offset = some s2 ∧
      zswap_frontswap_load env s2 type offset dst = some (-1, dst, s2)) ∧
    (∀ st ty off, zswap_search st ty off = some none →
      zswap_frontswap_invalidate_page env st ty off = some st) := by
  refine ⟨?_, fun st ty off h => invalidate_absent env st ty off h⟩
  obtain ⟨_, _, _, _, _, hentry⟩ := store_ok_entry env o s s1 type offset page hstore
  obtain ⟨e, hb, hsh⟩ := store_entry_ok env o s s1 type offset page hslot hentry
  obtain ⟨s2, hinv, hsearch, _, _⟩ := invalidate_bound env s1 type offset _ e hb
    (shape_blob env s s1 offset page e hsh)
  exact ⟨s2, hinv, load_not_found env s2 type offset dst hsearch⟩

/-- C5 at a concrete input: the page 3, 4, 0, ..., 0 stored at offset 5, then
invalidated. -/
theorem zswap_invalidate_then_load_witness :
    zswap_frontswap_store env_4k oracle_ok state_empty 0 5 page_34 =
      some (0, state_stored_34) ∧
    ∃ s2, zswap_frontswap_invalidate_page env_4k state_stored_34 0 5 = some s2 ∧
      zswap_frontswap_load env_4k s2 0 5 page_zero.data = some (-1, page_zero.data, s2) := by
  have h : zswap_frontswap_store env_4k oracle_ok state_empty 0 5 page_34 =
      some (0, state_stored_34) := by decide!
  exact ⟨h, (zswap_invalidate_then_load env_4k oracle_ok state_empty _ 0 5 page_34
    page_zero.data (by decide) h).1⟩

/-- C6: `zswap_frontswap_invalidate_page` on a present entry removes the offset
from the map and drops exactly one reference. If the entry's refcount was 1 it
is freed at once and `stored_pages` goes down by one. If other holders remain
(refcount above 1) the entry is not freed, its refcount goes down by exactly 1
and `stored_pages` stays; it then survives every `zswap_entry_put` but the last
holder's, which frees it. The entry is keyed by its own offset and, if it has a
blob, owns it. -/
theorem zswap_invalidate_drops_one_reference (env : Env) (s : State) (type offset entry : Nat) (e : zswap_entry)
    (tree : zswap_tree)
    (ht : tfind s.zswap_trees type = some tree) (hk : tfind tree offset = some entry)
    (he : tfind s.entries entry = some e) (hoff : e.offset = offset)
    (hblob : e.length ≠ 0 → ∃ x, blob_of s e = some x) :
    (e.refcount = 1 →
      ∃ s1, zswap_frontswap_invalidate_page env s type offset = some s1 ∧
        zswap_search s1 type offset = some none ∧ tfind s1.entries entry = none ∧
        s1.zswap_stored_pages = atomic_dec s.zswap_stored_pages) ∧
    (1 < e.refcount →
      ∃ s1, zswap_frontswap_invalidate_page env s type offset = some s1 ∧
        zswap_search s1 type offset = some none ∧
        tfind s1.entries entry = some { e with refcount := e.refcount - 1 } ∧
        s1.zswap_stored_pages = s.zswap_stored_pages ∧
        (∀ k : Nat, (k : Int) < e.refcount - 1 →
          ∃ s2, zswap_entry_put_n env k s1 type entry = some s2 ∧
            tfind s2.entries entry = some { e with refcount := e.refcount - 1 - k } ∧
            s2.zswap_stored_pages = s.zswap_stored_pages) ∧
        ∃ s2, zswap_entry_put_n env (e.refcount - 1).toNat s1 type entry = some s2 ∧
          tfind s2.entries entry = none ∧
          s2.zswap_stored_pages = atomic_dec s.zswap_stored_pages) := by
  constructor
  · intro hr
    exact invalidate_bound env s type offset entry e ⟨⟨tree, ht, hk⟩, he, hoff, hr⟩ hblob
  · intro hr
    have hinv : zswap_frontswap_invalidate_page env s type offset =
        some { s with
          zswap_trees := tput s.zswap_trees type (terase tree e.offset),
          entries := tput s.entries entry { e with refcount := e.refcount - 1 } } := by
      unfold zswap_frontswap_invalidate_page zswap_search zswap_erase
      simp only [ht, hk, he, Option.some_bind]
      exact zswap_entry_put_alive env
        { s with zswap_trees := tput s.zswap_trees type (terase tree e.offset) } type entry e he hr
    refine ⟨_, hinv, ?_, by simp [tfind_tput], rfl, ?_, ?_⟩
    · unfold zswap_search
      simp [tfind_tput, tfind_terase, hoff]
    · intro k hk1
      refine ⟨_, zswap_entry_put_n_alive env type entry k _ { e with refcount := e.refcount - 1 }
        (by simp [tfind_tput]) (by simpa using hk1), by simp [tfind_tput], rfl⟩
    · obtain ⟨m, hm⟩ : ∃ m : Nat, (e.refcount - 1).toNat = m + 1 :=
        ⟨(e.refcount - 1).toNat - 1, by omega⟩
      have hm2 : (m : Int) = e.refcount - 2 := by omega
      rw [hm, zswap_entry_put_n_succ,
        zswap_entry_put_n_alive env type entry m _ { e with refcount := e.refcount - 1 }
          (by simp [tfind_tput]) (by simp; omega)]
      simp only [Option.some_bind, tput_tput_same]
      obtain ⟨s2, hput, hfree, hst, _, _⟩ := zswap_entry_put_last env
        { s with
          zswap_trees := tput s.zswap_trees type (terase tree e.offset),
          entries := tput s.entries entry { e with refcount := e.refcount - 1 - m } }
        type entry { e with refcount := e.refcount - 1 - m } (terase tree e.offset)
        (by simp [tfind_tput]) (by simp; omega) (by simp [tfind_tput])
        (by simpa [blob_of] using hblob)
      exact ⟨s2, hput, hfree, hst⟩

/-- C6 at a concrete input: entry 1 at offset 5 with a reader's reference. -/
theorem zswap_invalidate_drops_one_reference_witness :
    ∃ s1, zswap_frontswap_invalidate_page env_4k state_34_pinned 0 5 = some s1 ∧
      zswap_search s1 0 5 = some none ∧
      ∃ s2, zswap_entry_put_n env_4k 1 s1 0 1 = some s2 ∧ tfind s2.entries 1 = none :=
  match (zswap_invalidate_drops_one_reference env_4k state_34_pinned 0 5 1
    { offset := 5, refcount := 2, length := 2, pool := some 1, handle := 1 } [(5, 1)]
    rfl rfl rfl rfl (fun _ => ⟨("zstd", [3, 4]), rfl⟩)).2 (by decide) with
  | ⟨s1, h1, h2, _, _, _, ⟨s2, h3, h4, _⟩⟩ => ⟨s1, h1, h2, ⟨s2, h3, h4⟩⟩

/-- C7 (amended): fullness threshold. Without overflow of the `unsigned long`
product and of the `u64` sum, `zswap_is_full` holds exactly when the pool
occupancy in pages, the ceiling of `zswap_pool_total_size / PAGE_SIZE`, is
strictly greater than the limit `totalram_pages * max_pool_percent / 100`
(integer division), that is, exactly when `zswap_pool_total_size` exceeds the
limit times `PAGE_SIZE`; when the occupancy equals the limit it does not hold,
so a store made then attempts no reclaim. -/
theorem zswap_is_full_iff (env : Env) (s : State) (hP : 0 < env.PAGE_SIZE)
    (h1 : env.totalram_pages * s.zswap_max_pool_percent < 2 ^ 64)
    (h2 : s.zswap_pool_total_size + env.PAGE_SIZE - 1 < 2 ^ 64) :
    (zswap_is_full env s = true ↔
      env.totalram_pages * s.zswap_max_pool_percent / 100 <
        (s.zswap_pool_total_size + env.PAGE_SIZE - 1) / env.PAGE_SIZE) ∧
    (zswap_is_full env s = true ↔
      env.totalram_pages * s.zswap_max_pool_percent / 100 * env.PAGE_SIZE <
        s.zswap_pool_total_size) ∧
    ((s.zswap_pool_total_size + env.PAGE_SIZE - 1) / env.PAGE_SIZE =
        env.totalram_pages * s.zswap_max_pool_percent / 100 →
      zswap_is_full env s = false) := by
  have e1 : zswap_is_full env s = true ↔
      env.totalram_pages * s.zswap_max_pool_percent / 100 <
        (s.zswap_pool_total_size + env.PAGE_SIZE - 1) / env.PAGE_SIZE := by
    unfold zswap_is_full
    rw [Nat.mod_eq_of_lt h1, Nat.mod_eq_of_lt h2]
    simp
  refine ⟨e1, e1.trans ?_, ?_⟩
  · rw [Nat.lt_iff_add_one_le, Nat.le_div_iff_mul_le hP, Nat.add_mul, Nat.one_mul]
    omega
  · intro heq
    cases hf : zswap_is_full env s with
    | false => rfl
    | true =>
      have := e1.mp hf
      omega

/-- C7 at a concrete input: 314573 pages in use against a limit of 314572. -/
theorem zswap_is_full_iff_witness :
    zswap_is_full env_4k state_full = true ↔
      env_4k.totalram_pages * state_full.zswap_max_pool_percent / 100 * env_4k.PAGE_SIZE <
        state_full.zswap_pool_total_size :=
  (zswap_is_full_iff env_4k state_full (by decide) (by decide) (by decide)).2.1

/-- C7 as stated fails: with the occupancy equal to the limit (314572 pages
each) `zswap_is_full` is false, and a store made then returns 0 without counting
a limit hit and without calling `zswap_shrink`. -/
theorem zswap_is_full_at_limit_counterexample :
    (state_at_limit.zswap_pool_total_size + env_4k.PAGE_SIZE - 1) / env_4k.PAGE_SIZE =
      env_4k.totalram_pages * state_at_limit.zswap_max_pool_percent / 100 ∧
    zswap_is_full env_4k state_at_limit = false ∧
    (zswap_frontswap_store env_4k oracle_ok state_at_limit 0 5 page_34).map
      (fun r => (r.1, r.2.zswap_pool_limit_hit, r.2.log.count Call.zswap_shrink)) =
      some (0, 0, 0) :=
  ⟨by decide, by decide, by decide!⟩

/-- C8 (amended): reclaim on a full pool. For every store call that reaches the
fullness check (the page is not huge, zswap is enabled, the address space has an
entry store, the page is not marked `PageError`) while the pool is full, store
increments `pool_limit_hit` by 1, makes exactly one reclaim attempt
(`zswap_shrink`, which always fails in this build, so `reject_reclaim_fail` goes
up by 1 as well) and returns -ENOMEM without allocating an entry and without
changing any entry store or any other part of the state; it does not loop. -/
theorem zswap_store_full_pool (env : Env) (o : Oracle) (s : State) (type offset : Nat) (page : struct_page)
    (hhuge : page.PageTransHuge = false) (hen : s.zswap_enabled = true)
    (ht : (tfind s.zswap_trees type).isSome = true) (herr : page.PageError = false)
    (hfull : zswap_is_full env s = true) :
    zswap_frontswap_store env o s type offset page =
      some (-ENOMEM,
        { s with
          zswap_pool_limit_hit := u64_inc s.zswap_pool_limit_hit,
          zswap_reject_reclaim_fail := u64_inc s.zswap_reject_reclaim_fail,
          log := s.log ++ [Call.zswap_shrink] }) := by
  unfold zswap_frontswap_store
  have h2 : ¬ ((!s.zswap_enabled || (tfind s.zswap_trees type).isNone) = true) := by
    cases h : tfind s.zswap_trees type with
    | none => simp [h] at ht
    | some t => simp [hen]
  rw [if_neg (by simp [hhuge]), if_neg h2, if_neg (by simp [herr]), if_pos hfull]
  simp [zswap_shrink, EINVAL]

/-- C8 at a concrete input: a store into the full pool of `state_full`. -/
theorem zswap_store_full_pool_witness :
    zswap_frontswap_store env_4k oracle_ok state_full 0 5 page_34 =
      some (-ENOMEM,
        { state_full with
          zswap_pool_limit_hit := u64_inc state_full.zswap_pool_limit_hit,
          zswap_reject_reclaim_fail := u64_inc state_full.zswap_reject_reclaim_fail,
          log := state_full.log ++ [Call.zswap_shrink] }) :=
  zswap_store_full_pool env_4k oracle_ok state_full 0 5 page_34 rfl rfl (by decide) rfl
    (by decide)

/-- C8 as stated fails: a store of a page marked `PageError` made while the pool
is full returns -ENOMEM with `pool_limit_hit` still 0 and no call logged, so no
reclaim attempt. -/
theorem zswap_store_full_pool_page_error_counterexample :
    zswap_is_full env_4k state_full = true ∧
    (zswap_frontswap_store env_4k oracle_ok state_full 0 5 page_error).map
      (fun r => (r.1, r.2.zswap_pool_limit_hit, r.2.log)) = some (-ENOMEM, 0, []) :=
  ⟨by decide, by decide⟩

/-- C9: NotAvailable. For every page that is not huge, if zswap is globally
disabled or the address space has no entry store (`zswap_trees[type]` is NULL),
`zswap_frontswap_store` returns -ENODEV and the state is unchanged: no entry
store, no entry, no counter. -/
theorem zswap_store_not_available (env : Env) (o : Oracle) (s : State) (type offset : Nat) (page : struct_page)
    (hhuge : page.PageTransHuge = false)
    (h : s.zswap_enabled = false ∨ tfind s.zswap_trees type = none) :
    zswap_frontswap_store env o s type offset page = some (-ENODEV, s) := by
  unfold zswap_frontswap_store
  rw [if_neg (by simp [hhuge])]
  rw [if_pos]
  rcases h with h | h
  · simp [h]
  · simp [h]

/-- C9 at a concrete input: zswap switched off. -/
theorem zswap_store_not_available_witness :
    zswap_frontswap_store env_4k oracle_ok state_disabled 0 5 page_34 =
      some (-ENODEV, state_disabled) :=
  zswap_store_not_available env_4k oracle_ok state_disabled 0 5 page_34 rfl (Or.inl rfl)

/-- C10: PermanentFailure. For every page marked `PageError`, with zswap enabled
and the address space present, `zswap_frontswap_store` rejects at once (with
-ENOMEM, or with -EINVAL when the page is also huge) and the state is unchanged:
no fullness check or reclaim attempt is made, no entry is allocated, and no
counter (`pool_limit_hit` and the reject counters included) and no entry store
changes. -/
theorem zswap_store_page_error (env : Env) (o : Oracle) (s : State) (type offset : Nat) (page : struct_page)
    (herr : page.PageError = true) (hen : s.zswap_enabled = true)
    (ht : (tfind s.zswap_trees type).isSome = true) :
    ∃ ret, zswap_frontswap_store env o s type offset page = some (ret, s) ∧ ret < 0 ∧
      (page.PageTransHuge = false → ret = -ENOMEM) := by
  unfold zswap_frontswap_store
  cases hh : page.PageTransHuge with
  | true => exact ⟨-EINVAL, by simp, by simp [EINVAL], by simp⟩
  | false =>
    refine ⟨-ENOMEM, ?_, by simp [ENOMEM], fun _ => rfl⟩
    have h2 : ¬ ((!s.zswap_enabled || (tfind s.zswap_trees type).isNone) = true) := by
      cases h : tfind s.zswap_trees type with
      | none => simp [h] at ht
      | some t => simp [hen]
    simp only [Bool.false_eq_true, if_false]
    rw [if_neg h2, if_pos herr]

/-- C10 at a concrete input: the page `page_error` on the empty state. -/
theorem zswap_store_page_error_witness :
    ∃ ret, zswap_frontswap_store env_4k oracle_ok state_empty 0 5 page_error =
        some (ret, state_empty) ∧ ret < 0 ∧
      (page_error.PageTransHuge = false → ret = -ENOMEM) :=
  zswap_store_page_error env_4k oracle_ok state_empty 0 5 page_error rfl rfl (by decide)

/-- C11 (amended): same-value fast path. When same-value handling is enabled,
the pool is not full, the gates of store are passed and the allocations of the
entry and of the tree node succeed, the store of a page all of whose machine
words equal one word `w` returns 0 and installs an entry with length 0 and value
`w` that names no pool; it calls neither the compressor nor `zpool_malloc`, and
no pool gains a reference. When the offset held no entry, the resulting state is
the one written out: `same_filled_pages` and `stored_pages` are one higher and
the pools are untouched. The entry found at the offset before the store, if any,
is live (`slot_live`). -/
theorem zswap_store_same_filled (env : Env) (o : Oracle) (s : State) (type offset w : Nat)
    (page : struct_page) (tree : zswap_tree)
    (hP : 8 ≤ env.PAGE_SIZE)
    (hhuge : page.PageTransHuge = false) (herr : page.PageError = false)
    (hen : s.zswap_enabled = true) (hsf : s.zswap_same_filled_pages_enabled = true)
    (hfull : zswap_is_full env s = false)
    (ht : tfind s.zswap_trees type = some tree)
    (hslot : slot_live s type offset = true)
    (hpage : page.data = List.replicate (env.PAGE_SIZE / 8) w)
    (hk : o.kmem_cache_alloc_ok = true) (hb : o.btree_insert_ok = true) :
    (∃ s1, zswap_frontswap_store env o s type offset page = some (0, s1) ∧
      bound_at s1 type offset (tfresh s.entries)
        { offset := offset, refcount := 1, length := 0, pool := none, handle := w } ∧
      s1.log.count Call.crypto_comp_compress = s.log.count Call.crypto_comp_compress ∧
      (∀ n, s1.log.count (Call.zpool_malloc n) = s.log.count (Call.zpool_malloc n)) ∧
      (∀ pid p1, tfind s1.zswap_pools pid = some p1 →
        ∃ p, tfind s.zswap_pools pid = some p ∧ p1.kref ≤ p.kref)) ∧
    (tfind tree offset = none →
      zswap_frontswap_store env o s type offset page =
        some (0, zswap_update_total_size env
          { s with
            log := s.log ++ [Call.kmem_cache_alloc, Call.btree_insert],
            entries := tput s.entries (tfresh s.entries)
              { offset := offset, refcount := 1, length := 0, pool := none, handle := w },
            zswap_trees := tput s.zswap_trees type (tput tree offset (tfresh s.entries)),
            zswap_same_filled_pages := atomic_inc s.zswap_same_filled_pages,
            zswap_stored_pages := atomic_inc s.zswap_stored_pages })) := by
  have hsame : zswap_is_page_same_filled env.PAGE_SIZE page.data 0 = (1, w) := by
    rw [hpage]; exact same_filled_replicate env.PAGE_SIZE hP w 0
  have hgate := store_gates_pass env o s type offset page hhuge hen (by simp [ht]) herr hfull
  have hpath := store_entry_same env o s type offset page hk hsf (by rw [hsame]; exact one_ne_zero)
  have hnew := store_state_same_new env s offset page
  rw [hsame] at hnew
  constructor
  · obtain ⟨s1, hins⟩ := insert_entry_returns env o (store_state_same env s offset page) type
      (tfresh s.entries) _ tree hnew ht
      (fun old hko => slot_live_pool s _ type offset old tree 0 ⟨⟨"", []⟩, "", 0⟩
        ⟨⟨"", []⟩, "", 0⟩ [] hslot ht hko
        (fun x hx => store_state_same_old env s offset x page hx) (Or.inl rfl)) hb
    have hstore : zswap_frontswap_store env o s type offset page = some (0, s1) := by
      rw [hgate, hpath]; exact hins
    refine ⟨s1, hstore, ?_, ?_⟩
    · exact (insert_entry_bound env o (store_state_same env s offset page) s1 type
        (tfresh s.entries) _ hnew rfl
        (fun tree0 old ht0 hko => by
          have ht1 : tfind s.zswap_trees type = some tree0 := ht0
          rw [ht] at ht1
          simp only [Option.some.injEq] at ht1
          subst ht1
          obtain ⟨hne, oe, hoe, _⟩ := slot_live_pool s (store_state_same env s offset page)
            type offset old tree 0 ⟨⟨"", []⟩, "", 0⟩ ⟨⟨"", []⟩, "", 0⟩ [] hslot ht hko
            (fun x hx => store_state_same_old env s offset x page hx) (Or.inl rfl)
          exact ⟨hne, oe, hoe⟩) hins).1
    · obtain ⟨_, _, _, l, hlog, hc⟩ := insert_entry_frame env o _ s1 type _ 0 hins
      have hlog1 : s1.log = s.log ++ ([Call.kmem_cache_alloc] ++ l) := by
        rw [hlog]; simp [store_state_same]
      have hcount : ∀ c0 : Call, c0 ≠ Call.kmem_cache_alloc → c0 ≠ Call.btree_insert →
          (∀ a b, c0 ≠ Call.zpool_free a b) → (∀ a, c0 ≠ Call.kmem_cache_free a) →
          s1.log.count c0 = s.log.count c0 := by
        intro c0 h1 h2 h3 h4
        rw [hlog1, List.count_append]
        have : List.count c0 ([Call.kmem_cache_alloc] ++ l) = 0 := by
          rw [List.count_eq_zero]
          intro hmem
          rcases List.mem_append.mp hmem with h | h
          · exact h1 (by simpa using h)
          · rcases hc c0 h with ⟨a, b, h⟩ | ⟨a, h⟩ | h
            · exact h3 a b h
            · exact h4 a h
            · exact h2 h
        omega
      refine ⟨hcount _ (by simp) (by simp) (by simp) (by simp),
        fun n => hcount _ (by simp) (by simp) (by simp) (by simp), ?_⟩
      intro pid p1 hp1
      cases hko : tfind tree offset with
      | none =>
        rw [insert_entry_none env o (store_state_same env s offset page) type
          (tfresh s.entries) _ tree hnew ht hko] at hins
        simp only [insert_finish, hb, if_true, Option.some.injEq, Prod.mk.injEq,
          true_and] at hins
        subst hins
        exact ⟨p1, by simpa [zswap_update_total_size, store_state_same] using hp1,
          Int.le_refl _⟩
      | some old =>
        obtain ⟨hne, oe, hoe, hr, hpool⟩ := slot_live_pool s
          (store_state_same env s offset page) type offset old tree 0 ⟨⟨"", []⟩, "", 0⟩
          ⟨⟨"", []⟩, "", 0⟩ [] hslot ht hko
          (fun x hx => store_state_same_old env s offset x page hx) (Or.inl rfl)
        obtain ⟨s2, tree1, hput, _, _, _, hins2⟩ := insert_entry_some env o
          (store_state_same env s offset page) type (tfresh s.entries) old _ oe tree hnew ht
          hko hne hoe hr hpool
        rw [hins2] at hins
        simp only [insert_finish, hb, if_true, Option.some.injEq, Prod.mk.injEq,
          true_and] at hins
        subst hins
        have hp2 : tfind s2.zswap_pools pid = some p1 := by
          simpa [zswap_update_total_size] using hp1
        rcases zswap_entry_put_cases env
          { store_state_same env s offset page with
            zswap_trees := tput (store_state_same env s offset page).zswap_trees type
              (terase tree offset),
            zswap_duplicate_entry :=
              u64_inc (store_state_same env s offset page).zswap_duplicate_entry }
          type old oe (terase tree offset) hoe hr (by simp [tfind_tput, store_state_same])
          hpool with ⟨_, h⟩ | ⟨_, _, h⟩ | ⟨_, _, pid0, p0, _, hpp0, h⟩
        · rw [h] at hput
          simp only [Option.some.injEq] at hput
          subst hput
          exact ⟨p1, by simpa [store_state_same] using hp2, Int.le_refl _⟩
        · rw [h] at hput
          simp only [Option.some.injEq] at hput
          subst hput
          exact ⟨p1, by simpa [store_state_same, zswap_update_total_size] using hp2,
            Int.le_refl _⟩
        · rw [h] at hput
          simp only [Option.some.injEq] at hput
          subst hput
          have hp3 : tfind (pools_after_free s.zswap_pools pid0 p0 oe.handle) pid = some p1 := by
            simpa [store_state_same, zswap_update_total_size] using hp2
          have hpp1 : tfind s.zswap_pools pid0 = some p0 := by
            simpa [store_state_same] using hpp0
          by_cases hpid : pid0 = pid
          · subst hpid
            rw [tfind_pools_after_free] at hp3
            split at hp3
            · simp at hp3
            · simp only [Option.some.injEq] at hp3
              subst hp3
              exact ⟨p0, hpp1, by simp⟩
          · rw [tfind_pools_after_free_ne _ _ _ _ _ hpid] at hp3
            exact ⟨p1, hp3, Int.le_refl _⟩
  · intro hko
    rw [hgate, hpath, insert_entry_none env o (store_state_same env s offset page) type
      (tfresh s.entries) _ tree hnew ht hko]
    simp [insert_finish, hb, store_state_same, hsame, zswap_update_total_size]

/-- C11 at a concrete input: the page of sevens stored at the unbound offset 5
of `state_empty`. -/
theorem zswap_store_same_filled_witness :
    zswap_frontswap_store env_4k oracle_ok state_empty 0 5 page_sevens =
      some (0, zswap_update_total_size env_4k
        { state_empty with
          log := state_empty.log ++ [Call.kmem_cache_alloc, Call.btree_insert],
          entries := tput state_empty.entries (tfresh state_empty.entries)
            { offset := 5, refcount := 1, length := 0, pool := none, handle := 7 },
          zswap_trees := tput state_empty.zswap_trees 0 (tput [] 5 (tfresh state_empty.entries)),
          zswap_same_filled_pages := atomic_inc state_empty.zswap_same_filled_pages,
          zswap_stored_pages := atomic_inc state_empty.zswap_stored_pages }) :=
  (zswap_store_same_filled env_4k oracle_ok state_empty 0 5 7 page_sevens [] (by decide) rfl rfl
    rfl rfl (by decide) rfl (by decide) rfl rfl rfl).2 rfl

/-- C11 as stated fails in two ways. (1) When `kmem_cache_alloc` has no memory
for the entry, the store of the page of sevens does not succeed: it returns
-ENOMEM. (2) When the offset already holds an entry, here the one of an earlier
store of the same page, the store leaves `same_filled_pages` and `stored_pages`
where they were, at 1. -/
theorem zswap_store_same_filled_counterexample :
    zswap_frontswap_store env_4k oracle_no_entry state_empty 0 5 page_sevens =
      some (-ENOMEM,
        { state_empty with
          log := [Call.kmem_cache_alloc], zswap_reject_kmemcache_fail := 1 }) ∧
    zswap_frontswap_store env_4k oracle_ok state_sevens 0 5 page_sevens =
      some (0, state_sevens_twice) ∧
    state_sevens.zswap_same_filled_pages = 1 ∧ state_sevens.zswap_stored_pages = 1 ∧
    state_sevens_twice.zswap_same_filled_pages = 1 ∧
    state_sevens_twice.zswap_stored_pages = 1 :=
  ⟨by decide!, by decide!, by decide, by decide, by decide, by decide⟩

/-- C12: never expand, literal fallback. For every page that takes the general
path (not stored as a same-value or zero page) with the allocators answering
with success, `zswap_frontswap_store` returns 0 whatever the compressor reports;
the length recorded in the entry is at most `PAGE_SIZE`; and when the compressor
reports an error or an output of at least `PAGE_SIZE` bytes, the recorded
length is exactly `PAGE_SIZE` and the blob written to the allocator is the page
itself. The entry found at the offset before the store, if any, is live
(`slot_live`). -/
theorem zswap_store_never_expands (env : Env) (o : Oracle) (s : State) (type offset pid : Nat)
    (page : struct_page) (pool : zswap_pool) (rest : Table zswap_pool)
    (hhuge : page.PageTransHuge = false) (hen : s.zswap_enabled = true)
    (ht : (tfind s.zswap_trees type).isSome = true) (herr : page.PageError = false)
    (hfull : zswap_is_full env s = false)
    (hk : o.kmem_cache_alloc_ok = true)
    (hs : ¬ (s.zswap_same_filled_pages_enabled = true ∧
      (zswap_is_page_same_filled env.PAGE_SIZE page.data 0).1 ≠ 0))
    (hp : s.zswap_pools = (pid, pool) :: rest) (hkref : pool.kref ≠ 0)
    (hz : page_zero_filled env.PAGE_SIZE page.data = 0)
    (hm : o.zpool_malloc_ret = 0) (hb : o.btree_insert_ok = true)
    (hslot : slot_live s type offset = true) :
    ∃ s1 e, zswap_frontswap_store env o s type offset page = some (0, s1) ∧
      bound_at s1 type offset (tfresh s.entries) e ∧
      e.length = store_dlen env (env.crypto_comp_compress pool.tfm_name page.data) ∧
      e.length ≤ env.PAGE_SIZE ∧
      blob_of s1 e = some (pool.tfm_name,
        store_buf env (env.crypto_comp_compress pool.tfm_name page.data) page.data) ∧
      ((env.crypto_comp_compress pool.tfm_name page.data).1 ≠ 0 ∨
          env.PAGE_SIZE ≤ (env.crypto_comp_compress pool.tfm_name page.data).2.1 →
        e.length = env.PAGE_SIZE ∧ blob_of s1 e = some (pool.tfm_name, page.data)) := by
  obtain ⟨tree, htree⟩ := Option.isSome_iff_exists.mp ht
  have hgate := store_gates_pass env o s type offset page hhuge hen ht herr hfull
  have hpath := store_entry_blob env o s type offset pid page pool rest hk hs hp hkref hz hm
  have hex : ∃ s1, zswap_frontswap_store env o s type offset page = some (0, s1) := by
    rw [hgate, hpath]
    exact insert_entry_returns env o (store_state_blob env s offset pid page pool rest) type
      (tfresh s.entries) _ tree (store_state_blob_new env s offset pid page pool rest) htree
      (fun old hko => slot_live_pool s _ type offset old tree pid pool _ rest hslot htree hko
        (fun x hx => store_state_blob_old env s offset pid x page pool rest hx)
        (Or.inr ⟨hp, rfl⟩)) hb
  obtain ⟨s1, hstore⟩ := hex
  have hentry : zswap_frontswap_store_entry env o s type offset page = some (0, s1) := by
    rw [← hgate]; exact hstore
  obtain ⟨e, hbound, hshape⟩ := store_entry_ok env o s s1 type offset page
    (slot_ok_of_slot_live s type offset hslot) hentry
  rcases hshape with ⟨h1, h2, _⟩ | ⟨_, pid1, pool1, rest1, hp1, _, hc⟩
  · exact absurd ⟨h1, h2⟩ hs
  · rw [hp] at hp1
    simp only [List.cons.injEq, Prod.mk.injEq] at hp1
    obtain ⟨⟨hpid, hpool⟩, _⟩ := hp1
    subst hpid hpool
    rcases hc with ⟨hz1, _⟩ | ⟨_, he, hblob⟩
    · exact absurd hz hz1
    · have hlen : e.length =
          store_dlen env (env.crypto_comp_compress pool.tfm_name page.data) := by rw [he]
      refine ⟨s1, e, hstore, hbound, hlen, ?_, hblob, ?_⟩
      · rw [hlen]
        unfold store_dlen
        split
        · exact Nat.le_refl _
        · omega
      · intro hc1
        have hd : store_dlen env (env.crypto_comp_compress pool.tfm_name page.data) =
            env.PAGE_SIZE := by
          unfold store_dlen
          split
          · rfl
          · omega
        refine ⟨hlen.trans hd, ?_⟩
        rw [hblob]
        simp [store_buf, hd]

/-- C12 at a concrete input: the compressor of `env_empty_output` reports an
error for the page 3, 4, 0, ..., 0, which is then stored as it is. -/
theorem zswap_store_never_expands_witness :
    ∃ s1 e, zswap_frontswap_store env_empty_output oracle_ok state_empty 0 5 page_34 =
        some (0, s1) ∧
      bound_at s1 0 5 (tfresh state_empty.entries) e ∧
      e.length = store_dlen env_empty_output
        (env_empty_output.crypto_comp_compress "zstd" page_34.data) ∧
      e.length ≤ env_empty_output.PAGE_SIZE ∧
      blob_of s1 e = some ("zstd",
        store_buf env_empty_output (env_empty_output.crypto_comp_compress "zstd" page_34.data)
          page_34.data) ∧
      ((env_empty_output.crypto_comp_compress "zstd" page_34.data).1 ≠ 0 ∨
          env_empty_output.PAGE_SIZE ≤
            (env_empty_output.crypto_comp_compress "zstd" page_34.data).2.1 →
        e.length = env_empty_output.PAGE_SIZE ∧ blob_of s1 e = some ("zstd", page_34.data)) :=
  zswap_store_never_expands env_empty_output oracle_ok state_empty 0 5 1 page_34
    { zpool := { type := "zsmalloc", blobs := [] }, tfm_name := "zstd", kref := 1 } []
    rfl rfl (by decide) rfl (by decide) rfl (by decide!) rfl (by decide) (by decide!) rfl rfl
    (by decide)

/-- C13: allocation failure is atomic. When `zpool_malloc` fails for the blob,
`zswap_frontswap_store` returns the allocator's error; the new entry is freed
and the pool reference given back, so that the entries, the pools, the trees
(with any entry already at the offset), `stored_pages` and `same_filled_pages`
are as before; and exactly one reject counter goes up by 1:
`reject_compress_poor` when the error is -ENOSPC, `reject_alloc_fail`
otherwise. -/
theorem zswap_store_alloc_failure (env : Env) (o : Oracle) (s : State) (type offset pid : Nat)
    (page : struct_page) (pool : zswap_pool) (rest : Table zswap_pool)
    (hhuge : page.PageTransHuge = false) (hen : s.zswap_enabled = true)
    (ht : (tfind s.zswap_trees type).isSome = true) (herr : page.PageError = false)
    (hfull : zswap_is_full env s = false)
    (hk : o.kmem_cache_alloc_ok = true)
    (hs : ¬ (s.zswap_same_filled_pages_enabled = true ∧
      (zswap_is_page_same_filled env.PAGE_SIZE page.data 0).1 ≠ 0))
    (hp : s.zswap_pools = (pid, pool) :: rest) (hkref : pool.kref ≠ 0)
    (hz : page_zero_filled env.PAGE_SIZE page.data = 0)
    (hm : o.zpool_malloc_ret ≠ 0) :
    zswap_frontswap_store env o s type offset page =
      some (o.zpool_malloc_ret,
        { s with
          log := s.log ++ [Call.kmem_cache_alloc, Call.crypto_comp_compress,
            Call.zpool_malloc (store_dlen env (env.crypto_comp_compress pool.tfm_name page.data)),
            Call.kmem_cache_free (tfresh s.entries)],
          zswap_reject_compress_poor :=
            if o.zpool_malloc_ret = -ENOSPC then u64_inc s.zswap_reject_compress_poor
            else s.zswap_reject_compress_poor,
          zswap_reject_alloc_fail :=
            if o.zpool_malloc_ret = -ENOSPC then s.zswap_reject_alloc_fail
            else u64_inc s.zswap_reject_alloc_fail }) := by
  rw [store_gates_pass env o s type offset page hhuge hen ht herr hfull]
  exact store_entry_malloc_fail env o s type offset pid page pool rest hk hs hp hkref hz hm

set_option maxRecDepth 100000 in
/-- C13 at a concrete input: `zpool_malloc` answers -ENOSPC to the store of the
page 5, 6, 0, ..., 0 over the entry of `state_stored_34`. -/
theorem zswap_store_alloc_failure_witness :
    zswap_frontswap_store env_4k oracle_nospc state_stored_34 0 5 page_56 =
      some (-ENOSPC,
        { state_stored_34 with
          log := state_stored_34.log ++ [Call.kmem_cache_alloc, Call.crypto_comp_compress,
            Call.zpool_malloc 2, Call.kmem_cache_free 2],
          zswap_reject_compress_poor := 1 }) :=
  zswap_store_alloc_failure env_4k oracle_nospc state_stored_34 0 5 1 page_56
    { zpool := { type := "zsmalloc", blobs := [(1, [3, 4])] }, tfm_name := "zstd", kref := 2 } []
    rfl rfl (by decide) rfl (by decide) rfl (by decide!) rfl (by decide) (by decide!)
    (by decide)

/-- C14: no fabrication on a miss. For every address space with an entry store
and every offset that has no entry, `zswap_frontswap_load` returns -1, leaves
the destination page as it was, and leaves the state as it was: no reference
count and no counter changes. -/
theorem zswap_load_miss (env : Env) (s : State) (type offset : Nat) (tree : zswap_tree)
    (dst : Page) (ht : tfind s.zswap_trees type = some tree)
    (hk : tfind tree offset = none) :
    zswap_frontswap_load env s type offset dst = some (-1, dst, s) :=
  load_not_found env s type offset dst (by simp [zswap_search, ht, hk])

/-- C14 at a concrete input: offset 6 of the state that holds only offset 5. -/
theorem zswap_load_miss_witness :
    zswap_frontswap_load env_4k state_stored_34 0 6 page_34.data =
      some (-1, page_34.data, state_stored_34) :=
  zswap_load_miss env_4k state_stored_34 0 6 [(5, 1)] page_34.data rfl rfl

/-- C15 (code defect, evaluated): load does not look at the output length of
the decompressor. Entry 1 of `state_stored_34` is a compressed entry of 2
bytes. With a decompressor that returns an error, `zswap_frontswap_load` hits
`BUG_ON(ret)` (no result); with a decompressor that reports success and an
output of 16 bytes, not `PAGE_SIZE`, it returns 0 (Found) and hands out a page
whose words after the first two are what the destination held before. -/
theorem zswap_load_ignores_output_length :
    zswap_frontswap_load env_decompress_error state_stored_34 0 5 page_sevens.data = none ∧
    env_short_output.crypto_comp_decompress "zstd" [3, 4] 2 page_sevens.data =
      (0, 16, 3 :: 4 :: List.replicate 510 7) ∧
    zswap_frontswap_load env_short_output state_stored_34 0 5 page_sevens.data =
      some (0, 3 :: 4 :: List.replicate 510 7,
        { state_stored_34 with log := state_stored_34.log ++ [Call.crypto_comp_decompress] }) ∧
    3 :: 4 :: List.replicate 510 7 ≠ page_34.data :=
  ⟨by decide!, by decide!, by decide!, by decide!⟩

/-- C16: payload variants. The entry that a successful store installs has
length 0 exactly when the store took the same-value path or the zero-page path;
then every word of the page equals the value the entry carries, and otherwise
(length above 0) the entry names a live pool in which its handle is
allocated. The answers of the allocator are those of an allocator that refuses
a request of 0 bytes (`zpool_malloc_nonempty`), and the entry found at the
offset before the store, if any, is a live entry that owns its blob
(`slot_ok`). -/
theorem zswap_store_payload_variant (env : Env) (o : Oracle) (s s1 : State)
    (type offset : Nat) (page : struct_page)
    (hP : 8 ≤ env.PAGE_SIZE) (hlen : page.data.length = env.PAGE_SIZE / 8)
    (hz0 : zpool_malloc_nonempty env o page.data)
    (hslot : slot_ok s type offset = true)
    (hstore : zswap_frontswap_store env o s type offset page = some (0, s1)) :
    ∃ e, bound_at s1 type offset (tfresh s.entries) e ∧
      (e.length = 0 ↔
        (s.zswap_same_filled_pages_enabled = true ∧
          (zswap_is_page_same_filled env.PAGE_SIZE page.data 0).1 ≠ 0) ∨
        page_zero_filled env.PAGE_SIZE page.data ≠ 0) ∧
      (e.length = 0 → page.data = List.replicate (env.PAGE_SIZE / 8) e.handle) ∧
      (e.length ≠ 0 → ∃ pid p buf, e.pool = some pid ∧ tfind s1.zswap_pools pid = some p ∧
        tfind p.zpool.blobs e.handle = some buf) := by
  obtain ⟨_, _, _, _, _, hentry⟩ := store_ok_entry env o s s1 type offset page hstore
  obtain ⟨e, hb, hsh⟩ := store_entry_ok env o s s1 type offset page hslot hentry
  have hblob := shape_blob env s s1 offset page e hsh
  have hd0 := store_entry_dlen_ne_zero env o s s1 type offset page hz0 hentry
  refine ⟨e, hb, ?_, ?_, ?_⟩
  · rcases hsh with ⟨h1, h2, he⟩ | ⟨hns, pid, pool, rest, _, _, hc⟩
    · exact ⟨fun _ => Or.inl ⟨h1, h2⟩, fun _ => by rw [he]⟩
    · rcases hc with ⟨hz, he⟩ | ⟨hz, he, _⟩
      · exact ⟨fun _ => Or.inr hz, fun _ => by rw [he]⟩
      · have hl : e.length ≠ 0 := by
          rw [he]
          exact hd0 hns hz pool.tfm_name
        constructor
        · intro h; exact absurd h hl
        · rintro (h | h)
          · exact absurd h hns
          · exact absurd hz h
  · intro hl
    rcases hsh with ⟨_, h2, he⟩ | ⟨hns, pid, pool, rest, _, _, hc⟩
    · rw [he]
      exact replicate_of_same_filled env.PAGE_SIZE hP page.data _ 0 hlen
        (same_filled_ret env.PAGE_SIZE page.data 0 h2)
    · rcases hc with ⟨hz, he⟩ | ⟨hz, he, _⟩
      · rw [he]
        have h1 := fill_of_zero_filled env.PAGE_SIZE page.data page.data hlen hlen hz
        rw [← h1]
        simp [zswap_fill_page, hlen]
      · rw [he] at hl
        exact absurd hl (hd0 hns hz pool.tfm_name)
  · intro hl
    obtain ⟨x, hx⟩ := hblob hl
    obtain ⟨pid, p, h1, h2, h3, _⟩ := blob_of_some s1 e x hx
    exact ⟨pid, p, x.2, h1, h2, h3⟩

/-- C16 at a concrete input: the page 3, 4, 0, ..., 0 stored at offset 5 of
`state_empty`; the entry has length 2. -/
theorem zswap_store_payload_variant_witness :
    ∃ e, bound_at state_stored_34 0 5 (tfresh state_empty.entries) e ∧
      (e.length = 0 ↔
        (state_empty.zswap_same_filled_pages_enabled = true ∧
          (zswap_is_page_same_filled env_4k.PAGE_SIZE page_34.data 0).1 ≠ 0) ∨
        page_zero_filled env_4k.PAGE_SIZE page_34.data ≠ 0) ∧
      (e.length = 0 → page_34.data = List.replicate (env_4k.PAGE_SIZE / 8) e.handle) ∧
      (e.length ≠ 0 → ∃ pid p buf, e.pool = some pid ∧
        tfind state_stored_34.zswap_pools pid = some p ∧
        tfind p.zpool.blobs e.handle = some buf) :=
  zswap_store_payload_variant env_4k oracle_ok state_empty state_stored_34 0 5 page_34
    (by decide) (by decide!) (env_4k_malloc_nonempty oracle_ok page_34.data) (by decide)
    (by decide!)

/-- What a successful store of an all-zero page counts. With same-value
handling off it increments `zswap_zero_pages` by 1 and does not count the page
as a same-value page (`same_filled_pages` is as before when the offset held no
entry). With same-value handling on, the same-value test comes first and the
page is stored as a same-value page: `zswap_zero_pages` stays and
`same_filled_pages` is one higher (when the offset held no entry). -/
theorem store_zero_page_counters (env : Env) (o : Oracle) (s s1 : State) (type offset : Nat)
    (page : struct_page)
    (hz : page_zero_filled env.PAGE_SIZE page.data ≠ 0)
    (hstore : zswap_frontswap_store env o s type offset page = some (0, s1)) :
    (s.zswap_same_filled_pages_enabled = false →
      s1.zswap_zero_pages = atomic_inc s.zswap_zero_pages ∧
      (zswap_search s type offset = some none →
        s1.zswap_same_filled_pages = s.zswap_same_filled_pages)) ∧
    (s.zswap_same_filled_pages_enabled = true →
      s1.zswap_zero_pages = s.zswap_zero_pages ∧
      (zswap_search s type offset = some none →
        s1.zswap_same_filled_pages = atomic_inc s.zswap_same_filled_pages)) := by
  obtain ⟨_, _, ⟨tree, ht⟩, _, _, hentry⟩ := store_ok_entry env o s s1 type offset page hstore
  have hk : o.kmem_cache_alloc_ok = true := by
    cases hk : o.kmem_cache_alloc_ok with
    | true => rfl
    | false =>
      rw [store_entry_nomem env o s type offset page hk] at hentry
      simp [ENOMEM] at hentry
  constructor
  · intro hsf
    have hs : ¬ (s.zswap_same_filled_pages_enabled = true ∧
        (zswap_is_page_same_filled env.PAGE_SIZE page.data 0).1 ≠ 0) := by simp [hsf]
    rcases zswap_pool_current_get_cases s with hp | ⟨pid, pool, rest, hp, hkref, _⟩
    · rw [store_entry_nopool env o s type offset page hk hs hp] at hentry
      simp [EINVAL] at hentry
    · rw [store_entry_zero env o s type offset pid page pool rest hk hs hp hkref hz] at hentry
      refine ⟨?_, fun hsearch => ?_⟩
      · rw [(insert_entry_frame env o _ s1 type _ 0 hentry).1]
        rfl
      · have hko : tfind tree offset = none := by
          simpa [zswap_search, ht] using hsearch
        rw [insert_entry_none env o (store_state_zero s offset pid pool rest) type
          (tfresh s.entries) _ tree (store_state_zero_new s offset pid pool rest) ht hko]
          at hentry
        simp only [Option.some.injEq] at hentry
        have h2 : s1 = (insert_finish env o (store_state_zero s offset pid pool rest) type
            (tfresh s.entries) offset tree).2 := by rw [hentry]
        rw [h2]
        unfold insert_finish
        split <;> rfl
  · intro hsf
    have hs := same_filled_of_zero_filled env.PAGE_SIZE page.data 0 hz
    rw [store_entry_same env o s type offset page hk hsf hs] at hentry
    refine ⟨?_, fun hsearch => ?_⟩
    · rw [(insert_entry_frame env o _ s1 type _ 0 hentry).1]
      rfl
    · have hko : tfind tree offset = none := by
        simpa [zswap_search, ht] using hsearch
      rw [insert_entry_none env o (store_state_same env s offset page) type
        (tfresh s.entries) _ tree (store_state_same_new env s offset page) ht hko] at hentry
      simp only [Option.some.injEq] at hentry
      have h2 : s1 = (insert_finish env o (store_state_same env s offset page) type
          (tfresh s.entries) offset tree).2 := by rw [hentry]
      rw [h2]
      unfold insert_finish
      split <;> rfl

/-- C17 (code defect, evaluated): the zero-page counter is never decremented.
With same-value handling off, the store of the all-zero page at offset 5 of an
empty tree returns 0, raises `zswap_zero_pages` from 0 to 1 and leaves
`same_filled_pages` at 0, as the claim says. Freeing that entry does not take
`zswap_zero_pages` back to 0: after `zswap_frontswap_invalidate_page` of the
offset, and likewise after the page 3, 4, 0, ..., 0 is stored over it, the entry
is gone and `zswap_zero_pages` is still 1, while `zswap_free_entry` has
decremented `same_filled_pages`, which the store never incremented, to -1. -/
theorem zswap_zero_pages_never_decremented :
    page_zero_filled env_4k.PAGE_SIZE page_zero.data = 1 ∧
    state_no_same_filled.zswap_zero_pages = 0 ∧
    state_no_same_filled.zswap_same_filled_pages = 0 ∧
    zswap_frontswap_store env_4k oracle_ok state_no_same_filled 0 5 page_zero =
      some (0, state_zero_stored) ∧
    state_zero_stored.zswap_zero_pages = 1 ∧
    state_zero_stored.zswap_same_filled_pages = 0 ∧
    zswap_frontswap_invalidate_page env_4k state_zero_stored 0 5 =
      some state_zero_invalidated ∧
    tfind state_zero_invalidated.entries 1 = none ∧
    state_zero_invalidated.zswap_zero_pages = 1 ∧
    state_zero_invalidated.zswap_same_filled_pages = -1 ∧
    zswap_frontswap_store env_4k oracle_ok state_zero_stored 0 5 page_34 =
      some (0, state_zero_then_34) ∧
    tfind state_zero_then_34.entries 1 = none ∧
    state_zero_then_34.zswap_zero_pages = 1 ∧
    state_zero_then_34.zswap_same_filled_pages = -1 :=
  ⟨by decide!, by decide, by decide, by decide!, by decide, by decide, by decide!, by decide,
   by decide, by decide, by decide!, by decide, by decide, by decide⟩

/-- C18 (amended): invalidate_area frees everything that was stored into an
address space that was empty. Let the baseline `s0` have an empty tree for the
address space `type`, counters that an `atomic_t` can hold and a current pool
with at least one reference. After any sequence of stores into `type` that all
return 0, none of them the store of an all-zero page made with same-value
handling off, and with the answers of an allocator that refuses a request of 0
bytes (`zpool_malloc_nonempty`), `zswap_frontswap_invalidate_area` returns, and
afterwards `stored_pages`, `same_filled_pages`, `zero_pages`, the pools (with
their allocations and reference counts) and the slab of entries are those of
the baseline, and the address space has no tree. Moreover, for every state:
invalidate_area on an address space without entries changes nothing but the
tree pointer, and a second invalidate_area on the same address space changes
nothing at all. -/
theorem zswap_invalidate_area_frees_all (env : Env) (s0 s1 : State) (type : Nat)
    (reqs : List (Oracle × Nat × struct_page))
    (hreq : ∀ q ∈ reqs, zpool_malloc_nonempty env q.1 q.2.2.data ∧
      (s0.zswap_same_filled_pages_enabled = true ∨
        page_zero_filled env.PAGE_SIZE q.2.2.data = 0))
    (ht : tfind s0.zswap_trees type = some [])
    (hk0 : ∀ pid p rest, s0.zswap_pools = (pid, p) :: rest → 1 ≤ p.kref)
    (hr1 : int_range s0.zswap_stored_pages) (hr2 : int_range s0.zswap_same_filled_pages)
    (hrun : store_all env type reqs s0 = some s1) :
    (∃ s2, zswap_frontswap_invalidate_area env s1 type = some s2 ∧
      s2.zswap_stored_pages = s0.zswap_stored_pages ∧
      s2.zswap_same_filled_pages = s0.zswap_same_filled_pages ∧
      s2.zswap_zero_pages = s0.zswap_zero_pages ∧
      s2.zswap_pools = s0.zswap_pools ∧
      s2.entries = s0.entries ∧
      tfind s2.zswap_trees type = none) ∧
    (∀ s : State, tfind s.zswap_trees type = none ∨ tfind s.zswap_trees type = some [] →
      zswap_frontswap_invalidate_area env s type =
        some { s with zswap_trees := terase s.zswap_trees type }) ∧
    (∀ s s2 : State, zswap_frontswap_invalidate_area env s type = some s2 →
      zswap_frontswap_invalidate_area env s2 type = some s2) := by
  refine ⟨?_, fun s h => invalidate_area_empty env s type h,
    fun s s2 h => invalidate_area_twice env s s2 type h⟩
  obtain ⟨items, hrel⟩ := store_all_rel env s0 type hk0 reqs s0 s1 [] hreq
    (rel_base s0 type ht hr1 hr2) hrun
  obtain ⟨s2, h1, h2, h3, h4, h5, h6, h7⟩ := invalidate_rel env s0 s1 type items hk0 hr1 hr2 hrel
  refine ⟨s2, h1, h2, h3, h4, h5, h6, ?_⟩
  rw [h7]
  simp [tfind_terase]

/-- C18 at a concrete input: page 3, 4, 0, ..., 0 and then page 5, 6, 0, ..., 0
are stored at offset 5 of `state_empty`, and the address space is
invalidated. -/
theorem zswap_invalidate_area_frees_all_witness :
    ∃ s2, zswap_frontswap_invalidate_area env_4k state_34_then_56 0 = some s2 ∧
      s2.zswap_stored_pages = state_empty.zswap_stored_pages ∧
      s2.zswap_same_filled_pages = state_empty.zswap_same_filled_pages ∧
      s2.zswap_zero_pages = state_empty.zswap_zero_pages ∧
      s2.zswap_pools = state_empty.zswap_pools ∧
      s2.entries = state_empty.entries ∧
      tfind s2.zswap_trees 0 = none :=
  (zswap_invalidate_area_frees_all env_4k state_empty state_34_then_56 0
    [(oracle_ok, 5, page_34), (oracle_ok, 5, page_56)]
    (fun q _ => ⟨env_4k_malloc_nonempty q.1 q.2.2.data, Or.inl rfl⟩) rfl
    (by
      intro pid p rest h
      simp only [state_empty, List.cons.injEq, Prod.mk.injEq] at h
      rw [← h.1.2])
    ⟨by decide, by decide⟩ ⟨by decide, by decide⟩ (by decide!)).1

/-- C18 as stated fails in two ways. (1) When the address space holds an entry
before the stores, here entry 1 of `state_stored_34`, invalidate_area frees that
entry too: after one more store and the invalidation `stored_pages` is 0, below
its value 1 from before the store, and the pool has lost the allocation and the
reference it had before. (2) With same-value handling off, the store of the
all-zero page into the empty address space of `state_no_same_filled` raises
`zswap_zero_pages` and takes a pool reference, and the invalidation gives
neither back: afterwards `zswap_zero_pages` is 1, `same_filled_pages` is -1 and
the pool's `kref` is 2, against 0, 0 and 1 before the store. -/
theorem zswap_invalidate_area_frees_all_counterexample :
    (((store_all env_4k 0 [(oracle_ok, 6, page_56)] state_stored_34).bind fun s =>
        zswap_frontswap_invalidate_area env_4k s 0).map fun s =>
      (s.zswap_stored_pages, s.zswap_pools)) =
      some (0, [(1, { zpool := { type := "zsmalloc", blobs := [] }, tfm_name := "zstd",
                      kref := 1 })]) ∧
    (state_stored_34.zswap_stored_pages, state_stored_34.zswap_pools) =
      (1, [(1, { zpool := { type := "zsmalloc", blobs := [(1, [3, 4])] }, tfm_name := "zstd",
                 kref := 2 })]) ∧
    store_all env_4k 0 [(oracle_ok, 5, page_zero)] state_no_same_filled =
      some state_zero_stored ∧
    ((zswap_frontswap_invalidate_area env_4k state_zero_stored 0).map
      fun s => (s.zswap_zero_pages, s.zswap_same_filled_pages, s.zswap_pools)) =
      some (1, -1, [(1, { zpool := { type := "zsmalloc", blobs := [] }, tfm_name := "zstd",
                          kref := 2 })]) ∧
    (state_no_same_filled.zswap_zero_pages, state_no_same_filled.zswap_same_filled_pages,
      state_no_same_filled.zswap_pools) =
      (0, 0, [(1, { zpool := { type := "zsmalloc", blobs := [] }, tfm_name := "zstd",
                    kref := 1 })]) :=
  ⟨by decide!, by decide!, by decide!, by decide!, by decide!⟩

/-- C19: unique offset. In every state reached from a state in which nothing is
stored by a run of store, load, invalidate_page and invalidate_area, every tree
binds each offset at most once. And after `zswap_insert_or_replace` of an entry
that is not yet in the tree has returned 0, looking up the entry's offset gives
exactly that entry, and the entry that was bound to the offset before, if any,
has lost one reference: it is freed when that was its last, and has its
reference count lowered by one otherwise (the count is an `int`: lowered from
`INT_MIN`, a count that no run reaches, it is `INT_MAX`). -/
theorem zswap_unique_offset (env : Env) :
    (∀ (s0 : State) (ops : List Op) (c : Config), state_fresh s0 = true →
      (∀ op ∈ ops, frontswap_op op = true) →
      run env ops { state := s0, held := [] } = some c → trees_nodup c.state) ∧
    (∀ (ok : Bool) (s s1 : State) (type entry : Nat) (e : zswap_entry),
      tfind s.entries entry = some e →
      zswap_search s type e.offset ≠ some (some entry) →
      zswap_insert_or_replace env ok s type entry = some (0, s1) →
      zswap_search s1 type e.offset = some (some entry) ∧
      ∀ old oe, zswap_search s type e.offset = some (some old) →
        tfind s.entries old = some oe →
        (oe.refcount = 1 ∧ tfind s1.entries old = none) ∨
        (1 < oe.refcount ∧
          tfind s1.entries old = some { oe with refcount := oe.refcount - 1 }) ∨
        (oe.refcount = -2 ^ 31 ∧
          tfind s1.entries old = some { oe with refcount := 2 ^ 31 - 1 })) := by
  constructor
  · intro s0 ops c h0 hops hrun
    exact run_nodup env ops _ c hops (state_fresh_nodup s0 h0) hrun
  · intro ok s s1 type entry e he hnew h
    cases ht : tfind s.zswap_trees type with
    | none => simp [zswap_insert_or_replace, ht] at h
    | some tree =>
      cases hk : tfind tree e.offset with
      | none =>
        rw [zswap_insert_or_replace_none env ok s type entry e tree he ht hk] at h
        unfold btree_insert_result at h
        cases hok : ok with
        | false => simp [hok, ENOMEM] at h
        | true =>
          simp only [hok, if_true, Option.some.injEq, Prod.mk.injEq, true_and] at h
          subst h
          refine ⟨by simp [zswap_search, tfind_tput], fun old oe hs _ => ?_⟩
          simp [zswap_search, ht, hk] at hs
      | some old =>
        have hne : old ≠ entry := by
          intro heq
          apply hnew
          simp [zswap_search, ht, hk, heq]
        cases hput : zswap_entry_put env
            { s with
              zswap_trees := tput s.zswap_trees type (terase tree e.offset),
              zswap_duplicate_entry := u64_inc s.zswap_duplicate_entry } type old with
        | none =>
          rw [zswap_insert_or_replace_put_none env ok s type entry old e tree he ht hk hput] at h
          simp at h
        | some s2 =>
          obtain ⟨tree1, ht1, hk1, he1, hins⟩ :=
            zswap_insert_or_replace_some env ok s s2 type entry old e tree he ht hk hne hput
          rw [hins] at h
          unfold btree_insert_result at h
          cases hok : ok with
          | false => simp [hok, ENOMEM] at h
          | true =>
            simp only [hok, if_true, Option.some.injEq, Prod.mk.injEq, true_and] at h
            subst h
            refine ⟨by simp [zswap_search, tfind_tput], fun old1 oe hs hoe => ?_⟩
            have ho : old1 = old := by
              simp only [zswap_search, ht, Option.some_bind, hk, Option.some.injEq] at hs
              exact hs.symm
            subst ho
            by_cases hmin : oe.refcount = -2 ^ 31
            · exact Or.inr (Or.inr ⟨hmin,
                (zswap_entry_put_int_min env _ s2 type old1 oe (by exact hoe) hmin hput).2⟩)
            · rcases (zswap_entry_put_entries env _ s2 type old1 oe (by exact hoe) hmin
                hput).2 with h1 | h1
              · exact Or.inl h1
              · exact Or.inr (Or.inl h1)

/-- C19 at a concrete input: the states of the overwrite of offset 5 of
`state_empty`, first with the page 3, 4, 0, ..., 0 and then with the page 5, 6,
0, ..., 0. -/
theorem zswap_unique_offset_witness :
    trees_nodup state_34_then_56 :=
  (zswap_unique_offset env_4k).1 state_empty
    [Op.store oracle_ok 0 5 page_34, Op.store oracle_ok 0 5 page_56]
    { state := state_34_then_56, held := [] } (by decide)
    (by decide) (by decide!)

/-- C20: reference-count discipline. Take any state reached from a state in
which nothing is stored by a run of store, invalidate (of one offset), load,
`zswap_entry_find_get` and the `zswap_entry_put` of a reference that a reader
holds, during which readers hold fewer than 2^31 - 2 references at a time
(`held_below`: the count is an `int`, which `zswap_entry_get` takes from
`INT_MAX` to `INT_MIN`). (1) Every live entry has a reference count of at least 1, and (2) every
offset that a tree binds leads to a live entry. (3) The `zswap_entry_put` of each
reference held returns, so its `BUG_ON` is not met, and it frees the entry
exactly when the count was 1. (4) Every store returns, (5) every invalidate of
an offset of a tree that is there returns, and (6) every load from such a tree
returns when the decompressor does not fail. (7) Any `zswap_entry_put` that
returns frees its entry exactly when the count was 1 and touches no other
entry, and (8) an entry that one of the operations frees had a count of 1 just
before. -/
theorem zswap_refcount_discipline (env : Env) (s0 : State) (ops : List Op) (c : Config)
    (h0 : state_fresh s0 = true) (hops : ∀ op ∈ ops, entry_op op = true)
    (hheld : held_below env (2 ^ 31 - 2) ops { state := s0, held := [] } = true)
    (hrun : run env ops { state := s0, held := [] } = some c) :
    (∀ id e, tfind c.state.entries id = some e → 1 ≤ e.refcount) ∧
    (∀ type tree offset id, tfind c.state.zswap_trees type = some tree →
      tfind tree offset = some id →
      ∃ e, tfind c.state.entries id = some e ∧ 1 ≤ e.refcount) ∧
    (∀ t id, (t, id) ∈ c.held → ∃ e s1, tfind c.state.entries id = some e ∧
      zswap_entry_put env c.state t id = some s1 ∧
      (tfind s1.entries id = none ↔ e.refcount = 1)) ∧
    (∀ o type offset page,
      ∃ r, zswap_frontswap_store env o c.state type offset page = some r) ∧
    (∀ type offset tree, tfind c.state.zswap_trees type = some tree →
      ∃ s1, zswap_frontswap_invalidate_page env c.state type offset = some s1) ∧
    (∀ type offset tree page, tfind c.state.zswap_trees type = some tree →
      (∀ tfm src len dst, (env.crypto_comp_decompress tfm src len dst).1 = 0) →
      ∃ r, zswap_frontswap_load env c.state type offset page = some r) ∧
    (∀ t id e s1, tfind c.state.entries id = some e →
      zswap_entry_put env c.state t id = some s1 →
      (tfind s1.entries id = none ↔ e.refcount = 1) ∧
      ∀ x, x ≠ id → tfind s1.entries x = tfind c.state.entries x) ∧
    (∀ op c1, entry_op op = true → step env c op = some c1 →
      ∀ id e, tfind c.state.entries id = some e → tfind c1.state.entries id = none →
        e.refcount = 1) := by
  obtain ⟨hinv, hbound, hlen⟩ :=
    run_inv env ops _ c hops (state_fresh_inv s0 h0) (state_fresh_refbound s0 h0) hheld hrun
  refine ⟨fun id e he => (hinv.refs id e he).1, ?_, ?_, ?_, ?_, ?_, ?_, ?_⟩
  · intro type tree offset id ht hk
    obtain ⟨e, he, _⟩ := hinv.keyed type tree offset id ht hk
    exact ⟨e, he, (hinv.refs id e he).1⟩
  · intro t id hm
    obtain ⟨e, s1, he, hput, _, hiff, _, _⟩ := put_held_inv env c.state c.held t id hinv hm
    exact ⟨e, s1, he, hput, hiff⟩
  · intro o type offset page
    obtain ⟨r, s1, h1, _⟩ := store_inv env o c.state c.held type offset page hinv
    exact ⟨(r, s1), h1⟩
  · intro type offset tree ht
    obtain ⟨s1, h1, _⟩ := invalidate_page_inv env c.state c.held type offset tree hinv ht
    exact ⟨s1, h1⟩
  · intro type offset tree page ht hd
    exact load_total env c.state c.held type offset tree page hinv ht hd
  · intro t id e s1 he hput
    have hr0 : 1 ≤ e.refcount := (hinv.refs id e he).1
    obtain ⟨d1, d2⟩ := zswap_entry_put_entries env c.state s1 t id e he (by omega) hput
    refine ⟨?_, d1⟩
    rcases d2 with ⟨hr1, hfree⟩ | ⟨hr1, hlive⟩
    · exact ⟨fun _ => hr1, fun _ => hfree⟩
    · constructor
      · intro hf
        rw [hlive] at hf
        simp at hf
      · intro hr
        omega
  · intro op c1 hop hs
    exact (step_inv env c c1 op hop hinv hbound hlen hs).2.1

/-- C20 at a concrete input: page 3, 4, 0, ..., 0 is stored at offset 5 of
`state_empty`, a reader takes a reference to its entry 1, and page 5, 6, 0, ...,
0 is stored at the same offset. The reader still holds entry 1, and its
`zswap_entry_put` returns. -/
theorem zswap_refcount_discipline_witness :
    ∃ e s1, tfind state_pinned_overwritten.entries 1 = some e ∧
      zswap_entry_put env_4k state_pinned_overwritten 0 1 = some s1 ∧
      (tfind s1.entries 1 = none ↔ e.refcount = 1) :=
  (zswap_refcount_discipline env_4k state_empty
    [Op.store oracle_ok 0 5 page_34, Op.find_get 0 5, Op.store oracle_ok 0 5 page_56]
    { state := state_pinned_overwritten, held := [(0, 1)] } (by decide) (by decide)
    (by decide!) (by decide!)).2.2.1 0 1 (by decide)

/-- Tearing a whole address space down is not one of these operations:
`zswap_frontswap_invalidate_area` frees the entries through `zswap_free_entry`
whatever their reference count. After the store of page 3, 4, 0, ..., 0 at
offset 5 of `state_empty` and a reader's `zswap_entry_find_get`, entry 1 has two
references; invalidate_area frees it, and the reader's `zswap_entry_put` then
works on a freed entry (no result). -/
theorem invalidate_area_ignores_refcount :
    run env_4k [Op.store oracle_ok 0 5 page_34, Op.find_get 0 5]
      { state := state_empty, held := [] } =
      some { state := state_34_pinned, held := [(0, 1)] } ∧
    tfind state_34_pinned.entries 1 =
      some { offset := 5, refcount := 2, length := 2, pool := some 1, handle := 1 } ∧
    (zswap_frontswap_invalidate_area env_4k state_34_pinned 0).map
      (fun s => (tfind s.entries 1, tfind s.zswap_trees 0)) = some (none, none) ∧
    run env_4k
      [Op.store oracle_ok 0 5 page_34, Op.find_get 0 5, Op.invalidate_area 0, Op.put 0 1]
      { state := state_empty, held := [] } = none :=
  ⟨by decide!, by decide!, by decide!, by decide!⟩

/-- Why the run is bounded: the reference count is an `int`, and
`zswap_entry_get` on an entry whose count is `INT_MAX` leaves it at `INT_MIN`,
below 1 although the entry is live. -/
theorem zswap_entry_get_wraps (s : State) (entry : Nat) (e : zswap_entry)
    (he : tfind s.entries entry = some e) (hr : e.refcount = 2 ^ 31 - 1) :
    ∃ s1, zswap_entry_get s entry = some s1 ∧
      tfind s1.entries entry = some { e with refcount := -2 ^ 31 } := by
  unfold zswap_entry_get
  simp only [he, Option.some_bind]
  refine ⟨_, rfl, ?_⟩
  simp [tfind_tput, int_inc, hr]

/-- C21 (code defect, evaluated): a pool reference that store took is not given
back when the entry is freed. With same-value handling off, the store of the
zero page at offset 5 of `state_no_same_filled` takes a reference to pool 1
(`kref` 1 becomes 2) for entry 1, whose length stays 0. Invalidating the offset
frees the entry, and `zswap_free_entry` skips `zswap_pool_put` for an entry of
length 0: no live entry is left and pool 1 still has `kref` 2, one more than the
reference of being current. -/
theorem zswap_pool_reference_not_released :
    zswap_frontswap_store env_4k oracle_ok state_no_same_filled 0 5 page_zero =
      some (0, state_zero_stored) ∧
    tfind state_zero_stored.entries 1 =
      some { offset := 5, refcount := 1, length := 0, pool := some 1, handle := 0 } ∧
    zswap_frontswap_invalidate_page env_4k state_zero_stored 0 5 =
      some state_zero_invalidated ∧
    state_zero_invalidated.entries = [] ∧
    (tfind state_no_same_filled.zswap_pools 1).map (fun p => p.kref) = some 1 ∧
    (tfind state_zero_stored.zswap_pools 1).map (fun p => p.kref) = some 2 ∧
    (tfind state_zero_invalidated.zswap_pools 1).map (fun p => p.kref) = some 2 :=
  ⟨by decide!, by decide!, by decide!, by decide!, by decide!, by decide!, by decide!⟩

/-- C22 (amended): unknown backend names. Let the registry not know the name
that is written to the parameter `kp` (`crypto_has_comp` for the compressor,
`zpool_has_pool` for the allocator), and let the name differ from the
configured value. (1) Once `init_zswap` has started, the parameter callback
returns -ENOENT, or -ENODEV after a failed init, and leaves everything as it
was: the parameters, the list of pools and with it the current pool. (2) Before
`init_zswap`, with no failed init, the callback hands the name to
`param_set_charp` unchecked: it returns what that returns, and the name becomes
the configured value when that is 0. (3) Whenever `init_zswap` then returns 0
from a module whose configured value of `kp` the registry does not know, the
configured value is not the default, the parameter has been set to the default,
and the pool put at the head of the list, the one store will use, is made from
the parameters as they are now. -/
theorem zswap_param_set_unknown_name (reg : Registry) (po : PoolOracle) (m : Module)
    (val : String) (kp : Param)
    (hunk : registry_knows reg kp (reg.strstrip val) = false)
    (hne : reg.strstrip val ≠ param_arg m kp) :
    (m.zswap_init_started = true →
      ∃ r, zswap_param_callback reg po m val kp = some (r, m) ∧
        (r = -ENOENT ∨ r = -ENODEV)) ∧
    (m.zswap_init_started = false → m.zswap_init_failed = false →
      zswap_param_callback reg po m val kp =
        some (param_set_charp po.param_set_charp_ret m (reg.strstrip val) kp)) ∧
    (∀ (io : InitOracle) (po1 : PoolOracle) (m0 m1 : Module),
      registry_knows reg kp (param_arg m0 kp) = false →
      init_zswap reg io po1 m0 = (0, m1) →
      param_arg m0 kp ≠ param_default kp ∧ param_arg m1 kp = param_default kp ∧
      ∃ pid pool, m1.state.zswap_pools = (pid, pool) :: m0.state.zswap_pools ∧
        pool.zpool.type = m1.zswap_zpool_type ∧
        pool.tfm_name = strlcpy m1.zswap_compressor reg.CRYPTO_MAX_ALG_NAME) := by
  refine ⟨?_, ?_, ?_⟩
  · intro hstart
    by_cases hf : m.zswap_init_failed = true
    · refine ⟨-ENODEV, ?_, Or.inr rfl⟩
      cases kp <;>
        simp [zswap_param_callback, zswap_compressor_param_set, zswap_zpool_param_set,
          __zswap_param_set, hf]
    · refine ⟨-ENOENT, ?_, Or.inl rfl⟩
      cases kp
      · simp only [registry_knows] at hunk
        simp only [param_arg] at hne
        simp [zswap_param_callback, zswap_compressor_param_set, __zswap_param_set, hf,
          param_arg, hne, hstart, hunk]
      · simp only [registry_knows] at hunk
        simp only [param_arg] at hne
        simp [zswap_param_callback, zswap_zpool_param_set, __zswap_param_set, hf,
          param_arg, hne, hstart, hunk]
  · intro hstart hf
    cases kp
    · simp only [param_arg] at hne
      simp [zswap_param_callback, zswap_compressor_param_set, __zswap_param_set, hf,
        param_arg, hne, hstart]
    · simp only [param_arg] at hne
      simp [zswap_param_callback, zswap_zpool_param_set, __zswap_param_set, hf,
        param_arg, hne, hstart]
  · intro io po1 m0 m1 hk hinit
    obtain ⟨pid, pool, b1, _, b3, b4, b5, _⟩ := init_zswap_ok reg io po1 m0 m1 hinit
    exact ⟨(b5 kp hk).2, (b5 kp hk).1, pid, pool, b1, b3, b4⟩

/-- C22 at a concrete input: the running module around `state_stored_34`, and
the name nosuch written to the compressor parameter. -/
theorem zswap_param_set_unknown_name_witness :
    ∃ r, zswap_param_callback registry_std pool_oracle_ok module_running_34 "nosuch"
        Param.compressor = some (r, module_running_34) ∧
      (r = -ENOENT ∨ r = -ENODEV) :=
  (zswap_param_set_unknown_name registry_std pool_oracle_ok module_running_34 "nosuch"
    Param.compressor (by decide) (by decide)).1 (by decide)

/-- C22 as stated fails before `init_zswap`: the name nosuch, which the
registry does not know, is written to the compressor parameter of `module_boot`;
the callback returns 0 and the configured compressor is nosuch. `init_zswap`
then replaces it by the default lz4 and makes pool 1 from that. -/
theorem zswap_param_set_unknown_name_counterexample :
    registry_std.crypto_has_comp "nosuch" = false ∧
    zswap_compressor_param_set registry_std pool_oracle_ok module_boot "nosuch" =
      some (0, module_boot_nosuch) ∧
    module_boot.zswap_compressor = "zstd" ∧
    module_boot_nosuch.zswap_compressor = "nosuch" ∧
    init_zswap registry_std init_oracle_ok pool_oracle_ok module_boot_nosuch =
      (0, module_init_nosuch) :=
  ⟨by decide, by decide, by decide, by decide, by decide⟩

/-- C23: single active pool. Let `init_zswap` have started, let the list of
pools start with the current pool `(pid0, p0)`, which is the pool of the
configured pair, and let no pool be on the list twice. A write of `val` to the
parameter `kp` returns. When it returns 0 and `val` names a new value, the head
of the list is another pool, the pool of the pair configured now; the pool that
was current has lost one reference: it is gone from the list when that was its
last one and stays, right behind the head, with `kref` one lower otherwise.
When the write returns an error, the head of the list is the pool `(pid0, p0)`
as it was, and the parameters are unchanged. And the write of a new value does
succeed: when init has not failed, the registry knows the name and the
allocations of `zswap_pool_create` succeed, it returns what `param_set_charp`
returns, so 0 when that sets the parameter. -/
theorem zswap_param_set_single_current (reg : Registry) (po : PoolOracle) (m : Module)
    (val : String) (kp : Param) (pid0 : Nat) (p0 : zswap_pool) (rest0 : Table zswap_pool)
    (hstart : m.zswap_init_started = true)
    (hcur : m.state.zswap_pools = (pid0, p0) :: rest0)
    (hcons : p0.tfm_name = m.zswap_compressor ∧ p0.zpool.type = m.zswap_zpool_type)
    (hnd : keys_nodup m.state.zswap_pools)
    (hfit1 : (reg.strstrip val).length < reg.CRYPTO_MAX_ALG_NAME)
    (hfit2 : m.zswap_compressor.length < reg.CRYPTO_MAX_ALG_NAME) :
    ∃ r m1, zswap_param_callback reg po m val kp = some (r, m1) ∧
      (r = 0 → reg.strstrip val ≠ param_arg m kp →
        ∃ pid1 p1 rest1, pid1 ≠ pid0 ∧ tfind rest1 pid0 = none ∧
          m1.state.zswap_pools =
            (pid1, p1) ::
              (if p0.kref - 1 = 0 then rest1
               else (pid0, { p0 with kref := p0.kref - 1 }) :: rest1) ∧
          p1.tfm_name = m1.zswap_compressor ∧ p1.zpool.type = m1.zswap_zpool_type ∧
          param_arg m1 kp = reg.strstrip val) ∧
      (r ≠ 0 →
        (∃ rest1, m1.state.zswap_pools = (pid0, p0) :: rest1) ∧
        m1.zswap_compressor = m.zswap_compressor ∧
        m1.zswap_zpool_type = m.zswap_zpool_type) ∧
      (m.zswap_init_failed = false → reg.strstrip val ≠ param_arg m kp →
        registry_knows reg kp (reg.strstrip val) = true →
        po.kzalloc_ok = true → po.zpool_create_pool_ok = true →
        po.alloc_percpu_ok = true → po.cpuhp_state_add_instance_ret = 0 →
        r = po.param_set_charp_ret) := by
  by_cases hf : m.zswap_init_failed = true
  · refine ⟨-ENODEV, m, ?_, fun h => absurd h (by decide), fun _ => ⟨⟨rest0, hcur⟩, rfl, rfl⟩,
      fun h => by rw [hf] at h; exact absurd h (by decide)⟩
    cases kp <;>
      simp [zswap_param_callback, zswap_compressor_param_set, zswap_zpool_param_set,
        __zswap_param_set, hf]
  · by_cases hsame : reg.strstrip val = param_arg m kp
    · refine ⟨0, m, ?_, fun _ h => absurd hsame h, fun h => absurd rfl h,
        fun _ h => absurd hsame h⟩
      cases kp <;>
        simp [zswap_param_callback, zswap_compressor_param_set, zswap_zpool_param_set,
          __zswap_param_set, hf, hsame]
    · cases kp with
      | compressor =>
        simp only [param_arg] at hsame
        by_cases hk : reg.crypto_has_comp (reg.strstrip val) = true
        · obtain ⟨r, m1, h1, h2, h3⟩ := param_set_pool_spec reg po m (reg.strstrip val)
            Param.compressor m.zswap_zpool_type (reg.strstrip val) pid0 p0 rest0 hcur
            (fun h => hsame (by rw [← h.1]; exact hcons.1)) hnd hfit1
          refine ⟨r, m1, ?_, fun hr _ => ?_, h3, fun _ _ _ a1 a2 a3 a4 =>
            param_set_pool_ret reg po m m1 _ _ _ _ r a1 a2 a3 a4 h1⟩
          · simp [zswap_param_callback, zswap_compressor_param_set, __zswap_param_set, hf,
              param_arg, hsame, hstart, hk, h1]
          · obtain ⟨pid1, p1, rest1, g1, g2, g3, g4, g5, g6, g7, g8⟩ := h2 hr
            refine ⟨pid1, p1, rest1, g1, g4, g5, ?_, ?_, g6⟩
            · rw [g2, g7]
              simp [param_set_charp]
            · rw [g3, g8]
              simp [param_set_charp]
        · refine ⟨-ENOENT, m, ?_, fun h => absurd h (by decide),
            fun _ => ⟨⟨rest0, hcur⟩, rfl, rfl⟩, fun _ _ h => absurd h hk⟩
          simp [zswap_param_callback, zswap_compressor_param_set, __zswap_param_set, hf,
            param_arg, hsame, hstart, hk]
      | zpool =>
        simp only [param_arg] at hsame
        by_cases hk : reg.zpool_has_pool (reg.strstrip val) = true
        · obtain ⟨r, m1, h1, h2, h3⟩ := param_set_pool_spec reg po m (reg.strstrip val)
            Param.zpool (reg.strstrip val) m.zswap_compressor pid0 p0 rest0 hcur
            (fun h => hsame (by rw [← h.2]; exact hcons.2)) hnd hfit2
          refine ⟨r, m1, ?_, fun hr _ => ?_, h3, fun _ _ _ a1 a2 a3 a4 =>
            param_set_pool_ret reg po m m1 _ _ _ _ r a1 a2 a3 a4 h1⟩
          · simp [zswap_param_callback, zswap_zpool_param_set, __zswap_param_set, hf,
              param_arg, hsame, hstart, hk, h1]
          · obtain ⟨pid1, p1, rest1, g1, g2, g3, g4, g5, g6, g7, g8⟩ := h2 hr
            refine ⟨pid1, p1, rest1, g1, g4, g5, ?_, ?_, g6⟩
            · rw [g2, g7]
              simp [param_set_charp]
            · rw [g3, g8]
              simp [param_set_charp]
        · refine ⟨-ENOENT, m, ?_, fun h => absurd h (by decide),
            fun _ => ⟨⟨rest0, hcur⟩, rfl, rfl⟩, fun _ _ h => absurd h hk⟩
          simp [zswap_param_callback, zswap_zpool_param_set, __zswap_param_set, hf,
            param_arg, hsame, hstart, hk]

/-- C23 at a concrete input: the running module around `state_stored_34`, whose
pool 1 (zsmalloc, zstd) holds the reference of being current and that of entry
1, and the name lz4, with a blank on either side, written to the compressor
parameter while every allocation succeeds. The write returns 0 and leaves
`module_switched_34`: the new pool 2 (zsmalloc, lz4) is the head of the list,
and pool 1 stays behind it with `kref` 1, for entry 1. -/
theorem zswap_param_set_single_current_witness :
    zswap_param_callback registry_std pool_oracle_ok module_running_34 " lz4 "
        Param.compressor = some (0, module_switched_34) ∧
    (∃ pid1 p1 rest1, pid1 ≠ 1 ∧ tfind rest1 1 = none ∧
      module_switched_34.state.zswap_pools =
        (pid1, p1) ::
          (if pool_zstd_34.kref - 1 = 0 then rest1
           else (1, { pool_zstd_34 with kref := pool_zstd_34.kref - 1 }) :: rest1) ∧
      p1.tfm_name = module_switched_34.zswap_compressor ∧
      p1.zpool.type = module_switched_34.zswap_zpool_type ∧
      param_arg module_switched_34 Param.compressor = registry_std.strstrip " lz4 ") := by
  obtain ⟨r, m1, h1, h2, _, h4⟩ :=
    zswap_param_set_single_current registry_std pool_oracle_ok module_running_34 " lz4 "
      Param.compressor 1 pool_zstd_34 [] rfl rfl ⟨rfl, rfl⟩ (by unfold keys_nodup; decide)
      (by decide) (by decide)
  have hne : registry_std.strstrip " lz4 " ≠ param_arg module_running_34 Param.compressor := by
    decide
  have hr : r = 0 := h4 rfl hne (by decide) rfl rfl rfl rfl
  subst hr
  obtain ⟨pid1, p1, rest1, g1, g2, g3, g4, g5, g6⟩ := h2 rfl hne
  have hev : zswap_param_callback registry_std pool_oracle_ok module_running_34 " lz4 "
      Param.compressor = some (0, module_switched_34) := by decide
  have hm : m1 = module_switched_34 := by
    rw [hev] at h1
    simp only [Option.some.injEq, Prod.mk.injEq, true_and] at h1
    exact h1.symm
  subst hm
  exact ⟨hev, pid1, p1, rest1, g1, g2, g3, g4, g5, g6⟩

/-- C24: the content search never trusts the checksum alone. Let
`zswap_same_page_search` for the page `p` and the checksum `c` return `found`,
leaving `buf` in the scratch buffer. (1) If `found` is a handle, the handle is
live, its checksum is `c`, and its allocation, copied when its length is
`PAGE_SIZE` and decompressed without error otherwise, is `buf`, whose
`PAGE_SIZE` bytes are those of `p`; and with a decompressor whose output does
not depend on what the destination held, the decompress step of a later load
through that handle gives a page with the bytes of `p`, whatever the
destination was. (2) If the tree has a handle with the checksum `c` whose
allocation reads without error as a page that differs from `p`, the search
returns NULL. -/
theorem zswap_same_page_search_verifies (env : Env) (map_ok : Bool) (pool : zswap_pool)
    (handles : Table zswap_handle) (zhandleroot : rb_node) (buffer p : Page) (c : Nat)
    (found : Option Nat) (buf : Page)
    (h : zswap_same_page_search env map_ok pool handles zhandleroot buffer p c =
      some (found, buf)) :
    (∀ z, found = some z →
      ∃ hd, tfind handles z = some hd ∧ hd.checksum = c ∧
        zhandle_read env pool hd buffer = some (0, buf) ∧
        buf.take (env.PAGE_SIZE / 8) = p.take (env.PAGE_SIZE / 8) ∧
        ((∀ tfm src len d1 d2, env.crypto_comp_decompress tfm src len d1 =
            env.crypto_comp_decompress tfm src len d2) →
          ∀ page, ∃ out, zswap_frontswap_load_zhandle env pool hd page = some out ∧
            out.take (env.PAGE_SIZE / 8) = p.take (env.PAGE_SIZE / 8))) ∧
    (∀ z hd content, zswap_handle_rb_search handles zhandleroot c = some (some z) →
      tfind handles z = some hd → map_ok = true →
      zhandle_read env pool hd buffer = some (0, content) →
      content.take (env.PAGE_SIZE / 8) ≠ p.take (env.PAGE_SIZE / 8) → found = none) := by
  unfold zswap_same_page_search at h
  cases hs : zswap_handle_rb_search handles zhandleroot c with
  | none => simp [hs] at h
  | some my =>
    simp only [hs, Option.some_bind] at h
    cases my with
    | none =>
      simp only [Option.some.injEq, Prod.mk.injEq] at h
      refine ⟨fun z hz => ?_, fun z hd content hz => ?_⟩
      · rw [← h.1] at hz
        simp at hz
      · simp at hz
    | some z0 =>
      obtain ⟨hd0, hf0, hc0⟩ := zswap_handle_rb_search_some handles c z0 zhandleroot hs
      simp only [hf0, Option.some_bind] at h
      by_cases hm : map_ok = true
      · simp only [hm, Bool.not_true, Bool.false_eq_true, if_false] at h
        cases hr : zhandle_read env pool hd0 buffer with
        | none => simp [hr] at h
        | some d =>
          obtain ⟨ret, content0⟩ := d
          simp only [hr, Option.some_bind] at h
          by_cases hret : ret ≠ 0
          · simp [hret] at h
          · have hret0 : ret = 0 := by omega
            subst hret0
            simp only [ne_eq, not_true_eq_false, if_false] at h
            by_cases hcmp : content0.take (env.PAGE_SIZE / 8) = p.take (env.PAGE_SIZE / 8)
            · simp only [memcmp, hcmp, if_true, ne_eq, not_true_eq_false, if_false,
                Option.some.injEq, Prod.mk.injEq] at h
              obtain ⟨hfd, hbuf⟩ := h
              subst hbuf
              refine ⟨fun z hz => ?_, fun z hd content hz hf _ hrd hne => ?_⟩
              · rw [← hfd] at hz
                simp only [Option.some.injEq] at hz
                subst hz
                refine ⟨hd0, hf0, hc0, hr, hcmp, fun hdst page => ?_⟩
                unfold zswap_frontswap_load_zhandle
                have hrp : zhandle_read env pool hd0 page = some (0, content0) := by
                  unfold zhandle_read at hr ⊢
                  cases hb : tfind pool.zpool.blobs hd0.handle with
                  | none => simp [hb] at hr
                  | some src =>
                    simp only [hb, Option.some_bind] at hr ⊢
                    by_cases hl : hd0.length = env.PAGE_SIZE
                    · rw [if_pos hl] at hr ⊢
                      exact hr
                    · rw [if_neg hl] at hr ⊢
                      rw [hdst pool.tfm_name src hd0.length page buffer]
                      exact hr
                rw [hrp]
                exact ⟨content0, by simp, hcmp⟩
              · simp only [Option.some.injEq] at hz
                subst hz
                rw [hf0] at hf
                simp only [Option.some.injEq] at hf
                subst hf
                rw [hr] at hrd
                simp only [Option.some.injEq, Prod.mk.injEq, true_and] at hrd
                subst hrd
                exact absurd hcmp hne
            · simp only [memcmp, hcmp, if_false, ne_eq, one_ne_zero, not_false_eq_true,
                if_true, Option.some.injEq, Prod.mk.injEq] at h
              refine ⟨fun z hz => ?_, fun _ _ _ _ _ _ _ _ => h.1.symm⟩
              rw [← h.1] at hz
              simp at hz
      · simp only [hm, Bool.not_false, if_true, Option.some.injEq, Prod.mk.injEq] at h
        refine ⟨fun z hz => ?_, fun _ _ _ _ _ hmt => absurd hmt hm⟩
        rw [← h.1] at hz
        simp at hz

/-- C24 at a concrete input: the tree of the one handle 1, whose allocation in
`pool_zstd_34` holds the 2 bytes 3, 4, searched for the page 3, 4, 0, ..., 0
with the checksum 77. -/
theorem zswap_same_page_search_verifies_witness :
    ∃ hd, tfind handles_one 1 = some hd ∧ hd.checksum = 77 ∧
      zhandle_read env_4k pool_zstd_34 hd page_zero.data = some (0, page_34.data) ∧
      page_34.data.take (env_4k.PAGE_SIZE / 8) = page_34.data.take (env_4k.PAGE_SIZE / 8) ∧
      ((∀ tfm src len d1 d2, env_4k.crypto_comp_decompress tfm src len d1 =
          env_4k.crypto_comp_decompress tfm src len d2) →
        ∀ page, ∃ out, zswap_frontswap_load_zhandle env_4k pool_zstd_34 hd page = some out ∧
          out.take (env_4k.PAGE_SIZE / 8) = page_34.data.take (env_4k.PAGE_SIZE / 8)) :=
  (zswap_same_page_search_verifies env_4k true pool_zstd_34 handles_one root_one
    page_zero.data page_34.data 77 (some 1) page_34.data (by decide!)).1 1 rfl

/-- C25 (code defect, evaluated): nothing lowers a handle's `ref_count`, and
nothing frees a handle. Under the switch, the store of a page whose content is
already stored raises the `ref_count` of handle 1 from 1 to 2. When an entry
with that handle is freed, the statement of `zswap_entry_put` only takes the
handle out of the tree if `ref_count` is 1, and otherwise does nothing; here,
and for the second entry as well, `ref_count` is 2 and stays 2, and the handle
stays in the tree. For every input, that statement leaves every `ref_count` as
it was. -/
theorem zswap_handle_ref_count_not_dropped (rb_erase : rb_node → Nat → rb_node) :
    zswap_frontswap_store_share handles_one 1 = some handles_shared ∧
    zswap_entry_put_zhandle rb_erase handles_shared root_one (some 1) =
      some (handles_shared, root_one) ∧
    (tfind handles_shared 1).map (fun hd => hd.ref_count) = some 2 ∧
    zswap_handle_rb_search handles_shared root_one 77 = some (some 1) ∧
    (∀ (handles handles1 : Table zswap_handle) (root root1 : rb_node) (zhandle : Option Nat)
      (z : Nat),
      zswap_entry_put_zhandle rb_erase handles root zhandle = some (handles1, root1) →
      (tfind handles1 z).map (fun hd => hd.ref_count) =
        (tfind handles z).map (fun hd => hd.ref_count)) :=
  ⟨by decide, rfl, by decide, by decide,
    fun handles handles1 root root1 zhandle z h =>
      zswap_entry_put_zhandle_ref_count rb_erase handles handles1 root root1 zhandle h z⟩

/-- C27 (amended): writeback has no side effects and never returns 0. In the
build without `CONFIG_ZSWAP_ENABLE_WRITEBACK`, for every state, pool and handle,
whether the victim's entry is in the store or not, `zswap_writeback_entry`
leaves the state as it was, every entry, blob and counter included, and returns
-EINVAL, an error. -/
theorem zswap_writeback_entry_no_side_effects (s : State) (pool handle : Nat) :
    (zswap_writeback_entry s pool handle).2 = s ∧
    (zswap_writeback_entry s pool handle).1 = -EINVAL ∧
    (zswap_writeback_entry s pool handle).1 < 0 :=
  ⟨rfl, rfl, by simp [zswap_writeback_entry, EINVAL]⟩

/-- C27 as stated fails: in `state_empty` nothing is stored, so no victim's
entry is in the store, and `zswap_writeback_entry` returns -EINVAL, not 0. -/
theorem zswap_writeback_entry_abort_counterexample :
    state_empty.entries.length = 0 ∧
    zswap_search state_empty 0 5 = some none ∧
    (zswap_writeback_entry state_empty 1 1).1 = -22 ∧
    (zswap_writeback_entry state_empty 1 1).1 ≠ 0 ∧
    (zswap_writeback_entry state_empty 1 1).2 = state_empty :=
  ⟨by decide, by decide, rfl, by decide, rfl⟩

/-- C28 (code defect, evaluated): a store rejected at the tree insertion is not
rolled back. `btree_insert` finds no memory (`oracle_no_node`), so
`zswap_insert_or_replace` fails and store returns -ENOMEM through `freepage`,
which only frees the entry. (1) For the page 3, 4, 0, ..., 0 stored at offset 5
of `state_empty`, the allocation of 2 bytes and the pool reference taken for it
stay behind: pool 1 ends with one live allocation and `kref` 2, and no entry
owns them. (2) For the page of sevens, `same_filled_pages` stays at 1.
(3) With same-value handling off, for the zero page `zero_pages` stays at 1 and
pool 1 keeps `kref` 2. In each case `reject_alloc_fail` is 1 and no entry is
left. -/
theorem zswap_store_insert_failure_not_rolled_back :
    zswap_frontswap_store env_4k oracle_no_node state_empty 0 5 page_34 =
      some (-ENOMEM, state_34_insert_failed) ∧
    state_34_insert_failed.entries = [] ∧
    state_34_insert_failed.zswap_pools =
      [(1, { zpool := { type := "zsmalloc", blobs := [(1, [3, 4])] }, tfm_name := "zstd",
             kref := 2 })] ∧
    state_empty.zswap_pools =
      [(1, { zpool := { type := "zsmalloc", blobs := [] }, tfm_name := "zstd", kref := 1 })] ∧
    zswap_frontswap_store env_4k oracle_no_node state_empty 0 5 page_sevens =
      some (-ENOMEM, state_sevens_insert_failed) ∧
    state_sevens_insert_failed.entries = [] ∧
    state_sevens_insert_failed.zswap_same_filled_pages = 1 ∧
    state_empty.zswap_same_filled_pages = 0 ∧
    zswap_frontswap_store env_4k oracle_no_node state_no_same_filled 0 5 page_zero =
      some (-ENOMEM, state_zero_insert_failed) ∧
    state_zero_insert_failed.entries = [] ∧
    state_zero_insert_failed.zswap_zero_pages = 1 ∧
    state_no_same_filled.zswap_zero_pages = 0 ∧
    (tfind state_zero_insert_failed.zswap_pools 1).map (fun p => p.kref) = some 2 ∧
    (tfind state_no_same_filled.zswap_pools 1).map (fun p => p.kref) = some 1 ∧
    state_34_insert_failed.zswap_reject_alloc_fail = 1 ∧
    state_sevens_insert_failed.zswap_reject_alloc_fail = 1 ∧
    state_zero_insert_failed.zswap_reject_alloc_fail = 1 :=
  ⟨by decide!, by decide!, by decide!, by decide!, by decide!, by decide!, by decide!,
    by decide!, by decide!, by decide!, by decide!, by decide!, by decide!, by decide!,
    by decide!, by decide!, by decide!⟩

/-- C29: load is non-destructive. Let offset `offset` of tree `type` be bound
to the live entry `entry`, which has at least the reference of the tree. A load
of the offset that returns 0 (Found) leaves every variable of the state as it
was, the ghost log aside: the trees, the entries with their reference counts,
lengths and handles or values, the pools and all counters. In particular the
offset is still bound to the same entry with the same fields, and a second load
of the offset into the same destination returns 0 with the same bytes and again
changes nothing but the log. -/
theorem zswap_load_non_destructive (env : Env) (s s1 : State) (type offset entry : Nat)
    (e : zswap_entry) (tree : zswap_tree) (page dst : Page)
    (ht : tfind s.zswap_trees type = some tree) (hk : tfind tree offset = some entry)
    (he : tfind s.entries entry = some e) (hr : 1 ≤ e.refcount)
    (hload : zswap_frontswap_load env s type offset page = some (0, dst, s1)) :
    s1 = { s with log := s1.log } ∧
    zswap_search s1 type offset = some (some entry) ∧
    tfind s1.entries entry = some e ∧
    ∃ s2, zswap_frontswap_load env s1 type offset page = some (0, dst, s2) ∧
      s2 = { s1 with log := s2.log } := by
  rw [load_bound env s type offset entry e tree page ht hk he hr] at hload
  cases hres : load_result env s e page with
  | none => simp [hres] at hload
  | some r =>
    simp only [hres, Option.map_some', Option.some.injEq, Prod.mk.injEq, true_and] at hload
    obtain ⟨hd, hs⟩ := hload
    subst hs
    refine ⟨rfl, by simp [zswap_search, ht, hk], he, ?_⟩
    have hres1 : load_result env { s with log := s.log ++ r.2 } e page = some r := hres
    rw [load_bound env { s with log := s.log ++ r.2 } type offset entry e tree page ht hk
      (by exact he) hr, hres1]
    exact ⟨_, by rw [← hd]; rfl, rfl⟩

/-- C29 at a concrete input: offset 5 of `state_stored_34`, whose entry 1 holds
the 2-byte blob 3, 4 of the page 3, 4, 0, ..., 0, loaded into a page of
sevens. -/
theorem zswap_load_non_destructive_witness :
    ({ state_stored_34 with log := state_stored_34.log ++ [Call.crypto_comp_decompress] } :
        State) =
      { state_stored_34 with log := state_stored_34.log ++ [Call.crypto_comp_decompress] } ∧
    zswap_search
      { state_stored_34 with log := state_stored_34.log ++ [Call.crypto_comp_decompress] }
      0 5 = some (some 1) ∧
    tfind ({ state_stored_34 with
        log := state_stored_34.log ++ [Call.crypto_comp_decompress] } : State).entries 1 =
      some { offset := 5, refcount := 1, length := 2, pool := some 1, handle := 1 } ∧
    ∃ s2, zswap_frontswap_load env_4k
        { state_stored_34 with log := state_stored_34.log ++ [Call.crypto_comp_decompress] }
        0 5 page_sevens.data = some (0, page_34.data, s2) ∧
      s2 = { state_stored_34 with log := s2.log } :=
  zswap_load_non_destructive env_4k state_stored_34
    { state_stored_34 with log := state_stored_34.log ++ [Call.crypto_comp_decompress] }
    0 5 1 { offset := 5, refcount := 1, length := 2, pool := some 1, handle := 1 } [(5, 1)]
    page_sevens.data page_34.data rfl rfl rfl (by decide) (by decide!)

/-- C30: zero-filled is the value-0 case of same-value-filled. For a page of
at least one word (`PAGE_SIZE` of 8 or more), `page_zero_filled` returns 1
exactly when `zswap_is_page_same_filled` returns 1 and writes the value 0. So,
with same-value handling on, the store of an all-zero page goes from the
allocation of the entry straight to `insert_entry` with a same-value entry, never
through the zero-page branch, and whatever store returns, the zero-page counter
is left as it was. -/
theorem zswap_zero_filled_is_same_filled_zero (env : Env) (hP : 8 ≤ env.PAGE_SIZE) :
    (∀ (page : Page) (value : Nat),
      page_zero_filled env.PAGE_SIZE page = 1 ↔
        zswap_is_page_same_filled env.PAGE_SIZE page value = (1, 0)) ∧
    (∀ (o : Oracle) (s : State) (type offset : Nat) (page : struct_page),
      s.zswap_same_filled_pages_enabled = true →
      page_zero_filled env.PAGE_SIZE page.data = 1 →
      o.kmem_cache_alloc_ok = true →
      zswap_frontswap_store_entry env o s type offset page =
        zswap_frontswap_store_insert_entry env o (store_state_same env s offset page) type
          (tfresh s.entries)) ∧
    (∀ (o : Oracle) (s s1 : State) (type offset : Nat) (page : struct_page) (r : Int),
      s.zswap_same_filled_pages_enabled = true →
      page_zero_filled env.PAGE_SIZE page.data = 1 →
      zswap_frontswap_store env o s type offset page = some (r, s1) →
      s1.zswap_zero_pages = s.zswap_zero_pages) := by
  refine ⟨fun page value => zero_filled_iff env.PAGE_SIZE page value hP, ?_, ?_⟩
  · intro o s type offset page hen hz hk
    exact store_entry_same env o s type offset page hk hen
      (same_filled_of_zero_filled _ _ _ (by rw [hz]; decide))
  · intro o s s1 type offset page r hen hz h
    exact store_zero_page_enabled env o s s1 type offset page r hen (by rw [hz]; decide) h

/-- C30 at a concrete input: the zero page of 4096 bytes. -/
theorem zswap_zero_filled_is_same_filled_zero_witness :
    page_zero_filled env_4k.PAGE_SIZE page_zero.data = 1 ↔
      zswap_is_page_same_filled env_4k.PAGE_SIZE page_zero.data 7 = (1, 0) :=
  (zswap_zero_filled_is_same_filled_zero env_4k (by decide)).1 page_zero.data 7

end Zswap
